import Mathlib

/-!
# PokerNow Texas Hold'em analyzer: the hand evaluator

A shallow embedding of `src/hand-evaluator.js` (class `PokerHandEvaluator`).

* JavaScript arrays are lists; an object used as a dictionary is an association
  list in insertion order, and `Object.entries` reorders it the way the
  language does (integer-like property names first, ascending, then the other
  names in insertion order).
* Card counts, card values and probabilities are exact naturals, integers or
  rationals. The two odds that are rounded to four decimals
  (`calculatePotOdds`, `calculateImpliedOdds`) are computed in double
  precision: every operation is followed by `toDouble`, the rounding to the
  nearest double. `undefined` and `NaN` are `none`.
* A card object holds a rank and a suit out of the strings listed at `Rank` and
  `Suit`, or lacks the property. Other strings are not modelled, in particular
  the names of the properties that every object inherits (`'constructor'`,
  `'toString'`, `'__proto__'`, ...): on a card with such a rank or suit
  `groups[key].push` raises a TypeError, and `evaluateHand` answers with the
  object of its `catch` branch.
* `Math.random` is an explicit parameter of the simulation (the shuffled deck
  of every trial).
-/

namespace PokerNow

/-! ## Cards -/

/-- The ranks a card object can hold: the thirteen keys of `cardValues`
(`'2'`..`'9'`, `'T'`, `'J'`, `'Q'`, `'K'`, `'A'`), the string `'10'`, which
only the second `calculateRemainingDeck` writes, and `undefined`, the rank of a
card object that lacks the property. -/
inductive Rank where
  | r2 | r3 | r4 | r5 | r6 | r7 | r8 | r9 | rT | rJ | rQ | rK | rA | r10 | undefined
  deriving DecidableEq, Repr

/-- The suits a card object can hold: the four keys of `suitValues` (`'♠'`,
`'♣'`, `'♥'`, `'♦'`), the four words that only the second
`calculateRemainingDeck` writes (`'hearts'`, `'diamonds'`, `'clubs'`,
`'spades'`), and `undefined`, the suit of a card object that lacks the
property. -/
inductive Suit where
  | spade | club | heart | diamond | hearts | diamonds | clubs | spades | undefined
  deriving DecidableEq, Repr

/-- A card object `{ rank, suit }`. -/
structure Card where
  rank : Rank
  suit : Suit
  deriving DecidableEq, Repr

/-- The rank as a template string prints it. -/
def Rank.str : Rank → String
  | .r2 => "2" | .r3 => "3" | .r4 => "4" | .r5 => "5" | .r6 => "6" | .r7 => "7"
  | .r8 => "8" | .r9 => "9" | .rT => "T" | .rJ => "J" | .rQ => "Q" | .rK => "K"
  | .rA => "A" | .r10 => "10" | .undefined => "undefined"

/-- The suit as a template string prints it. -/
def Suit.str : Suit → String
  | .spade => "♠" | .club => "♣" | .heart => "♥" | .diamond => "♦"
  | .hearts => "hearts" | .diamonds => "diamonds" | .clubs => "clubs" | .spades => "spades"
  | .undefined => "undefined"

/-- The table `this.cardValues`; a rank that is not a key gives `undefined`. -/
def cardValues : Rank → Option Nat
  | .r2 => some 2 | .r3 => some 3 | .r4 => some 4 | .r5 => some 5 | .r6 => some 6
  | .r7 => some 7 | .r8 => some 8 | .r9 => some 9 | .rT => some 10 | .rJ => some 11
  | .rQ => some 12 | .rK => some 13 | .rA => some 14 | .r10 => none | .undefined => none

/-- A rank of the card model of the specification: `'2'`..`'9'`, `'T'`..`'A'`. -/
def Rank.canonical (r : Rank) : Prop := r ≠ .r10 ∧ r ≠ .undefined

/-- A suit of the card model of the specification: `♠ ♣ ♥ ♦`. -/
def Suit.canonical (s : Suit) : Prop :=
  s = .spade ∨ s = .club ∨ s = .heart ∨ s = .diamond

instance (r : Rank) : Decidable r.canonical := by unfold Rank.canonical; infer_instance

instance (s : Suit) : Decidable s.canonical := by unfold Suit.canonical; infer_instance

/-- A card of the specification's card model. -/
def Card.canonical (c : Card) : Prop := c.rank.canonical ∧ c.suit.canonical

instance (c : Card) : Decidable c.canonical := by unfold Card.canonical; infer_instance

/-- The ten hand categories, and the `'incomplete'` marker of `findBestHand`. -/
inductive Strength where
  | highCard | pair | twoPair | threeOfAKind | straight | flush | fullHouse
  | fourOfAKind | straightFlush | royalFlush | incomplete
  deriving DecidableEq, Repr

/-- The table `this.handRankings`. -/
def handRankings : Strength → Option Nat
  | .highCard => some 1 | .pair => some 2 | .twoPair => some 3 | .threeOfAKind => some 4
  | .straight => some 5 | .flush => some 6 | .fullHouse => some 7 | .fourOfAKind => some 8
  | .straightFlush => some 9 | .royalFlush => some 10 | .incomplete => none

/-- The object a `check…` function returns. The `'incomplete'` object of
`findBestHand` has no `cards` and no `kickers`; they are empty here. -/
structure Hand where
  strength : Strength
  description : String
  cards : List Card
  kickers : List Card
  deriving DecidableEq, Repr

/-! ## Dictionaries -/

/-- One step of `groups[key].push(card)`, the key being created (last) when it
is new. -/
def pushGroup {κ : Type} [DecidableEq κ] (k : κ) (c : Card) :
    List (κ × List Card) → List (κ × List Card)
  | [] => [(k, [c])]
  | (k', g) :: rest =>
    if k' = k then (k', g ++ [c]) :: rest else (k', g) :: pushGroup k c rest

/-- The object built by `groupByValue`, in insertion order. -/
def groupByValue (cards : List Card) : List (Rank × List Card) :=
  cards.foldl (fun groups card => pushGroup card.rank card groups) []

/-- The object built by `groupBySuit`, in insertion order. No suit string is
integer-like, so this is also the order of `Object.entries`. -/
def groupBySuit (cards : List Card) : List (Suit × List Card) :=
  cards.foldl (fun groups card => pushGroup card.suit card groups) []

/-- The array index a rank string denotes as a property name, if any:
`'2'`..`'9'` and `'10'` are integer-like, the letters are not. -/
def arrayIndex : Rank → Option Nat
  | .r2 => some 2 | .r3 => some 3 | .r4 => some 4 | .r5 => some 5 | .r6 => some 6
  | .r7 => some 7 | .r8 => some 8 | .r9 => some 9 | .r10 => some 10
  | _ => none

/-- `Object.entries` of an object keyed by rank strings: the integer-like keys
in ascending numeric order, then the other keys in insertion order. -/
def objectEntries {α : Type} (o : List (Rank × α)) : List (Rank × α) :=
  (o.filter (fun e => (arrayIndex e.1).isSome)).insertionSort
      (fun a b => (arrayIndex a.1).getD 0 ≤ (arrayIndex b.1).getD 0)
    ++ o.filter (fun e => (arrayIndex e.1).isNone)

/-- The elements of `new Set(values)`, in insertion order. -/
def jsSet {α : Type} [DecidableEq α] (values : List α) : List α :=
  values.foldl (fun s x => if x ∈ s then s else s ++ [x]) []

/-- `values.sort((a, b) => b - a)` on an array of numbers that may hold
`undefined`: the numbers in descending order, then the `undefined`s. -/
def sortDescending (values : List (Option Nat)) : List (Option Nat) :=
  ((values.filterMap id).insertionSort (fun a b => b ≤ a)).map some
    ++ values.filter (fun v => v.isNone)

/-! ## The hand classifier -/

/-- The comparator of `sortCards` lets `a` stay in front of `b`: the difference
`valueB - valueA` is not positive (a `NaN` difference counts as zero). -/
def staysBefore (a b : Card) : Prop :=
  match cardValues a.rank, cardValues b.rank with
  | some valueA, some valueB => (valueB : Int) - (valueA : Int) ≤ 0
  | _, _ => True

instance (a b : Card) : Decidable (staysBefore a b) := by
  unfold staysBefore; split <;> infer_instance

/-- The method `sortCards`: a stable sort by value, high to low. When a card
has no value (its rank is `'10'` or missing) and the others differ in value the
comparator is not consistent, and the language leaves the order to the engine;
the list here is then one of the orders an engine may produce, and the results
on cards of the card model do not depend on it. -/
def sortCards (cards : List Card) : List Card :=
  cards.insertionSort staysBefore

/-- The method `getRankName`: `rankNames[value] || value`, as it prints. -/
def getRankName : Option Nat → String
  | some 14 => "Ace" | some 13 => "King" | some 12 => "Queen" | some 11 => "Jack"
  | some 10 => "Ten" | some 9 => "Nine" | some 8 => "Eight" | some 7 => "Seven"
  | some 6 => "Six" | some 5 => "Five" | some 4 => "Four" | some 3 => "Three"
  | some 2 => "Two"
  | some n => toString n
  | none => "undefined"

/-- The test `sequence[0] - sequence[4] === 4`. -/
def isWindow (sequence : List (Option Nat)) : Bool :=
  match sequence[0]?, sequence[4]? with
  | some (some hi), some (some lo) => decide (Int.ofNat hi - Int.ofNat lo = 4)
  | _, _ => false

/-- The inner loop of `checkStraight`: for every value of the sequence, the
first card of that value, if there is one. -/
def straightCards (cards : List Card) (sequence : List (Option Nat)) : List Card :=
  sequence.filterMap (fun value => cards.find? (fun c => decide (cardValues c.rank = value)))

/-- The first loop of `checkStraight` from index `i` on, `rest` being
`uniqueValues.slice(i)`: it runs while five values are left. -/
def straightWindow (cards : List Card) : List (Option Nat) → Option Hand
  | [] => none
  | v :: rest =>
    if 5 ≤ (v :: rest).length then
      if isWindow ((v :: rest).take 5) then
        some { strength := .straight
               description := "Straight, " ++ getRankName v ++ " high"
               cards := straightCards cards ((v :: rest).take 5)
               kickers := [] }
      else straightWindow cards rest
    else none

/-- The method `checkStraight`. -/
def checkStraight (cards : List Card) : Option Hand :=
  let uniqueValues := sortDescending (jsSet (cards.map (fun card => cardValues card.rank)))
  match straightWindow cards uniqueValues with
  | some straight => some straight
  | none =>
    if uniqueValues.contains (some 14) && uniqueValues.contains (some 2)
        && uniqueValues.contains (some 3) && uniqueValues.contains (some 4)
        && uniqueValues.contains (some 5) then
      some { strength := .straight
             description := "Straight, 5 high"
             cards := straightCards cards [some 14, some 2, some 3, some 4, some 5]
             kickers := [] }
    else none

/-- The method `checkFlush`. -/
def checkFlush (cards : List Card) : Option Hand :=
  match (groupBySuit cards).find? (fun e => decide (5 ≤ e.2.length)) with
  | some (suit, group) =>
    some { strength := .flush
           description := "Flush, " ++ suit.str
           cards := group.take 5
           kickers := [] }
  | none => none

/-- The method `checkStraightFlush`. -/
def checkStraightFlush (cards : List Card) : Option Hand :=
  match checkFlush cards with
  | none => none
  | some flush =>
    match checkStraight flush.cards with
    | none => none
    | some straight =>
      let isRoyal : Bool :=
        decide ((straight.cards[0]?).map Card.rank = some Rank.rA) &&
        decide ((straight.cards[4]?).map Card.rank = some Rank.rT)
      some { strength := if isRoyal then .royalFlush else .straightFlush
             description := if isRoyal then "Royal Flush" else "Straight Flush"
             cards := straight.cards
             kickers := [] }

/-- The method `checkFourOfAKind`. -/
def checkFourOfAKind (cards : List Card) : Option Hand :=
  match (objectEntries (groupByValue cards)).find? (fun e => decide (4 ≤ e.2.length)) with
  | some (value, group) =>
    some { strength := .fourOfAKind
           description := "Four of a Kind, " ++ value.str ++ "s"
           cards := group.take 4
           kickers := (cards.filter (fun card => decide (card.rank ≠ value))).take 1 }
  | none => none

/-- The method `checkFullHouse`. -/
def checkFullHouse (cards : List Card) : Option Hand :=
  let pairs := (objectEntries (groupByValue cards)).filter (fun e => decide (2 ≤ e.2.length))
  if 2 ≤ pairs.length then
    match pairs.find? (fun e => decide (3 ≤ e.2.length)) with
    | some threeOfAKind =>
      let remainingPairs := pairs.filter (fun e => decide (e.1 ≠ threeOfAKind.1))
      match remainingPairs with
      | pair :: _ =>
        some { strength := .fullHouse
               description :=
                 "Full House, " ++ threeOfAKind.1.str ++ "s over " ++ pair.1.str ++ "s"
               cards := threeOfAKind.2.take 3 ++ pair.2.take 2
               kickers := [] }
      | [] => none
    | none => none
  else none

/-- The method `checkThreeOfAKind`. -/
def checkThreeOfAKind (cards : List Card) : Option Hand :=
  match (objectEntries (groupByValue cards)).find? (fun e => decide (3 ≤ e.2.length)) with
  | some (value, group) =>
    some { strength := .threeOfAKind
           description := "Three of a Kind, " ++ value.str ++ "s"
           cards := group.take 3
           kickers := (cards.filter (fun card => decide (card.rank ≠ value))).take 2 }
  | none => none

/-- The method `checkTwoPair`. -/
def checkTwoPair (cards : List Card) : Option Hand :=
  let pairs := (objectEntries (groupByValue cards)).filter (fun e => decide (2 ≤ e.2.length))
  match pairs with
  | first :: second :: _ =>
    some { strength := .twoPair
           description := "Two Pair, " ++ first.1.str ++ "s and " ++ second.1.str ++ "s"
           cards := first.2.take 2 ++ second.2.take 2
           kickers := (cards.filter
             (fun card => decide (card.rank ≠ first.1) && decide (card.rank ≠ second.1))).take 1 }
  | _ => none

/-- The method `checkPair`. -/
def checkPair (cards : List Card) : Option Hand :=
  match (objectEntries (groupByValue cards)).find? (fun e => decide (2 ≤ e.2.length)) with
  | some (value, group) =>
    some { strength := .pair
           description := "Pair of " ++ value.str ++ "s"
           cards := group.take 2
           kickers := (cards.filter (fun card => decide (card.rank ≠ value))).take 3 }
  | none => none

/-- The method `checkHighCard`; `findBestHand` calls it on five cards or more,
so `cards[0]` is there. -/
def checkHighCard (cards : List Card) : Hand :=
  { strength := .highCard
    description := "High Card, " ++ (match cards.head? with
                                     | some c => c.rank.str
                                     | none => "undefined")
    cards := cards.take 1
    kickers := (cards.drop 1).take 4 }

/-- The method `findBestHand`: the first check that answers, strongest
category first. -/
def findBestHand (cards : List Card) : Hand :=
  if cards.length < 5 then
    { strength := .incomplete, description := "Not enough cards", cards := [], kickers := [] }
  else
    match checkStraightFlush cards with
    | some straightFlush => straightFlush
    | none =>
    match checkFourOfAKind cards with
    | some fourOfAKind => fourOfAKind
    | none =>
    match checkFullHouse cards with
    | some fullHouse => fullHouse
    | none =>
    match checkFlush cards with
    | some flush => flush
    | none =>
    match checkStraight cards with
    | some straight => straight
    | none =>
    match checkThreeOfAKind cards with
    | some threeOfAKind => threeOfAKind
    | none =>
    match checkTwoPair cards with
    | some twoPair => twoPair
    | none =>
    match checkPair cards with
    | some pair => pair
    | none => checkHighCard cards

/-- One row of the table of `adjustForPlayerCount`: the entries for 2, 3, …, 8
players. -/
def adjustments : Strength → List ℚ
  | .highCard => [-3/10, -5/10, -7/10, -8/10, -9/10, -1, -1]
  | .pair => [-2/10, -3/10, -4/10, -5/10, -6/10, -7/10, -8/10]
  | .twoPair => [-1/10, -2/10, -3/10, -4/10, -5/10, -6/10, -7/10]
  | .threeOfAKind => [0, -1/10, -2/10, -3/10, -4/10, -5/10, -6/10]
  | .straight => [1/10, 0, -1/10, -2/10, -3/10, -4/10, -5/10]
  | .flush => [2/10, 1/10, 0, -1/10, -2/10, -3/10, -4/10]
  | .fullHouse => [3/10, 2/10, 1/10, 0, -1/10, -2/10, -3/10]
  | .fourOfAKind => [4/10, 3/10, 2/10, 1/10, 0, -1/10, -2/10]
  | .straightFlush => [5/10, 4/10, 3/10, 2/10, 1/10, 0, -1/10]
  | .royalFlush => [6/10, 5/10, 4/10, 3/10, 2/10, 1/10, 0]
  | .incomplete => []

/-- The method `adjustForPlayerCount`: the table entry, or 0 when there is
none. -/
def adjustForPlayerCount (handStrength : Strength) (playerCount : Nat) : ℚ :=
  if 2 ≤ playerCount then ((adjustments handStrength)[playerCount - 2]?).getD 0 else 0

/-- The object `evaluateCompleteHand` returns; `rank` is `NaN` (`none`) when
the strength has no entry in `handRankings`. -/
structure Evaluation where
  strength : Strength
  rank : Option ℚ
  description : String
  cards : List Card
  kickers : List Card
  playerCount : Nat

/-- The method `evaluateCompleteHand`. -/
def evaluateCompleteHand (allCards : List Card) (playerCount : Nat) : Evaluation :=
  let sortedCards := sortCards allCards
  let hand := findBestHand sortedCards
  let playerAdjustment := adjustForPlayerCount hand.strength playerCount
  let adjustedRank := (handRankings hand.strength).map (fun r => (r : ℚ) + playerAdjustment)
  { strength := hand.strength
    rank := adjustedRank
    description := hand.description
    cards := hand.cards
    kickers := hand.kickers
    playerCount := playerCount }

/-! ## The equity simulator -/

/-- The first method named `calculateRemainingDeck` of the class (the deck in
the representation of `cardValues`). The class defines a second method of the
same name further down, which replaces this one. -/
def calculateRemainingDeckShadowed (holeCards communityCards visibleCards : List Card) :
    List Card :=
  let allVisibleCards := holeCards ++ communityCards ++ visibleCards
  let ranks := [Rank.r2, .r3, .r4, .r5, .r6, .r7, .r8, .r9, .rT, .rJ, .rQ, .rK, .rA]
  let suits := [Suit.spade, .club, .heart, .diamond]
  (ranks.flatMap (fun rank => suits.map (fun suit => Card.mk rank suit))).filter
    (fun card => !allVisibleCards.any
      (fun visible => decide (visible.rank = card.rank) && decide (visible.suit = card.suit)))

/-- The method `calculateRemainingDeck` that a call reaches: the second
definition of the class. -/
def calculateRemainingDeck (holeCards communityCards : List Card) : List Card :=
  let allCards := holeCards ++ communityCards
  let suits := [Suit.hearts, .diamonds, .clubs, .spades]
  let ranks := [Rank.r2, .r3, .r4, .r5, .r6, .r7, .r8, .r9, .r10, .rJ, .rQ, .rK, .rA]
  (suits.flatMap (fun suit => ranks.map (fun rank => Card.mk rank suit))).filter
    (fun card => !allCards.any
      (fun knownCard => decide (knownCard.rank = card.rank) && decide (knownCard.suit = card.suit)))

/-- The result of `getGamePhase`. -/
inductive GamePhase where
  | preflop | flop | turn | river | unknown
  deriving DecidableEq, Repr

/-- The method `getGamePhase`. -/
def getGamePhase (communityCards : List Card) : GamePhase :=
  if communityCards.length = 0 then .preflop
  else if communityCards.length = 3 then .flop
  else if communityCards.length = 4 then .turn
  else if communityCards.length = 5 then .river
  else .unknown

/-- `Math.max` and `Math.min` give `NaN` when an argument is `undefined`. -/
def jsMax : Option Nat → Option Nat → Option Nat
  | some a, some b => some (max a b)
  | _, _ => none

/-- See `jsMax`. -/
def jsMin : Option Nat → Option Nat → Option Nat
  | some a, some b => some (min a b)
  | _, _ => none

/-- The method `getValueRank` that a call reaches (the second definition):
`ranks[value - 2] || 'A'`. -/
def getValueRank : Option Nat → Rank
  | some value =>
    if 2 ≤ value then
      ([Rank.r2, .r3, .r4, .r5, .r6, .r7, .r8, .r9, .rT, .rJ, .rQ, .rK, .rA][value - 2]?).getD .rA
    else .rA
  | none => .rA

/-- The table `preflopPercentages` of `calculatePreflopProbability`. -/
def preflopPercentages : List (String × ℚ) :=
  [("AA", 853/10), ("KK", 824/10), ("QQ", 799/10), ("JJ", 772/10), ("TT", 746/10),
   ("99", 717/10), ("88", 688/10), ("77", 659/10), ("66", 629/10), ("55", 599/10),
   ("44", 569/10), ("33", 539/10), ("22", 509/10),
   ("AKs", 670/10), ("AQs", 664/10), ("AJs", 654/10), ("ATs", 644/10), ("A9s", 634/10),
   ("KQs", 634/10), ("KJs", 624/10), ("KTs", 614/10), ("QJs", 614/10), ("QTs", 604/10),
   ("JTs", 594/10),
   ("AKo", 654/10), ("AQo", 649/10), ("AJo", 639/10), ("ATo", 629/10), ("A9o", 619/10),
   ("KQo", 619/10), ("KJo", 609/10), ("KTo", 599/10), ("QJo", 599/10), ("QTo", 589/10),
   ("JTo", 579/10),
   ("T9s", 584/10), ("98s", 574/10), ("87s", 564/10), ("76s", 554/10), ("65s", 544/10),
   ("54s", 534/10), ("43s", 524/10), ("32s", 514/10),
   ("T9o", 569/10), ("98o", 559/10), ("87o", 549/10), ("76o", 539/10), ("65o", 529/10),
   ("54o", 519/10), ("43o", 509/10), ("32o", 499/10),
   ("J9s", 574/10), ("T8s", 564/10), ("97s", 554/10), ("86s", 544/10), ("75s", 534/10),
   ("64s", 524/10), ("53s", 514/10), ("42s", 504/10),
   ("J9o", 559/10), ("T8o", 549/10), ("97o", 539/10), ("86o", 529/10), ("75o", 519/10),
   ("64o", 509/10), ("53o", 499/10), ("42o", 489/10)]

/-- The correction for the number of players, shared by both probability
methods: `50 + (percentage - 50) * Math.pow(0.5, playerCount - 2)` when
`playerCount > 2`. -/
def adjustForPlayers (percentage : ℚ) (playerCount : Nat) : ℚ :=
  if 2 < playerCount then 50 + (percentage - 50) * (1 / 2 : ℚ) ^ (playerCount - 2)
  else percentage

/-- The method `calculatePreflopProbability`. -/
def calculatePreflopProbability (holeCards : List Card) (playerCount : Nat) : ℚ :=
  match holeCards with
  | [card1, card2] =>
    let value1 := cardValues card1.rank
    let value2 := cardValues card2.rank
    let isSuited := decide (card1.suit = card2.suit)
    let highRank := getValueRank (jsMax value1 value2)
    let lowRank := getValueRank (jsMin value1 value2)
    let handNotation :=
      if isSuited then highRank.str ++ lowRank.str ++ "s" else highRank.str ++ lowRank.str ++ "o"
    let basePercentage := (preflopPercentages.lookup handNotation).getD 50
    adjustForPlayers basePercentage playerCount / 100
  | _ => 1 / 2

/-- One trial of the simulation: the new value of `wins`. The two hands go to
`findBestHand` as they are, unsorted. -/
def simulateOnce (holeCards communityCards opponentCards : List Card) (wins : ℚ) : ℚ :=
  let myHand := holeCards ++ communityCards
  let opponentHand := opponentCards ++ communityCards
  let myBestHand := findBestHand myHand
  let opponentBestHand := findBestHand opponentHand
  let myRank := (handRankings myBestHand.strength).getD 0
  let opponentRank := (handRankings opponentBestHand.strength).getD 0
  if opponentRank < myRank then wins + 1
  else if myRank = opponentRank then wins + 1 / 2
  else wins

/-- The method `calculatePostFlopProbability`. The argument `shuffled` is the
outcome of the random draws: `shuffled i deck` is the array
`[...remainingDeck].sort(() => Math.random() - 0.5)` of trial `i`. The counter
`ties` is only logged and is left out. -/
def calculatePostFlopProbability (holeCards communityCards : List Card) (playerCount : Nat)
    (shuffled : Nat → List Card → List Card) : ℚ :=
  if holeCards.length ≠ 2 then 1 / 2
  else
    let remainingDeck := calculateRemainingDeck holeCards communityCards
    let simulations : Nat := 1000
    let wins := (List.range simulations).foldl
      (fun wins i =>
        let shuffledDeck := shuffled i remainingDeck
        let opponentCards := shuffledDeck.take 2
        simulateOnce holeCards communityCards opponentCards wins) 0
    let winPercentage := wins / simulations * 100
    let winPercentage := adjustForPlayers winPercentage playerCount
    let gamePhase := getGamePhase communityCards
    let winPercentage :=
      if gamePhase = .river then
        let allCards := holeCards ++ communityCards
        let handEvaluation := findBestHand allCards
        if handEvaluation.strength = .highCard then min winPercentage 15 else winPercentage
      else winPercentage
    winPercentage / 100

/-- The fields of the result of `calculateWinProbability` that it computes (the
others echo its arguments). -/
structure WinProbability where
  winProbability : ℚ
  calculationMethod : String
  playerCount : Nat
  gamePhase : GamePhase

/-- The method `calculateWinProbability`; `holeCards` and `communityCards` are
the fields of that name of its argument `handEvaluation` (an absent field is
the empty list). -/
def calculateWinProbability (holeCards communityCards : List Card) (playerCount : Nat)
    (shuffled : Nat → List Card → List Card) : WinProbability :=
  let gamePhase := getGamePhase communityCards
  if gamePhase = .preflop then
    { winProbability := calculatePreflopProbability holeCards playerCount
      calculationMethod := "Standard preflop rankings"
      playerCount := playerCount
      gamePhase := gamePhase }
  else
    { winProbability := calculatePostFlopProbability holeCards communityCards playerCount shuffled
      calculationMethod := "Monte Carlo simulation vs all opponent hands"
      playerCount := playerCount
      gamePhase := gamePhase }

/-! ## The standard ranking of poker hands

These definitions follow the specification, not the program: the category of a
five-card hand by the standard rules, and the strongest category that a
five-card subset of a card set attains. -/

/-- Specification: the thirteen ranks of the card model. -/
def allRanks : List Rank :=
  [.r2, .r3, .r4, .r5, .r6, .r7, .r8, .r9, .rT, .rJ, .rQ, .rK, .rA]

/-- Specification: the four suits of the card model. -/
def allSuits : List Suit := [.spade, .club, .heart, .diamond]

/-- Specification: the value 2..14 of a rank of the card model (0 for the
string `'10'`, which is no rank of the model). -/
def Rank.value (r : Rank) : Nat := (cardValues r).getD 0

/-- Specification: how many cards of the list have the rank. -/
def rankCount (cards : List Card) (r : Rank) : Nat :=
  cards.countP (fun c => decide (c.rank = r))

/-- Specification: how many cards of the list have the suit. -/
def suitCount (cards : List Card) (s : Suit) : Nat :=
  cards.countP (fun c => decide (c.suit = s))

/-- Specification: the five values of the straight whose top value is `top`;
the Ace counts as 1 in the wheel, the straight with top 5. -/
def runValues (top : Nat) : List Nat :=
  if top = 5 then [5, 4, 3, 2, 14] else [top, top - 1, top - 2, top - 3, top - 4]

/-- Specification: the possible top values of a straight, highest first. -/
def runTops : List Nat := [14, 13, 12, 11, 10, 9, 8, 7, 6, 5]

/-- Specification: the cards hold every value of the straight with top `top`. -/
def hasRun (cards : List Card) (top : Nat) : Prop :=
  top ∈ runTops ∧ ∀ v ∈ runValues top, ∃ c ∈ cards, c.rank.value = v

instance (cards : List Card) (top : Nat) : Decidable (hasRun cards top) := by
  unfold hasRun; infer_instance

/-- Specification: the category of a five-card hand by the standard rules;
`held n` is the number of ranks of which the hand holds `n` cards or more. -/
def standardCategory (hand : List Card) : Strength :=
  let isFlush : Bool := allSuits.any (fun s => decide (suitCount hand s = 5))
  let isStraight : Bool := runTops.any (fun top => decide (hasRun hand top))
  let held (n : Nat) : Nat := allRanks.countP (fun r => decide (n ≤ rankCount hand r))
  if isFlush && decide (hasRun hand 14) then .royalFlush
  else if isFlush && isStraight then .straightFlush
  else if 1 ≤ held 4 then .fourOfAKind
  else if 1 ≤ held 3 && decide (2 ≤ held 2) then .fullHouse
  else if isFlush then .flush
  else if isStraight then .straight
  else if 1 ≤ held 3 then .threeOfAKind
  else if 2 ≤ held 2 then .twoPair
  else if 1 ≤ held 2 then .pair
  else .highCard

/-- Specification: the stronger of two categories, by `handRankings`. -/
def stronger (a b : Strength) : Strength :=
  if (handRankings a).getD 0 < (handRankings b).getD 0 then b else a

/-- Specification: the strongest standard category attained by a five-card
subset of the cards. -/
def bestCategory (cards : List Card) : Strength :=
  ((cards.sublistsLen 5).map standardCategory).foldl stronger .highCard

/-- A card set of the specification: cards of the card model, no card twice. -/
def CardSet (cards : List Card) : Prop :=
  cards.Nodup ∧ ∀ c ∈ cards, c.canonical

instance (cards : List Card) : Decidable (CardSet cards) := by
  unfold CardSet; infer_instance

/-! ## Auxiliary definitions for the proofs -/

/-- The order in which `Object.entries` lists a set of rank keys given in
insertion order (`objectEntries` on the keys alone). -/
def entryOrder (keys : List Rank) : List Rank :=
  (keys.filter (fun k => (arrayIndex k).isSome)).insertionSort
      (fun a b => (arrayIndex a).getD 0 ≤ (arrayIndex b).getD 0)
    ++ keys.filter (fun k => (arrayIndex k).isNone)

/-- The keys of `Object.entries(groupByValue(cards))`, in order. -/
def rankKeys (cards : List Card) : List Rank :=
  entryOrder (jsSet (cards.map Card.rank))

/-- The keys of `Object.entries(groupBySuit(cards))`, in order. -/
def suitKeys (cards : List Card) : List Suit :=
  jsSet (cards.map Card.suit)

/-- The cards of one rank, in the order of the list. -/
def rankGroup (cards : List Card) (k : Rank) : List Card :=
  cards.filter (fun c => decide (c.rank = k))

/-- The cards of one suit, in the order of the list. -/
def suitGroup (cards : List Card) (s : Suit) : List Card :=
  cards.filter (fun c => decide (c.suit = s))

/-- A hand with the suits of its cards forgotten: category, description, and
the ranks of the selected cards and of the kickers, in order. -/
def Hand.outline (h : Hand) : Strength × String × List Rank × List Rank :=
  (h.strength, h.description, h.cards.map Card.rank, h.kickers.map Card.rank)

/-- The keys of the array `pairs` of `checkFullHouse` and `checkTwoPair`: the
ranks held at least twice, in the order of `Object.entries`. -/
def pairKeys (cards : List Card) : List Rank :=
  (rankKeys cards).filter (fun k => decide (2 ≤ rankCount cards k))

/-- The order of `sortDescending` on numbers is total, transitive and
antisymmetric. -/
instance : IsTotal Nat (fun a b => b ≤ a) := ⟨fun a b => Nat.le_total b a⟩

instance : IsTrans Nat (fun a b => b ≤ a) := ⟨fun _ _ _ h1 h2 => Nat.le_trans h2 h1⟩

instance : IsAntisymm Nat (fun a b => b ≤ a) := ⟨fun _ _ h1 h2 => Nat.le_antisymm h2 h1⟩

/-- The array `uniqueValues` of `checkStraight` on cards of the model, as
numbers: the values that occur, each once, in descending order. -/
def uniqueValues (cards : List Card) : List Nat :=
  (jsSet (cards.map (fun c => c.rank.value))).insertionSort (fun a b => b ≤ a)

/-- The five consecutive values with top `top` all occur in the list. -/
def windowAt (u : List Nat) (top : Nat) : Prop :=
  4 ≤ top ∧ top ∈ u ∧ top - 1 ∈ u ∧ top - 2 ∈ u ∧ top - 3 ∈ u ∧ top - 4 ∈ u

/-- The values of the cards that `checkStraight` selects for the straight with
top `top`, in its order: the wheel starts with the Ace. -/
def selectedValues (top : Nat) : List Nat :=
  if top = 5 then [14, 2, 3, 4, 5] else [top, top - 1, top - 2, top - 3, top - 4]

/-- The description `checkStraight` gives the straight with top `top`. -/
def straightDescription (top : Nat) : String :=
  if top = 5 then "Straight, 5 high" else "Straight, " ++ getRankName (some top) ++ " high"

/-! ## The preflop evaluator -/

/-- The table `this.preflopRankings`. -/
def preflopRankings : List (String × Nat) :=
  [("AA", 1), ("KK", 2), ("QQ", 3), ("JJ", 4), ("TT", 5), ("99", 6), ("88", 7), ("77", 8),
   ("AKs", 9), ("AQs", 10), ("AJs", 11), ("ATs", 12), ("A9s", 13), ("A8s", 14), ("A7s", 15),
   ("AKo", 16), ("AQo", 17), ("AJo", 18), ("ATo", 19), ("A9o", 20), ("A8o", 21), ("A7o", 22),
   ("KQs", 23), ("KJs", 24), ("KTs", 25), ("KQo", 26), ("KJo", 27), ("KTo", 28),
   ("QJs", 29), ("QTs", 30), ("QJo", 31), ("QTo", 32),
   ("JTs", 33), ("JTo", 34), ("T9s", 35), ("T9o", 36),
   ("98s", 37), ("98o", 38), ("87s", 39), ("87o", 40),
   ("76s", 41), ("76o", 42), ("65s", 43), ("65o", 44),
   ("54s", 45), ("54o", 46), ("43s", 47), ("43o", 48),
   ("32s", 49), ("32o", 50)]

/-- The object literal `chart` of `getPreflopChartSuggestion`, in the order of
the source. The key `"KTo"` is written twice; the later entry is the one the
object holds. -/
def chart : List (String × String) :=
  [("AA", "red"), ("KK", "red"), ("QQ", "red"), ("JJ", "red"), ("TT", "red"), ("99", "red"),
   ("88", "red"), ("77", "red"), ("66", "yellow"), ("55", "yellow"), ("44", "blue"),
   ("33", "blue"), ("22", "blue"),
   ("AKs", "red"), ("AQs", "red"), ("AJs", "red"), ("ATs", "red"), ("A9s", "yellow"),
   ("A8s", "yellow"), ("A7s", "yellow"), ("A6s", "yellow"), ("A5s", "blue"), ("A4s", "blue"),
   ("A3s", "blue"), ("A2s", "blue"),
   ("KQs", "red"), ("KJs", "red"), ("KTs", "red"), ("K9s", "yellow"), ("K8s", "blue"),
   ("K7s", "blue"), ("K6s", "blue"), ("K5s", "blue"), ("K4s", "blue"), ("K3s", "blue"),
   ("K2s", "blue"),
   ("QJs", "red"), ("QTs", "red"), ("Q9s", "yellow"), ("Q8s", "yellow"), ("Q7s", "green"),
   ("Q6s", "green"), ("Q5s", "green"), ("Q4s", "green"), ("Q3s", "green"), ("Q2s", "green"),
   ("JTs", "red"), ("J9s", "red"), ("J8s", "yellow"), ("J7s", "blue"), ("J6s", "green"),
   ("J5s", "green"), ("J4s", "green"), ("J3s", "green"), ("J2s", "green"),
   ("T9s", "red"), ("T8s", "yellow"), ("T7s", "blue"), ("T6s", "green"), ("T5s", "green"),
   ("T4s", "green"), ("T3s", "green"), ("T2s", "green"),
   ("98s", "yellow"), ("97s", "blue"), ("96s", "blue"), ("95s", "green"), ("94s", "green"),
   ("93s", "green"), ("92s", "green"),
   ("87s", "blue"), ("86s", "blue"), ("85s", "green"), ("84s", "green"), ("83s", "green"),
   ("82s", "green"),
   ("76s", "blue"), ("75s", "blue"), ("74s", "green"), ("73s", "green"), ("72s", "green"),
   ("65s", "blue"), ("64s", "green"), ("63s", "green"), ("62s", "green"),
   ("54s", "blue"), ("53s", "green"), ("52s", "green"),
   ("43s", "green"), ("42s", "green"),
   ("32s", "green"),
   ("AKo", "red"), ("AQo", "red"), ("AJo", "red"), ("ATo", "red"), ("KQo", "red"),
   ("KJo", "red"), ("KTo", "red"), ("QJo", "yellow"), ("JTo", "yellow"), ("QTo", "yellow"),
   ("KTo", "yellow"),
   ("A9o", "blue"), ("A8o", "blue"), ("A7o", "blue"),
   ("Q9o", "blue"), ("J9o", "blue"), ("J8o", "blue"),
   ("T9o", "blue"), ("T8o", "blue"), ("98o", "blue"), ("97o", "blue"), ("87o", "blue"),
   ("A6o", "green"), ("A5o", "green"), ("A4o", "green"), ("A3o", "green"), ("A2o", "green"),
   ("K9o", "green"), ("K8o", "green"), ("K7o", "green"), ("K6o", "green"), ("K5o", "green"),
   ("K4o", "green"), ("K3o", "green"), ("K2o", "green"),
   ("Q8o", "green"), ("Q7o", "green"), ("Q6o", "green"), ("Q5o", "green"), ("Q4o", "green"),
   ("Q3o", "green"), ("Q2o", "green"),
   ("J7o", "green"), ("J6o", "green"), ("J5o", "green"), ("J4o", "green"), ("J3o", "green"),
   ("J2o", "green"),
   ("T7o", "green"), ("T6o", "green"), ("T5o", "green"), ("T4o", "green"), ("T3o", "green"),
   ("T2o", "green"),
   ("96o", "green"), ("95o", "green"), ("94o", "green"), ("93o", "green"), ("92o", "green"),
   ("86o", "green"), ("85o", "green"), ("84o", "green"), ("83o", "green"), ("82o", "green"),
   ("76o", "green"), ("75o", "green"), ("74o", "green"), ("73o", "green"), ("72o", "green"),
   ("65o", "green"), ("64o", "green"), ("63o", "green"), ("62o", "green"),
   ("54o", "green"), ("53o", "green"), ("52o", "green"),
   ("43o", "green"), ("42o", "green"),
   ("32o", "green")]

/-- The object literal `colorToAction` of `getPreflopChartSuggestion`. -/
def colorToAction : List (String × String) :=
  [("red", "Raise (Any Position)"), ("yellow", "Raise/Call (Mid/Late)"),
   ("blue", "Call (Late)"), ("green", "Fold")]

/-- Reading a key of an object literal: of two entries with the same key the
later one counts. -/
def objectGet {α : Type} (literal : List (String × α)) (key : String) : Option α :=
  literal.reverse.lookup key

/-- The object `getPreflopChartSuggestion` returns. -/
structure ChartSuggestion where
  action : Option String
  color : String
  label : String
  deriving DecidableEq, Repr

/-- The method `getPreflopChartSuggestion`. -/
def getPreflopChartSuggestion (holeCards : List Card) : ChartSuggestion :=
  match holeCards with
  | [card1, card2] =>
    let value1 := cardValues card1.rank
    let value2 := cardValues card2.rank
    let isSuited := decide (card1.suit = card2.suit)
    let high := jsMax value1 value2
    let low := jsMin value1 value2
    let highRank := getValueRank high
    let lowRank := getValueRank low
    let key :=
      if value1 = value2 then highRank.str ++ lowRank.str
      else if isSuited then highRank.str ++ lowRank.str ++ "s"
      else highRank.str ++ lowRank.str ++ "o"
    let color := (objectGet chart key).getD "green"
    let action := objectGet colorToAction color
    { action := action, color := color, label := key }
  | _ => { action := some "unknown", color := "gray", label := "Unknown" }

/-- The names of the properties that an object literal inherits from
`Object.prototype`: a lookup `literal[name]` with one of them finds a function
(for `'__proto__'` the prototype object itself), not `undefined`. -/
def objectPrototypeKeys : List String :=
  ["constructor", "hasOwnProperty", "isPrototypeOf", "propertyIsEnumerable",
   "toLocaleString", "toString", "valueOf", "__proto__", "__defineGetter__",
   "__defineSetter__", "__lookupGetter__", "__lookupSetter__"]

/-- The position multiplier of `evaluatePreflop`,
`{ early: 0.8, ... }[position] || 1.0`, as a factor of the product that
follows: the entry of the object literal; for a name inherited from
`Object.prototype` the lookup gives a function or an object, which is truthy
and makes the product `NaN` (`none`); for any other tag the lookup is
`undefined` and the factor is 1.0. -/
def positionMultiplier (position : String) : Option ℚ :=
  if position = "early" then some (8 / 10)
  else if position = "middle" then some 1
  else if position = "late" then some (12 / 10)
  else if position = "button" then some (13 / 10)
  else if position = "small-blind" then some (11 / 10)
  else if position = "big-blind" then some (9 / 10)
  else if position ∈ objectPrototypeKeys then none
  else some 1

/-- `Math.abs(value1 - value2) === 1`; the difference of an `undefined` is
`NaN`. -/
def differByOne : Option Nat → Option Nat → Bool
  | some a, some b => decide (Int.natAbs (Int.ofNat a - Int.ofNat b) = 1)
  | _, _ => false

/-- `value >= 10`, false for `undefined`. -/
def atLeastTen : Option Nat → Bool
  | some a => decide (10 ≤ a)
  | none => false

/-- `Math.round` on a rational: the nearest integer, a half going up. -/
def jsRound (x : ℚ) : Int := Rat.floor (x + 1 / 2)

/-- The object `evaluatePreflop` returns; the rank `none` is `NaN`. On a list
that is not two cards the source returns only `strength`, `rank` and
`description`; the other fields are then empty here. -/
structure PreflopEvaluation where
  strength : String
  rank : Option ℚ
  description : String
  suited : Bool
  highCard : Option Nat
  lowCard : Option Nat
  preflopRank : Nat
  playerCount : Nat
  position : String
  chartSuggestion : Option String
  chartColor : String
  chartLabel : String

/-- The method `evaluatePreflop`. -/
def evaluatePreflop (holeCards : List Card) (playerCount : Nat) (position : String) :
    PreflopEvaluation :=
  match holeCards with
  | [card1, card2] =>
    let value1 := cardValues card1.rank
    let value2 := cardValues card2.rank
    let isSuited := decide (card1.suit = card2.suit)
    let highCard := jsMax value1 value2
    let lowCard := jsMin value1 value2
    let highRank := getValueRank highCard
    let lowRank := getValueRank lowCard
    let handNotation :=
      if isSuited then highRank.str ++ lowRank.str ++ "s" else highRank.str ++ lowRank.str ++ "o"
    let preflopRank : Nat := (preflopRankings.lookup handNotation).getD 100
    let maxRank : Nat := (preflopRankings.map (fun e => e.2)).foldl max 0
    let normalizedRank : ℚ := (preflopRank : ℚ) / (maxRank : ℚ)
    let playerAdjustment := adjustForPlayerCount .pair playerCount
    let adjustedRank : Option ℚ :=
      (positionMultiplier position).map
        (fun multiplier => normalizedRank * multiplier + playerAdjustment)
    let strength : String :=
      if value1 = value2 then "pair"
      else if differByOne value1 value2 then "connectors"
      else if atLeastTen value1 && atLeastTen value2 then "broadway"
      else if isSuited then "suited"
      else "high-card"
    let description : String :=
      if value1 = value2 then "Pair of " ++ highRank.str ++ "s"
      else if differByOne value1 value2 then
        (if isSuited then "Suited Connectors " ++ handNotation
         else "Connectors " ++ handNotation)
      else if atLeastTen value1 && atLeastTen value2 then "Broadway " ++ handNotation
      else if isSuited then "Suited " ++ handNotation
      else handNotation
    let finalRank : Option ℚ :=
      if decide (strength = "connectors") && isSuited then
        adjustedRank.map (fun rank => rank * (12 / 10))
      else adjustedRank
    let percent : String :=
      match finalRank with
      | some rank => toString (jsRound (rank * 100))
      | none => "NaN"
    let chartSuggestion := getPreflopChartSuggestion holeCards
    { strength := strength
      rank := finalRank
      description := description ++ " (" ++ percent ++ "% strength)"
      suited := isSuited
      highCard := highCard
      lowCard := lowCard
      preflopRank := preflopRank
      playerCount := playerCount
      position := position
      chartSuggestion := chartSuggestion.action
      chartColor := chartSuggestion.color
      chartLabel := chartSuggestion.label }
  | _ =>
    { strength := "incomplete", rank := some 0, description := "Need exactly 2 hole cards"
      suited := false, highCard := none, lowCard := none, preflopRank := 0
      playerCount := playerCount, position := position
      chartSuggestion := none, chartColor := "", chartLabel := "" }

/-! ## Outs -/

/-- One step `suitCounts[card.suit] = (suitCounts[card.suit] || 0) + 1`. -/
def countSuit (s : Suit) : List (Suit × Nat) → List (Suit × Nat)
  | [] => [(s, 1)]
  | (s', n) :: rest => if s' = s then (s', n + 1) :: rest else (s', n) :: countSuit s rest

/-- The object `suitCounts` of `countOuts`, in insertion order. -/
def suitCounts (allCards : List Card) : List (Suit × Nat) :=
  allCards.foldl (fun counts card => countSuit card.suit counts) []

/-- `values.sort((a, b) => a - b)` on an array of numbers that may hold
`undefined`: the numbers in ascending order, then the `undefined`s. -/
def sortAscending (values : List (Option Nat)) : List (Option Nat) :=
  ((values.filterMap id).insertionSort (fun a b => a ≤ b)).map some
    ++ values.filter (fun v => v.isNone)

/-- The test `sequence[last] - sequence[0] === span` of the two draw loops. -/
def spans (sequence : List (Option Nat)) (last : Nat) (span : Int) : Bool :=
  match sequence[last]?, sequence[0]? with
  | some (some hi), some (some lo) => decide (Int.ofNat hi - Int.ofNat lo = span)
  | _, _ => false

/-- The loop for the open-ended straight draw from index `i` on, the argument
being `uniqueValues.slice(i)`: is there a window of four values that spans
exactly 3? -/
def openEndedDraw : List (Option Nat) → Bool
  | [] => false
  | v :: rest =>
    if 4 ≤ (v :: rest).length then
      if spans ((v :: rest).take 4) 3 3 then true else openEndedDraw rest
    else false

/-- The loop for the gutshot straight draw: is there a window of three values
that spans exactly 2? -/
def gutshotDraw : List (Option Nat) → Bool
  | [] => false
  | v :: rest =>
    if 3 ≤ (v :: rest).length then
      if spans ((v :: rest).take 3) 2 2 then true else gutshotDraw rest
    else false

/-- `parseInt` of a rank string: the number for `'2'`..`'9'` and `'10'`, `NaN`
for a letter. -/
def parseInt : Rank → Option Nat
  | .r2 => some 2 | .r3 => some 3 | .r4 => some 4 | .r5 => some 5 | .r6 => some 6
  | .r7 => some 7 | .r8 => some 8 | .r9 => some 9 | .r10 => some 10
  | _ => none

/-- `Math.max(...numbers)` on a non-empty array: `NaN` as soon as one of the
numbers is `NaN`. -/
def jsMaxList : List (Option Nat) → Option Nat
  | [] => none
  | [v] => v
  | v :: rest => jsMax v (jsMaxList rest)

/-- The keys of `this.cardValues`. -/
def cardValueKeys : List Rank :=
  [.r2, .r3, .r4, .r5, .r6, .r7, .r8, .r9, .rT, .rJ, .rQ, .rK, .rA]

/-- `value > pairValue`, false when a side is `undefined` or `NaN`. -/
def jsGreater : Option Nat → Option Nat → Bool
  | some a, some b => decide (b < a)
  | _, _ => false

/-- The outs that `countOuts` adds for a flush draw: 9 when some suit is held
exactly four times. -/
def flushDrawOuts (allCards : List Card) : Nat :=
  if (suitCounts allCards).any (fun e => decide (e.2 = 4)) then 9 else 0

/-- The outs that `countOuts` adds for overcards: when some rank is held
twice, 3 for every rank above `pairValue` that no known card has. -/
def overcardOuts (allCards : List Card) : Nat :=
  let pairs := (objectEntries (groupByValue allCards)).filter (fun e => decide (2 ≤ e.2.length))
  if 0 < pairs.length then
    let pairValue := jsMaxList (pairs.map (fun e => parseInt e.1))
    let overcards := cardValueKeys.filter (fun rank =>
      jsGreater (cardValues rank) pairValue &&
        !allCards.any (fun card => decide (card.rank = rank)))
    overcards.length * 3
  else 0

/-- The method `countOuts`. -/
def countOuts (holeCards communityCards : List Card) : Nat :=
  if communityCards.length < 3 then 0
  else
    let allCards := holeCards ++ communityCards
    let outs := 0
    let outs := outs + flushDrawOuts allCards
    let values := sortAscending (allCards.map (fun card => cardValues card.rank))
    let uniqueValues := jsSet values
    let outs := if openEndedDraw uniqueValues then outs + 8 else outs
    let outs := if outs = 0 then (if gutshotDraw uniqueValues then outs + 4 else outs) else outs
    outs + overcardOuts allCards

/-! ## Further auxiliary definitions for the proofs -/

/-- The value of `winPercentage` in `calculatePostFlopProbability` right after
the simulation loop, before the correction for the number of players. -/
def simulatedWinPercentage (holeCards communityCards : List Card)
    (shuffled : Nat → List Card → List Card) : ℚ :=
  (List.range 1000).foldl
      (fun wins i =>
        simulateOnce holeCards communityCards
          ((shuffled i (calculateRemainingDeck holeCards communityCards)).take 2) wins) 0
    / (1000 : Nat) * 100

/-- The array `uniqueValues` of `countOuts` on cards of the model, as numbers:
the values that occur, each once, in ascending order. -/
def uniqueValuesAscending (cards : List Card) : List Nat :=
  jsSet ((cards.map (fun c => c.rank.value)).insertionSort (fun a b => a ≤ b))

/-- The cards hold four consecutive values, the lowest being `low`. -/
def fourConsecutive (cards : List Card) (low : Nat) : Prop :=
  ∀ i, i < 4 → ∃ c ∈ cards, c.rank.value = low + i

instance (cards : List Card) (low : Nat) : Decidable (fourConsecutive cards low) := by
  unfold fourConsecutive; infer_instance

/-! ## Drawing odds, pot odds, implied odds -/

/-- The method `calculateDrawingOdds`. -/
def calculateDrawingOdds (outs cardsToCome : Nat) : ℚ :=
  if outs = 0 then 0
  else
    let totalCards : Nat := 52
    let holeCards : Nat := 2
    let maxCommunityCards : Nat := 5
    let remainingCards : Nat := totalCards - holeCards - maxCommunityCards
    let outsRemaining : Nat := min outs remainingCards
    if cardsToCome = 1 then (outsRemaining : ℚ) / (remainingCards : ℚ)
    else if cardsToCome = 2 then
      let missFirst : ℚ := ((remainingCards : ℚ) - (outsRemaining : ℚ)) / (remainingCards : ℚ)
      let missSecond : ℚ :=
        ((remainingCards : ℚ) - (outsRemaining : ℚ) - 1) / ((remainingCards : ℚ) - 1)
      1 - missFirst * missSecond
    else 0

/-- The integer nearest to a rational, a half going to the even neighbour: the
rounding of the significand in double-precision arithmetic. -/
def roundHalfEven (x : ℚ) : Int :=
  let lower := Rat.floor x
  let rest := x - (lower : ℚ)
  if rest < 1 / 2 then lower
  else if 1 / 2 < rest then lower + 1
  else if lower % 2 = 0 then lower
  else lower + 1

/-- The double nearest to a rational (round to nearest, ties to even): the
number is scaled by a power of two so that its significand has 53 bits, and
the significand is rounded to an integer. The exponent is not bounded: the
numbers are taken to stay in the normal range of a double, neither
overflowing to `Infinity` nor becoming subnormal. -/
def toDouble (x : ℚ) : ℚ :=
  if x = 0 then 0
  else
    let exponent : Int := Int.log 2 |x| - 52
    (roundHalfEven (x / (2 : ℚ) ^ exponent) : ℚ) * (2 : ℚ) ^ exponent

/-- A number that is 0 or lies between 2^-500 and 2^500. On such arguments no
operation of `calculatePotOdds` and `calculateImpliedOdds` overflows or gives a
subnormal double, so that `toDouble` is the rounding the program performs. -/
def inDoubleRange (x : ℚ) : Prop :=
  x = 0 ∨ (1 / 2 ^ 500 ≤ x ∧ x ≤ 2 ^ 500)

instance (x : ℚ) : Decidable (inDoubleRange x) := by
  unfold inDoubleRange; infer_instance

/-- The method `calculatePotOdds` in double precision. An argument is read as
the double nearest to it, which is the argument itself when it is a double (as
every JavaScript number is); `Math.round` is exact on a double. -/
def calculatePotOdds (pot callAmount : ℚ) : ℚ :=
  let pot := toDouble pot
  let callAmount := toDouble callAmount
  if callAmount = 0 then 0
  else if pot = 0 then 0
  else
    let potOdds := toDouble (pot / callAmount)
    toDouble ((jsRound (toDouble (potOdds * 10000)) : ℚ) / 10000)

/-- The method `calculateImpliedOdds` in double precision; the drawing odds it
computes are only logged. The literal `0.1` is the double nearest to 1/10, and
the product `outs * playerCount * 0.1` is evaluated from the left. -/
def calculateImpliedOdds (pot callAmount : ℚ) (outs playerCount : Nat) : ℚ :=
  let pot := toDouble pot
  let callAmount := toDouble callAmount
  if callAmount = 0 ∨ outs = 0 then 0
  else
    let estimatedFutureBets : ℚ :=
      toDouble (toDouble ((outs : ℚ) * (playerCount : ℚ)) * toDouble (1 / 10))
    let totalPotentialPot := toDouble (pot + estimatedFutureBets)
    let impliedOdds := toDouble (totalPotentialPot / callAmount)
    toDouble ((jsRound (toDouble (impliedOdds * 10000)) : ℚ) / 10000)

/-! ## The main method -/

/-- The category as the string the program holds. -/
def Strength.str : Strength → String
  | .highCard => "high-card" | .pair => "pair" | .twoPair => "two-pair"
  | .threeOfAKind => "three-of-a-kind" | .straight => "straight" | .flush => "flush"
  | .fullHouse => "full-house" | .fourOfAKind => "four-of-a-kind"
  | .straightFlush => "straight-flush" | .royalFlush => "royal-flush"
  | .incomplete => "incomplete"

/-- Does `checkStraightFlush` raise a TypeError? It reads
`straight.cards[0].rank` and, when that is `'A'`, `straight.cards[4].rank`; the
read of `.rank` fails when the array has no such element. -/
def checkStraightFlushThrows (cards : List Card) : Bool :=
  match checkFlush cards with
  | none => false
  | some flush =>
    match checkStraight flush.cards with
    | none => false
    | some straight =>
      match straight.cards[0]? with
      | none => true
      | some first => decide (first.rank = .rA) && (straight.cards[4]?).isNone

/-- Does `evaluateCompleteHand` raise an exception on an array of card objects?
The one place that can is `checkStraightFlush`, the first check of
`findBestHand`; `checkHighCard` reads `cards[0].rank` of five cards or more. -/
def evaluateCompleteHandThrows (allCards : List Card) : Bool :=
  decide (5 ≤ (sortCards allCards).length) && checkStraightFlushThrows (sortCards allCards)

/-- The object `evaluateHand` returns: the complete-hand evaluation or the
preflop evaluation with the fields `holeCards`, `communityCards`, `gamePhase`
added, or the object of the `catch` branch. -/
inductive HandEvaluation where
  | complete (evaluation : Evaluation) (holeCards communityCards : List Card)
      (gamePhase : GamePhase)
  | preflop (evaluation : PreflopEvaluation) (holeCards : List Card)
  | error (holeCards communityCards : List Card)

/-- The field `strength` of the result of `evaluateHand`. -/
def HandEvaluation.strength : HandEvaluation → String
  | .complete evaluation _ _ _ => evaluation.strength.str
  | .preflop evaluation _ => evaluation.strength
  | .error _ _ => "error"

/-- The field `description` of the result of `evaluateHand`. -/
def HandEvaluation.description : HandEvaluation → String
  | .complete evaluation _ _ _ => evaluation.description
  | .preflop evaluation _ => evaluation.description
  | .error _ _ => "Error evaluating hand"

/-- The field `gamePhase` of the result of `evaluateHand`. -/
def HandEvaluation.gamePhase : HandEvaluation → GamePhase
  | .complete _ _ _ gamePhase => gamePhase
  | .preflop _ _ => .preflop
  | .error _ _ => .unknown

/-- The method `evaluateHand` on two arrays of card objects: the `try` block,
and the `catch` branch when the evaluation raises an exception. On the card
objects of this model (ranks and suits as listed at `Rank` and `Suit`) the one
statement that can raise is the read of `.rank` in `checkStraightFlush`; a rank
or suit that names an inherited property, on which the grouping raises, is not
a value of `Rank` or `Suit`. -/
def evaluateHand (holeCards communityCards : List Card) (playerCount : Nat)
    (position : String) : HandEvaluation :=
  if 0 < communityCards.length then
    let allCards := holeCards ++ communityCards
    if evaluateCompleteHandThrows allCards then .error holeCards communityCards
    else
      .complete (evaluateCompleteHand allCards playerCount) holeCards communityCards
        (getGamePhase communityCards)
  else .preflop (evaluatePreflop holeCards playerCount position) holeCards

/-- The field `holeCards` of the result of `evaluateHand`. -/
def HandEvaluation.holeCards : HandEvaluation → List Card
  | .complete _ holeCards _ _ => holeCards
  | .preflop _ holeCards => holeCards
  | .error holeCards _ => holeCards

/-- The field `communityCards` of the result of `evaluateHand`; the preflop
branch writes the empty array. -/
def HandEvaluation.communityCards : HandEvaluation → List Card
  | .complete _ _ communityCards _ => communityCards
  | .preflop _ _ => []
  | .error _ communityCards => communityCards

/-! ## The analysis of the content script -/

/-- The fields of the game state that `analyzeHandAndSuggestMove` reads. The
player count 0 stands for a count that is missing or zero. -/
structure GameState where
  holeCards : List Card
  communityCards : List Card
  pot : ℚ
  currentBet : ℚ
  gamePhase : GamePhase
  playerCount : Nat
  isMyTurn : Bool

/-- The record `analysis` that `analyzeHandAndSuggestMove` builds. -/
structure Analysis where
  handEvaluation : HandEvaluation
  potOdds : ℚ
  impliedOdds : ℚ
  outs : Nat
  drawingOdds : ℚ
  winProbability : WinProbability
  gameState : GameState
  playerCount : Nat
  position : String
  gamePhase : GamePhase

/-- The function `analyzeHandAndSuggestMove` of the content script. It answers
`null` when the evaluator is not initialised or there is no game state; on a
game state with two arrays of card objects no statement of its `try` block
raises an exception. The update of the overlay does not change the record. -/
def analyzeHandAndSuggestMove (evaluator : Bool) (gameState : Option GameState)
    (shuffled : Nat → List Card → List Card) : Option Analysis :=
  match evaluator, gameState with
  | true, some gameState =>
    let playerCount := if gameState.playerCount = 0 then 2 else gameState.playerCount
    let position := "middle"
    let handEvaluation :=
      evaluateHand gameState.holeCards gameState.communityCards playerCount position
    let potOdds := calculatePotOdds gameState.pot gameState.currentBet
    let outs := countOuts gameState.holeCards gameState.communityCards
    let drawingOdds := calculateDrawingOdds outs 2
    let impliedOdds :=
      calculateImpliedOdds gameState.pot gameState.currentBet outs playerCount
    let winProbability :=
      calculateWinProbability handEvaluation.holeCards handEvaluation.communityCards
        playerCount shuffled
    some { handEvaluation := handEvaluation
           potOdds := potOdds
           impliedOdds := impliedOdds
           outs := outs
           drawingOdds := drawingOdds
           winProbability := winProbability
           gameState := gameState
           playerCount := playerCount
           position := position
           gamePhase := gameState.gamePhase }
  | _, _ => none

/-! ## Auxiliary definitions for the comparison with the standard ranking -/

/-- The category that a cascade of nine tests gives, the tests being put in the
order of `findBestHand`: the first test that holds decides. -/
def categoryOf (royal straightFlush four full flush straight three two pair : Bool) :
    Strength :=
  if royal then .royalFlush
  else if straightFlush then .straightFlush
  else if four then .fourOfAKind
  else if full then .fullHouse
  else if flush then .flush
  else if straight then .straight
  else if three then .threeOfAKind
  else if two then .twoPair
  else if pair then .pair
  else .highCard

/-- The cards hold Ace, King, Queen, Jack and Ten of one suit. -/
def holdsRoyal (cards : List Card) : Prop :=
  ∃ x : Suit, (⟨.rA, x⟩ : Card) ∈ cards ∧ (⟨.rK, x⟩ : Card) ∈ cards ∧
    (⟨.rQ, x⟩ : Card) ∈ cards ∧ (⟨.rJ, x⟩ : Card) ∈ cards ∧ (⟨.rT, x⟩ : Card) ∈ cards

/-- The cards of one suit hold a straight. -/
def holdsStraightFlush (cards : List Card) : Prop :=
  ∃ (x : Suit) (top : Nat), hasRun (suitGroup cards x) top

/-- Some rank is held `n` times or more. -/
def holdsOfAKind (n : Nat) (cards : List Card) : Prop :=
  ∃ k : Rank, n ≤ rankCount cards k

/-- Some rank is held `a` times or more and another rank `b` times or more. -/
def holdsTwoGroups (a b : Nat) (cards : List Card) : Prop :=
  ∃ k1 k2 : Rank, k1 ≠ k2 ∧ a ≤ rankCount cards k1 ∧ b ≤ rankCount cards k2

/-- Some suit is held five times or more. -/
def holdsFlush (cards : List Card) : Prop :=
  ∃ x : Suit, 5 ≤ suitCount cards x

/-- The cards hold a straight. -/
def holdsStraight (cards : List Card) : Prop :=
  ∃ top : Nat, hasRun cards top

/-- The number `m` is the rank, in `handRankings`, of the strongest test that
the cards pass: 10 for the royal flush down to 2 for the pair, and 1 when they
pass none. -/
structure Strongest (m : Nat) (cards : List Card) : Prop where
  one_le : 1 ≤ m
  le_ten : m ≤ 10
  of_royal : holdsRoyal cards → 10 ≤ m
  of_straightFlush : holdsStraightFlush cards → 9 ≤ m
  of_four : holdsOfAKind 4 cards → 8 ≤ m
  of_full : holdsTwoGroups 3 2 cards → 7 ≤ m
  of_flush : holdsFlush cards → 6 ≤ m
  of_straight : holdsStraight cards → 5 ≤ m
  of_three : holdsOfAKind 3 cards → 4 ≤ m
  of_two : holdsTwoGroups 2 2 cards → 3 ≤ m
  of_pair : holdsOfAKind 2 cards → 2 ≤ m
  royal : m = 10 → holdsRoyal cards
  straightFlush : m = 9 → holdsStraightFlush cards
  four : m = 8 → holdsOfAKind 4 cards
  full : m = 7 → holdsTwoGroups 3 2 cards
  flush : m = 6 → holdsFlush cards
  straight : m = 5 → holdsStraight cards
  three : m = 4 → holdsOfAKind 3 cards
  two : m = 3 → holdsTwoGroups 2 2 cards
  pair : m = 2 → holdsOfAKind 2 cards

/-! ## Theorems -/

set_option maxRecDepth 100000

theorem jsSet_concat {α : Type} [DecidableEq α] (l : List α) (x : α) :
    jsSet (l ++ [x]) = if x ∈ jsSet l then jsSet l else jsSet l ++ [x] := by
  simp [jsSet, List.foldl_append]

theorem mem_jsSet {α : Type} [DecidableEq α] (l : List α) (x : α) :
    x ∈ jsSet l ↔ x ∈ l := by
  induction l using List.reverseRecOn with
  | nil => simp [jsSet]
  | append_singleton l y ih =>
    rw [jsSet_concat]
    by_cases hy : y ∈ jsSet l
    · rw [if_pos hy]
      constructor
      · intro h; exact List.mem_append_left _ (ih.mp h)
      · intro h
        rcases List.mem_append.mp h with h | h
        · exact ih.mpr h
        · simp at h; subst h; exact hy
    · rw [if_neg hy]
      simp [ih]

theorem nodup_jsSet {α : Type} [DecidableEq α] (l : List α) : (jsSet l).Nodup := by
  induction l using List.reverseRecOn with
  | nil => simp [jsSet]
  | append_singleton l y ih =>
    rw [jsSet_concat]
    by_cases hy : y ∈ jsSet l
    · rw [if_pos hy]; exact ih
    · rw [if_neg hy]
      exact List.Nodup.append ih (List.nodup_singleton y) (by simpa using hy)

theorem jsSet_map_of_injective {α β : Type} [DecidableEq α] [DecidableEq β] (f : α → β)
    (hf : Function.Injective f) (l : List α) : jsSet (l.map f) = (jsSet l).map f := by
  induction l using List.reverseRecOn with
  | nil => simp [jsSet]
  | append_singleton l y ih =>
    rw [List.map_append, List.map_singleton, jsSet_concat, jsSet_concat, ih]
    by_cases hy : y ∈ jsSet l
    · rw [if_pos hy, if_pos (List.mem_map_of_mem f hy)]
    · rw [if_neg hy, if_neg]
      · simp
      · intro h
        rcases List.mem_map.mp h with ⟨z, hz, hzy⟩
        exact hy (hf hzy ▸ hz)

theorem pushGroup_map_of_mem {κ : Type} [DecidableEq κ] (f : κ → List Card) (k : κ) (c : Card) :
    ∀ ks : List κ, k ∈ ks → ks.Nodup →
      pushGroup k c (ks.map fun j => (j, f j)) =
        ks.map fun j => (j, if j = k then f j ++ [c] else f j)
  | [], h, _ => by simp at h
  | j :: ks, h, hnd => by
    rw [List.nodup_cons] at hnd
    by_cases hj : j = k
    · subst hj
      simp only [List.map_cons, pushGroup, if_true]
      congr 1
      apply List.map_congr_left
      intro i hi
      have : i ≠ j := fun e => hnd.1 (e ▸ hi)
      simp [this]
    · have hk : k ∈ ks := by
        rcases List.mem_cons.mp h with h | h
        · exact absurd h.symm hj
        · exact h
      simp only [List.map_cons, pushGroup, if_neg hj]
      rw [pushGroup_map_of_mem f k c ks hk hnd.2]

theorem pushGroup_map_of_not_mem {κ : Type} [DecidableEq κ] (f : κ → List Card) (k : κ)
    (c : Card) :
    ∀ ks : List κ, k ∉ ks →
      pushGroup k c (ks.map fun j => (j, f j)) = (ks.map fun j => (j, f j)) ++ [(k, [c])]
  | [], _ => by simp [pushGroup]
  | j :: ks, h => by
    have hj : j ≠ k := fun e => h (e ▸ List.mem_cons_self _ _)
    have hk : k ∉ ks := fun e => h (List.mem_cons_of_mem _ e)
    simp only [List.map_cons, pushGroup, if_neg hj, List.cons_append]
    rw [pushGroup_map_of_not_mem f k c ks hk]

/-- The dictionary built by pushing every card under its key holds the keys in
the order of their first occurrence, each with the cards of that key in the
order of the list. -/
theorem foldl_pushGroup_eq {κ : Type} [DecidableEq κ] (key : Card → κ) (cards : List Card) :
    cards.foldl (fun groups card => pushGroup (key card) card groups) [] =
      (jsSet (cards.map key)).map
        (fun k => (k, cards.filter (fun c => decide (key c = k)))) := by
  induction cards using List.reverseRecOn with
  | nil => simp [jsSet]
  | append_singleton l c ih =>
    rw [List.foldl_append, ih, List.map_append, List.map_singleton, jsSet_concat]
    simp only [List.foldl_cons, List.foldl_nil]
    by_cases hc : key c ∈ jsSet (l.map key)
    · rw [if_pos hc, pushGroup_map_of_mem _ _ _ _ hc (nodup_jsSet _)]
      apply List.map_congr_left
      intro j _
      by_cases hj : j = key c
      · subst hj; simp [List.filter_append]
      · have : ¬ key c = j := fun e => hj e.symm
        simp [List.filter_append, hj, this]
    · rw [if_neg hc, pushGroup_map_of_not_mem _ _ _ _ hc, List.map_append]
      congr 1
      · apply List.map_congr_left
        intro j hj
        have : ¬ key c = j := fun e => hc (e ▸ hj)
        simp [List.filter_append, this]
      · have hnone : l.filter (fun c' => decide (key c' = key c)) = [] := by
          rw [List.filter_eq_nil_iff]
          intro d hd
          have : key d ≠ key c := by
            intro e
            apply hc
            rw [mem_jsSet, ← e]
            exact List.mem_map_of_mem key hd
          simpa using this
        simp [List.filter_append, hnone]


theorem objectEntries_map {α : Type} (f : Rank → α) (keys : List Rank) :
    objectEntries (keys.map fun k => (k, f k)) = (entryOrder keys).map fun k => (k, f k) := by
  unfold objectEntries entryOrder
  rw [List.map_append, List.filter_map, List.filter_map]
  congr 1
  exact (List.map_insertionSort
    (fun a b : Rank => (arrayIndex a).getD 0 ≤ (arrayIndex b).getD 0)
    (fun a b : Rank × α => (arrayIndex a.1).getD 0 ≤ (arrayIndex b.1).getD 0)
    (fun k => (k, f k)) _ (fun a _ b _ => Iff.rfl)).symm

theorem mem_entryOrder (keys : List Rank) (k : Rank) : k ∈ entryOrder keys ↔ k ∈ keys := by
  unfold entryOrder
  rw [List.mem_append, List.mem_insertionSort, List.mem_filter, List.mem_filter]
  cases h : arrayIndex k <;> simp [h]

theorem entryOrder_perm (keys : List Rank) : (entryOrder keys).Perm keys := by
  unfold entryOrder
  refine ((List.perm_insertionSort _ _).append_right _).trans ?_
  have := List.filter_append_perm (fun k => (arrayIndex k).isSome) keys
  refine List.Perm.trans ?_ this
  apply List.Perm.append_left
  apply List.Perm.of_eq
  apply List.filter_congr
  intro k _
  cases arrayIndex k <;> rfl

theorem nodup_entryOrder (keys : List Rank) (h : keys.Nodup) : (entryOrder keys).Nodup :=
  (entryOrder_perm keys).nodup_iff.mpr h

theorem objectEntries_groupByValue (cards : List Card) :
    objectEntries (groupByValue cards) =
      (rankKeys cards).map fun k => (k, rankGroup cards k) := by
  unfold groupByValue rankKeys rankGroup
  rw [foldl_pushGroup_eq Card.rank cards, objectEntries_map]

theorem groupBySuit_eq (cards : List Card) :
    groupBySuit cards = (suitKeys cards).map fun s => (s, suitGroup cards s) := by
  unfold groupBySuit suitKeys suitGroup
  rw [foldl_pushGroup_eq Card.suit cards]

theorem mem_rankKeys (cards : List Card) (k : Rank) :
    k ∈ rankKeys cards ↔ ∃ c ∈ cards, c.rank = k := by
  unfold rankKeys
  rw [mem_entryOrder, mem_jsSet, List.mem_map]

theorem mem_suitKeys (cards : List Card) (s : Suit) :
    s ∈ suitKeys cards ↔ ∃ c ∈ cards, c.suit = s := by
  unfold suitKeys
  rw [mem_jsSet, List.mem_map]

theorem length_rankGroup (cards : List Card) (k : Rank) :
    (rankGroup cards k).length = rankCount cards k := by
  unfold rankGroup rankCount
  rw [List.countP_eq_length_filter]

theorem length_suitGroup (cards : List Card) (s : Suit) :
    (suitGroup cards s).length = suitCount cards s := by
  unfold suitGroup suitCount
  rw [List.countP_eq_length_filter]

theorem checkFlush_eq (cards : List Card) :
    checkFlush cards =
      ((suitKeys cards).find? (fun s => decide (5 ≤ suitCount cards s))).map
        (fun s => { strength := .flush, description := "Flush, " ++ s.str,
                    cards := (suitGroup cards s).take 5, kickers := [] }) := by
  unfold checkFlush
  rw [groupBySuit_eq, List.find?_map]
  have : ((fun e : Suit × List Card => decide (5 ≤ e.2.length)) ∘
      fun s => (s, suitGroup cards s)) = fun s => decide (5 ≤ suitCount cards s) := by
    funext s; simp [length_suitGroup]
  rw [this]
  cases (suitKeys cards).find? (fun s => decide (5 ≤ suitCount cards s)) <;> rfl

theorem find_entries (cards : List Card) (n : Nat) :
    (objectEntries (groupByValue cards)).find? (fun e => decide (n ≤ e.2.length)) =
      ((rankKeys cards).find? (fun k => decide (n ≤ rankCount cards k))).map
        (fun k => (k, rankGroup cards k)) := by
  rw [objectEntries_groupByValue, List.find?_map]
  have : ((fun e : Rank × List Card => decide (n ≤ e.2.length)) ∘
      fun k => (k, rankGroup cards k)) = fun k => decide (n ≤ rankCount cards k) := by
    funext k; simp [length_rankGroup]
  rw [this]

theorem checkFourOfAKind_eq (cards : List Card) :
    checkFourOfAKind cards =
      ((rankKeys cards).find? (fun k => decide (4 ≤ rankCount cards k))).map
        (fun k => { strength := .fourOfAKind
                    description := "Four of a Kind, " ++ k.str ++ "s"
                    cards := (rankGroup cards k).take 4
                    kickers := (cards.filter (fun card => decide (card.rank ≠ k))).take 1 }) := by
  unfold checkFourOfAKind
  rw [find_entries]
  cases (rankKeys cards).find? (fun k => decide (4 ≤ rankCount cards k)) <;> rfl

theorem checkThreeOfAKind_eq (cards : List Card) :
    checkThreeOfAKind cards =
      ((rankKeys cards).find? (fun k => decide (3 ≤ rankCount cards k))).map
        (fun k => { strength := .threeOfAKind
                    description := "Three of a Kind, " ++ k.str ++ "s"
                    cards := (rankGroup cards k).take 3
                    kickers := (cards.filter (fun card => decide (card.rank ≠ k))).take 2 }) := by
  unfold checkThreeOfAKind
  rw [find_entries]
  cases (rankKeys cards).find? (fun k => decide (3 ≤ rankCount cards k)) <;> rfl

theorem checkPair_eq (cards : List Card) :
    checkPair cards =
      ((rankKeys cards).find? (fun k => decide (2 ≤ rankCount cards k))).map
        (fun k => { strength := .pair
                    description := "Pair of " ++ k.str ++ "s"
                    cards := (rankGroup cards k).take 2
                    kickers := (cards.filter (fun card => decide (card.rank ≠ k))).take 3 }) := by
  unfold checkPair
  rw [find_entries]
  cases (rankKeys cards).find? (fun k => decide (2 ≤ rankCount cards k)) <;> rfl

theorem pairs_eq (cards : List Card) :
    (objectEntries (groupByValue cards)).filter (fun e => decide (2 ≤ e.2.length)) =
      (pairKeys cards).map (fun k => (k, rankGroup cards k)) := by
  rw [objectEntries_groupByValue, List.filter_map]
  have : ((fun e : Rank × List Card => decide (2 ≤ e.2.length)) ∘
      fun k => (k, rankGroup cards k)) = fun k => decide (2 ≤ rankCount cards k) := by
    funext k; simp [length_rankGroup]
  rw [this]; rfl

theorem checkTwoPair_eq (cards : List Card) :
    checkTwoPair cards =
      match pairKeys cards with
      | first :: second :: _ =>
        some { strength := .twoPair
               description := "Two Pair, " ++ first.str ++ "s and " ++ second.str ++ "s"
               cards := (rankGroup cards first).take 2 ++ (rankGroup cards second).take 2
               kickers := (cards.filter (fun card =>
                 decide (card.rank ≠ first) && decide (card.rank ≠ second))).take 1 }
      | _ => none := by
  unfold checkTwoPair
  simp only [pairs_eq]
  rcases pairKeys cards with _ | ⟨a, _ | ⟨b, t⟩⟩ <;> rfl

theorem checkFullHouse_eq (cards : List Card) :
    checkFullHouse cards =
      if 2 ≤ (pairKeys cards).length then
        match (pairKeys cards).find? (fun k => decide (3 ≤ rankCount cards k)) with
        | some three =>
          match (pairKeys cards).filter (fun k => decide (k ≠ three)) with
          | pair :: _ =>
            some { strength := .fullHouse
                   description := "Full House, " ++ three.str ++ "s over " ++ pair.str ++ "s"
                   cards := (rankGroup cards three).take 3 ++ (rankGroup cards pair).take 2
                   kickers := [] }
          | [] => none
        | none => none
      else none := by
  unfold checkFullHouse
  simp only [pairs_eq, List.length_map]
  split
  · rw [List.find?_map]
    have : ((fun e : Rank × List Card => decide (3 ≤ e.2.length)) ∘
        fun k => (k, rankGroup cards k)) = fun k => decide (3 ≤ rankCount cards k) := by
      funext k; simp [length_rankGroup]
    rw [this]
    cases h : (pairKeys cards).find? (fun k => decide (3 ≤ rankCount cards k)) with
    | none => rfl
    | some three =>
      simp only [Option.map_some', List.filter_map]
      have h2 : ((fun e : Rank × List Card => decide (e.1 ≠ three)) ∘
          fun k => (k, rankGroup cards k)) = fun k => decide (k ≠ three) := by
        funext k; rfl
      rw [h2]
      cases (pairKeys cards).filter (fun k => decide (k ≠ three)) <;> rfl
  · rfl

/-- In a list without repetition at most one card has a given rank and suit. -/
theorem countP_rank_suit_le_one (cards : List Card) (hnd : cards.Nodup) (k : Rank) (x : Suit) :
    cards.countP (fun c => decide (c.rank = k) && decide (c.suit = x)) ≤ 1 := by
  have h1 : cards.countP (fun c => decide (c.rank = k) && decide (c.suit = x)) =
      cards.count ⟨k, x⟩ := by
    rw [List.count_eq_countP]
    apply List.countP_congr
    intro c _
    rcases c with ⟨r, s⟩
    simp [Card.mk.injEq]
  rw [h1]
  exact List.nodup_iff_count_le_one.mp hnd _

/-- The cards of a rank split into those of a suit (at most one) and those of
the other suits. -/
theorem rankCount_le (cards : List Card) (hnd : cards.Nodup) (k : Rank) (x : Suit) :
    rankCount cards k ≤
      1 + cards.countP (fun c => decide (c.rank = k) && !decide (c.suit = x)) := by
  unfold rankCount
  rw [List.countP_eq_countP_filter_add cards _ (fun c => decide (c.suit = x)),
    List.countP_filter, List.countP_filter]
  have := countP_rank_suit_le_one cards hnd k x
  have h2 : cards.countP (fun c => decide (c.rank = k) && !decide (c.suit = x)) =
      cards.countP (fun a => decide (a.rank = k) && decide ¬(decide (a.suit = x)) = true) := by
    apply List.countP_congr
    intro c _
    simp
  omega

theorem suitCount_add (cards : List Card) (x : Suit) :
    suitCount cards x + cards.countP (fun c => !decide (c.suit = x)) = cards.length := by
  unfold suitCount
  rw [List.length_eq_countP_add_countP (fun c => decide (c.suit = x)) cards]
  congr 1
  apply List.countP_congr
  intro c _
  simp

/-- Two disjoint tests count at most the length of the list together. -/
theorem countP_add_le_of_disjoint (l : List Card) (p q r : Card → Bool)
    (hp : ∀ c, p c = true → r c = true) (hq : ∀ c, q c = true → r c = true)
    (hpq : ∀ c, p c = true → q c = true → False) :
    l.countP p + l.countP q ≤ l.countP r := by
  induction l with
  | nil => simp
  | cons c l ih =>
    simp only [List.countP_cons]
    have := hp c; have := hq c; have := hpq c
    cases hpc : p c <;> cases hqc : q c <;> cases hrc : r c <;> simp_all <;> omega

/-- Seven unique cards with five of one suit hold no rank four times. -/
theorem rankCount_lt_four_of_flush (cards : List Card) (hnd : cards.Nodup)
    (hlen : cards.length ≤ 7) (x : Suit) (hx : 5 ≤ suitCount cards x) (k : Rank) :
    rankCount cards k < 4 := by
  have h1 := rankCount_le cards hnd k x
  have h2 := suitCount_add cards x
  have h3 : cards.countP (fun c => decide (c.rank = k) && !decide (c.suit = x)) ≤
      cards.countP (fun c => !decide (c.suit = x)) :=
    List.countP_mono_left (fun c _ h => by simp at h ⊢; exact h.2)
  omega

/-- Seven unique cards with five of one suit hold no three of one rank together
with two of another rank. -/
theorem no_fullHouse_of_flush (cards : List Card) (hnd : cards.Nodup)
    (hlen : cards.length ≤ 7) (x : Suit) (hx : 5 ≤ suitCount cards x) (k1 k2 : Rank)
    (hk : k1 ≠ k2) (h3 : 3 ≤ rankCount cards k1) (h2 : 2 ≤ rankCount cards k2) : False := by
  have a1 := rankCount_le cards hnd k1 x
  have a2 := rankCount_le cards hnd k2 x
  have hs := suitCount_add cards x
  have hd := countP_add_le_of_disjoint cards
    (fun c => decide (c.rank = k1) && !decide (c.suit = x))
    (fun c => decide (c.rank = k2) && !decide (c.suit = x))
    (fun c => !decide (c.suit = x))
    (fun c h => by simp at h ⊢; exact h.2) (fun c h => by simp at h ⊢; exact h.2)
    (fun c h h' => by simp at h h'; exact hk (h.1.symm.trans h'.1))
  omega

theorem checkStraightFlush_strength (cards : List Card) (h : Hand)
    (hh : checkStraightFlush cards = some h) :
    h.strength = .royalFlush ∨ h.strength = .straightFlush := by
  unfold checkStraightFlush at hh
  split at hh
  · cases hh
  · split at hh
    · cases hh
    · simp only [Option.some.injEq] at hh
      subst hh
      simp only
      split
      · exact Or.inl rfl
      · exact Or.inr rfl

theorem checkFourOfAKind_some (cards : List Card) (h : Hand)
    (hh : checkFourOfAKind cards = some h) : ∃ k, 4 ≤ rankCount cards k := by
  rw [checkFourOfAKind_eq] at hh
  cases hf : (rankKeys cards).find? (fun k => decide (4 ≤ rankCount cards k)) with
  | none => rw [hf] at hh; cases hh
  | some k =>
    have := List.find?_some hf
    exact ⟨k, by simpa using this⟩

theorem mem_pairKeys (cards : List Card) (k : Rank) :
    k ∈ pairKeys cards ↔ 2 ≤ rankCount cards k := by
  unfold pairKeys
  rw [List.mem_filter, mem_rankKeys]
  simp only [decide_eq_true_eq, and_iff_right_iff_imp]
  intro h
  unfold rankCount at h
  have hpos : 0 < cards.countP (fun c => decide (c.rank = k)) := by omega
  rcases List.countP_pos_iff.mp hpos with ⟨c, hc, hck⟩
  exact ⟨c, hc, by simpa using hck⟩

theorem checkFullHouse_some (cards : List Card) (h : Hand)
    (hh : checkFullHouse cards = some h) :
    ∃ k1 k2, k1 ≠ k2 ∧ 3 ≤ rankCount cards k1 ∧ 2 ≤ rankCount cards k2 := by
  rw [checkFullHouse_eq] at hh
  split at hh
  · split at hh
    · rename_i three hthree
      split at hh
      · rename_i pair rest hpair
        have h3 := List.find?_some hthree
        have hmem : pair ∈ (pairKeys cards).filter (fun k => decide (k ≠ three)) := by
          rw [hpair]; exact List.mem_cons_self _ _
        rw [List.mem_filter, mem_pairKeys] at hmem
        refine ⟨three, pair, ?_, by simpa using h3, hmem.1⟩
        have := hmem.2
        simp at this
        exact fun e => this e.symm
      · cases hh
    · cases hh
  · cases hh

theorem checkFlush_isSome (cards : List Card) (x : Suit) (hx : 5 ≤ suitCount cards x) :
    ∃ h, checkFlush cards = some h ∧ h.strength = .flush := by
  rw [checkFlush_eq]
  cases hf : (suitKeys cards).find? (fun s => decide (5 ≤ suitCount cards s)) with
  | none =>
    exfalso
    rw [List.find?_eq_none] at hf
    have hmem : x ∈ suitKeys cards := by
      rw [mem_suitKeys]
      unfold suitCount at hx
      have hpos : 0 < cards.countP (fun c => decide (c.suit = x)) := by omega
      rcases List.countP_pos_iff.mp hpos with ⟨c, hc, hck⟩
      exact ⟨c, hc, by simpa using hck⟩
    have := hf x hmem
    simp at this
    omega
  | some s => exact ⟨_, rfl, rfl⟩

theorem sortCards_perm (cards : List Card) : (sortCards cards).Perm cards :=
  List.perm_insertionSort _ _

theorem rankCount_perm {l1 l2 : List Card} (h : l1.Perm l2) (k : Rank) :
    rankCount l1 k = rankCount l2 k := h.countP_eq _

theorem suitCount_perm {l1 l2 : List Card} (h : l1.Perm l2) (s : Suit) :
    suitCount l1 s = suitCount l2 s := h.countP_eq _

/-- C3. For every set of seven unique cards that holds five cards of one suit,
`evaluateCompleteHand` returns flush, straight-flush or royal-flush. -/
theorem evaluateCompleteHand_flush_or_better (cards : List Card) (playerCount : Nat)
    (hset : CardSet cards) (hlen : cards.length = 7)
    (hsuit : ∃ s, 5 ≤ suitCount cards s) :
    (evaluateCompleteHand cards playerCount).strength = .flush ∨
    (evaluateCompleteHand cards playerCount).strength = .straightFlush ∨
    (evaluateCompleteHand cards playerCount).strength = .royalFlush := by
  obtain ⟨x, hx⟩ := hsuit
  have hp := sortCards_perm cards
  have hnd : (sortCards cards).Nodup := hp.nodup_iff.mpr hset.1
  have hl : (sortCards cards).length = 7 := by rw [hp.length_eq, hlen]
  have hx' : 5 ≤ suitCount (sortCards cards) x := by rw [suitCount_perm hp]; exact hx
  show (findBestHand (sortCards cards)).strength = .flush ∨
    (findBestHand (sortCards cards)).strength = .straightFlush ∨
    (findBestHand (sortCards cards)).strength = .royalFlush
  unfold findBestHand
  rw [if_neg (by omega)]
  cases hsf : checkStraightFlush (sortCards cards) with
  | some h =>
    rcases checkStraightFlush_strength _ h hsf with e | e
    · exact Or.inr (Or.inr e)
    · exact Or.inr (Or.inl e)
  | none =>
    cases h4 : checkFourOfAKind (sortCards cards) with
    | some h =>
      exfalso
      obtain ⟨k, hk⟩ := checkFourOfAKind_some _ h h4
      have := rankCount_lt_four_of_flush _ hnd (by omega) x hx' k
      omega
    | none =>
      cases hfh : checkFullHouse (sortCards cards) with
      | some h =>
        exfalso
        obtain ⟨k1, k2, hk, h3, h2⟩ := checkFullHouse_some _ h hfh
        exact no_fullHouse_of_flush _ hnd (by omega) x hx' k1 k2 hk h3 h2
      | none =>
        obtain ⟨h, hf, hs⟩ := checkFlush_isSome _ x hx'
        simp only [hf]
        exact Or.inl hs

theorem evaluateCompleteHand_flush_or_better_witness :
    CardSet [⟨.rA, .spade⟩, ⟨.r9, .spade⟩, ⟨.r8, .spade⟩, ⟨.r7, .spade⟩, ⟨.r4, .spade⟩,
      ⟨.r7, .heart⟩, ⟨.r7, .diamond⟩] ∧
    ([⟨.rA, .spade⟩, ⟨.r9, .spade⟩, ⟨.r8, .spade⟩, ⟨.r7, .spade⟩, ⟨.r4, .spade⟩,
      ⟨.r7, .heart⟩, ⟨.r7, .diamond⟩] : List Card).length = 7 ∧
    (∃ s, 5 ≤ suitCount [⟨.rA, .spade⟩, ⟨.r9, .spade⟩, ⟨.r8, .spade⟩, ⟨.r7, .spade⟩,
      ⟨.r4, .spade⟩, ⟨.r7, .heart⟩, ⟨.r7, .diamond⟩] s) ∧
    ((evaluateCompleteHand [⟨.rA, .spade⟩, ⟨.r9, .spade⟩, ⟨.r8, .spade⟩, ⟨.r7, .spade⟩,
      ⟨.r4, .spade⟩, ⟨.r7, .heart⟩, ⟨.r7, .diamond⟩] 6).strength = .flush ∨
    (evaluateCompleteHand [⟨.rA, .spade⟩, ⟨.r9, .spade⟩, ⟨.r8, .spade⟩, ⟨.r7, .spade⟩,
      ⟨.r4, .spade⟩, ⟨.r7, .heart⟩, ⟨.r7, .diamond⟩] 6).strength = .straightFlush ∨
    (evaluateCompleteHand [⟨.rA, .spade⟩, ⟨.r9, .spade⟩, ⟨.r8, .spade⟩, ⟨.r7, .spade⟩,
      ⟨.r4, .spade⟩, ⟨.r7, .heart⟩, ⟨.r7, .diamond⟩] 6).strength = .royalFlush) :=
  ⟨by decide, by decide, ⟨.spade, by decide⟩,
    evaluateCompleteHand_flush_or_better
      [⟨.rA, .spade⟩, ⟨.r9, .spade⟩, ⟨.r8, .spade⟩, ⟨.r7, .spade⟩, ⟨.r4, .spade⟩,
        ⟨.r7, .heart⟩, ⟨.r7, .diamond⟩] 6 (by decide) (by decide) ⟨.spade, by decide⟩⟩

theorem cardValues_of_canonical (r : Rank) (h : r.canonical) : cardValues r = some r.value := by
  cases r <;> first | rfl | exact absurd rfl h.1 | exact absurd rfl h.2

theorem getValueRank_value (r : Rank) (h : r.canonical) : getValueRank (some r.value) = r := by
  cases r <;> first | rfl | exact absurd rfl h.1 | exact absurd rfl h.2

theorem staysBefore_iff (a b : Card) (ha : a.rank.canonical) (hb : b.rank.canonical) :
    staysBefore a b ↔ b.rank.value ≤ a.rank.value := by
  unfold staysBefore
  rw [cardValues_of_canonical _ ha, cardValues_of_canonical _ hb]
  simp only
  omega

/-- On cards of the model, `sortCards` sorts the values in descending order. -/
theorem map_value_sortCards (cards : List Card) (hc : ∀ c ∈ cards, c.rank.canonical) :
    (sortCards cards).map (fun c => c.rank.value) =
      (cards.map (fun c => c.rank.value)).insertionSort (fun a b => b ≤ a) := by
  unfold sortCards
  exact List.map_insertionSort staysBefore (fun a b : Nat => b ≤ a) (fun c => c.rank.value) cards
    (fun a ha b hb => staysBefore_iff a b (hc a ha) (hc b hb))

theorem sorted_value_sortCards (cards : List Card) (hc : ∀ c ∈ cards, c.rank.canonical) :
    ((sortCards cards).map (fun c => c.rank.value)).Sorted (fun a b => b ≤ a) := by
  rw [map_value_sortCards cards hc]
  exact List.sorted_insertionSort _ _

theorem canonical_sortCards (cards : List Card) (hc : ∀ c ∈ cards, c.rank.canonical) :
    ∀ c ∈ sortCards cards, c.rank.canonical :=
  fun c h => hc c ((sortCards_perm cards).mem_iff.mp h)

theorem map_rank_eq_of_value (l : List Card) (hc : ∀ c ∈ l, c.rank.canonical) :
    l.map Card.rank = (l.map (fun c => c.rank.value)).map (fun v => getValueRank (some v)) := by
  rw [List.map_map]
  apply List.map_congr_left
  intro c h
  exact (getValueRank_value c.rank (hc c h)).symm

/-- Two orders of the same cards of the model sort to the same sequence of
values. -/
theorem map_value_sortCards_perm (l1 l2 : List Card) (hp : l1.Perm l2)
    (hc : ∀ c ∈ l1, c.rank.canonical) :
    (sortCards l1).map (fun c => c.rank.value) = (sortCards l2).map (fun c => c.rank.value) := by
  have hc2 : ∀ c ∈ l2, c.rank.canonical := fun c h => hc c (hp.mem_iff.mpr h)
  rw [map_value_sortCards l1 hc, map_value_sortCards l2 hc2]
  apply List.eq_of_perm_of_sorted (r := fun a b : Nat => b ≤ a)
  · exact ((List.perm_insertionSort _ _).trans (hp.map _)).trans (List.perm_insertionSort _ _).symm
  · exact List.sorted_insertionSort _ _
  · exact List.sorted_insertionSort _ _

/-- Two orders of the same cards of the model sort to the same sequence of
ranks. -/
theorem map_rank_sortCards_perm (l1 l2 : List Card) (hp : l1.Perm l2)
    (hc : ∀ c ∈ l1, c.rank.canonical) :
    (sortCards l1).map Card.rank = (sortCards l2).map Card.rank := by
  have hc2 : ∀ c ∈ l2, c.rank.canonical := fun c h => hc c (hp.mem_iff.mpr h)
  rw [map_rank_eq_of_value _ (canonical_sortCards l1 hc),
    map_rank_eq_of_value _ (canonical_sortCards l2 hc2), map_value_sortCards_perm l1 l2 hp hc]

theorem suitGroup_eq_of_value (l : List Card) (hc : ∀ c ∈ l, c.rank.canonical) (x : Suit) :
    suitGroup l x =
      ((suitGroup l x).map (fun c => c.rank.value)).map
        (fun v => (⟨getValueRank (some v), x⟩ : Card)) := by
  rw [List.map_map]
  conv_lhs => rw [← List.map_id (suitGroup l x)]
  apply List.map_congr_left
  intro c h
  unfold suitGroup at h
  rw [List.mem_filter] at h
  rcases c with ⟨r, s⟩
  have hs : s = x := by simpa using h.2
  subst hs
  simp [getValueRank_value r (hc _ h.1)]

/-- Two orders of the same cards of the model sort to the same cards of every
suit, in the same order. -/
theorem suitGroup_sortCards_perm (l1 l2 : List Card) (hp : l1.Perm l2)
    (hc : ∀ c ∈ l1, c.rank.canonical) (x : Suit) :
    suitGroup (sortCards l1) x = suitGroup (sortCards l2) x := by
  have hc2 : ∀ c ∈ l2, c.rank.canonical := fun c h => hc c (hp.mem_iff.mpr h)
  rw [suitGroup_eq_of_value _ (canonical_sortCards l1 hc) x,
    suitGroup_eq_of_value (sortCards l2) (canonical_sortCards l2 hc2) x]
  congr 1
  have hsub : ∀ l : List Card, (∀ c ∈ l, c.rank.canonical) →
      ((suitGroup (sortCards l) x).map (fun c => c.rank.value)).Sorted (fun a b => b ≤ a) := by
    intro l hl
    exact List.Pairwise.sublist ((List.filter_sublist _).map _) (sorted_value_sortCards l hl)
  apply List.eq_of_perm_of_sorted (r := fun a b : Nat => b ≤ a)
  · apply List.Perm.map
    unfold suitGroup
    apply List.Perm.filter
    exact ((sortCards_perm l1).trans hp).trans (sortCards_perm l2).symm
  · exact hsub l1 hc
  · exact hsub l2 hc2

theorem rankCount_eq_count (s : List Card) (k : Rank) :
    rankCount s k = (s.map Card.rank).count k := by
  unfold rankCount
  rw [List.count_eq_countP, List.countP_map]
  apply List.countP_congr
  intro c _
  simp

theorem map_rank_filter (s : List Card) (p : Rank → Bool) :
    (s.filter (fun c => p c.rank)).map Card.rank = (s.map Card.rank).filter p := by
  rw [List.filter_map]; rfl

theorem rankKeys_congr {s1 s2 : List Card} (hR : s1.map Card.rank = s2.map Card.rank) : rankKeys s1 = rankKeys s2 := by
  unfold rankKeys; rw [hR]

theorem rankCount_congr {s1 s2 : List Card} (hR : s1.map Card.rank = s2.map Card.rank) (k : Rank) : rankCount s1 k = rankCount s2 k := by
  rw [rankCount_eq_count, rankCount_eq_count, hR]

theorem pairKeys_congr {s1 s2 : List Card} (hR : s1.map Card.rank = s2.map Card.rank) : pairKeys s1 = pairKeys s2 := by
  unfold pairKeys
  rw [rankKeys_congr hR]
  apply List.filter_congr
  intro k _
  rw [rankCount_congr hR]

theorem filter_rank_congr {s1 s2 : List Card} (hR : s1.map Card.rank = s2.map Card.rank) (p : Rank → Bool) :
    (s1.filter (fun c => p c.rank)).map Card.rank =
      (s2.filter (fun c => p c.rank)).map Card.rank := by
  rw [map_rank_filter, map_rank_filter, hR]

theorem rankGroup_congr {s1 s2 : List Card} (hR : s1.map Card.rank = s2.map Card.rank) (k : Rank) :
    (rankGroup s1 k).map Card.rank = (rankGroup s2 k).map Card.rank :=
  filter_rank_congr hR (fun r => decide (r = k))

theorem find_rank_congr {s1 s2 : List Card} (hR : s1.map Card.rank = s2.map Card.rank) (p : Rank → Bool) :
    (s1.find? (fun c => p c.rank)).map Card.rank =
      (s2.find? (fun c => p c.rank)).map Card.rank := by
  have h : ∀ s : List Card,
      (s.find? (fun c => p c.rank)).map Card.rank = (s.map Card.rank).find? p := by
    intro s; rw [List.find?_map]; rfl
  rw [h, h, hR]

theorem straightCards_congr {s1 s2 : List Card} (hR : s1.map Card.rank = s2.map Card.rank) (sequence : List (Option Nat)) :
    (straightCards s1 sequence).map Card.rank = (straightCards s2 sequence).map Card.rank := by
  unfold straightCards
  rw [List.map_filterMap, List.map_filterMap]
  apply List.filterMap_congr
  intro v _
  exact find_rank_congr hR (fun r => decide (cardValues r = v))

theorem straightWindow_congr {s1 s2 : List Card} (hR : s1.map Card.rank = s2.map Card.rank) (u : List (Option Nat)) :
    (straightWindow s1 u).map Hand.outline = (straightWindow s2 u).map Hand.outline := by
  induction u with
  | nil => rfl
  | cons v rest ih =>
    unfold straightWindow
    split
    · split
      · simp only [Option.map_some', Hand.outline, straightCards_congr hR]
      · exact ih
    · rfl

theorem checkStraight_congr {s1 s2 : List Card} (hR : s1.map Card.rank = s2.map Card.rank) :
    (checkStraight s1).map Hand.outline = (checkStraight s2).map Hand.outline := by
  unfold checkStraight
  have hv : s1.map (fun card => cardValues card.rank) = s2.map (fun card => cardValues card.rank) := by
    have h : ∀ s : List Card,
        s.map (fun card => cardValues card.rank) = (s.map Card.rank).map cardValues := by
      intro s; rw [List.map_map]; rfl
    rw [h, h, hR]
  rw [hv]
  simp only
  have hw := straightWindow_congr hR
    (sortDescending (jsSet (s2.map (fun card => cardValues card.rank))))
  cases h1 : straightWindow s1 (sortDescending (jsSet (s2.map (fun card => cardValues card.rank))))
    <;> cases h2 : straightWindow s2
      (sortDescending (jsSet (s2.map (fun card => cardValues card.rank))))
    <;> rw [h1, h2] at hw
  · simp only
    split
    · simp only [Option.map_some', Hand.outline, straightCards_congr hR]
    · rfl
  · cases hw
  · cases hw
  · exact hw

theorem checkFourOfAKind_congr {s1 s2 : List Card} (hR : s1.map Card.rank = s2.map Card.rank) :
    (checkFourOfAKind s1).map Hand.outline = (checkFourOfAKind s2).map Hand.outline := by
  rw [checkFourOfAKind_eq, checkFourOfAKind_eq, rankKeys_congr hR]
  have hp : (fun k => decide (4 ≤ rankCount s1 k)) = fun k => decide (4 ≤ rankCount s2 k) := by
    funext k; rw [rankCount_congr hR]
  rw [hp, Option.map_map, Option.map_map]
  congr 1
  funext k
  simp only [Function.comp, Hand.outline, List.map_take, rankGroup_congr hR,
    filter_rank_congr hR (fun r => decide (r ≠ k))]

theorem checkThreeOfAKind_congr {s1 s2 : List Card} (hR : s1.map Card.rank = s2.map Card.rank) :
    (checkThreeOfAKind s1).map Hand.outline = (checkThreeOfAKind s2).map Hand.outline := by
  rw [checkThreeOfAKind_eq, checkThreeOfAKind_eq, rankKeys_congr hR]
  have hp : (fun k => decide (3 ≤ rankCount s1 k)) = fun k => decide (3 ≤ rankCount s2 k) := by
    funext k; rw [rankCount_congr hR]
  rw [hp, Option.map_map, Option.map_map]
  congr 1
  funext k
  simp only [Function.comp, Hand.outline, List.map_take, rankGroup_congr hR,
    filter_rank_congr hR (fun r => decide (r ≠ k))]

theorem checkPair_congr {s1 s2 : List Card} (hR : s1.map Card.rank = s2.map Card.rank) :
    (checkPair s1).map Hand.outline = (checkPair s2).map Hand.outline := by
  rw [checkPair_eq, checkPair_eq, rankKeys_congr hR]
  have hp : (fun k => decide (2 ≤ rankCount s1 k)) = fun k => decide (2 ≤ rankCount s2 k) := by
    funext k; rw [rankCount_congr hR]
  rw [hp, Option.map_map, Option.map_map]
  congr 1
  funext k
  simp only [Function.comp, Hand.outline, List.map_take, rankGroup_congr hR,
    filter_rank_congr hR (fun r => decide (r ≠ k))]

theorem checkTwoPair_congr {s1 s2 : List Card} (hR : s1.map Card.rank = s2.map Card.rank) :
    (checkTwoPair s1).map Hand.outline = (checkTwoPair s2).map Hand.outline := by
  rw [checkTwoPair_eq, checkTwoPair_eq, pairKeys_congr hR]
  rcases pairKeys s2 with _ | ⟨a, _ | ⟨b, t⟩⟩
  · rfl
  · rfl
  · simp only [Option.map_some', Hand.outline, List.map_take, List.map_append,
      rankGroup_congr hR,
      filter_rank_congr hR (fun r => decide (r ≠ a) && decide (r ≠ b))]

theorem checkFullHouse_congr {s1 s2 : List Card} (hR : s1.map Card.rank = s2.map Card.rank) :
    (checkFullHouse s1).map Hand.outline = (checkFullHouse s2).map Hand.outline := by
  rw [checkFullHouse_eq, checkFullHouse_eq, pairKeys_congr hR]
  have hp : (fun k => decide (3 ≤ rankCount s1 k)) = fun k => decide (3 ≤ rankCount s2 k) := by
    funext k; rw [rankCount_congr hR]
  rw [hp]
  split
  · cases (pairKeys s2).find? (fun k => decide (3 ≤ rankCount s2 k)) with
    | none => rfl
    | some three =>
      simp only
      cases (pairKeys s2).filter (fun k => decide (k ≠ three)) with
      | nil => rfl
      | cons pair rest =>
        simp only [Option.map_some', Hand.outline, List.map_take, List.map_append,
          rankGroup_congr hR]
  · rfl

theorem checkHighCard_congr {s1 s2 : List Card} (hR : s1.map Card.rank = s2.map Card.rank) :
    (checkHighCard s1).outline = (checkHighCard s2).outline := by
  unfold checkHighCard Hand.outline
  have hh : s1.head?.map Card.rank = s2.head?.map Card.rank := by
    rw [← List.head?_map, ← List.head?_map, hR]
  simp only [List.map_take, List.map_drop, hR]
  cases h1 : s1.head? <;> cases h2 : s2.head? <;> rw [h1, h2] at hh <;> simp at hh ⊢
  rw [hh]

theorem findBestHand_eq (cards : List Card) :
    findBestHand cards =
      if cards.length < 5 then
        { strength := .incomplete, description := "Not enough cards", cards := [], kickers := [] }
      else
        (checkStraightFlush cards).getD <| (checkFourOfAKind cards).getD <|
        (checkFullHouse cards).getD <| (checkFlush cards).getD <|
        (checkStraight cards).getD <| (checkThreeOfAKind cards).getD <|
        (checkTwoPair cards).getD <| (checkPair cards).getD <| checkHighCard cards := by
  unfold findBestHand
  split
  · rfl
  · cases checkStraightFlush cards <;> cases checkFourOfAKind cards <;>
      cases checkFullHouse cards <;> cases checkFlush cards <;> cases checkStraight cards <;>
      cases checkThreeOfAKind cards <;> cases checkTwoPair cards <;> cases checkPair cards <;> rfl

theorem getD_outline_congr (a1 a2 : Option Hand) (r1 r2 : Hand)
    (ha : a1.map Hand.outline = a2.map Hand.outline) (hr : r1.outline = r2.outline) :
    (a1.getD r1).outline = (a2.getD r2).outline := by
  cases a1 <;> cases a2 <;> simp at ha ⊢
  · exact hr
  · exact ha

/-- At most nine cards hold five cards of at most one suit. -/
theorem flush_suit_unique (s : List Card) (hlen : s.length ≤ 9) (x y : Suit)
    (hx : 5 ≤ suitCount s x) (hy : 5 ≤ suitCount s y) : x = y := by
  by_contra hxy
  have hd := countP_add_le_of_disjoint s (fun c => decide (c.suit = x))
    (fun c => decide (c.suit = y)) (fun _ => true) (fun _ _ => rfl) (fun _ _ => rfl)
    (fun c h h' => by simp at h h'; exact hxy (h.symm.trans h'))
  have : s.countP (fun _ => true) ≤ s.length := List.countP_le_length _
  unfold suitCount at hx hy
  omega

theorem find_eq_of_unique {α : Type} (p : α → Bool) (L1 L2 : List α)
    (hm : ∀ x, x ∈ L1 ↔ x ∈ L2) (hu : ∀ x y, p x = true → p y = true → x = y) :
    L1.find? p = L2.find? p := by
  cases h1 : L1.find? p with
  | none =>
    cases h2 : L2.find? p with
    | none => rfl
    | some y =>
      exfalso
      rw [List.find?_eq_none] at h1
      exact h1 y ((hm y).mpr (List.mem_of_find?_eq_some h2)) (List.find?_some h2)
  | some x =>
    cases h2 : L2.find? p with
    | none =>
      exfalso
      rw [List.find?_eq_none] at h2
      exact h2 x ((hm x).mp (List.mem_of_find?_eq_some h1)) (List.find?_some h1)
    | some y =>
      rw [hu x y (List.find?_some h1) (List.find?_some h2)]

/-- The flush found in the sorted cards does not depend on the order in which
the cards were given. -/
theorem checkFlush_sortCards_perm (l1 l2 : List Card) (hp : l1.Perm l2)
    (hc : ∀ c ∈ l1, c.rank.canonical) (hlen : l1.length ≤ 9) :
    checkFlush (sortCards l1) = checkFlush (sortCards l2) := by
  have hps : (sortCards l1).Perm (sortCards l2) :=
    ((sortCards_perm l1).trans hp).trans (sortCards_perm l2).symm
  rw [checkFlush_eq, checkFlush_eq]
  simp only [suitCount_perm hps, suitGroup_sortCards_perm l1 l2 hp hc]
  congr 1
  apply find_eq_of_unique
  · intro x
    rw [mem_suitKeys, mem_suitKeys]
    constructor
    · rintro ⟨c, h, e⟩; exact ⟨c, hps.mem_iff.mp h, e⟩
    · rintro ⟨c, h, e⟩; exact ⟨c, hps.mem_iff.mpr h, e⟩
  · intro x y hx hy
    have hl : (sortCards l2).length ≤ 9 := by
      rw [(sortCards_perm l2).length_eq, ← hp.length_eq]; exact hlen
    exact flush_suit_unique _ hl x y (by simpa using hx) (by simpa using hy)

theorem checkStraightFlush_sortCards_perm (l1 l2 : List Card) (hp : l1.Perm l2)
    (hc : ∀ c ∈ l1, c.rank.canonical) (hlen : l1.length ≤ 9) :
    checkStraightFlush (sortCards l1) = checkStraightFlush (sortCards l2) := by
  unfold checkStraightFlush
  rw [checkFlush_sortCards_perm l1 l2 hp hc hlen]

/-- The best hand found in the sorted cards is the same, up to the suits of its
cards, for every order in which the cards were given. -/
theorem findBestHand_sortCards_perm (l1 l2 : List Card) (hp : l1.Perm l2)
    (hc : ∀ c ∈ l1, c.rank.canonical) (hlen : l1.length ≤ 9) :
    (findBestHand (sortCards l1)).outline = (findBestHand (sortCards l2)).outline := by
  have hR := map_rank_sortCards_perm l1 l2 hp hc
  have hl : (sortCards l1).length = (sortCards l2).length := by
    rw [(sortCards_perm l1).length_eq, (sortCards_perm l2).length_eq, hp.length_eq]
  rw [findBestHand_eq, findBestHand_eq, hl]
  split
  · rfl
  · apply getD_outline_congr _ _ _ _ (by rw [checkStraightFlush_sortCards_perm l1 l2 hp hc hlen])
    apply getD_outline_congr _ _ _ _ (checkFourOfAKind_congr hR)
    apply getD_outline_congr _ _ _ _ (checkFullHouse_congr hR)
    apply getD_outline_congr _ _ _ _ (by rw [checkFlush_sortCards_perm l1 l2 hp hc hlen])
    apply getD_outline_congr _ _ _ _ (checkStraight_congr hR)
    apply getD_outline_congr _ _ _ _ (checkThreeOfAKind_congr hR)
    apply getD_outline_congr _ _ _ _ (checkTwoPair_congr hR)
    apply getD_outline_congr _ _ _ _ (checkPair_congr hR)
    exact checkHighCard_congr hR

/-- C2. For every list of 5 to 7 unique cards and every permutation of it,
`evaluateCompleteHand` returns the same category for both. -/
theorem evaluateCompleteHand_strength_perm (cards permuted : List Card) (playerCount : Nat)
    (hset : CardSet cards) (hmin : 5 ≤ cards.length) (hmax : cards.length ≤ 7)
    (hperm : cards.Perm permuted) :
    (evaluateCompleteHand cards playerCount).strength =
      (evaluateCompleteHand permuted playerCount).strength := by
  have h := findBestHand_sortCards_perm cards permuted hperm (fun c hc => (hset.2 c hc).1)
    (by omega)
  exact congrArg (fun o => o.1) h

theorem evaluateCompleteHand_strength_perm_witness :
    CardSet [⟨.rK, .spade⟩, ⟨.rK, .heart⟩, ⟨.r9, .spade⟩, ⟨.r4, .club⟩, ⟨.r2, .diamond⟩] ∧
    5 ≤ ([⟨.rK, .spade⟩, ⟨.rK, .heart⟩, ⟨.r9, .spade⟩, ⟨.r4, .club⟩, ⟨.r2, .diamond⟩] :
      List Card).length ∧
    ([⟨.rK, .spade⟩, ⟨.rK, .heart⟩, ⟨.r9, .spade⟩, ⟨.r4, .club⟩, ⟨.r2, .diamond⟩] :
      List Card).length ≤ 7 ∧
    List.Perm [⟨.rK, .spade⟩, ⟨.rK, .heart⟩, ⟨.r9, .spade⟩, ⟨.r4, .club⟩, ⟨.r2, .diamond⟩]
      [⟨.r2, .diamond⟩, ⟨.rK, .heart⟩, ⟨.r9, .spade⟩, ⟨.r4, .club⟩, (⟨.rK, .spade⟩ : Card)] ∧
    (evaluateCompleteHand
      [⟨.rK, .spade⟩, ⟨.rK, .heart⟩, ⟨.r9, .spade⟩, ⟨.r4, .club⟩, ⟨.r2, .diamond⟩] 6).strength =
    (evaluateCompleteHand
      [⟨.r2, .diamond⟩, ⟨.rK, .heart⟩, ⟨.r9, .spade⟩, ⟨.r4, .club⟩, ⟨.rK, .spade⟩] 6).strength :=
  ⟨by decide, by decide, by decide, by decide,
    evaluateCompleteHand_strength_perm
      [⟨.rK, .spade⟩, ⟨.rK, .heart⟩, ⟨.r9, .spade⟩, ⟨.r4, .club⟩, ⟨.r2, .diamond⟩]
      [⟨.r2, .diamond⟩, ⟨.rK, .heart⟩, ⟨.r9, .spade⟩, ⟨.r4, .club⟩, ⟨.rK, .spade⟩] 6
      (by decide) (by decide) (by decide) (by decide)⟩

/-- C7, amended. For every list of 5 to 7 unique cards and every permutation of
it, `evaluateCompleteHand` returns for both the same category, the same
description, the same adjusted rank, and selected cards and kickers of the same
ranks in the same order; the cards themselves may differ in suit where two
cards share a rank. -/
theorem evaluateCompleteHand_outline_perm (cards permuted : List Card) (playerCount : Nat)
    (hset : CardSet cards) (hmin : 5 ≤ cards.length) (hmax : cards.length ≤ 7)
    (hperm : cards.Perm permuted) :
    (evaluateCompleteHand cards playerCount).strength =
      (evaluateCompleteHand permuted playerCount).strength ∧
    (evaluateCompleteHand cards playerCount).description =
      (evaluateCompleteHand permuted playerCount).description ∧
    (evaluateCompleteHand cards playerCount).rank =
      (evaluateCompleteHand permuted playerCount).rank ∧
    (evaluateCompleteHand cards playerCount).cards.map Card.rank =
      (evaluateCompleteHand permuted playerCount).cards.map Card.rank ∧
    (evaluateCompleteHand cards playerCount).kickers.map Card.rank =
      (evaluateCompleteHand permuted playerCount).kickers.map Card.rank := by
  have h := findBestHand_sortCards_perm cards permuted hperm (fun c hc => (hset.2 c hc).1)
    (by omega)
  have hs : (findBestHand (sortCards cards)).strength =
      (findBestHand (sortCards permuted)).strength := congrArg (fun o => o.1) h
  refine ⟨hs, congrArg (fun o => o.2.1) h, ?_, congrArg (fun o => o.2.2.1) h,
    congrArg (fun o => o.2.2.2) h⟩
  unfold evaluateCompleteHand
  simp only [hs]

theorem evaluateCompleteHand_outline_perm_witness :
    CardSet [⟨.rK, .spade⟩, ⟨.rK, .heart⟩, ⟨.rQ, .spade⟩, ⟨.rQ, .heart⟩, ⟨.rJ, .spade⟩,
      ⟨.rJ, .heart⟩, ⟨.r5, .diamond⟩] ∧
    5 ≤ ([⟨.rK, .spade⟩, ⟨.rK, .heart⟩, ⟨.rQ, .spade⟩, ⟨.rQ, .heart⟩, ⟨.rJ, .spade⟩,
      ⟨.rJ, .heart⟩, ⟨.r5, .diamond⟩] : List Card).length ∧
    ([⟨.rK, .spade⟩, ⟨.rK, .heart⟩, ⟨.rQ, .spade⟩, ⟨.rQ, .heart⟩, ⟨.rJ, .spade⟩,
      ⟨.rJ, .heart⟩, ⟨.r5, .diamond⟩] : List Card).length ≤ 7 ∧
    List.Perm [⟨.rK, .spade⟩, ⟨.rK, .heart⟩, ⟨.rQ, .spade⟩, ⟨.rQ, .heart⟩, ⟨.rJ, .spade⟩,
      ⟨.rJ, .heart⟩, ⟨.r5, .diamond⟩]
      [⟨.rK, .spade⟩, ⟨.rK, .heart⟩, ⟨.rQ, .spade⟩, ⟨.rQ, .heart⟩, ⟨.rJ, .heart⟩,
      ⟨.rJ, .spade⟩, (⟨.r5, .diamond⟩ : Card)] ∧
    (evaluateCompleteHand [⟨.rK, .spade⟩, ⟨.rK, .heart⟩, ⟨.rQ, .spade⟩, ⟨.rQ, .heart⟩,
      ⟨.rJ, .spade⟩, ⟨.rJ, .heart⟩, ⟨.r5, .diamond⟩] 6).kickers.map Card.rank =
    (evaluateCompleteHand [⟨.rK, .spade⟩, ⟨.rK, .heart⟩, ⟨.rQ, .spade⟩, ⟨.rQ, .heart⟩,
      ⟨.rJ, .heart⟩, ⟨.rJ, .spade⟩, ⟨.r5, .diamond⟩] 6).kickers.map Card.rank :=
  ⟨by decide, by decide, by decide, by decide,
    (evaluateCompleteHand_outline_perm
      [⟨.rK, .spade⟩, ⟨.rK, .heart⟩, ⟨.rQ, .spade⟩, ⟨.rQ, .heart⟩, ⟨.rJ, .spade⟩,
        ⟨.rJ, .heart⟩, ⟨.r5, .diamond⟩]
      [⟨.rK, .spade⟩, ⟨.rK, .heart⟩, ⟨.rQ, .spade⟩, ⟨.rQ, .heart⟩, ⟨.rJ, .heart⟩,
        ⟨.rJ, .spade⟩, ⟨.r5, .diamond⟩] 6
      (by decide) (by decide) (by decide) (by decide)).2.2.2.2⟩

theorem straightCards_of_present (cards : List Card) (hc : ∀ c ∈ cards, c.rank.canonical) :
    ∀ vs : List Nat, (∀ v ∈ vs, ∃ c ∈ cards, c.rank.value = v) →
      (straightCards cards (vs.map some)).map (fun c => c.rank.value) = vs ∧
      ∀ c ∈ straightCards cards (vs.map some), c ∈ cards
  | [], _ => by simp [straightCards]
  | v :: vs, h => by
    have ih := straightCards_of_present cards hc vs
      (fun w hw => h w (List.mem_cons_of_mem _ hw))
    obtain ⟨c, hcm, hcv⟩ := h v (List.mem_cons_self _ _)
    unfold straightCards at ih ⊢
    cases hf : cards.find? (fun c => decide (cardValues c.rank = some v)) with
    | none =>
      exfalso
      rw [List.find?_eq_none] at hf
      have := hf c hcm
      rw [cardValues_of_canonical _ (hc c hcm), hcv] at this
      simp at this
    | some d =>
      have hd := List.find?_some hf
      have hdm := List.mem_of_find?_eq_some hf
      rw [cardValues_of_canonical _ (hc d hdm)] at hd
      simp only [decide_eq_true_eq, Option.some.injEq] at hd
      simp only [List.map_cons, List.filterMap_cons, hf, List.mem_cons]
      refine ⟨by rw [ih.1, hd], ?_⟩
      rintro e (he | he)
      · rw [he]; exact hdm
      · exact ih.2 e he

theorem windowAt_length (u : List Nat) (t : Nat) (h : windowAt u t) : 5 ≤ u.length := by
  obtain ⟨h4, h0, h1, h2, h3, h5⟩ := h
  have hnd : [t, t - 1, t - 2, t - 3, t - 4].Nodup := by
    simp only [List.nodup_cons, List.mem_cons, List.mem_singleton, List.not_mem_nil,
      not_false_eq_true, List.nodup_nil, and_true, not_or, or_false]
    omega
  have hsub : [t, t - 1, t - 2, t - 3, t - 4] ⊆ u := by
    intro v hv
    simp only [List.mem_cons, List.mem_singleton, List.not_mem_nil, or_false] at hv
    rcases hv with rfl | rfl | rfl | rfl | rfl <;> assumption
  exact (List.subperm_of_subset hnd hsub).length_le

theorem mem_five (x a b c d e : Nat) (rest : List Nat)
    (h : x ∈ a :: b :: c :: d :: e :: rest) (hr : ∀ y ∈ rest, y < e) :
    x = a ∨ x = b ∨ x = c ∨ x = d ∨ x = e ∨ x < e := by
  simp only [List.mem_cons] at h
  have hlast : x ∈ rest → x < e := hr x
  tauto

theorem windowAt_cons_of_ne (a : Nat) (rest : List Nat) (t : Nat) (hlt : ∀ y ∈ rest, y < a)
    (h : windowAt (a :: rest) t) (hta : t ≠ a) : windowAt rest t := by
  obtain ⟨h4, h0, h1, h2, h3, h5⟩ := h
  have ht : t ∈ rest := by
    rcases List.mem_cons.mp h0 with e | e
    · exact absurd e hta
    · exact e
  have hlt' := hlt t ht
  have key : ∀ x, x ∈ a :: rest → x < a → x ∈ rest := by
    intro x hx hxa
    rcases List.mem_cons.mp hx with e | e
    · omega
    · exact e
  exact ⟨h4, ht, key _ h1 (by omega), key _ h2 (by omega), key _ h3 (by omega),
    key _ h5 (by omega)⟩

theorem windowAt_cons (a : Nat) (rest : List Nat) (t : Nat) (h : windowAt rest t) :
    windowAt (a :: rest) t := by
  obtain ⟨h4, h0, h1, h2, h3, h5⟩ := h
  exact ⟨h4, List.mem_cons_of_mem _ h0, List.mem_cons_of_mem _ h1, List.mem_cons_of_mem _ h2,
    List.mem_cons_of_mem _ h3, List.mem_cons_of_mem _ h5⟩

/-- The first loop of `checkStraight` on a strictly descending list of values:
it finds the highest top of five consecutive values, if there is one. -/
theorem straightWindow_spec (cards : List Card) :
    ∀ u : List Nat, u.Sorted (fun a b => b < a) →
      (∀ h, straightWindow cards (u.map some) = some h →
        ∃ t, windowAt u t ∧ (∀ t', windowAt u t' → t' ≤ t) ∧
          h = { strength := .straight
                description := "Straight, " ++ getRankName (some t) ++ " high"
                cards := straightCards cards ([t, t - 1, t - 2, t - 3, t - 4].map some)
                kickers := [] }) ∧
      (straightWindow cards (u.map some) = none → ∀ t, ¬ windowAt u t)
  | [], _ => by
    constructor
    · intro h hh; simp [straightWindow] at hh
    · intro _ t ht; exact absurd ht.2.1 (List.not_mem_nil _)
  | a :: rest, hs => by
    have hlt : ∀ y ∈ rest, y < a := (List.sorted_cons.mp hs).1
    have hsr : rest.Sorted (fun a b => b < a) := (List.sorted_cons.mp hs).2
    have ih := straightWindow_spec cards rest hsr
    by_cases hlen : 5 ≤ (a :: rest).length
    · rcases rest with _ | ⟨b, _ | ⟨c, _ | ⟨d, _ | ⟨e, rest'⟩⟩⟩⟩
      · simp at hlen
      · simp at hlen
      · simp at hlen
      · simp at hlen
      · have hb : b < a := hlt b (by simp)
        have hcb : c < b := (List.sorted_cons.mp hsr).1 c (by simp)
        have hsr2 := (List.sorted_cons.mp hsr).2
        have hdc : d < c := (List.sorted_cons.mp hsr2).1 d (by simp)
        have hsr3 := (List.sorted_cons.mp hsr2).2
        have hed : e < d := (List.sorted_cons.mp hsr3).1 e (by simp)
        have hsr4 := (List.sorted_cons.mp hsr3).2
        have hre : ∀ y ∈ rest', y < e := (List.sorted_cons.mp hsr4).1
        by_cases hw : a = e + 4
        · have hwin : isWindow ((some a :: (b :: c :: d :: e :: rest').map some).take 5) = true := by
            simp [isWindow, hw]
          have hseq : (some a :: (b :: c :: d :: e :: rest').map some).take 5 =
              [a, a - 1, a - 2, a - 3, a - 4].map some := by
            have : b = a - 1 ∧ c = a - 2 ∧ d = a - 3 ∧ e = a - 4 := by omega
            obtain ⟨rfl, rfl, rfl, h4⟩ := this
            simp [← h4]
          have hat : windowAt (a :: b :: c :: d :: e :: rest') a := by
            have : b = a - 1 ∧ c = a - 2 ∧ d = a - 3 ∧ e = a - 4 := by omega
            obtain ⟨e1, e2, e3, e4⟩ := this
            refine ⟨by omega, by simp, ?_, ?_, ?_, ?_⟩
            · rw [← e1]; simp
            · rw [← e2]; simp
            · rw [← e3]; simp
            · rw [← e4]; simp
          constructor
          · intro h hh
            refine ⟨a, hat, ?_, ?_⟩
            · intro t' ht'
              rcases List.mem_cons.mp ht'.2.1 with e' | e'
              · omega
              · exact Nat.le_of_lt (hlt t' e')
            · rw [List.map_cons] at hh
              unfold straightWindow at hh
              rw [if_pos (by simp), if_pos hwin, hseq] at hh
              exact (Option.some.inj hh).symm
          · intro hn
            exfalso
            rw [List.map_cons] at hn
            unfold straightWindow at hn
            rw [if_pos (by simp), if_pos hwin] at hn
            cases hn
        · have hwin : isWindow ((some a :: (b :: c :: d :: e :: rest').map some).take 5) = false := by
            simp only [isWindow, List.map_cons, List.take_succ_cons, List.take_zero,
              List.getElem?_cons_zero, List.getElem?_cons_succ, decide_eq_false_iff_not]
            simp only [Int.ofNat_eq_coe]
            omega
          have hrec : straightWindow cards ((a :: b :: c :: d :: e :: rest').map some) =
              straightWindow cards ((b :: c :: d :: e :: rest').map some) := by
            rw [List.map_cons]
            conv_lhs => unfold straightWindow
            rw [if_pos (by simp), hwin]
            simp
          have hnota : ∀ t, windowAt (a :: b :: c :: d :: e :: rest') t → t ≠ a := by
            rintro t ⟨h4, -, h1, h2, h3, h5⟩ rfl
            have m1 := mem_five _ _ _ _ _ _ _ h1 hre
            have m2 := mem_five _ _ _ _ _ _ _ h2 hre
            have m3 := mem_five _ _ _ _ _ _ _ h3 hre
            have m5 := mem_five _ _ _ _ _ _ _ h5 hre
            omega
          rw [hrec]
          constructor
          · intro h hh
            obtain ⟨t, ht, hmax, hh'⟩ := ih.1 h hh
            refine ⟨t, windowAt_cons _ _ _ ht, ?_, hh'⟩
            intro t' ht'
            exact hmax t' (windowAt_cons_of_ne a _ t' hlt ht' (hnota t' ht'))
          · intro hn t ht
            exact ih.2 hn t (windowAt_cons_of_ne a _ t hlt ht (hnota t ht))
    · constructor
      · intro h hh
        rw [List.map_cons] at hh
        unfold straightWindow at hh
        rw [if_neg (by simpa using hlen)] at hh
        cases hh
      · intro _ t ht
        exact hlen (windowAt_length _ t ht)

theorem value_range (r : Rank) (h : r.canonical) : 2 ≤ r.value ∧ r.value ≤ 14 := by
  cases r <;> first | exact absurd rfl h.1 | exact absurd rfl h.2 | decide

theorem mem_uniqueValues (cards : List Card) (v : Nat) :
    v ∈ uniqueValues cards ↔ ∃ c ∈ cards, c.rank.value = v := by
  unfold uniqueValues
  rw [List.mem_insertionSort, mem_jsSet, List.mem_map]

theorem sorted_uniqueValues (cards : List Card) :
    (uniqueValues cards).Sorted (fun a b => b < a) := by
  have h1 : (uniqueValues cards).Sorted (fun a b => b ≤ a) := List.sorted_insertionSort _ _
  have h2 : (uniqueValues cards).Nodup :=
    (List.perm_insertionSort _ _).nodup_iff.mpr (nodup_jsSet _)
  exact (List.Pairwise.and h1 h2).imp (fun ⟨hle, hne⟩ => lt_of_le_of_ne hle (Ne.symm hne))

theorem sortDescending_map_some (l : List Nat) :
    sortDescending (l.map some) = (l.insertionSort (fun a b => b ≤ a)).map some := by
  unfold sortDescending
  have h1 : (l.map some).filterMap id = l := by
    rw [List.filterMap_map]; simp
  have h2 : (l.map some).filter (fun v => v.isNone) = [] := by
    rw [List.filter_eq_nil_iff]; simp
  rw [h1, h2, List.append_nil]

/-- On cards of the model the array `uniqueValues` of `checkStraight` holds the
values that occur, each once, in descending order. -/
theorem uniqueValues_eq (cards : List Card) (hc : ∀ c ∈ cards, c.rank.canonical) :
    sortDescending (jsSet (cards.map (fun card => cardValues card.rank))) =
      (uniqueValues cards).map some := by
  have h : cards.map (fun card => cardValues card.rank) =
      (cards.map (fun c => c.rank.value)).map some := by
    rw [List.map_map]
    apply List.map_congr_left
    intro c hcm
    exact cardValues_of_canonical _ (hc c hcm)
  rw [h, jsSet_map_of_injective some (Option.some_injective _), sortDescending_map_some]
  rfl

theorem windowAt_iff_hasRun (cards : List Card) (hc : ∀ c ∈ cards, c.rank.canonical) (t : Nat) :
    windowAt (uniqueValues cards) t ↔ hasRun cards t ∧ t ≠ 5 := by
  unfold windowAt hasRun
  simp only [mem_uniqueValues]
  constructor
  · rintro ⟨h4, h0, h1, h2, h3, h5⟩
    obtain ⟨c0, hc0, e0⟩ := h0
    obtain ⟨c5, hc5, e5⟩ := h5
    have r0 := value_range _ (hc c0 hc0)
    have r5 := value_range _ (hc c5 hc5)
    have ht : 6 ≤ t ∧ t ≤ 14 := by omega
    have hne : t ≠ 5 := by omega
    refine ⟨⟨?_, ?_⟩, hne⟩
    · unfold runTops
      obtain ⟨h6, h14⟩ := ht
      interval_cases t <;> decide
    · intro v hv
      unfold runValues at hv
      rw [if_neg hne] at hv
      simp only [List.mem_cons, List.mem_singleton, List.not_mem_nil, or_false] at hv
      rcases hv with rfl | rfl | rfl | rfl | rfl
      · exact ⟨c0, hc0, e0⟩
      · exact h1
      · exact h2
      · exact h3
      · exact ⟨c5, hc5, e5⟩
  · rintro ⟨⟨htop, hrun⟩, hne⟩
    unfold runValues at hrun
    rw [if_neg hne] at hrun
    have h4 : 4 ≤ t := by
      unfold runTops at htop
      simp only [List.mem_cons, List.mem_singleton, List.not_mem_nil, or_false] at htop
      omega
    exact ⟨h4, hrun _ (by simp), hrun _ (by simp), hrun _ (by simp), hrun _ (by simp),
      hrun _ (by simp)⟩

theorem contains_map_some (u : List Nat) (v : Nat) :
    (u.map some).contains (some v) = decide (v ∈ u) := by
  induction u with
  | nil => simp
  | cons a u ih =>
    simp only [List.map_cons, List.contains_cons, ih, List.mem_cons]
    by_cases h : v = a <;> simp [h]

theorem wheel_iff_hasRun (cards : List Card) :
    (14 ∈ uniqueValues cards ∧ 2 ∈ uniqueValues cards ∧ 3 ∈ uniqueValues cards ∧
      4 ∈ uniqueValues cards ∧ 5 ∈ uniqueValues cards) ↔ hasRun cards 5 := by
  unfold hasRun runValues runTops
  simp only [mem_uniqueValues, if_true, List.mem_cons, List.mem_singleton, List.not_mem_nil,
    or_false, forall_eq_or_imp, forall_eq]
  constructor
  · rintro ⟨h14, h2, h3, h4, h5⟩
    exact ⟨by decide, h5, h4, h3, h2, h14⟩
  · rintro ⟨-, h5, h4, h3, h2, h14⟩
    exact ⟨h14, h2, h3, h4, h5⟩

/-- What `checkStraight` answers on cards of the model: the straight with the
highest top that the cards hold, the wheel counting as top 5; and nothing
exactly when the cards hold no straight. -/
theorem checkStraight_spec (cards : List Card) (hc : ∀ c ∈ cards, c.rank.canonical) :
    (∀ h, checkStraight cards = some h →
      h.strength = .straight ∧ h.kickers = [] ∧ (∀ c ∈ h.cards, c ∈ cards) ∧
      ∃ top, hasRun cards top ∧ (∀ top', hasRun cards top' → top' ≤ top) ∧
        h.cards.map (fun c => c.rank.value) = selectedValues top ∧
        h.description = straightDescription top) ∧
    (checkStraight cards = none → ∀ top, ¬ hasRun cards top) := by
  have hspec := straightWindow_spec cards (uniqueValues cards) (sorted_uniqueValues cards)
  have hmem : ∀ v, v ∈ uniqueValues cards → ∃ c ∈ cards, c.rank.value = v :=
    fun v hv => (mem_uniqueValues cards v).mp hv
  unfold checkStraight
  simp only [uniqueValues_eq cards hc, contains_map_some, Bool.and_eq_true, decide_eq_true_eq]
  cases hw : straightWindow cards ((uniqueValues cards).map some) with
  | some w =>
    obtain ⟨t, ht, hmax, hwe⟩ := hspec.1 w hw
    have hrun := (windowAt_iff_hasRun cards hc t).mp ht
    have hpres := straightCards_of_present cards hc [t, t - 1, t - 2, t - 3, t - 4]
      (by
        intro v hv
        simp only [List.mem_cons, List.mem_singleton, List.not_mem_nil, or_false] at hv
        obtain ⟨-, h0, h1, h2, h3, h5⟩ := ht
        rcases hv with rfl | rfl | rfl | rfl | rfl
        · exact hmem _ h0
        · exact hmem _ h1
        · exact hmem _ h2
        · exact hmem _ h3
        · exact hmem _ h5)
    constructor
    · intro h hh
      simp only [Option.some.injEq] at hh
      subst hh
      subst hwe
      refine ⟨rfl, rfl, hpres.2, t, hrun.1, ?_, ?_, ?_⟩
      · intro top' htop'
        by_cases h5 : top' = 5
        · have := ht.1
          have h6 : 6 ≤ t := by
            have := hrun.1.1
            unfold runTops at this
            simp only [List.mem_cons, List.mem_singleton, List.not_mem_nil, or_false] at this
            have := hrun.2
            omega
          omega
        · exact hmax top' ((windowAt_iff_hasRun cards hc top').mpr ⟨htop', h5⟩)
      · simp only [selectedValues, if_neg hrun.2]
        exact hpres.1
      · simp only [straightDescription, if_neg hrun.2]
    · intro hn
      simp at hn
  | none =>
    have hno : ∀ t, ¬ windowAt (uniqueValues cards) t := hspec.2 hw
    simp only
    by_cases hwheel : (((14 ∈ uniqueValues cards ∧ 2 ∈ uniqueValues cards) ∧
        3 ∈ uniqueValues cards) ∧ 4 ∈ uniqueValues cards) ∧ 5 ∈ uniqueValues cards
    · rw [if_pos hwheel]
      obtain ⟨⟨⟨⟨h14, h2⟩, h3⟩, h4⟩, h5⟩ := hwheel
      have hrun5 : hasRun cards 5 := (wheel_iff_hasRun cards).mp ⟨h14, h2, h3, h4, h5⟩
      have hpres := straightCards_of_present cards hc [14, 2, 3, 4, 5]
        (by
          intro v hv
          simp only [List.mem_cons, List.mem_singleton, List.not_mem_nil, or_false] at hv
          rcases hv with rfl | rfl | rfl | rfl | rfl
          · exact hmem _ h14
          · exact hmem _ h2
          · exact hmem _ h3
          · exact hmem _ h4
          · exact hmem _ h5)
      constructor
      · intro h hh
        simp only [Option.some.injEq] at hh
        subst hh
        refine ⟨rfl, rfl, hpres.2, 5, hrun5, ?_, ?_, ?_⟩
        · intro top' htop'
          by_cases h5' : top' = 5
          · omega
          · exact absurd ((windowAt_iff_hasRun cards hc top').mpr ⟨htop', h5'⟩) (hno top')
        · exact hpres.1
        · rfl
      · intro hn
        simp at hn
    · rw [if_neg hwheel]
      constructor
      · intro h hh
        simp at hh
      · intro _ top htop
        by_cases h5 : top = 5
        · subst h5
          obtain ⟨h14, h2, h3, h4, h5⟩ := (wheel_iff_hasRun cards).mpr htop
          exact hwheel ⟨⟨⟨⟨h14, h2⟩, h3⟩, h4⟩, h5⟩
        · exact hno top ((windowAt_iff_hasRun cards hc top).mpr ⟨htop, h5⟩)

theorem hasRun_of_perm {l1 l2 : List Card} (hp : l1.Perm l2) (top : Nat) :
    hasRun l1 top ↔ hasRun l2 top := by
  unfold hasRun
  constructor
  · rintro ⟨h1, h2⟩
    exact ⟨h1, fun v hv => let ⟨c, hc, e⟩ := h2 v hv; ⟨c, hp.mem_iff.mp hc, e⟩⟩
  · rintro ⟨h1, h2⟩
    exact ⟨h1, fun v hv => let ⟨c, hc, e⟩ := h2 v hv; ⟨c, hp.mem_iff.mpr hc, e⟩⟩

theorem checkFlush_none (cards : List Card) (h : ∀ s, suitCount cards s < 5) :
    checkFlush cards = none := by
  rw [checkFlush_eq]
  have : (suitKeys cards).find? (fun s => decide (5 ≤ suitCount cards s)) = none := by
    rw [List.find?_eq_none]
    intro s _
    have := h s
    simp only [decide_eq_true_eq]
    omega
  rw [this]; rfl

theorem checkStraightFlush_none (cards : List Card) (h : ∀ s, suitCount cards s < 5) :
    checkStraightFlush cards = none := by
  unfold checkStraightFlush
  rw [checkFlush_none cards h]

/-- Distinct values, each held by a card that passes a test, are at most as
many as the cards that pass the test. -/
theorem length_le_countP_of_values (s : List Card) (p : Card → Bool) (R : List Nat)
    (hR : R.Nodup) (h : ∀ v ∈ R, ∃ c ∈ s, p c = true ∧ c.rank.value = v) :
    R.length ≤ s.countP p := by
  rw [List.countP_eq_length_filter, ← List.length_map (s.filter p) (fun c => c.rank.value)]
  apply (List.subperm_of_subset hR _).length_le
  intro v hv
  obtain ⟨c, hc, hpc, e⟩ := h v hv
  exact List.mem_map.mpr ⟨c, List.mem_filter.mpr ⟨hc, hpc⟩, e⟩

theorem length_filter_ne (R : List Nat) (hR : R.Nodup) (v : Nat) :
    R.length ≤ (R.filter (fun x => decide (x ≠ v))).length + 1 := by
  rw [← List.countP_eq_length_filter,
    List.length_eq_countP_add_countP (fun x => decide (x ≠ v)) R]
  have h1 : R.countP (fun a => decide ¬(decide (a ≠ v)) = true) = R.count v := by
    rw [List.count_eq_countP]
    apply List.countP_congr
    intro x _
    simp
  have h2 := List.nodup_iff_count_le_one.mp hR v
  omega

theorem runValues_nodup (top : Nat) (h : top ∈ runTops) :
    (runValues top).Nodup ∧ (runValues top).length = 5 := by
  unfold runTops at h
  simp only [List.mem_cons, List.mem_singleton, List.not_mem_nil, or_false] at h
  rcases h with rfl | rfl | rfl | rfl | rfl | rfl | rfl | rfl | rfl | rfl <;> decide

theorem rankCount_add (s : List Card) (k : Rank) :
    rankCount s k + s.countP (fun c => decide (c.rank ≠ k)) = s.length := by
  unfold rankCount
  rw [List.length_eq_countP_add_countP (fun c => decide (c.rank = k)) s]
  congr 1
  apply List.countP_congr
  intro c _
  simp

/-- At most seven cards that hold a straight hold no rank four times. -/
theorem rankCount_lt_four_of_run (s : List Card) (hlen : s.length ≤ 7) (top : Nat)
    (hrun : hasRun s top) (k : Rank) : rankCount s k < 4 := by
  obtain ⟨hnd, hl⟩ := runValues_nodup top hrun.1
  have h1 := length_filter_ne (runValues top) hnd k.value
  have h2 := length_le_countP_of_values s (fun c => decide (c.rank ≠ k))
    ((runValues top).filter (fun x => decide (x ≠ k.value))) (hnd.filter _)
    (by
      intro v hv
      rw [List.mem_filter] at hv
      obtain ⟨c, hc, e⟩ := hrun.2 v hv.1
      refine ⟨c, hc, ?_, e⟩
      have hne : v ≠ k.value := by simpa using hv.2
      simp only [decide_eq_true_eq]
      intro hk
      exact hne (by rw [← e, hk]))
  have h3 := rankCount_add s k
  omega

/-- At most seven cards that hold a straight hold no three of one rank together
with two of another rank. -/
theorem no_fullHouse_of_run (s : List Card) (hlen : s.length ≤ 7) (top : Nat)
    (hrun : hasRun s top) (k1 k2 : Rank) (hk : k1 ≠ k2) (h3 : 3 ≤ rankCount s k1)
    (h2 : 2 ≤ rankCount s k2) : False := by
  obtain ⟨hnd, hl⟩ := runValues_nodup top hrun.1
  have a1 := length_filter_ne (runValues top) hnd k1.value
  have a2 := length_filter_ne ((runValues top).filter (fun x => decide (x ≠ k1.value)))
    (hnd.filter _) k2.value
  have a3 := length_le_countP_of_values s
    (fun c => decide (c.rank ≠ k1) && decide (c.rank ≠ k2))
    (((runValues top).filter (fun x => decide (x ≠ k1.value))).filter
      (fun x => decide (x ≠ k2.value))) ((hnd.filter _).filter _)
    (by
      intro v hv
      rw [List.mem_filter, List.mem_filter] at hv
      obtain ⟨c, hc, e⟩ := hrun.2 v hv.1.1
      refine ⟨c, hc, ?_, e⟩
      have hne1 : v ≠ k1.value := by simpa using hv.1.2
      have hne2 : v ≠ k2.value := by simpa using hv.2
      simp only [Bool.and_eq_true, decide_eq_true_eq]
      exact ⟨fun hk => hne1 (by rw [← e, hk]), fun hk => hne2 (by rw [← e, hk])⟩)
  have a4 := countP_add_le_of_disjoint s (fun c => decide (c.rank = k1))
    (fun c => decide (c.rank = k2)) (fun c => !(decide (c.rank ≠ k1) && decide (c.rank ≠ k2)))
    (fun c h => by simp at h ⊢; exact Or.inl h)
    (fun c h => by simp at h ⊢; exact Or.inr h)
    (fun c h h' => by simp at h h'; exact hk (h.symm.trans h'))
  have a5 := List.length_eq_countP_add_countP
    (fun c => decide (c.rank ≠ k1) && decide (c.rank ≠ k2)) s
  have a6 : s.countP (fun c => !(decide (c.rank ≠ k1) && decide (c.rank ≠ k2))) =
      s.countP (fun a => decide ¬((decide (a.rank ≠ k1) && decide (a.rank ≠ k2)) = true)) := by
    apply List.countP_congr
    intro c _
    simp
  unfold rankCount at h3 h2
  omega

theorem checkFourOfAKind_none (s : List Card) (h : ∀ k, rankCount s k < 4) :
    checkFourOfAKind s = none := by
  cases h4 : checkFourOfAKind s with
  | none => rfl
  | some w =>
    obtain ⟨k, hk⟩ := checkFourOfAKind_some s w h4
    have := h k
    omega

theorem checkFullHouse_none (s : List Card)
    (h : ∀ k1 k2, k1 ≠ k2 → 3 ≤ rankCount s k1 → 2 ≤ rankCount s k2 → False) :
    checkFullHouse s = none := by
  cases hf : checkFullHouse s with
  | none => rfl
  | some w =>
    obtain ⟨k1, k2, hk, h3, h2⟩ := checkFullHouse_some s w hf
    exact (h k1 k2 hk h3 h2).elim

theorem selectedValues_perm (top : Nat) : (selectedValues top).Perm (runValues top) := by
  unfold selectedValues runValues
  by_cases h : top = 5
  · rw [if_pos h, if_pos h]; decide
  · rw [if_neg h, if_neg h]

/-- C5. For every list of 5 to 7 unique cards with no five cards of one suit,
whose ranks hold five consecutive values (the Ace counting as 14, or as 1 in
the wheel), `evaluateCompleteHand` returns category straight; the selected
cards are cards of the input whose values are those of the straight with the
highest top the input holds, and the description names that top: the wheel
reads 'Straight, 5 high', and it is reported only when the input holds no
higher straight. -/
theorem evaluateCompleteHand_straight (cards : List Card) (playerCount : Nat)
    (hset : CardSet cards) (hmin : 5 ≤ cards.length) (hmax : cards.length ≤ 7)
    (hsuit : ∀ s, suitCount cards s < 5) (hrun : ∃ top, hasRun cards top) :
    (evaluateCompleteHand cards playerCount).strength = .straight ∧
    (∀ c ∈ (evaluateCompleteHand cards playerCount).cards, c ∈ cards) ∧
    ∃ top, hasRun cards top ∧ (∀ top', hasRun cards top' → top' ≤ top) ∧
      ((evaluateCompleteHand cards playerCount).cards.map (fun c => c.rank.value)).Perm
        (runValues top) ∧
      (evaluateCompleteHand cards playerCount).description =
        if top = 5 then "Straight, 5 high"
        else "Straight, " ++ getRankName (some top) ++ " high" := by
  obtain ⟨top0, hrun0⟩ := hrun
  have hp := sortCards_perm cards
  have hl : (sortCards cards).length = cards.length := hp.length_eq
  have hc : ∀ c ∈ sortCards cards, c.rank.canonical :=
    canonical_sortCards cards (fun c h => (hset.2 c h).1)
  have hsuit' : ∀ s, suitCount (sortCards cards) s < 5 := by
    intro s; rw [suitCount_perm hp]; exact hsuit s
  have hrun' : hasRun (sortCards cards) top0 := (hasRun_of_perm hp top0).mpr hrun0
  have hsf := checkStraightFlush_none _ hsuit'
  have h4 := checkFourOfAKind_none (sortCards cards)
    (fun k => rankCount_lt_four_of_run _ (by omega) top0 hrun' k)
  have hfh := checkFullHouse_none (sortCards cards)
    (fun k1 k2 hk h3 h2 => no_fullHouse_of_run _ (by omega) top0 hrun' k1 k2 hk h3 h2)
  have hfl := checkFlush_none _ hsuit'
  have hspec := checkStraight_spec (sortCards cards) hc
  cases hst : checkStraight (sortCards cards) with
  | none => exact absurd hrun' (hspec.2 hst top0)
  | some w =>
    obtain ⟨hs, -, hmem, top, htop, hmax', hvals, hdesc⟩ := hspec.1 w hst
    have hbest : findBestHand (sortCards cards) = w := by
      rw [findBestHand_eq, if_neg (by omega), hsf, h4, hfh, hfl, hst]
      rfl
    show (findBestHand (sortCards cards)).strength = .straight ∧
      (∀ c ∈ (findBestHand (sortCards cards)).cards, c ∈ cards) ∧
      ∃ top, hasRun cards top ∧ (∀ top', hasRun cards top' → top' ≤ top) ∧
        ((findBestHand (sortCards cards)).cards.map (fun c => c.rank.value)).Perm
          (runValues top) ∧
        (findBestHand (sortCards cards)).description =
          if top = 5 then "Straight, 5 high"
          else "Straight, " ++ getRankName (some top) ++ " high"
    rw [hbest]
    refine ⟨hs, fun c h => hp.mem_iff.mp (hmem c h), top, (hasRun_of_perm hp top).mp htop,
      fun top' h' => hmax' top' ((hasRun_of_perm hp top').mpr h'), ?_, hdesc⟩
    rw [hvals]
    exact selectedValues_perm top

theorem evaluateCompleteHand_straight_witness :
    CardSet [⟨.rA, .spade⟩, ⟨.r2, .heart⟩, ⟨.r3, .diamond⟩, ⟨.r4, .club⟩, ⟨.r5, .spade⟩,
      ⟨.r9, .heart⟩, ⟨.rK, .diamond⟩] ∧
    5 ≤ ([⟨.rA, .spade⟩, ⟨.r2, .heart⟩, ⟨.r3, .diamond⟩, ⟨.r4, .club⟩, ⟨.r5, .spade⟩,
      ⟨.r9, .heart⟩, ⟨.rK, .diamond⟩] : List Card).length ∧
    ([⟨.rA, .spade⟩, ⟨.r2, .heart⟩, ⟨.r3, .diamond⟩, ⟨.r4, .club⟩, ⟨.r5, .spade⟩,
      ⟨.r9, .heart⟩, ⟨.rK, .diamond⟩] : List Card).length ≤ 7 ∧
    (∀ s, suitCount [⟨.rA, .spade⟩, ⟨.r2, .heart⟩, ⟨.r3, .diamond⟩, ⟨.r4, .club⟩,
      ⟨.r5, .spade⟩, ⟨.r9, .heart⟩, ⟨.rK, .diamond⟩] s < 5) ∧
    (∃ top, hasRun [⟨.rA, .spade⟩, ⟨.r2, .heart⟩, ⟨.r3, .diamond⟩, ⟨.r4, .club⟩,
      ⟨.r5, .spade⟩, ⟨.r9, .heart⟩, ⟨.rK, .diamond⟩] top) ∧
    (evaluateCompleteHand [⟨.rA, .spade⟩, ⟨.r2, .heart⟩, ⟨.r3, .diamond⟩, ⟨.r4, .club⟩,
      ⟨.r5, .spade⟩, ⟨.r9, .heart⟩, ⟨.rK, .diamond⟩] 6).strength = .straight :=
  ⟨by decide, by decide, by decide, by intro s; cases s <;> decide, ⟨5, by decide⟩,
    (evaluateCompleteHand_straight
      [⟨.rA, .spade⟩, ⟨.r2, .heart⟩, ⟨.r3, .diamond⟩, ⟨.r4, .club⟩, ⟨.r5, .spade⟩,
        ⟨.r9, .heart⟩, ⟨.rK, .diamond⟩] 6
      (by decide) (by decide) (by decide) (by intro s; cases s <;> decide) ⟨5, by decide⟩).1⟩

theorem straightWindow_strength (cards : List Card) :
    ∀ (u : List (Option Nat)) (h : Hand), straightWindow cards u = some h →
      h.strength = .straight
  | [], h, hh => by simp [straightWindow] at hh
  | v :: rest, h, hh => by
    unfold straightWindow at hh
    split at hh
    · split at hh
      · cases hh; rfl
      · exact straightWindow_strength cards rest h hh
    · cases hh

theorem checkStraight_strength (cards : List Card) (h : Hand)
    (hh : checkStraight cards = some h) : h.strength = .straight := by
  unfold checkStraight at hh
  simp only at hh
  split at hh
  · rename_i w hw
    cases hh
    exact straightWindow_strength _ _ _ hw
  · split at hh
    · cases hh; rfl
    · cases hh

theorem checkFlush_strength (cards : List Card) (h : Hand)
    (hh : checkFlush cards = some h) : h.strength = .flush := by
  rw [checkFlush_eq] at hh
  cases hf : (suitKeys cards).find? (fun s => decide (5 ≤ suitCount cards s)) <;>
    rw [hf] at hh <;> cases hh
  rfl

theorem checkFourOfAKind_strength (cards : List Card) (h : Hand)
    (hh : checkFourOfAKind cards = some h) : h.strength = .fourOfAKind := by
  rw [checkFourOfAKind_eq] at hh
  cases hf : (rankKeys cards).find? (fun k => decide (4 ≤ rankCount cards k)) <;>
    rw [hf] at hh <;> cases hh
  rfl

theorem checkThreeOfAKind_strength (cards : List Card) (h : Hand)
    (hh : checkThreeOfAKind cards = some h) : h.strength = .threeOfAKind := by
  rw [checkThreeOfAKind_eq] at hh
  cases hf : (rankKeys cards).find? (fun k => decide (3 ≤ rankCount cards k)) <;>
    rw [hf] at hh <;> cases hh
  rfl

theorem checkPair_strength (cards : List Card) (h : Hand)
    (hh : checkPair cards = some h) : h.strength = .pair := by
  rw [checkPair_eq] at hh
  cases hf : (rankKeys cards).find? (fun k => decide (2 ≤ rankCount cards k)) <;>
    rw [hf] at hh <;> cases hh
  rfl

theorem checkTwoPair_strength (cards : List Card) (h : Hand)
    (hh : checkTwoPair cards = some h) : h.strength = .twoPair := by
  rw [checkTwoPair_eq] at hh
  split at hh
  · cases hh; rfl
  · cases hh

theorem checkFullHouse_strength (cards : List Card) (h : Hand)
    (hh : checkFullHouse cards = some h) : h.strength = .fullHouse := by
  rw [checkFullHouse_eq] at hh
  split at hh
  · split at hh
    · split at hh
      · cases hh; rfl
      · cases hh
    · cases hh
  · cases hh

/-- When `checkStraightFlush` finds nothing, `findBestHand` answers one of the
eight categories below straight-flush. -/
theorem findBestHand_strength_of_none (cards : List Card) (hlen : 5 ≤ cards.length)
    (hsf : checkStraightFlush cards = none) :
    (findBestHand cards).strength ≠ .royalFlush ∧
    (findBestHand cards).strength ≠ .straightFlush := by
  rw [findBestHand_eq, if_neg (by omega), hsf]
  simp only [Option.getD_none, Function.comp]
  cases h4 : checkFourOfAKind cards with
  | some w => simp [checkFourOfAKind_strength _ _ h4]
  | none =>
  cases hfh : checkFullHouse cards with
  | some w => simp [checkFullHouse_strength _ _ hfh]
  | none =>
  cases hfl : checkFlush cards with
  | some w => simp [checkFlush_strength _ _ hfl]
  | none =>
  cases hst : checkStraight cards with
  | some w => simp [checkStraight_strength _ _ hst]
  | none =>
  cases h3 : checkThreeOfAKind cards with
  | some w => simp [checkThreeOfAKind_strength _ _ h3]
  | none =>
  cases h2p : checkTwoPair cards with
  | some w => simp [checkTwoPair_strength _ _ h2p]
  | none =>
  cases hp : checkPair cards with
  | some w => simp [checkPair_strength _ _ hp]
  | none => simp [checkHighCard]

theorem findBestHand_of_straightFlush (cards : List Card) (hlen : 5 ≤ cards.length) (h : Hand)
    (hsf : checkStraightFlush cards = some h) : findBestHand cards = h := by
  rw [findBestHand_eq, if_neg (by omega), hsf]
  rfl

/-- The flush that `checkFlush` finds among at most nine cards is made of the
first five cards of the one suit held five times. -/
theorem checkFlush_of_suit (cards : List Card) (hlen : cards.length ≤ 9) (x : Suit)
    (hx : 5 ≤ suitCount cards x) :
    checkFlush cards = some { strength := .flush, description := "Flush, " ++ x.str,
                              cards := (suitGroup cards x).take 5, kickers := [] } := by
  obtain ⟨h, hh, -⟩ := checkFlush_isSome cards x hx
  rw [hh]
  rw [checkFlush_eq] at hh
  cases hf : (suitKeys cards).find? (fun s => decide (5 ≤ suitCount cards s)) with
  | none => rw [hf] at hh; cases hh
  | some y =>
    rw [hf] at hh
    have hy : 5 ≤ suitCount cards y := by simpa using List.find?_some hf
    have hxy := flush_suit_unique cards hlen y x hy hx
    subst hxy
    exact hh.symm

theorem checkFlush_some (cards : List Card) (h : Hand)
    (hh : checkFlush cards = some h) :
    ∃ x, 5 ≤ suitCount cards x ∧ h.cards = (suitGroup cards x).take 5 := by
  rw [checkFlush_eq] at hh
  cases hf : (suitKeys cards).find? (fun s => decide (5 ≤ suitCount cards s)) with
  | none => rw [hf] at hh; cases hh
  | some y =>
    rw [hf] at hh
    cases hh
    exact ⟨y, by simpa using List.find?_some hf, rfl⟩

theorem take_five_of_top (u : List Nat) (hs : u.Sorted (fun a b => b < a))
    (hle : ∀ v ∈ u, v ≤ 14) (h14 : 14 ∈ u) (h13 : 13 ∈ u) (h12 : 12 ∈ u) (h11 : 11 ∈ u)
    (h10 : 10 ∈ u) : u.take 5 = [14, 13, 12, 11, 10] := by
  have hlen : 5 ≤ u.length := windowAt_length u 14 ⟨by omega, h14, h13, h12, h11, h10⟩
  rcases u with _ | ⟨a, _ | ⟨b, _ | ⟨c, _ | ⟨d, _ | ⟨e, rest⟩⟩⟩⟩⟩
  · simp at hlen
  · simp at hlen
  · simp at hlen
  · simp at hlen
  · simp at hlen
  · have hlt := (List.sorted_cons.mp hs).1
    have hsr := (List.sorted_cons.mp hs).2
    have hb : b < a := hlt b (by simp)
    have hcb : c < b := (List.sorted_cons.mp hsr).1 c (by simp)
    have hsr2 := (List.sorted_cons.mp hsr).2
    have hdc : d < c := (List.sorted_cons.mp hsr2).1 d (by simp)
    have hsr3 := (List.sorted_cons.mp hsr2).2
    have hed : e < d := (List.sorted_cons.mp hsr3).1 e (by simp)
    have hsr4 := (List.sorted_cons.mp hsr3).2
    have hre : ∀ y ∈ rest, y < e := (List.sorted_cons.mp hsr4).1
    have ha : a ≤ 14 := hle a (by simp)
    have m14 := mem_five _ _ _ _ _ _ _ h14 hre
    have m13 := mem_five _ _ _ _ _ _ _ h13 hre
    have m12 := mem_five _ _ _ _ _ _ _ h12 hre
    have m11 := mem_five _ _ _ _ _ _ _ h11 hre
    have m10 := mem_five _ _ _ _ _ _ _ h10 hre
    have : a = 14 ∧ b = 13 ∧ c = 12 ∧ d = 11 ∧ e = 10 := by omega
    obtain ⟨rfl, rfl, rfl, rfl, rfl⟩ := this
    simp

theorem value_injective (a b : Rank) (ha : a.canonical) (hb : b.canonical)
    (h : a.value = b.value) : a = b := by
  rw [← getValueRank_value a ha, ← getValueRank_value b hb, h]

theorem mem_suitGroup (cards : List Card) (x : Suit) (c : Card) :
    c ∈ suitGroup cards x ↔ c ∈ cards ∧ c.suit = x := by
  unfold suitGroup
  rw [List.mem_filter]
  simp

/-- The values of the cards of one suit in the sorted cards are strictly
descending. -/
theorem sorted_suitGroup_values (cards : List Card) (hset : CardSet cards) (x : Suit) :
    ((suitGroup (sortCards cards) x).map (fun c => c.rank.value)).Sorted
      (fun a b => b < a) := by
  have hc : ∀ c ∈ cards, c.rank.canonical := fun c h => (hset.2 c h).1
  have h1 : ((suitGroup (sortCards cards) x).map (fun c => c.rank.value)).Sorted
      (fun a b => b ≤ a) :=
    List.Pairwise.sublist ((List.filter_sublist _).map _) (sorted_value_sortCards cards hc)
  have hnd : (suitGroup (sortCards cards) x).Nodup :=
    ((sortCards_perm cards).nodup_iff.mpr hset.1).filter _
  have h2 : ((suitGroup (sortCards cards) x).map (fun c => c.rank.value)).Nodup := by
    apply List.Nodup.map_on _ hnd
    intro c hcm d hdm hv
    rw [mem_suitGroup] at hcm hdm
    have hr := value_injective c.rank d.rank (canonical_sortCards cards hc c hcm.1)
      (canonical_sortCards cards hc d hdm.1) hv
    rcases c with ⟨cr, cs⟩
    rcases d with ⟨dr, ds⟩
    simp only at hr hcm hdm
    rw [hr, hcm.2, hdm.2]
  exact (List.Pairwise.and h1 h2).imp (fun ⟨hle, hne⟩ => lt_of_le_of_ne hle (Ne.symm hne))

/-- When the cards hold the Ace, King, Queen, Jack and Ten of a suit, these
are the first five cards of the suit in the sorted cards. -/
theorem suitGroup_take_royal (cards : List Card) (hset : CardSet cards) (x : Suit)
    (hA : ⟨.rA, x⟩ ∈ cards) (hK : ⟨.rK, x⟩ ∈ cards) (hQ : ⟨.rQ, x⟩ ∈ cards)
    (hJ : ⟨.rJ, x⟩ ∈ cards) (hT : ⟨.rT, x⟩ ∈ cards) :
    (suitGroup (sortCards cards) x).take 5 =
      [⟨.rA, x⟩, ⟨.rK, x⟩, ⟨.rQ, x⟩, ⟨.rJ, x⟩, ⟨.rT, x⟩] := by
  have hc : ∀ c ∈ cards, c.rank.canonical := fun c h => (hset.2 c h).1
  have hcs := canonical_sortCards cards hc
  have hp := sortCards_perm cards
  have hin : ∀ r, (⟨r, x⟩ : Card) ∈ cards →
      r.value ∈ (suitGroup (sortCards cards) x).map (fun c => c.rank.value) := by
    intro r hr
    exact List.mem_map.mpr ⟨⟨r, x⟩, (mem_suitGroup _ _ _).mpr ⟨hp.mem_iff.mpr hr, rfl⟩, rfl⟩
  have htake := take_five_of_top _ (sorted_suitGroup_values cards hset x)
    (by
      intro v hv
      obtain ⟨c, hcm, e⟩ := List.mem_map.mp hv
      rw [← e]
      exact (value_range _ (hcs c ((mem_suitGroup _ _ _).mp hcm).1)).2)
    (hin .rA hA) (hin .rK hK) (hin .rQ hQ) (hin .rJ hJ) (hin .rT hT)
  rw [suitGroup_eq_of_value _ hcs x, ← List.map_take, htake]
  rfl

theorem checkStraight_royal (x : Suit) :
    checkStraight [⟨.rA, x⟩, ⟨.rK, x⟩, ⟨.rQ, x⟩, ⟨.rJ, x⟩, ⟨.rT, x⟩] =
      some { strength := .straight, description := "Straight, Ace high",
             cards := [⟨.rA, x⟩, ⟨.rK, x⟩, ⟨.rQ, x⟩, ⟨.rJ, x⟩, ⟨.rT, x⟩], kickers := [] } := by
  cases x <;> decide

theorem suitCount_royal (cards : List Card) (x : Suit)
    (hA : ⟨.rA, x⟩ ∈ cards) (hK : ⟨.rK, x⟩ ∈ cards) (hQ : ⟨.rQ, x⟩ ∈ cards)
    (hJ : ⟨.rJ, x⟩ ∈ cards) (hT : ⟨.rT, x⟩ ∈ cards) : 5 ≤ suitCount cards x := by
  rw [← length_suitGroup]
  have hnd : ([⟨.rA, x⟩, ⟨.rK, x⟩, ⟨.rQ, x⟩, ⟨.rJ, x⟩, ⟨.rT, x⟩] : List Card).Nodup := by
    simp
  have hsub : ([⟨.rA, x⟩, ⟨.rK, x⟩, ⟨.rQ, x⟩, ⟨.rJ, x⟩, ⟨.rT, x⟩] : List Card) ⊆
      suitGroup cards x := by
    intro c hcm
    rw [mem_suitGroup]
    simp only [List.mem_cons, List.mem_singleton, List.not_mem_nil, or_false] at hcm
    rcases hcm with rfl | rfl | rfl | rfl | rfl <;> exact ⟨by assumption, rfl⟩
  exact (List.subperm_of_subset hnd hsub).length_le

/-- A card of the model of value `v` and suit `x` found in the cards is the
card of that rank and suit. -/
theorem card_of_value (c : Card) (hc : c.rank.canonical) (r : Rank) (hr : r.canonical)
    (x : Suit) (hv : c.rank.value = r.value) (hs : c.suit = x) : c = ⟨r, x⟩ := by
  rcases c with ⟨cr, cs⟩
  simp only at hv hs hc
  rw [value_injective cr r hc hr hv, hs]

theorem evaluate_royal_forward (cards : List Card) (hset : CardSet cards)
    (hmin : 5 ≤ cards.length) (hmax : cards.length ≤ 7) (x : Suit)
    (hA : ⟨.rA, x⟩ ∈ cards) (hK : ⟨.rK, x⟩ ∈ cards) (hQ : ⟨.rQ, x⟩ ∈ cards)
    (hJ : ⟨.rJ, x⟩ ∈ cards) (hT : ⟨.rT, x⟩ ∈ cards) :
    findBestHand (sortCards cards) =
      { strength := .royalFlush, description := "Royal Flush",
        cards := [⟨.rA, x⟩, ⟨.rK, x⟩, ⟨.rQ, x⟩, ⟨.rJ, x⟩, ⟨.rT, x⟩], kickers := [] } := by
  have hp := sortCards_perm cards
  have hl : (sortCards cards).length = cards.length := hp.length_eq
  have hcount : 5 ≤ suitCount (sortCards cards) x := by
    rw [suitCount_perm hp]; exact suitCount_royal cards x hA hK hQ hJ hT
  have hfl := checkFlush_of_suit (sortCards cards) (by omega) x hcount
  rw [suitGroup_take_royal cards hset x hA hK hQ hJ hT] at hfl
  apply findBestHand_of_straightFlush _ (by omega)
  unfold checkStraightFlush
  rw [hfl]
  simp only
  rw [checkStraight_royal x]
  rfl

theorem evaluate_royal_backward (cards : List Card) (hset : CardSet cards)
    (hmin : 5 ≤ cards.length)
    (h : (findBestHand (sortCards cards)).strength = .royalFlush) :
    ∃ x : Suit, (⟨.rA, x⟩ : Card) ∈ cards ∧ (⟨.rK, x⟩ : Card) ∈ cards ∧
      (⟨.rQ, x⟩ : Card) ∈ cards ∧ (⟨.rJ, x⟩ : Card) ∈ cards ∧ (⟨.rT, x⟩ : Card) ∈ cards := by
  have hp := sortCards_perm cards
  have hl : (sortCards cards).length = cards.length := hp.length_eq
  have hcs := canonical_sortCards cards (fun c h => (hset.2 c h).1)
  cases hsf : checkStraightFlush (sortCards cards) with
  | none => exact absurd h (findBestHand_strength_of_none _ (by omega) hsf).1
  | some w =>
    rw [findBestHand_of_straightFlush _ (by omega) w hsf] at h
    unfold checkStraightFlush at hsf
    cases hfl : checkFlush (sortCards cards) with
    | none => rw [hfl] at hsf; cases hsf
    | some f =>
      rw [hfl] at hsf
      simp only at hsf
      cases hst : checkStraight f.cards with
      | none => rw [hst] at hsf; cases hsf
      | some st =>
        rw [hst] at hsf
        simp only [Option.some.injEq] at hsf
        subst hsf
        simp only at h
        split at h
        · rename_i hroyal
          simp only [Bool.and_eq_true, decide_eq_true_eq] at hroyal
          obtain ⟨x, -, hfc⟩ := checkFlush_some _ f hfl
          have hfmem : ∀ c ∈ f.cards, c ∈ sortCards cards ∧ c.suit = x := by
            intro c hcm
            rw [hfc] at hcm
            exact (mem_suitGroup _ _ _).mp (List.mem_of_mem_take hcm)
          have hfcanon : ∀ c ∈ f.cards, c.rank.canonical :=
            fun c hcm => hcs c (hfmem c hcm).1
          obtain ⟨-, -, -, top, htop, -, hvals, -⟩ :=
            (checkStraight_spec f.cards hfcanon).1 st hst
          have h0 : (st.cards.map (fun c => c.rank.value))[0]? = some 14 := by
            rw [List.getElem?_map]
            cases hc0 : st.cards[0]? with
            | none => rw [hc0] at hroyal; simp at hroyal
            | some c0 =>
              rw [hc0] at hroyal
              simp only [Option.map_some', Option.some.injEq] at hroyal
              simp only [Option.map_some', hroyal.1]
              rfl
          have h4 : (st.cards.map (fun c => c.rank.value))[4]? = some 10 := by
            rw [List.getElem?_map]
            cases hc4 : st.cards[4]? with
            | none => rw [hc4] at hroyal; simp at hroyal
            | some c4 =>
              rw [hc4] at hroyal
              simp only [Option.map_some', Option.some.injEq] at hroyal
              simp only [Option.map_some', hroyal.2]
              rfl
          rw [hvals] at h0 h4
          have htop14 : top = 14 := by
            unfold selectedValues at h0 h4
            by_cases h5 : top = 5
            · rw [if_pos h5] at h4; simp at h4
            · rw [if_neg h5] at h0; simpa using h0
          subst htop14
          have hcard : ∀ r : Rank, r.canonical → r.value ∈ runValues 14 →
              (⟨r, x⟩ : Card) ∈ cards := by
            intro r hr hv
            obtain ⟨c, hcm, e⟩ := htop.2 _ hv
            have := card_of_value c (hfcanon c hcm) r hr x e (hfmem c hcm).2
            rw [← this]
            exact hp.mem_iff.mp (hfmem c hcm).1
          exact ⟨x, hcard .rA (by decide) (by decide), hcard .rK (by decide) (by decide),
            hcard .rQ (by decide) (by decide), hcard .rJ (by decide) (by decide),
            hcard .rT (by decide) (by decide)⟩
        · cases h

/-- C4. For every list of 5 to 7 unique cards: if it holds the Ace, King,
Queen, Jack and Ten of one suit then `evaluateCompleteHand` returns royal-flush
with exactly these five cards selected and no kickers; and if
`evaluateCompleteHand` returns royal-flush then the list holds the Ace, King,
Queen, Jack and Ten of one suit. -/
theorem evaluateCompleteHand_royalFlush_iff (cards : List Card) (playerCount : Nat)
    (hset : CardSet cards) (hmin : 5 ≤ cards.length) (hmax : cards.length ≤ 7) :
    (∀ x : Suit, (⟨.rA, x⟩ : Card) ∈ cards → (⟨.rK, x⟩ : Card) ∈ cards →
      (⟨.rQ, x⟩ : Card) ∈ cards → (⟨.rJ, x⟩ : Card) ∈ cards → (⟨.rT, x⟩ : Card) ∈ cards →
      (evaluateCompleteHand cards playerCount).strength = .royalFlush ∧
      (evaluateCompleteHand cards playerCount).cards =
        [⟨.rA, x⟩, ⟨.rK, x⟩, ⟨.rQ, x⟩, ⟨.rJ, x⟩, ⟨.rT, x⟩] ∧
      (evaluateCompleteHand cards playerCount).kickers = []) ∧
    ((evaluateCompleteHand cards playerCount).strength = .royalFlush →
      ∃ x : Suit, (⟨.rA, x⟩ : Card) ∈ cards ∧ (⟨.rK, x⟩ : Card) ∈ cards ∧
        (⟨.rQ, x⟩ : Card) ∈ cards ∧ (⟨.rJ, x⟩ : Card) ∈ cards ∧ (⟨.rT, x⟩ : Card) ∈ cards) := by
  constructor
  · intro x hA hK hQ hJ hT
    have h := evaluate_royal_forward cards hset hmin hmax x hA hK hQ hJ hT
    unfold evaluateCompleteHand
    simp only [h, and_self]
  · intro h
    exact evaluate_royal_backward cards hset hmin h

theorem evaluateCompleteHand_royalFlush_iff_witness :
    CardSet [⟨.rA, .spade⟩, ⟨.rK, .spade⟩, ⟨.rQ, .spade⟩, ⟨.rJ, .spade⟩, ⟨.rT, .spade⟩,
      ⟨.r2, .heart⟩, ⟨.r3, .heart⟩] ∧
    5 ≤ ([⟨.rA, .spade⟩, ⟨.rK, .spade⟩, ⟨.rQ, .spade⟩, ⟨.rJ, .spade⟩, ⟨.rT, .spade⟩,
      ⟨.r2, .heart⟩, ⟨.r3, .heart⟩] : List Card).length ∧
    ([⟨.rA, .spade⟩, ⟨.rK, .spade⟩, ⟨.rQ, .spade⟩, ⟨.rJ, .spade⟩, ⟨.rT, .spade⟩,
      ⟨.r2, .heart⟩, ⟨.r3, .heart⟩] : List Card).length ≤ 7 ∧
    (evaluateCompleteHand [⟨.rA, .spade⟩, ⟨.rK, .spade⟩, ⟨.rQ, .spade⟩, ⟨.rJ, .spade⟩,
      ⟨.rT, .spade⟩, ⟨.r2, .heart⟩, ⟨.r3, .heart⟩] 6).strength = .royalFlush ∧
    (evaluateCompleteHand [⟨.rA, .spade⟩, ⟨.rK, .spade⟩, ⟨.rQ, .spade⟩, ⟨.rJ, .spade⟩,
      ⟨.rT, .spade⟩, ⟨.r2, .heart⟩, ⟨.r3, .heart⟩] 6).cards =
      [⟨.rA, .spade⟩, ⟨.rK, .spade⟩, ⟨.rQ, .spade⟩, ⟨.rJ, .spade⟩, ⟨.rT, .spade⟩] ∧
    (evaluateCompleteHand [⟨.rA, .spade⟩, ⟨.rK, .spade⟩, ⟨.rQ, .spade⟩, ⟨.rJ, .spade⟩,
      ⟨.rT, .spade⟩, ⟨.r2, .heart⟩, ⟨.r3, .heart⟩] 6).kickers = [] :=
  ⟨by decide, by decide, by decide,
    (evaluateCompleteHand_royalFlush_iff
      [⟨.rA, .spade⟩, ⟨.rK, .spade⟩, ⟨.rQ, .spade⟩, ⟨.rJ, .spade⟩, ⟨.rT, .spade⟩,
        ⟨.r2, .heart⟩, ⟨.r3, .heart⟩] 6 (by decide) (by decide) (by decide)).1 .spade
      (by decide) (by decide) (by decide) (by decide) (by decide)⟩

theorem adjustForPlayers_bounds (p : ℚ) (n : Nat) (h0 : 0 ≤ p) (h1 : p ≤ 100) :
    0 ≤ adjustForPlayers p n ∧ adjustForPlayers p n ≤ 100 := by
  unfold adjustForPlayers
  split
  · have hq0 : (0 : ℚ) ≤ (1 / 2 : ℚ) ^ (n - 2) := by positivity
    have hq1 : (1 / 2 : ℚ) ^ (n - 2) ≤ 1 := pow_le_one₀ (by norm_num) (by norm_num)
    constructor
    · nlinarith [mul_nonneg hq0 h0]
    · nlinarith [mul_nonneg hq0 (sub_nonneg.mpr h1)]
  · exact ⟨h0, h1⟩

theorem lookup_getD_bounds (table : List (String × ℚ)) (key : String) (d lo hi : ℚ)
    (ht : ∀ e ∈ table, lo ≤ e.2 ∧ e.2 ≤ hi) (hd : lo ≤ d ∧ d ≤ hi) :
    lo ≤ (table.lookup key).getD d ∧ (table.lookup key).getD d ≤ hi := by
  induction table with
  | nil => simpa using hd
  | cons e rest ih =>
    rcases e with ⟨k, v⟩
    simp only [List.lookup_cons]
    split
    · simpa using ht (k, v) (List.mem_cons_self _ _)
    · exact ih (fun e he => ht e (List.mem_cons_of_mem _ he))

theorem preflopPercentages_bounds :
    ∀ e ∈ preflopPercentages, (0 : ℚ) ≤ e.2 ∧ e.2 ≤ 100 := by
  unfold preflopPercentages
  simp only [List.forall_mem_cons, List.not_mem_nil, false_implies, implies_true, and_true]
  norm_num

theorem calculatePreflopProbability_bounds (holeCards : List Card) (playerCount : Nat) :
    0 ≤ calculatePreflopProbability holeCards playerCount ∧
    calculatePreflopProbability holeCards playerCount ≤ 1 := by
  unfold calculatePreflopProbability
  split
  · rename_i card1 card2
    simp only
    have hb := lookup_getD_bounds preflopPercentages
      (if decide (card1.suit = card2.suit) = true then
        (getValueRank (jsMax (cardValues card1.rank) (cardValues card2.rank))).str ++
          (getValueRank (jsMin (cardValues card1.rank) (cardValues card2.rank))).str ++ "s"
      else
        (getValueRank (jsMax (cardValues card1.rank) (cardValues card2.rank))).str ++
          (getValueRank (jsMin (cardValues card1.rank) (cardValues card2.rank))).str ++ "o")
      50 0 100 preflopPercentages_bounds (by norm_num)
    have ha := adjustForPlayers_bounds _ playerCount hb.1 hb.2
    constructor
    · exact div_nonneg ha.1 (by norm_num)
    · rw [div_le_one (by norm_num)]; exact ha.2
  · norm_num

theorem simulateOnce_bounds (holeCards communityCards opponentCards : List Card) (wins : ℚ) :
    wins ≤ simulateOnce holeCards communityCards opponentCards wins ∧
    simulateOnce holeCards communityCards opponentCards wins ≤ wins + 1 := by
  unfold simulateOnce
  simp only
  split
  · constructor <;> linarith
  · split
    · constructor <;> linarith
    · constructor <;> linarith

theorem foldl_wins_bounds (step : ℚ → Nat → ℚ)
    (hstep : ∀ w i, w ≤ step w i ∧ step w i ≤ w + 1) :
    ∀ (trials : List Nat) (w0 : ℚ),
      w0 ≤ trials.foldl step w0 ∧ trials.foldl step w0 ≤ w0 + trials.length
  | [], w0 => by simp
  | i :: trials, w0 => by
    have ih := foldl_wins_bounds step hstep trials (step w0 i)
    have hs := hstep w0 i
    simp only [List.foldl_cons, List.length_cons, Nat.cast_add, Nat.cast_one]
    constructor <;> linarith [ih.1, ih.2]

theorem foldl_range_bounds (step : ℚ → Nat → ℚ)
    (hstep : ∀ w i, w ≤ step w i ∧ step w i ≤ w + 1) (n : Nat) :
    0 ≤ (List.range n).foldl step 0 ∧ (List.range n).foldl step 0 ≤ n := by
  have h := foldl_wins_bounds step hstep (List.range n) 0
  rw [List.length_range, zero_add] at h
  exact h

theorem percentage_bounds (wins : ℚ) (n : Nat) (hn : 0 < n) (h0 : 0 ≤ wins) (h1 : wins ≤ n) :
    0 ≤ wins / n * 100 ∧ wins / n * 100 ≤ 100 := by
  have hn' : (0 : ℚ) < n := by exact_mod_cast hn
  constructor
  · positivity
  · have : wins / n ≤ 1 := by rw [div_le_one hn']; exact h1
    linarith

theorem calculatePostFlopProbability_bounds (holeCards communityCards : List Card)
    (playerCount : Nat) (shuffled : Nat → List Card → List Card) :
    0 ≤ calculatePostFlopProbability holeCards communityCards playerCount shuffled ∧
    calculatePostFlopProbability holeCards communityCards playerCount shuffled ≤ 1 := by
  unfold calculatePostFlopProbability
  split
  · norm_num
  · have hw := foldl_range_bounds
      (fun wins i => simulateOnce holeCards communityCards
        ((shuffled i (calculateRemainingDeck holeCards communityCards)).take 2) wins)
      (fun w i => simulateOnce_bounds _ _ _ w) 1000
    have hp := percentage_bounds _ 1000 (by norm_num) hw.1 hw.2
    have ha := adjustForPlayers_bounds _ playerCount hp.1 hp.2
    simp only
    split
    · split
      · constructor
        · exact div_nonneg (le_min ha.1 (by norm_num)) (by norm_num)
        · rw [div_le_one (by norm_num)]
          exact le_trans (min_le_left _ _) ha.2
      · exact ⟨div_nonneg ha.1 (by norm_num), by rw [div_le_one (by norm_num)]; exact ha.2⟩
    · exact ⟨div_nonneg ha.1 (by norm_num), by rw [div_le_one (by norm_num)]; exact ha.2⟩

/-- C8. For every list of hole cards, every list of community cards, every
player count (of at least 2 or not) and every outcome of the random opponent
draws, the `winProbability` that `calculateWinProbability` returns lies in the
closed interval [0, 1], on the preflop table path and on the simulation path. -/
theorem calculateWinProbability_bounds (holeCards communityCards : List Card)
    (playerCount : Nat) (shuffled : Nat → List Card → List Card) :
    0 ≤ (calculateWinProbability holeCards communityCards playerCount shuffled).winProbability ∧
    (calculateWinProbability holeCards communityCards playerCount shuffled).winProbability ≤ 1 := by
  unfold calculateWinProbability
  simp only
  split
  · exact calculatePreflopProbability_bounds holeCards playerCount
  · exact calculatePostFlopProbability_bounds holeCards communityCards playerCount shuffled

/-- A sublist can be extended, inside the list, to any length between its own
and that of the list. -/
theorem exists_sublist_between {α : Type} :
    ∀ (l s : List α), s.Sublist l → ∀ n, s.length ≤ n → n ≤ l.length →
      ∃ t : List α, s.Sublist t ∧ t.Sublist l ∧ t.length = n := by
  intro l s h
  induction h with
  | slnil =>
    intro n _ hn
    exact ⟨[], List.Sublist.slnil, List.Sublist.slnil, by simp at hn; simp [hn]⟩
  | @cons s l a h ih =>
    intro n hs hn
    by_cases hle : n ≤ l.length
    · obtain ⟨t, h1, h2, h3⟩ := ih n hs hle
      exact ⟨t, h1, h2.cons a, h3⟩
    · refine ⟨a :: l, h.cons a, List.Sublist.refl _, ?_⟩
      simp only [List.length_cons] at hn ⊢
      omega
  | @cons₂ s l a h ih =>
    intro n hs hn
    simp only [List.length_cons] at hs hn
    obtain ⟨t, h1, h2, h3⟩ := ih (n - 1) (by omega) (by omega)
    refine ⟨a :: t, h1.cons₂ a, h2.cons₂ a, ?_⟩
    simp only [List.length_cons]
    omega

theorem rank_stronger (a b : Strength) :
    (handRankings (stronger a b)).getD 0 =
      max ((handRankings a).getD 0) ((handRankings b).getD 0) := by
  unfold stronger
  split
  · rw [max_eq_right (by omega)]
  · rw [max_eq_left (by omega)]

theorem rank_foldl_stronger :
    ∀ (xs : List Strength) (a : Strength),
      (handRankings a).getD 0 ≤ (handRankings (xs.foldl stronger a)).getD 0 ∧
      ∀ x ∈ xs, (handRankings x).getD 0 ≤ (handRankings (xs.foldl stronger a)).getD 0
  | [], a => by simp
  | x :: xs, a => by
    have ih := rank_foldl_stronger xs (stronger a x)
    rw [rank_stronger] at ih
    simp only [List.foldl_cons, List.mem_cons, forall_eq_or_imp]
    refine ⟨le_trans (le_max_left _ _) ih.1, le_trans (le_max_right _ _) ih.1, ih.2⟩

theorem standardCategory_highCard (t : List Card) (h : standardCategory t = .highCard) :
    (∀ r ∈ allRanks, rankCount t r < 2) ∧ (∀ s ∈ allSuits, suitCount t s ≠ 5) ∧
    (∀ top ∈ runTops, ¬ hasRun t top) := by
  unfold standardCategory at h
  simp only at h
  split_ifs at h with h1 h2 h3 h4 h5 h6 h7 h8 h9
  refine ⟨?_, ?_, ?_⟩
  · intro r hr
    have : allRanks.countP (fun r => decide (2 ≤ rankCount t r)) = 0 := by omega
    rw [List.countP_eq_zero] at this
    have := this r hr
    simp only [decide_eq_true_eq] at this
    omega
  · intro s hs
    simp only [Bool.not_eq_true, List.any_eq_false, decide_eq_true_eq] at h5
    exact h5 s hs
  · intro top htop
    simp only [Bool.not_eq_true, List.any_eq_false, decide_eq_true_eq] at h6
    exact h6 top htop

theorem standardCategory_ne_incomplete (t : List Card) : standardCategory t ≠ .incomplete := by
  unfold standardCategory
  simp only
  split_ifs <;> simp

/-- When the strongest standard category of the five-card subsets is high-card,
every five-card subset is a high-card hand. -/
theorem standardCategory_of_bestCategory (l t : List Card) (h : bestCategory l = .highCard)
    (ht : t.Sublist l) (hlen : t.length = 5) : standardCategory t = .highCard := by
  unfold bestCategory at h
  have hm : standardCategory t ∈ (l.sublistsLen 5).map standardCategory :=
    List.mem_map_of_mem _ (List.mem_sublistsLen.mpr ⟨ht, hlen⟩)
  have := (rank_foldl_stronger _ .highCard).2 _ hm
  rw [h] at this
  have hne := standardCategory_ne_incomplete t
  revert this hne
  cases standardCategory t <;> simp [handRankings]

theorem mem_allRanks (r : Rank) (h : r.canonical) : r ∈ allRanks := by
  cases r <;> first | exact absurd rfl h.1 | exact absurd rfl h.2 | decide

theorem mem_allSuits (s : Suit) (h : s.canonical) : s ∈ allSuits := by
  unfold Suit.canonical at h
  rcases h with rfl | rfl | rfl | rfl <;> decide

theorem rankCount_pos_canonical (l : List Card) (hc : ∀ c ∈ l, c.canonical) (k : Rank)
    (h : 0 < rankCount l k) : k.canonical := by
  unfold rankCount at h
  obtain ⟨c, hcm, e⟩ := List.countP_pos_iff.mp h
  have : c.rank = k := by simpa using e
  rw [← this]
  exact (hc c hcm).1

theorem suitCount_pos_canonical (l : List Card) (hc : ∀ c ∈ l, c.canonical) (s : Suit)
    (h : 0 < suitCount l s) : s.canonical := by
  unfold suitCount at h
  obtain ⟨c, hcm, e⟩ := List.countP_pos_iff.mp h
  have : c.suit = s := by simpa using e
  rw [← this]
  exact (hc c hcm).2

/-- Cards whose five-card subsets are all high-card hands hold no rank twice. -/
theorem no_pair_of_highCard (l : List Card) (hc : ∀ c ∈ l, c.canonical) (hlen : 5 ≤ l.length)
    (h : ∀ t : List Card, t.Sublist l → t.length = 5 → standardCategory t = .highCard)
    (k : Rank) : rankCount l k < 2 := by
  by_contra hk
  have hk2 : 2 ≤ rankCount l k := by omega
  have hsub : ((rankGroup l k).take 2).Sublist l :=
    (List.take_sublist _ _).trans (List.filter_sublist _)
  have hl2 : ((rankGroup l k).take 2).length = 2 := by
    rw [List.length_take, length_rankGroup]; omega
  obtain ⟨t, h1, h2, h3⟩ := exists_sublist_between l _ hsub 5 (by omega) hlen
  have hcount : 2 ≤ rankCount t k := by
    have hall : rankCount ((rankGroup l k).take 2) k = 2 := by
      unfold rankCount
      have hcp : ((rankGroup l k).take 2).countP (fun c => decide (c.rank = k)) =
          ((rankGroup l k).take 2).length := by
        apply List.countP_eq_length.mpr
        intro c hcm
        have := List.mem_of_mem_take hcm
        unfold rankGroup at this
        exact (List.mem_filter.mp this).2
      rw [hcp, hl2]
    have := h1.countP_le (fun c => decide (c.rank = k))
    unfold rankCount at hall ⊢
    omega
  have := (standardCategory_highCard t (h t h2 h3)).1 k
    (mem_allRanks k (rankCount_pos_canonical l hc k (by omega)))
  omega

/-- Cards whose five-card subsets are all high-card hands hold no suit five
times. -/
theorem no_flush_of_highCard (l : List Card) (hc : ∀ c ∈ l, c.canonical)
    (h : ∀ t : List Card, t.Sublist l → t.length = 5 → standardCategory t = .highCard)
    (s : Suit) : suitCount l s < 5 := by
  by_contra hs
  have hs5 : 5 ≤ suitCount l s := by omega
  have hsub : ((suitGroup l s).take 5).Sublist l :=
    (List.take_sublist _ _).trans (List.filter_sublist _)
  have hl5 : ((suitGroup l s).take 5).length = 5 := by
    rw [List.length_take, length_suitGroup]; omega
  have hall : suitCount ((suitGroup l s).take 5) s = 5 := by
    unfold suitCount
    have hcp : ((suitGroup l s).take 5).countP (fun c => decide (c.suit = s)) =
        ((suitGroup l s).take 5).length := by
      apply List.countP_eq_length.mpr
      intro c hcm
      have := List.mem_of_mem_take hcm
      unfold suitGroup at this
      exact (List.mem_filter.mp this).2
    rw [hcp, hl5]
  exact (standardCategory_highCard _ (h _ hsub hl5)).2.1 s
    (mem_allSuits s (suitCount_pos_canonical l hc s (by omega))) hall

/-- Cards whose five-card subsets are all high-card hands hold no straight. -/
theorem no_run_of_highCard (l : List Card) (hc : ∀ c ∈ l, c.canonical) (hlen : 5 ≤ l.length)
    (h : ∀ t : List Card, t.Sublist l → t.length = 5 → standardCategory t = .highCard)
    (top : Nat) : ¬ hasRun l top := by
  intro hrun
  obtain ⟨hnd, hl5⟩ := runValues_nodup top hrun.1
  have hvnd : (l.map (fun c => c.rank.value)).Nodup := by
    have hrnd : (l.map Card.rank).Nodup := by
      rw [List.nodup_iff_count_le_one]
      intro k
      rw [← rankCount_eq_count]
      have := no_pair_of_highCard l hc hlen h k
      omega
    have : l.map (fun c => c.rank.value) = (l.map Card.rank).map Rank.value := by
      rw [List.map_map]; rfl
    rw [this]
    apply List.Nodup.map_on _ hrnd
    intro a ha b hb hab
    obtain ⟨ca, hca, ea⟩ := List.mem_map.mp ha
    obtain ⟨cb, hcb, eb⟩ := List.mem_map.mp hb
    exact value_injective a b (ea ▸ (hc ca hca).1) (eb ▸ (hc cb hcb).1) hab
  have hsub : (l.filter (fun c => decide (c.rank.value ∈ runValues top))).Sublist l :=
    List.filter_sublist _
  have hmemt : ∀ c, c ∈ l.filter (fun c => decide (c.rank.value ∈ runValues top)) ↔
      c ∈ l ∧ c.rank.value ∈ runValues top := by
    intro c; rw [List.mem_filter]; simp
  have htnd : ((l.filter (fun c => decide (c.rank.value ∈ runValues top))).map
      (fun c => c.rank.value)).Nodup :=
    List.Nodup.sublist (hsub.map _) hvnd
  have hle : ((l.filter (fun c => decide (c.rank.value ∈ runValues top))).map
      (fun c => c.rank.value)).length ≤ (runValues top).length := by
    apply (List.subperm_of_subset htnd _).length_le
    intro v hv
    obtain ⟨c, hcm, e⟩ := List.mem_map.mp hv
    rw [← e]
    exact ((hmemt c).mp hcm).2
  have hge : (runValues top).length ≤ ((l.filter
      (fun c => decide (c.rank.value ∈ runValues top))).map (fun c => c.rank.value)).length := by
    apply (List.subperm_of_subset hnd _).length_le
    intro v hv
    obtain ⟨c, hcm, e⟩ := hrun.2 v hv
    exact List.mem_map.mpr ⟨c, (hmemt c).mpr ⟨hcm, e ▸ hv⟩, e⟩
  rw [List.length_map] at hle hge
  have hrun' : hasRun (l.filter (fun c => decide (c.rank.value ∈ runValues top))) top := by
    refine ⟨hrun.1, ?_⟩
    intro v hv
    obtain ⟨c, hcm, e⟩ := hrun.2 v hv
    exact ⟨c, (hmemt c).mpr ⟨hcm, e ▸ hv⟩, e⟩
  exact (standardCategory_highCard _ (h _ hsub (by omega))).2.2 top hrun.1 hrun'

theorem checkThreeOfAKind_none (s : List Card) (h : ∀ k, rankCount s k < 3) :
    checkThreeOfAKind s = none := by
  rw [checkThreeOfAKind_eq]
  have : (rankKeys s).find? (fun k => decide (3 ≤ rankCount s k)) = none := by
    rw [List.find?_eq_none]
    intro k _
    have := h k
    simp only [decide_eq_true_eq]
    omega
  rw [this]; rfl

theorem checkPair_none (s : List Card) (h : ∀ k, rankCount s k < 2) :
    checkPair s = none := by
  rw [checkPair_eq]
  have : (rankKeys s).find? (fun k => decide (2 ≤ rankCount s k)) = none := by
    rw [List.find?_eq_none]
    intro k _
    have := h k
    simp only [decide_eq_true_eq]
    omega
  rw [this]; rfl

theorem checkTwoPair_none (s : List Card) (h : ∀ k, rankCount s k < 2) :
    checkTwoPair s = none := by
  rw [checkTwoPair_eq]
  have : pairKeys s = [] := by
    rw [List.eq_nil_iff_forall_not_mem]
    intro k hk
    have := (mem_pairKeys s k).mp hk
    have := h k
    omega
  rw [this]

/-- On cards of the model with no rank held twice, no suit held five times and
no straight, `findBestHand` answers high-card, whatever the order of the
cards. -/
theorem findBestHand_highCard (l : List Card) (hc : ∀ c ∈ l, c.rank.canonical)
    (hlen : 5 ≤ l.length) (hpair : ∀ k, rankCount l k < 2) (hsuit : ∀ s, suitCount l s < 5)
    (hrun : ∀ top, ¬ hasRun l top) : (findBestHand l).strength = .highCard := by
  have hst : checkStraight l = none := by
    cases h : checkStraight l with
    | none => rfl
    | some w =>
      obtain ⟨-, -, -, top, htop, -⟩ := (checkStraight_spec l hc).1 w h
      exact absurd htop (hrun top)
  rw [findBestHand_eq, if_neg (by omega), checkStraightFlush_none l hsuit,
    checkFourOfAKind_none l (fun k => by have := hpair k; omega),
    checkFullHouse_none l (fun k1 _ _ h3 _ => by have := hpair k1; omega),
    checkFlush_none l hsuit, hst,
    checkThreeOfAKind_none l (fun k => by have := hpair k; omega),
    checkTwoPair_none l hpair, checkPair_none l hpair]
  rfl

/-- C9. For every two hole cards and five community cards, all unique, whose
best category is high-card, for every player count and every outcome of the
random opponent draws, `calculatePostFlopProbability` returns a win
probability of at most 0.15. -/
theorem calculatePostFlopProbability_river_cap (holeCards communityCards : List Card)
    (playerCount : Nat) (shuffled : Nat → List Card → List Card)
    (hhole : holeCards.length = 2) (hboard : communityCards.length = 5)
    (hset : CardSet (holeCards ++ communityCards))
    (hbest : bestCategory (holeCards ++ communityCards) = .highCard) :
    calculatePostFlopProbability holeCards communityCards playerCount shuffled ≤ 15 / 100 := by
  have hlen : 5 ≤ (holeCards ++ communityCards).length := by
    rw [List.length_append]; omega
  have hall : ∀ t : List Card, t.Sublist (holeCards ++ communityCards) → t.length = 5 →
      standardCategory t = .highCard :=
    fun t ht hl => standardCategory_of_bestCategory _ t hbest ht hl
  have hhigh : (findBestHand (holeCards ++ communityCards)).strength = .highCard :=
    findBestHand_highCard _ (fun c h => (hset.2 c h).1) hlen
      (no_pair_of_highCard _ hset.2 hlen hall) (no_flush_of_highCard _ hset.2 hall)
      (no_run_of_highCard _ hset.2 hlen hall)
  have hphase : getGamePhase communityCards = .river := by
    unfold getGamePhase
    simp [hboard]
  unfold calculatePostFlopProbability
  rw [if_neg (by omega)]
  simp only [hphase, hhigh, if_true]
  rw [div_le_div_iff_of_pos_right (by norm_num)]
  exact min_le_right _ _

theorem calculatePostFlopProbability_river_cap_witness :
    ([⟨.rA, .spade⟩, ⟨.rK, .heart⟩] : List Card).length = 2 ∧
    ([⟨.r9, .diamond⟩, ⟨.r7, .club⟩, ⟨.r5, .spade⟩, ⟨.r3, .heart⟩, ⟨.r2, .diamond⟩] :
      List Card).length = 5 ∧
    CardSet ([⟨.rA, .spade⟩, ⟨.rK, .heart⟩] ++
      [⟨.r9, .diamond⟩, ⟨.r7, .club⟩, ⟨.r5, .spade⟩, ⟨.r3, .heart⟩, ⟨.r2, .diamond⟩]) ∧
    bestCategory ([⟨.rA, .spade⟩, ⟨.rK, .heart⟩] ++
      [⟨.r9, .diamond⟩, ⟨.r7, .club⟩, ⟨.r5, .spade⟩, ⟨.r3, .heart⟩, ⟨.r2, .diamond⟩]) =
      .highCard ∧
    calculatePostFlopProbability [⟨.rA, .spade⟩, ⟨.rK, .heart⟩]
      [⟨.r9, .diamond⟩, ⟨.r7, .club⟩, ⟨.r5, .spade⟩, ⟨.r3, .heart⟩, ⟨.r2, .diamond⟩] 2
      (fun _ deck => deck) ≤ 15 / 100 :=
  ⟨by decide, by decide, by decide, by decide,
    calculatePostFlopProbability_river_cap [⟨.rA, .spade⟩, ⟨.rK, .heart⟩]
      [⟨.r9, .diamond⟩, ⟨.r7, .club⟩, ⟨.r5, .spade⟩, ⟨.r3, .heart⟩, ⟨.r2, .diamond⟩] 2
      (fun _ deck => deck) (by decide) (by decide) (by decide) (by decide)⟩

theorem cardValues_eq_iff (a b : Rank) (ha : a.canonical) (hb : b.canonical) :
    cardValues a = cardValues b ↔ a = b := by
  constructor
  · intro h
    rw [cardValues_of_canonical a ha, cardValues_of_canonical b hb] at h
    exact value_injective a b ha hb (Option.some.inj h)
  · intro h; rw [h]

theorem differByOne_some (a b : Nat) :
    differByOne (some a) (some b) = decide (a + 1 = b ∨ b + 1 = a) := by
  unfold differByOne
  simp only [Int.ofNat_eq_coe]
  by_cases h : a + 1 = b ∨ b + 1 = a
  · rw [decide_eq_true h]
    simp only [decide_eq_true_eq]
    omega
  · rw [decide_eq_false h]
    simp only [decide_eq_false_iff_not]
    omega

/-- The strength label of `evaluatePreflop` on two cards of the model. -/
theorem evaluatePreflop_strength_eq (card1 card2 : Card) (playerCount : Nat) (position : String)
    (h1 : card1.canonical) (h2 : card2.canonical) :
    (evaluatePreflop [card1, card2] playerCount position).strength =
      if card1.rank = card2.rank then "pair"
      else if card1.rank.value + 1 = card2.rank.value ∨
          card2.rank.value + 1 = card1.rank.value then "connectors"
      else if 10 ≤ card1.rank.value ∧ 10 ≤ card2.rank.value then "broadway"
      else if card1.suit = card2.suit then "suited"
      else "high-card" := by
  unfold evaluatePreflop
  simp only [cardValues_eq_iff _ _ h1.1 h2.1]
  rw [cardValues_of_canonical _ h1.1, cardValues_of_canonical _ h2.1]
  simp only [differByOne_some, atLeastTen, decide_eq_true_eq, Bool.and_eq_true]

/-- C17. For every two hole cards of the card model, whatever the position and
the player count, the strength label of `evaluatePreflop` is 'pair' if the
ranks are equal; otherwise 'connectors' if the values differ by exactly 1,
suited or not (so Ace-King is 'connectors'); otherwise 'broadway' if both
values are 10 or more; otherwise 'suited' if the suits are equal; otherwise
'high-card'. -/
theorem evaluatePreflop_strength (card1 card2 : Card) (playerCount : Nat) (position : String)
    (h1 : card1.canonical) (h2 : card2.canonical) :
    (evaluatePreflop [card1, card2] playerCount position).strength =
      if card1.rank = card2.rank then "pair"
      else if card1.rank.value + 1 = card2.rank.value ∨
          card2.rank.value + 1 = card1.rank.value then "connectors"
      else if 10 ≤ card1.rank.value ∧ 10 ≤ card2.rank.value then "broadway"
      else if card1.suit = card2.suit then "suited"
      else "high-card" :=
  evaluatePreflop_strength_eq card1 card2 playerCount position h1 h2

theorem evaluatePreflop_strength_witness :
    (⟨.rA, .spade⟩ : Card).canonical ∧ (⟨.rK, .heart⟩ : Card).canonical ∧
    (evaluatePreflop [⟨.rA, .spade⟩, ⟨.rK, .heart⟩] 6 "button").strength = "connectors" :=
  ⟨by decide, by decide,
    (evaluatePreflop_strength ⟨.rA, .spade⟩ ⟨.rK, .heart⟩ 6 "button" (by decide)
      (by decide)).trans (by decide)⟩

theorem maxRank_eq : (preflopRankings.map (fun e => e.2)).foldl max 0 = 50 := by decide

theorem evaluatePreflop_connectors_iff (card1 card2 : Card) (playerCount : Nat)
    (position : String) (h1 : card1.canonical) (h2 : card2.canonical) :
    (evaluatePreflop [card1, card2] playerCount position).strength = "connectors" ↔
      (card1.rank.value + 1 = card2.rank.value ∨ card2.rank.value + 1 = card1.rank.value) := by
  rw [evaluatePreflop_strength_eq card1 card2 playerCount position h1 h2]
  by_cases hone : card1.rank.value + 1 = card2.rank.value ∨
      card2.rank.value + 1 = card1.rank.value
  · have hne : card1.rank ≠ card2.rank := by
      intro e; rw [e] at hone; omega
    rw [if_neg hne, if_pos hone]
    simp [hone]
  · rw [if_neg hone]
    simp only [hone, iff_false]
    split_ifs <;> decide

theorem evaluatePreflop_rank_eq (card1 card2 : Card) (playerCount : Nat) (position : String) :
    (evaluatePreflop [card1, card2] playerCount position).rank =
      if decide ((evaluatePreflop [card1, card2] playerCount position).strength = "connectors")
          && decide (card1.suit = card2.suit) then
        ((positionMultiplier position).map (fun multiplier =>
          ((evaluatePreflop [card1, card2] playerCount position).preflopRank : ℚ) /
              ((50 : Nat) : ℚ) * multiplier +
            adjustForPlayerCount .pair playerCount)).map (fun rank => rank * (12 / 10))
      else
        (positionMultiplier position).map (fun multiplier =>
          ((evaluatePreflop [card1, card2] playerCount position).preflopRank : ℚ) /
              ((50 : Nat) : ℚ) * multiplier +
            adjustForPlayerCount .pair playerCount) := by
  rw [← maxRank_eq]
  rfl

theorem positionMultiplier_inherited :
    ∀ position ∈ objectPrototypeKeys, positionMultiplier position = none := by
  decide

/-- C15, the claim fails for a tag that names an inherited property: with the
position 'constructor' the lookup in the object literal finds the inherited
function, the multiplier is not 1.0 and not a number, and the rank of A♠ K♥ is
`NaN` instead of (preflopRank ÷ 50) × 1.0 + the player-count penalty. -/
theorem evaluatePreflop_rank_constructor :
    "constructor" ∉ ["early", "middle", "late", "button", "small-blind", "big-blind"] ∧
    positionMultiplier "constructor" = none ∧
    (evaluatePreflop [⟨.rA, .spade⟩, ⟨.rK, .heart⟩] 6 "constructor").rank = none ∧
    (evaluatePreflop [⟨.rA, .spade⟩, ⟨.rK, .heart⟩] 6 "constructor").rank ≠
      some (((evaluatePreflop [⟨.rA, .spade⟩, ⟨.rK, .heart⟩] 6 "constructor").preflopRank : ℚ)
        / 50 * 1 + adjustForPlayerCount .pair 6) ∧
    (evaluatePreflop [⟨.rA, .spade⟩, ⟨.rK, .heart⟩] 6 "constructor").description =
      "Connectors AKo (NaN% strength)" := by
  have hrank : (evaluatePreflop [⟨.rA, .spade⟩, ⟨.rK, .heart⟩] 6 "constructor").rank = none := by
    rw [evaluatePreflop_rank_eq, positionMultiplier_inherited "constructor" (by decide)]
    simp
  refine ⟨by decide, by decide, hrank, ?_, by decide⟩
  rw [hrank]
  exact fun h => Option.noConfusion h

/-- C15, amended. For every two hole cards of the card model, position tag and
player count, the rank returned by `evaluatePreflop` is (preflopRank ÷ 50) ×
positionMultiplier + adjustForPlayerCount('pair', playerCount), the whole sum
multiplied by 1.2 exactly when the two cards share a suit and their values are
one apart; the multiplier is 0.8, 1.0, 1.2, 1.3, 1.1, 0.9 for early, middle,
late, button, small-blind, big-blind and 1.0 for any other tag that does not
name a property inherited from `Object.prototype`; for a tag that does
('constructor', 'toString', ...) the multiplier is not a number and the rank is
`NaN`; and 50 is the largest ordinal of the ranking table. -/
theorem evaluatePreflop_rank (card1 card2 : Card) (playerCount : Nat) (position : String)
    (h1 : card1.canonical) (h2 : card2.canonical) :
    (evaluatePreflop [card1, card2] playerCount position).rank =
      (positionMultiplier position).map (fun multiplier =>
        (if card1.suit = card2.suit ∧ (card1.rank.value + 1 = card2.rank.value ∨
            card2.rank.value + 1 = card1.rank.value) then 12 / 10 else 1) *
          (((evaluatePreflop [card1, card2] playerCount position).preflopRank : ℚ) / 50 *
            multiplier + adjustForPlayerCount .pair playerCount)) ∧
    positionMultiplier "early" = some (8 / 10) ∧ positionMultiplier "middle" = some 1 ∧
    positionMultiplier "late" = some (12 / 10) ∧ positionMultiplier "button" = some (13 / 10) ∧
    positionMultiplier "small-blind" = some (11 / 10) ∧
    positionMultiplier "big-blind" = some (9 / 10) ∧
    (position ∉ ["early", "middle", "late", "button", "small-blind", "big-blind"] →
      position ∉ objectPrototypeKeys → positionMultiplier position = some 1) ∧
    (position ∈ objectPrototypeKeys → positionMultiplier position = none ∧
      (evaluatePreflop [card1, card2] playerCount position).rank = none) ∧
    (∀ e ∈ preflopRankings, e.2 ≤ 50) ∧ (∃ e ∈ preflopRankings, e.2 = 50) := by
  have hrank : (evaluatePreflop [card1, card2] playerCount position).rank =
      (positionMultiplier position).map (fun multiplier =>
        (if card1.suit = card2.suit ∧ (card1.rank.value + 1 = card2.rank.value ∨
            card2.rank.value + 1 = card1.rank.value) then 12 / 10 else 1) *
          (((evaluatePreflop [card1, card2] playerCount position).preflopRank : ℚ) / 50 *
            multiplier + adjustForPlayerCount .pair playerCount)) := by
    rw [evaluatePreflop_rank_eq]
    have hiff := evaluatePreflop_connectors_iff card1 card2 playerCount position h1 h2
    by_cases hboost : card1.suit = card2.suit ∧ (card1.rank.value + 1 = card2.rank.value ∨
        card2.rank.value + 1 = card1.rank.value)
    · rw [if_pos (by simp [hiff, hboost.1, hboost.2]), Option.map_map]
      congr 1
      funext multiplier
      simp only [Function.comp_apply, if_pos hboost]
      push_cast
      ring
    · rw [if_neg]
      · congr 1
        funext multiplier
        simp only [if_neg hboost]
        push_cast
        ring
      · intro hb
        simp only [Bool.and_eq_true, decide_eq_true_eq] at hb
        exact hboost ⟨hb.2, hiff.mp hb.1⟩
  refine ⟨hrank, by simp [positionMultiplier], by simp [positionMultiplier],
    by simp [positionMultiplier], by simp [positionMultiplier], by simp [positionMultiplier],
    by simp [positionMultiplier], ?_, ?_, by decide, by decide⟩
  · intro hpos hkeys
    simp only [List.mem_cons, List.mem_singleton, List.not_mem_nil, or_false, not_or] at hpos
    obtain ⟨p1, p2, p3, p4, p5, p6⟩ := hpos
    simp [positionMultiplier, p1, p2, p3, p4, p5, p6, hkeys]
  · intro hkeys
    have hnone := positionMultiplier_inherited position hkeys
    exact ⟨hnone, by rw [hrank, hnone]; rfl⟩

theorem evaluatePreflop_rank_witness :
    (⟨.rA, .spade⟩ : Card).canonical ∧ (⟨.rK, .spade⟩ : Card).canonical ∧
    (evaluatePreflop [⟨.rA, .spade⟩, ⟨.rK, .spade⟩] 6 "button").rank =
      (positionMultiplier "button").map (fun multiplier =>
        (if (⟨.rA, .spade⟩ : Card).suit = (⟨.rK, .spade⟩ : Card).suit ∧
            ((⟨.rA, .spade⟩ : Card).rank.value + 1 = (⟨.rK, .spade⟩ : Card).rank.value ∨
            (⟨.rK, .spade⟩ : Card).rank.value + 1 = (⟨.rA, .spade⟩ : Card).rank.value)
          then 12 / 10 else 1) *
          (((evaluatePreflop [⟨.rA, .spade⟩, ⟨.rK, .spade⟩] 6 "button").preflopRank : ℚ) / 50 *
            multiplier + adjustForPlayerCount .pair 6)) :=
  ⟨by decide, by decide,
    (evaluatePreflop_rank ⟨.rA, .spade⟩ ⟨.rK, .spade⟩ 6 "button" (by decide) (by decide)).1⟩

theorem getValueRank_max (a b : Rank) (ha : a.canonical) (hb : b.canonical) :
    getValueRank (jsMax (cardValues a) (cardValues b)) = if b.value ≤ a.value then a else b := by
  rw [cardValues_of_canonical a ha, cardValues_of_canonical b hb]
  show getValueRank (some (max a.value b.value)) = _
  split
  · rename_i h; rw [max_eq_left h, getValueRank_value a ha]
  · rename_i h; rw [max_eq_right (by omega), getValueRank_value b hb]

theorem getValueRank_min (a b : Rank) (ha : a.canonical) (hb : b.canonical) :
    getValueRank (jsMin (cardValues a) (cardValues b)) = if b.value ≤ a.value then b else a := by
  rw [cardValues_of_canonical a ha, cardValues_of_canonical b hb]
  show getValueRank (some (min a.value b.value)) = _
  split
  · rename_i h; rw [min_eq_right h, getValueRank_value b hb]
  · rename_i h; rw [min_eq_left (by omega), getValueRank_value a ha]

theorem length_str (r : Rank) (h : r.canonical) : r.str.length = 1 := by
  cases r <;> first | exact absurd rfl h.1 | exact absurd rfl h.2 | decide

theorem jsMax_comm (a b : Option Nat) : jsMax a b = jsMax b a := by
  cases a <;> cases b <;> simp [jsMax, max_comm]

theorem jsMin_comm (a b : Option Nat) : jsMin a b = jsMin b a := by
  cases a <;> cases b <;> simp [jsMin, min_comm]

theorem getPreflopChartSuggestion_swap (card1 card2 : Card) :
    getPreflopChartSuggestion [card1, card2] = getPreflopChartSuggestion [card2, card1] := by
  unfold getPreflopChartSuggestion
  simp only [jsMax_comm (cardValues card1.rank), jsMin_comm (cardValues card1.rank),
    eq_comm (a := cardValues card1.rank), eq_comm (a := card1.suit)]

theorem getPreflopChartSuggestion_label_eq (card1 card2 : Card) (h1 : card1.canonical)
    (h2 : card2.canonical) :
    (getPreflopChartSuggestion [card1, card2]).label =
      if card1.rank = card2.rank then
        (if card2.rank.value ≤ card1.rank.value then card1.rank else card2.rank).str ++
          (if card2.rank.value ≤ card1.rank.value then card2.rank else card1.rank).str
      else if card1.suit = card2.suit then
        (if card2.rank.value ≤ card1.rank.value then card1.rank else card2.rank).str ++
          (if card2.rank.value ≤ card1.rank.value then card2.rank else card1.rank).str ++ "s"
      else
        (if card2.rank.value ≤ card1.rank.value then card1.rank else card2.rank).str ++
          (if card2.rank.value ≤ card1.rank.value then card2.rank else card1.rank).str ++ "o" := by
  unfold getPreflopChartSuggestion
  simp only [cardValues_eq_iff _ _ h1.1 h2.1, getValueRank_max _ _ h1.1 h2.1,
    getValueRank_min _ _ h1.1 h2.1, decide_eq_true_eq]

/-- C13. For every two unique hole cards of the card model, in either order,
the label returned by `getPreflopChartSuggestion`, which is the `chartLabel` of
`evaluatePreflop`, is the rank of the higher value followed by the rank of the
lower value, then 's' if the two cards are of different ranks and one suit,
'o' if they are of different ranks and different suits, and no suffix if they
are paired; it has 2 or 3 characters; A♠ K♥ gives 'AKo' and A♠ K♠ gives
'AKs'. -/
theorem getPreflopChartSuggestion_label (card1 card2 : Card) (playerCount : Nat)
    (position : String) (h1 : card1.canonical) (h2 : card2.canonical) (hne : card1 ≠ card2) :
    (getPreflopChartSuggestion [card1, card2]).label =
      (if card1.rank = card2.rank then
        (if card2.rank.value ≤ card1.rank.value then card1.rank else card2.rank).str ++
          (if card2.rank.value ≤ card1.rank.value then card2.rank else card1.rank).str
      else if card1.suit = card2.suit then
        (if card2.rank.value ≤ card1.rank.value then card1.rank else card2.rank).str ++
          (if card2.rank.value ≤ card1.rank.value then card2.rank else card1.rank).str ++ "s"
      else
        (if card2.rank.value ≤ card1.rank.value then card1.rank else card2.rank).str ++
          (if card2.rank.value ≤ card1.rank.value then card2.rank else card1.rank).str ++ "o") ∧
    (card1.rank = card2.rank → card1.suit ≠ card2.suit) ∧
    (evaluatePreflop [card1, card2] playerCount position).chartLabel =
      (getPreflopChartSuggestion [card1, card2]).label ∧
    (getPreflopChartSuggestion [card2, card1]).label =
      (getPreflopChartSuggestion [card1, card2]).label ∧
    ((getPreflopChartSuggestion [card1, card2]).label.length = 2 ∨
      (getPreflopChartSuggestion [card1, card2]).label.length = 3) ∧
    (getPreflopChartSuggestion [⟨.rA, .spade⟩, ⟨.rK, .heart⟩]).label = "AKo" ∧
    (getPreflopChartSuggestion [⟨.rA, .spade⟩, ⟨.rK, .spade⟩]).label = "AKs" := by
  refine ⟨getPreflopChartSuggestion_label_eq card1 card2 h1 h2, ?_, rfl,
    by rw [getPreflopChartSuggestion_swap], ?_, by decide, by decide⟩
  · intro hr hs
    apply hne
    rcases card1 with ⟨ra, sa⟩
    rcases card2 with ⟨rb, sb⟩
    simp only at hr hs
    rw [hr, hs]
  · rw [getPreflopChartSuggestion_label_eq card1 card2 h1 h2]
    have l1 := length_str card1.rank h1.1
    have l2 := length_str card2.rank h2.1
    have ls : "s".length = 1 := by decide
    have lo : "o".length = 1 := by decide
    split_ifs <;> simp only [String.length_append, l1, l2, ls, lo] <;> simp

theorem getPreflopChartSuggestion_label_witness :
    (⟨.rQ, .club⟩ : Card).canonical ∧ (⟨.rJ, .diamond⟩ : Card).canonical ∧
    (⟨.rQ, .club⟩ : Card) ≠ ⟨.rJ, .diamond⟩ ∧
    (evaluatePreflop [⟨.rJ, .diamond⟩, ⟨.rQ, .club⟩] 6 "middle").chartLabel = "QJo" :=
  ⟨by decide, by decide, by decide,
    ((getPreflopChartSuggestion_label ⟨.rJ, .diamond⟩ ⟨.rQ, .club⟩ 6 "middle" (by decide)
      (by decide) (by decide)).2.2.1).trans (by decide)⟩

theorem adjustForPlayers_two (p : ℚ) : adjustForPlayers p 2 = p := by
  unfold adjustForPlayers
  rw [if_neg (by omega)]

theorem adjustForPlayers_of_gt (p : ℚ) (n : Nat) (h : 2 < n) :
    adjustForPlayers p n = 50 + (p - 50) * (1 / 2 : ℚ) ^ (n - 2) := by
  unfold adjustForPlayers
  rw [if_pos h]

theorem calculatePreflopProbability_eq (card1 card2 : Card) (n : Nat) :
    calculatePreflopProbability [card1, card2] n =
      adjustForPlayers (100 * calculatePreflopProbability [card1, card2] 2) n / 100 := by
  unfold calculatePreflopProbability
  simp only [adjustForPlayers_two]
  congr 2
  ring

/-- What `calculatePostFlopProbability` returns for two hole cards: the
simulated percentage, corrected for the number of players, capped on the river
for a high-card hand, as a fraction. -/
theorem calculatePostFlopProbability_eq (card1 card2 : Card) (communityCards : List Card)
    (n : Nat) (shuffled : Nat → List Card → List Card) :
    calculatePostFlopProbability [card1, card2] communityCards n shuffled =
      (if getGamePhase communityCards = .river ∧
          (findBestHand ([card1, card2] ++ communityCards)).strength = .highCard then
        min (adjustForPlayers (simulatedWinPercentage [card1, card2] communityCards shuffled) n)
          15
      else adjustForPlayers (simulatedWinPercentage [card1, card2] communityCards shuffled) n)
        / 100 := by
  unfold calculatePostFlopProbability simulatedWinPercentage
  rw [if_neg (by simp)]
  simp only
  by_cases hr : getGamePhase communityCards = .river
  · by_cases hh : (findBestHand ([card1, card2] ++ communityCards)).strength = .highCard
    · rw [if_pos hr, if_pos hh, if_pos ⟨hr, hh⟩]
    · rw [if_pos hr, if_neg hh, if_neg (fun h => hh h.2)]
  · rw [if_neg hr, if_neg (fun h => hr h.1)]

/-- C12. For every two hole cards and every player count n > 2:
100·calculatePreflopProbability(h, n) = 50 + (100·calculatePreflopProbability(h, 2) − 50)·0.5^(n−2);
`calculatePostFlopProbability` applies the same correction to its simulated win
percentage W for the same opponent draws, so that its result obeys the same
equation whenever the river cap does not apply, and is
min(50 + (W − 50)·0.5^(n−2), 15)/100 when it does. -/
theorem playerCount_correction (card1 card2 : Card) (communityCards : List Card) (n : Nat)
    (shuffled : Nat → List Card → List Card) (hn : 2 < n) :
    100 * calculatePreflopProbability [card1, card2] n =
      50 + (100 * calculatePreflopProbability [card1, card2] 2 - 50) * (1 / 2 : ℚ) ^ (n - 2) ∧
    (¬ (getGamePhase communityCards = .river ∧
        (findBestHand ([card1, card2] ++ communityCards)).strength = .highCard) →
      100 * calculatePostFlopProbability [card1, card2] communityCards 2 shuffled =
        simulatedWinPercentage [card1, card2] communityCards shuffled ∧
      100 * calculatePostFlopProbability [card1, card2] communityCards n shuffled =
        50 + (100 * calculatePostFlopProbability [card1, card2] communityCards 2 shuffled - 50)
          * (1 / 2 : ℚ) ^ (n - 2)) ∧
    (getGamePhase communityCards = .river ∧
        (findBestHand ([card1, card2] ++ communityCards)).strength = .highCard →
      100 * calculatePostFlopProbability [card1, card2] communityCards n shuffled =
        min (50 + (simulatedWinPercentage [card1, card2] communityCards shuffled - 50)
          * (1 / 2 : ℚ) ^ (n - 2)) 15) := by
  refine ⟨?_, ?_, ?_⟩
  · rw [calculatePreflopProbability_eq card1 card2 n, adjustForPlayers_of_gt _ n hn]
    ring
  · intro hcap
    have h2 : 100 * calculatePostFlopProbability [card1, card2] communityCards 2 shuffled =
        simulatedWinPercentage [card1, card2] communityCards shuffled := by
      rw [calculatePostFlopProbability_eq, if_neg hcap, adjustForPlayers_two]
      ring
    refine ⟨h2, ?_⟩
    rw [h2, calculatePostFlopProbability_eq, if_neg hcap, adjustForPlayers_of_gt _ n hn]
    ring
  · intro hcap
    rw [calculatePostFlopProbability_eq, if_pos hcap, adjustForPlayers_of_gt _ n hn]
    ring

theorem playerCount_correction_witness :
    2 < 6 ∧
    100 * calculatePreflopProbability [⟨.rA, .spade⟩, ⟨.rK, .spade⟩] 6 =
      50 + (100 * calculatePreflopProbability [⟨.rA, .spade⟩, ⟨.rK, .spade⟩] 2 - 50)
        * (1 / 2 : ℚ) ^ (6 - 2) :=
  ⟨by decide, (playerCount_correction ⟨.rA, .spade⟩ ⟨.rK, .spade⟩ [] 6 (fun _ deck => deck)
    (by decide)).1⟩

theorem countSuit_map (s : Suit) (c : Card) :
    ∀ g : List (Suit × List Card),
      countSuit s (g.map fun e => (e.1, e.2.length)) =
        (pushGroup s c g).map fun e => (e.1, e.2.length)
  | [] => by simp [countSuit, pushGroup]
  | (k, cs) :: g => by
    simp only [List.map_cons, countSuit, pushGroup]
    split
    · simp
    · simp [countSuit_map s c g]

theorem foldl_countSuit_map (cards : List Card) :
    ∀ g : List (Suit × List Card),
      cards.foldl (fun counts card => countSuit card.suit counts)
          (g.map fun e => (e.1, e.2.length)) =
        (cards.foldl (fun groups card => pushGroup card.suit card groups) g).map
          fun e => (e.1, e.2.length) := by
  induction cards with
  | nil => intro g; rfl
  | cons c cards ih =>
    intro g
    simp only [List.foldl_cons]
    rw [countSuit_map c.suit c g, ih]

/-- The object `suitCounts` holds, for every suit that occurs, the number of
cards of that suit. -/
theorem suitCounts_eq (cards : List Card) :
    suitCounts cards = (suitKeys cards).map fun s => (s, suitCount cards s) := by
  have h := foldl_countSuit_map cards []
  simp only [List.map_nil] at h
  unfold suitCounts
  rw [h]
  show (groupBySuit cards).map _ = _
  rw [groupBySuit_eq, List.map_map]
  apply List.map_congr_left
  intro s _
  simp [length_suitGroup]

theorem flushDrawOuts_eq (cards : List Card) [Decidable (∃ s, suitCount cards s = 4)] :
    flushDrawOuts cards = if ∃ s, suitCount cards s = 4 then 9 else 0 := by
  unfold flushDrawOuts
  rw [suitCounts_eq]
  have hiff : ((suitKeys cards).map fun s => (s, suitCount cards s)).any
      (fun e => decide (e.2 = 4)) = true ↔ ∃ s, suitCount cards s = 4 := by
    rw [List.any_eq_true]
    constructor
    · rintro ⟨e, he, h4⟩
      obtain ⟨s, -, rfl⟩ := List.mem_map.mp he
      exact ⟨s, by simpa using h4⟩
    · rintro ⟨s, hs⟩
      refine ⟨(s, suitCount cards s), List.mem_map.mpr ⟨s, ?_, rfl⟩, by simpa using hs⟩
      rw [mem_suitKeys]
      unfold suitCount at hs
      have hpos : 0 < cards.countP (fun c => decide (c.suit = s)) := by omega
      obtain ⟨c, hc, hcs⟩ := List.countP_pos_iff.mp hpos
      exact ⟨c, hc, by simpa using hcs⟩
  by_cases h : ∃ s, suitCount cards s = 4
  · rw [if_pos (hiff.mpr h), if_pos h]
  · rw [if_neg (fun h' => h (hiff.mp h')), if_neg h]

theorem overcardOuts_of_no_pair (cards : List Card) (h : ∀ k, rankCount cards k < 2) :
    overcardOuts cards = 0 := by
  unfold overcardOuts
  simp only [pairs_eq]
  have : pairKeys cards = [] := by
    rw [List.eq_nil_iff_forall_not_mem]
    intro k hk
    have := (mem_pairKeys cards k).mp hk
    have := h k
    omega
  rw [this]
  rfl

theorem jsSet_sublist {α : Type} [DecidableEq α] (l : List α) : (jsSet l).Sublist l := by
  induction l using List.reverseRecOn with
  | nil => simp [jsSet]
  | append_singleton l x ih =>
    rw [jsSet_concat]
    split
    · exact ih.trans (List.sublist_append_left _ _)
    · exact List.Sublist.append ih (List.Sublist.refl _)

theorem sorted_uniqueValuesAscending (cards : List Card) :
    (uniqueValuesAscending cards).Sorted (fun a b => a < b) := by
  unfold uniqueValuesAscending
  have h1 : (jsSet ((cards.map (fun c => c.rank.value)).insertionSort
      (fun a b => a ≤ b))).Sorted (fun a b => a ≤ b) :=
    List.Pairwise.sublist (jsSet_sublist _) (List.sorted_insertionSort _ _)
  exact (List.Pairwise.and h1 (nodup_jsSet _)).imp (fun ⟨hle, hne⟩ => lt_of_le_of_ne hle hne)

theorem mem_uniqueValuesAscending (cards : List Card) (v : Nat) :
    v ∈ uniqueValuesAscending cards ↔ ∃ c ∈ cards, c.rank.value = v := by
  unfold uniqueValuesAscending
  rw [mem_jsSet, List.mem_insertionSort, List.mem_map]

theorem sortAscending_map_some (l : List Nat) :
    sortAscending (l.map some) = (l.insertionSort (fun a b => a ≤ b)).map some := by
  unfold sortAscending
  have h1 : (l.map some).filterMap id = l := by
    rw [List.filterMap_map]; simp
  have h2 : (l.map some).filter (fun v => v.isNone) = [] := by
    rw [List.filter_eq_nil_iff]; simp
  rw [h1, h2, List.append_nil]

/-- On cards of the model the array `uniqueValues` of `countOuts` holds the
values that occur, each once, in ascending order. -/
theorem uniqueValuesAscending_eq (cards : List Card) (hc : ∀ c ∈ cards, c.rank.canonical) :
    jsSet (sortAscending (cards.map (fun card => cardValues card.rank))) =
      (uniqueValuesAscending cards).map some := by
  have h : cards.map (fun card => cardValues card.rank) =
      (cards.map (fun c => c.rank.value)).map some := by
    rw [List.map_map]
    apply List.map_congr_left
    intro c hcm
    exact cardValues_of_canonical _ (hc c hcm)
  rw [h, sortAscending_map_some, jsSet_map_of_injective some (Option.some_injective _)]
  rfl

theorem mem_four (x a b c d : Nat) (rest : List Nat) (h : x ∈ a :: b :: c :: d :: rest)
    (hr : ∀ y ∈ rest, d < y) : x = a ∨ x = b ∨ x = c ∨ x = d ∨ d < x := by
  simp only [List.mem_cons] at h
  have hlast : x ∈ rest → d < x := hr x
  tauto

/-- The loop for the open-ended draw on a strictly ascending list of values: it
finds a window exactly when the list holds four consecutive values. -/
theorem openEndedDraw_spec :
    ∀ u : List Nat, u.Sorted (fun a b => a < b) →
      (openEndedDraw (u.map some) = true ↔
        ∃ v, v ∈ u ∧ v + 1 ∈ u ∧ v + 2 ∈ u ∧ v + 3 ∈ u)
  | [], _ => by simp [openEndedDraw]
  | a :: rest, hs => by
    have hlt : ∀ y ∈ rest, a < y := (List.sorted_cons.mp hs).1
    have hsr : rest.Sorted (fun a b => a < b) := (List.sorted_cons.mp hs).2
    have ih := openEndedDraw_spec rest hsr
    rw [List.map_cons]
    unfold openEndedDraw
    by_cases hlen : 4 ≤ (some a :: rest.map some).length
    · rw [if_pos hlen]
      rcases rest with _ | ⟨b, _ | ⟨c, _ | ⟨d, rest'⟩⟩⟩
      · simp at hlen
      · simp at hlen
      · simp at hlen
      · have hb : a < b := hlt b (by simp)
        have hcb : b < c := (List.sorted_cons.mp hsr).1 c (by simp)
        have hsr2 := (List.sorted_cons.mp hsr).2
        have hdc : c < d := (List.sorted_cons.mp hsr2).1 d (by simp)
        have hsr3 := (List.sorted_cons.mp hsr2).2
        have hre : ∀ y ∈ rest', d < y := (List.sorted_cons.mp hsr3).1
        have hspan : spans ((some a :: (b :: c :: d :: rest').map some).take 4) 3 3 =
            decide (d = a + 3) := by
          simp only [spans, List.map_cons, List.take_succ_cons, List.take_zero,
            List.getElem?_cons_zero, List.getElem?_cons_succ, Int.ofNat_eq_coe]
          by_cases h : d = a + 3
          · rw [decide_eq_true h]
            simp only [decide_eq_true_eq]
            omega
          · rw [decide_eq_false h]
            simp only [decide_eq_false_iff_not]
            omega
        rw [hspan]
        by_cases hw : d = a + 3
        · rw [decide_eq_true hw]
          simp only [if_true, true_iff]
          have : b = a + 1 ∧ c = a + 2 := by omega
          obtain ⟨rfl, rfl⟩ := this
          subst hw
          exact ⟨a, by simp, by simp, by simp, by simp⟩
        · rw [decide_eq_false hw]
          simp only [Bool.false_eq_true, if_false]
          rw [ih]
          constructor
          · rintro ⟨v, h0, h1, h2, h3⟩
            exact ⟨v, List.mem_cons_of_mem _ h0, List.mem_cons_of_mem _ h1,
              List.mem_cons_of_mem _ h2, List.mem_cons_of_mem _ h3⟩
          · rintro ⟨v, h0, h1, h2, h3⟩
            have m0 := mem_four _ _ _ _ _ _ h0 hre
            have m1 := mem_four _ _ _ _ _ _ h1 hre
            have m2 := mem_four _ _ _ _ _ _ h2 hre
            have m3 := mem_four _ _ _ _ _ _ h3 hre
            have hva : v ≠ a := by omega
            have key : ∀ x, x ∈ a :: b :: c :: d :: rest' → a < x →
                x ∈ b :: c :: d :: rest' := by
              intro x hx hax
              rcases List.mem_cons.mp hx with e | e
              · omega
              · exact e
            have hav : a < v := by
              rcases List.mem_cons.mp h0 with e | e
              · exact absurd e hva
              · exact hlt v e
            exact ⟨v, key _ h0 hav, key _ h1 (by omega), key _ h2 (by omega),
              key _ h3 (by omega)⟩
    · rw [if_neg hlen]
      simp only [Bool.false_eq_true, false_iff]
      rintro ⟨v, h0, h1, h2, h3⟩
      apply hlen
      have hnd : [v, v + 1, v + 2, v + 3].Nodup := by simp
      have hsub : [v, v + 1, v + 2, v + 3] ⊆ a :: rest := by
        intro x hx
        simp only [List.mem_cons, List.mem_singleton, List.not_mem_nil, or_false] at hx
        rcases hx with rfl | rfl | rfl | rfl <;> assumption
      have := (List.subperm_of_subset hnd hsub).length_le
      simpa using this

theorem openEndedDraw_of_fourConsecutive (cards : List Card)
    (hc : ∀ c ∈ cards, c.rank.canonical) (low : Nat) (h : fourConsecutive cards low) :
    openEndedDraw (jsSet (sortAscending (cards.map (fun card => cardValues card.rank)))) =
      true := by
  rw [uniqueValuesAscending_eq cards hc,
    openEndedDraw_spec _ (sorted_uniqueValuesAscending cards)]
  simp only [mem_uniqueValuesAscending]
  exact ⟨low, h 0 (by omega), h 1 (by omega), h 2 (by omega), h 3 (by omega)⟩

theorem countOuts_of_open_ended (holeCards communityCards : List Card)
    (hboard : 3 ≤ communityCards.length)
    (hc : ∀ c ∈ holeCards ++ communityCards, c.canonical)
    (hrank : ∀ k, rankCount (holeCards ++ communityCards) k ≤ 1)
    (hrun : ∃ low, fourConsecutive (holeCards ++ communityCards) low) :
    countOuts holeCards communityCards = flushDrawOuts (holeCards ++ communityCards) + 8 := by
  obtain ⟨low, hlow⟩ := hrun
  have hopen := openEndedDraw_of_fourConsecutive _ (fun c h => (hc c h).1) low hlow
  have hover : overcardOuts (holeCards ++ communityCards) = 0 :=
    overcardOuts_of_no_pair _ (fun k => Nat.lt_succ_of_le (hrank k))
  unfold countOuts
  rw [if_neg (by omega)]
  simp only [hopen, if_true, hover]
  rw [if_neg (by omega)]
  omega

/-- C18. For every hole and community cards of the card model with at least 3
community cards and no rank repeated among the known cards, if the values of
the known cards hold four consecutive values then `countOuts` returns 8 when
no suit is held exactly four times and 8 + 9 = 17 when some suit is; hole
9♠ 8♠ with board 7♠ 6♦ 2♣ gives 8. -/
theorem countOuts_open_ended (holeCards communityCards : List Card)
    (hboard : 3 ≤ communityCards.length)
    (hc : ∀ c ∈ holeCards ++ communityCards, c.canonical)
    (hrank : ∀ k, rankCount (holeCards ++ communityCards) k ≤ 1)
    (hrun : ∃ low, fourConsecutive (holeCards ++ communityCards) low) :
    ((∃ s, suitCount (holeCards ++ communityCards) s = 4) →
      countOuts holeCards communityCards = 17) ∧
    ((¬ ∃ s, suitCount (holeCards ++ communityCards) s = 4) →
      countOuts holeCards communityCards = 8) ∧
    countOuts [⟨.r9, .spade⟩, ⟨.r8, .spade⟩] [⟨.r7, .spade⟩, ⟨.r6, .diamond⟩, ⟨.r2, .club⟩]
      = 8 := by
  have h := countOuts_of_open_ended holeCards communityCards hboard hc hrank hrun
  haveI : Decidable (∃ s, suitCount (holeCards ++ communityCards) s = 4) :=
    Classical.propDecidable _
  rw [flushDrawOuts_eq] at h
  refine ⟨fun hs => ?_, fun hs => ?_, by decide⟩
  · rw [h, if_pos hs]
  · rw [h, if_neg hs]

theorem countOuts_open_ended_witness :
    3 ≤ ([⟨.r7, .spade⟩, ⟨.r6, .spade⟩, ⟨.r2, .club⟩] : List Card).length ∧
    (∀ c ∈ ([⟨.r9, .spade⟩, ⟨.r8, .spade⟩] ++
      [⟨.r7, .spade⟩, ⟨.r6, .spade⟩, ⟨.r2, .club⟩] : List Card), c.canonical) ∧
    (∀ k, rankCount ([⟨.r9, .spade⟩, ⟨.r8, .spade⟩] ++
      [⟨.r7, .spade⟩, ⟨.r6, .spade⟩, ⟨.r2, .club⟩]) k ≤ 1) ∧
    (∃ low, fourConsecutive ([⟨.r9, .spade⟩, ⟨.r8, .spade⟩] ++
      [⟨.r7, .spade⟩, ⟨.r6, .spade⟩, ⟨.r2, .club⟩]) low) ∧
    (∃ s, suitCount ([⟨.r9, .spade⟩, ⟨.r8, .spade⟩] ++
      [⟨.r7, .spade⟩, ⟨.r6, .spade⟩, ⟨.r2, .club⟩]) s = 4) ∧
    countOuts [⟨.r9, .spade⟩, ⟨.r8, .spade⟩] [⟨.r7, .spade⟩, ⟨.r6, .spade⟩, ⟨.r2, .club⟩]
      = 17 :=
  ⟨by decide, by decide, by intro k; cases k <;> decide, ⟨6, by decide⟩, ⟨.spade, by decide⟩,
    (countOuts_open_ended [⟨.r9, .spade⟩, ⟨.r8, .spade⟩]
      [⟨.r7, .spade⟩, ⟨.r6, .spade⟩, ⟨.r2, .club⟩] (by decide) (by decide)
      (by intro k; cases k <;> decide) ⟨6, by decide⟩).1 ⟨.spade, by decide⟩⟩

/-! ### Double precision -/

theorem floor_le_self (y : ℚ) : ((Rat.floor y : Int) : ℚ) ≤ y := Rat.le_floor.mp le_rfl

theorem lt_floor_add_one (y : ℚ) : y < ((Rat.floor y : Int) : ℚ) + 1 := by
  by_contra hc
  push_neg at hc
  have : Rat.floor y + 1 ≤ Rat.floor y := Rat.le_floor.mpr (by push_cast; exact hc)
  omega

theorem roundHalfEven_cases (y : ℚ) :
    (roundHalfEven y = Rat.floor y ∧ y - ((Rat.floor y : Int) : ℚ) ≤ 1 / 2) ∨
    (roundHalfEven y = Rat.floor y + 1 ∧ 1 / 2 ≤ y - ((Rat.floor y : Int) : ℚ)) := by
  unfold roundHalfEven
  simp only []
  split_ifs with h1 h2 h3
  · exact Or.inl ⟨rfl, le_of_lt h1⟩
  · exact Or.inr ⟨rfl, le_of_lt h2⟩
  · exact Or.inl ⟨rfl, not_lt.mp h2⟩
  · exact Or.inr ⟨rfl, not_lt.mp h1⟩

theorem roundHalfEven_near (y : ℚ) : |(roundHalfEven y : ℚ) - y| ≤ 1 / 2 := by
  have h1 := floor_le_self y
  have h2 := lt_floor_add_one y
  rw [abs_le]
  rcases roundHalfEven_cases y with ⟨h, hr⟩ | ⟨h, hr⟩ <;> rw [h] <;> push_cast <;>
    constructor <;> linarith

theorem roundHalfEven_of_near (y : ℚ) (m : ℤ) (h1 : (m : ℚ) - 1 / 2 < y)
    (h2 : y < (m : ℚ) + 1 / 2) : roundHalfEven y = m := by
  have hf1 := floor_le_self y
  have hf2 := lt_floor_add_one y
  rcases roundHalfEven_cases y with ⟨h, hr⟩ | ⟨h, hr⟩
  · rw [h]
    have ha : (m : ℚ) < ((Rat.floor y : Int) : ℚ) + 1 := by linarith
    have hb : ((Rat.floor y : Int) : ℚ) < (m : ℚ) + 1 := by linarith
    have ha' : m < Rat.floor y + 1 := by exact_mod_cast ha
    have hb' : Rat.floor y < m + 1 := by exact_mod_cast hb
    omega
  · rw [h]
    have ha : ((Rat.floor y : Int) : ℚ) < (m : ℚ) := by linarith
    have hb : (m : ℚ) < ((Rat.floor y : Int) : ℚ) + 2 := by linarith
    have ha' : Rat.floor y < m := by exact_mod_cast ha
    have hb' : m < Rat.floor y + 2 := by exact_mod_cast hb
    omega

theorem roundHalfEven_intCast (m : ℤ) : roundHalfEven (m : ℚ) = m :=
  roundHalfEven_of_near _ m (by linarith) (by linarith)

theorem roundHalfEven_mono {y z : ℚ} (h : y ≤ z) : roundHalfEven y ≤ roundHalfEven z := by
  have hfy1 := floor_le_self y
  have hfz2 := lt_floor_add_one z
  have hfle : Rat.floor y ≤ Rat.floor z := Rat.le_floor.mpr (le_trans hfy1 h)
  rcases lt_or_eq_of_le hfle with hlt | heq
  · rcases roundHalfEven_cases y with ⟨hy, _⟩ | ⟨hy, _⟩ <;>
      rcases roundHalfEven_cases z with ⟨hz, _⟩ | ⟨hz, _⟩ <;> omega
  · unfold roundHalfEven
    simp only []
    rw [heq]
    split_ifs <;> first | omega | (exfalso; linarith)

theorem log_two_eq (x : ℚ) (hx : 0 < x) (k : ℤ) (h1 : (2 : ℚ) ^ k ≤ x)
    (h2 : x < (2 : ℚ) ^ (k + 1)) : Int.log 2 x = k := by
  have a : k ≤ Int.log 2 x :=
    (Int.zpow_le_iff_le_log (by norm_num : 1 < 2) hx).mp (by exact_mod_cast h1)
  have b : Int.log 2 x < k + 1 :=
    (Int.lt_zpow_iff_log_lt (by norm_num : 1 < 2) hx).mp (by exact_mod_cast h2)
  omega

theorem toDouble_of_pos (x : ℚ) (hx : 0 < x) :
    toDouble x =
      (roundHalfEven (x / (2 : ℚ) ^ (Int.log 2 x - 52)) : ℚ) * (2 : ℚ) ^ (Int.log 2 x - 52) := by
  unfold toDouble
  rw [if_neg hx.ne', abs_of_pos hx]

theorem zpow_log_le (x : ℚ) (hx : 0 < x) : (2 : ℚ) ^ (Int.log 2 x) ≤ x := by
  have := Int.zpow_log_le_self (by norm_num : 1 < 2) hx
  exact_mod_cast this

theorem lt_zpow_log (x : ℚ) : x < (2 : ℚ) ^ (Int.log 2 x + 1) := by
  have := Int.lt_zpow_succ_log_self (by norm_num : 1 < 2) x
  exact_mod_cast this

/-- The significand: a positive number divided by the power of two of its
exponent lies between 2^52 and 2^53. -/
theorem significand_bounds (x : ℚ) (hx : 0 < x) :
    (2 : ℚ) ^ (52 : ℕ) ≤ x / (2 : ℚ) ^ (Int.log 2 x - 52) ∧
    x / (2 : ℚ) ^ (Int.log 2 x - 52) < (2 : ℚ) ^ (53 : ℕ) := by
  have hp : (0 : ℚ) < (2 : ℚ) ^ (Int.log 2 x - 52) := zpow_pos (by norm_num) _
  have h1 := zpow_log_le x hx
  have h2 := lt_zpow_log x
  have e1 : (2 : ℚ) ^ (Int.log 2 x) = (2 : ℚ) ^ (52 : ℕ) * (2 : ℚ) ^ (Int.log 2 x - 52) := by
    rw [← zpow_natCast, ← zpow_add₀ (by norm_num : (2 : ℚ) ≠ 0)]
    congr 1
    push_cast
    ring
  have e2 : (2 : ℚ) ^ (Int.log 2 x + 1) =
      (2 : ℚ) ^ (53 : ℕ) * (2 : ℚ) ^ (Int.log 2 x - 52) := by
    rw [← zpow_natCast, ← zpow_add₀ (by norm_num : (2 : ℚ) ≠ 0)]
    congr 1
    push_cast
    ring
  constructor
  · rw [le_div_iff₀ hp, ← e1]
    exact h1
  · rw [div_lt_iff₀ hp, ← e2]
    exact h2

theorem toDouble_form (x : ℚ) (hx : 0 < x) :
    ∃ m : ℤ, (2 : ℤ) ^ (52 : ℕ) ≤ m ∧ m ≤ (2 : ℤ) ^ (53 : ℕ) ∧
      toDouble x = (m : ℚ) * (2 : ℚ) ^ (Int.log 2 x - 52) := by
  refine ⟨roundHalfEven (x / (2 : ℚ) ^ (Int.log 2 x - 52)), ?_, ?_, toDouble_of_pos x hx⟩
  · have h := roundHalfEven_mono (significand_bounds x hx).1
    have e : roundHalfEven ((2 : ℚ) ^ (52 : ℕ)) = (2 : ℤ) ^ (52 : ℕ) := by
      have := roundHalfEven_intCast ((2 : ℤ) ^ (52 : ℕ))
      push_cast at this
      exact this
    rw [e] at h
    exact h
  · have h := roundHalfEven_mono (le_of_lt (significand_bounds x hx).2)
    have e : roundHalfEven ((2 : ℚ) ^ (53 : ℕ)) = (2 : ℤ) ^ (53 : ℕ) := by
      have := roundHalfEven_intCast ((2 : ℤ) ^ (53 : ℕ))
      push_cast at this
      exact this
    rw [e] at h
    exact h

theorem toDouble_zero : toDouble 0 = 0 := by
  unfold toDouble
  rw [if_pos rfl]

theorem toDouble_pos (x : ℚ) (hx : 0 < x) : 0 < toDouble x := by
  obtain ⟨m, h1, _, h⟩ := toDouble_form x hx
  rw [h]
  have hm : (0 : ℚ) < (m : ℚ) := by
    have : (0 : ℤ) < m := lt_of_lt_of_le (by norm_num) h1
    exact_mod_cast this
  exact mul_pos hm (zpow_pos (by norm_num) _)

theorem toDouble_nonneg (x : ℚ) (hx : 0 ≤ x) : 0 ≤ toDouble x := by
  rcases eq_or_lt_of_le hx with h | h
  · rw [← h, toDouble_zero]
  · exact le_of_lt (toDouble_pos x h)

theorem toDouble_eq_zero_iff (x : ℚ) (hx : 0 ≤ x) : toDouble x = 0 ↔ x = 0 := by
  constructor
  · intro h
    rcases eq_or_lt_of_le hx with h0 | h0
    · exact h0.symm
    · exact absurd h (ne_of_gt (toDouble_pos x h0))
  · intro h
    rw [h, toDouble_zero]

/-- The relative error of the rounding to a double is at most 2^-53. -/
theorem toDouble_near (x : ℚ) (hx : 0 ≤ x) : |toDouble x - x| ≤ x / (2 : ℚ) ^ (53 : ℕ) := by
  rcases eq_or_lt_of_le hx with h | h
  · rw [← h, toDouble_zero]
    norm_num
  · have hp : (0 : ℚ) < (2 : ℚ) ^ (Int.log 2 x - 52) := zpow_pos (by norm_num) _
    have hr := roundHalfEven_near (x / (2 : ℚ) ^ (Int.log 2 x - 52))
    have hb := (significand_bounds x h).1
    rw [toDouble_of_pos x h]
    have e : (roundHalfEven (x / (2 : ℚ) ^ (Int.log 2 x - 52)) : ℚ) *
          (2 : ℚ) ^ (Int.log 2 x - 52) - x =
        ((roundHalfEven (x / (2 : ℚ) ^ (Int.log 2 x - 52)) : ℚ) -
          x / (2 : ℚ) ^ (Int.log 2 x - 52)) * (2 : ℚ) ^ (Int.log 2 x - 52) := by
      field_simp
    rw [e, abs_mul, abs_of_pos hp]
    have h1 : |(roundHalfEven (x / (2 : ℚ) ^ (Int.log 2 x - 52)) : ℚ) -
          x / (2 : ℚ) ^ (Int.log 2 x - 52)| * (2 : ℚ) ^ (Int.log 2 x - 52) ≤
        1 / 2 * (2 : ℚ) ^ (Int.log 2 x - 52) := mul_le_mul_of_nonneg_right hr (le_of_lt hp)
    have h2 : (2 : ℚ) ^ (52 : ℕ) * (2 : ℚ) ^ (Int.log 2 x - 52) ≤ x := by
      rw [le_div_iff₀ hp] at hb
      exact hb
    have h3 : 1 / 2 * (2 : ℚ) ^ (Int.log 2 x - 52) =
        (2 : ℚ) ^ (52 : ℕ) * (2 : ℚ) ^ (Int.log 2 x - 52) / (2 : ℚ) ^ (53 : ℕ) := by
      norm_num
      ring
    rw [h3] at h1
    exact le_trans h1 (div_le_div_of_nonneg_right h2 (by positivity))

/-- The value of `toDouble` from an exponent and a significand that fit. -/
theorem toDouble_eq_z (x : ℚ) (e M : ℤ) (h1 : (2 : ℚ) ^ (e + 52) ≤ x)
    (h2 : x < (2 : ℚ) ^ (e + 53)) (h3 : (M : ℚ) - 1 / 2 < x / (2 : ℚ) ^ e)
    (h4 : x / (2 : ℚ) ^ e < (M : ℚ) + 1 / 2) : toDouble x = (M : ℚ) * (2 : ℚ) ^ e := by
  have hx : 0 < x := lt_of_lt_of_le (zpow_pos (by norm_num) _) h1
  have hlog : Int.log 2 x = e + 52 :=
    log_two_eq x hx (e + 52) h1 (by rw [show e + 52 + 1 = e + 53 by ring]; exact h2)
  rw [toDouble_of_pos x hx, hlog, show e + 52 - 52 = e by ring,
    roundHalfEven_of_near _ M h3 h4]

/-- The value of `toDouble` from a significand `M` and a scale 2^a / 2^b. -/
theorem toDouble_eq (x : ℚ) (a b : ℕ) (M : ℤ)
    (h1 : (2 : ℚ) ^ (52 : ℕ) * (2 : ℚ) ^ a ≤ x * (2 : ℚ) ^ b)
    (h2 : x * (2 : ℚ) ^ b < (2 : ℚ) ^ (53 : ℕ) * (2 : ℚ) ^ a)
    (h3 : (2 * (M : ℚ) - 1) * (2 : ℚ) ^ a < 2 * x * (2 : ℚ) ^ b)
    (h4 : 2 * x * (2 : ℚ) ^ b < (2 * (M : ℚ) + 1) * (2 : ℚ) ^ a) :
    toDouble x = (M : ℚ) * (2 : ℚ) ^ a / (2 : ℚ) ^ b := by
  have ha : (0 : ℚ) < (2 : ℚ) ^ a := by positivity
  have hb : (0 : ℚ) < (2 : ℚ) ^ b := by positivity
  have he : (2 : ℚ) ^ ((a : ℤ) - (b : ℤ)) = (2 : ℚ) ^ a / (2 : ℚ) ^ b := by
    rw [zpow_sub₀ (by norm_num : (2 : ℚ) ≠ 0), zpow_natCast, zpow_natCast]
  have he52 : (2 : ℚ) ^ ((a : ℤ) - (b : ℤ) + 52) =
      (2 : ℚ) ^ a / (2 : ℚ) ^ b * (2 : ℚ) ^ (52 : ℕ) := by
    rw [zpow_add₀ (by norm_num : (2 : ℚ) ≠ 0), he]
    norm_cast
  have he53 : (2 : ℚ) ^ ((a : ℤ) - (b : ℤ) + 53) =
      (2 : ℚ) ^ a / (2 : ℚ) ^ b * (2 : ℚ) ^ (53 : ℕ) := by
    rw [zpow_add₀ (by norm_num : (2 : ℚ) ≠ 0), he]
    norm_cast
  have hdiv : x / ((2 : ℚ) ^ a / (2 : ℚ) ^ b) = x * (2 : ℚ) ^ b / (2 : ℚ) ^ a := by
    field_simp
  rw [toDouble_eq_z x ((a : ℤ) - (b : ℤ)) M, he, mul_div_assoc]
  · rw [he52, div_mul_eq_mul_div, div_le_iff₀ hb]
    linarith
  · rw [he53, div_mul_eq_mul_div, lt_div_iff₀ hb]
    linarith
  · rw [he, hdiv, lt_div_iff₀ ha]
    linarith
  · rw [he, hdiv, div_lt_iff₀ ha]
    linarith

/-- The rounding to a double is monotone. -/
theorem toDouble_mono (x y : ℚ) (hx : 0 ≤ x) (h : x ≤ y) : toDouble x ≤ toDouble y := by
  rcases eq_or_lt_of_le hx with h0 | h0
  · rw [← h0, toDouble_zero]
    exact toDouble_nonneg y (le_trans hx h)
  · have hy : 0 < y := lt_of_lt_of_le h0 h
    have hlog : Int.log 2 x ≤ Int.log 2 y := Int.log_mono_right h0 h
    rcases lt_or_eq_of_le hlog with hlt | heq
    · obtain ⟨mx, _, hmx, ex⟩ := toDouble_form x h0
      obtain ⟨my, hmy, _, ey⟩ := toDouble_form y hy
      rw [ex, ey]
      have hpx : (0 : ℚ) < (2 : ℚ) ^ (Int.log 2 x - 52) := zpow_pos (by norm_num) _
      have hpy : (0 : ℚ) < (2 : ℚ) ^ (Int.log 2 y - 52) := zpow_pos (by norm_num) _
      have hmx' : (mx : ℚ) ≤ (2 : ℚ) ^ (53 : ℕ) := by exact_mod_cast hmx
      have hmy' : (2 : ℚ) ^ (52 : ℕ) ≤ (my : ℚ) := by exact_mod_cast hmy
      have e1 : (2 : ℚ) ^ (53 : ℕ) * (2 : ℚ) ^ (Int.log 2 x - 52) =
          (2 : ℚ) ^ (Int.log 2 x + 1) := by
        rw [← zpow_natCast, ← zpow_add₀ (by norm_num : (2 : ℚ) ≠ 0)]
        congr 1
        push_cast
        ring
      have e2 : (2 : ℚ) ^ (52 : ℕ) * (2 : ℚ) ^ (Int.log 2 y - 52) = (2 : ℚ) ^ (Int.log 2 y) := by
        rw [← zpow_natCast, ← zpow_add₀ (by norm_num : (2 : ℚ) ≠ 0)]
        congr 1
        push_cast
        ring
      have hmid : (2 : ℚ) ^ (Int.log 2 x + 1) ≤ (2 : ℚ) ^ (Int.log 2 y) :=
        zpow_le_zpow_right₀ (by norm_num) (by omega)
      calc (mx : ℚ) * (2 : ℚ) ^ (Int.log 2 x - 52)
          ≤ (2 : ℚ) ^ (53 : ℕ) * (2 : ℚ) ^ (Int.log 2 x - 52) :=
            mul_le_mul_of_nonneg_right hmx' (le_of_lt hpx)
        _ = (2 : ℚ) ^ (Int.log 2 x + 1) := e1
        _ ≤ (2 : ℚ) ^ (Int.log 2 y) := hmid
        _ = (2 : ℚ) ^ (52 : ℕ) * (2 : ℚ) ^ (Int.log 2 y - 52) := e2.symm
        _ ≤ (my : ℚ) * (2 : ℚ) ^ (Int.log 2 y - 52) :=
            mul_le_mul_of_nonneg_right hmy' (le_of_lt hpy)
    · rw [toDouble_of_pos x h0, toDouble_of_pos y hy, heq]
      have hp : (0 : ℚ) < (2 : ℚ) ^ (Int.log 2 y - 52) := zpow_pos (by norm_num) _
      have hr : roundHalfEven (x / (2 : ℚ) ^ (Int.log 2 y - 52)) ≤
          roundHalfEven (y / (2 : ℚ) ^ (Int.log 2 y - 52)) :=
        roundHalfEven_mono (div_le_div_of_nonneg_right h (le_of_lt hp))
      have hr' : (roundHalfEven (x / (2 : ℚ) ^ (Int.log 2 y - 52)) : ℚ) ≤
          (roundHalfEven (y / (2 : ℚ) ^ (Int.log 2 y - 52)) : ℚ) := by exact_mod_cast hr
      exact mul_le_mul_of_nonneg_right hr' (le_of_lt hp)

/-- A power of two is a double. -/
theorem toDouble_zpow (k : ℤ) : toDouble ((2 : ℚ) ^ k) = (2 : ℚ) ^ k := by
  have hp : (0 : ℚ) < (2 : ℚ) ^ (k - 52) := zpow_pos (by norm_num) _
  have e : (2 : ℚ) ^ k = (2 : ℚ) ^ (52 : ℕ) * (2 : ℚ) ^ (k - 52) := by
    rw [← zpow_natCast, ← zpow_add₀ (by norm_num : (2 : ℚ) ≠ 0)]
    congr 1
    push_cast
    ring
  have hq : (2 : ℚ) ^ k / (2 : ℚ) ^ (k - 52) = (2 : ℚ) ^ (52 : ℕ) := by
    rw [e]
    field_simp
  have h := toDouble_eq_z ((2 : ℚ) ^ k) (k - 52) ((2 : ℤ) ^ (52 : ℕ))
    (by rw [show k - 52 + 52 = k by ring])
    (by
      rw [show k - 52 + 53 = k + 1 by ring, zpow_add_one₀ (by norm_num : (2 : ℚ) ≠ 0)]
      have : (0 : ℚ) < (2 : ℚ) ^ k := zpow_pos (by norm_num) _
      linarith)
    (by rw [hq]; push_cast; linarith)
    (by rw [hq]; push_cast; linarith)
  rw [h]
  push_cast
  exact e.symm

/-- An integer of at most 53 bits, scaled by a power of two, is a double. -/
theorem toDouble_scaled (m e : ℤ) (h1 : 0 < m) (h2 : m < (2 : ℤ) ^ (53 : ℕ)) :
    toDouble ((m : ℚ) * (2 : ℚ) ^ e) = (m : ℚ) * (2 : ℚ) ^ e := by
  have hm : (0 : ℚ) < (m : ℚ) := by exact_mod_cast h1
  have hpe : (0 : ℚ) < (2 : ℚ) ^ e := zpow_pos (by norm_num) _
  have hx : (0 : ℚ) < (m : ℚ) * (2 : ℚ) ^ e := mul_pos hm hpe
  have hlt : (m : ℚ) * (2 : ℚ) ^ e < (2 : ℚ) ^ (e + 53) := by
    rw [zpow_add₀ (by norm_num : (2 : ℚ) ≠ 0), mul_comm ((2 : ℚ) ^ e)]
    have : (m : ℚ) < (2 : ℚ) ^ (53 : ℕ) := by exact_mod_cast h2
    have h53 : (2 : ℚ) ^ (53 : ℤ) = (2 : ℚ) ^ (53 : ℕ) := by norm_cast
    rw [h53]
    exact mul_lt_mul_of_pos_right this hpe
  have hlog : Int.log 2 ((m : ℚ) * (2 : ℚ) ^ e) < e + 53 :=
    (Int.lt_zpow_iff_log_lt (by norm_num : 1 < 2) hx).mp (by exact_mod_cast hlt)
  obtain ⟨d, hd⟩ : ∃ d : ℕ, e = Int.log 2 ((m : ℚ) * (2 : ℚ) ^ e) - 52 + (d : ℤ) :=
    ⟨(e - (Int.log 2 ((m : ℚ) * (2 : ℚ) ^ e) - 52)).toNat, by omega⟩
  have hp : (0 : ℚ) < (2 : ℚ) ^ (Int.log 2 ((m : ℚ) * (2 : ℚ) ^ e) - 52) :=
    zpow_pos (by norm_num) _
  have hq : (m : ℚ) * (2 : ℚ) ^ e / (2 : ℚ) ^ (Int.log 2 ((m : ℚ) * (2 : ℚ) ^ e) - 52) =
      ((m * (2 : ℤ) ^ d : ℤ) : ℚ) := by
    rw [div_eq_iff (ne_of_gt hp)]
    push_cast
    rw [mul_assoc, ← zpow_natCast, ← zpow_add₀ (by norm_num : (2 : ℚ) ≠ 0)]
    congr 2
    omega
  rw [toDouble_of_pos _ hx, hq, roundHalfEven_intCast, ← hq]
  field_simp

/-- A natural number below 2^53 is a double. -/
theorem toDouble_natCast (n : ℕ) (h : n < 2 ^ 53) : toDouble (n : ℚ) = (n : ℚ) := by
  rcases Nat.eq_zero_or_pos n with h0 | h0
  · rw [h0]
    exact toDouble_zero
  · have := toDouble_scaled (n : ℤ) 0 (by exact_mod_cast h0) (by exact_mod_cast h)
    simpa using this

/-- Rounding a double again does not change it. -/
theorem toDouble_idem (x : ℚ) (hx : 0 ≤ x) : toDouble (toDouble x) = toDouble x := by
  rcases eq_or_lt_of_le hx with h0 | h0
  · rw [← h0, toDouble_zero, toDouble_zero]
  · obtain ⟨m, h1, h2, e⟩ := toDouble_form x h0
    rw [e]
    rcases lt_or_eq_of_le h2 with hlt | heq
    · exact toDouble_scaled m _ (lt_of_lt_of_le (by norm_num) h1) hlt
    · rw [heq]
      have e2 : (((2 : ℤ) ^ (53 : ℕ) : ℤ) : ℚ) * (2 : ℚ) ^ (Int.log 2 x - 52) =
          (2 : ℚ) ^ (Int.log 2 x + 1) := by
        have h53 : (((2 : ℤ) ^ (53 : ℕ) : ℤ) : ℚ) = (2 : ℚ) ^ (53 : ℤ) := by norm_cast
        rw [h53, ← zpow_add₀ (by norm_num : (2 : ℚ) ≠ 0)]
        congr 1
        ring
      rw [e2]
      exact toDouble_zpow _

theorem jsRound_near (x : ℚ) : |(jsRound x : ℚ) - x| ≤ 1 / 2 := by
  unfold jsRound
  have h1 := floor_le_self (x + 1 / 2)
  have h2 := lt_floor_add_one (x + 1 / 2)
  rw [abs_le]
  constructor <;> linarith

theorem jsRound_mono (x y : ℚ) (h : x ≤ y) : jsRound x ≤ jsRound y := by
  unfold jsRound
  apply Rat.le_floor.mpr
  have h1 := floor_le_self (x + 1 / 2)
  linarith

theorem jsRound_eq (x : ℚ) (k : ℤ) (h1 : (k : ℚ) ≤ x + 1 / 2) (h2 : x + 1 / 2 < (k : ℚ) + 1) :
    jsRound x = k := by
  unfold jsRound
  have hf1 := floor_le_self (x + 1 / 2)
  have hf2 := lt_floor_add_one (x + 1 / 2)
  have ha : (k : ℚ) < ((Rat.floor (x + 1 / 2) : Int) : ℚ) + 1 := by linarith
  have hb : ((Rat.floor (x + 1 / 2) : Int) : ℚ) < (k : ℚ) + 1 := by linarith
  have ha' : k < Rat.floor (x + 1 / 2) + 1 := by exact_mod_cast ha
  have hb' : Rat.floor (x + 1 / 2) < k + 1 := by exact_mod_cast hb
  omega

theorem jsRound_nonneg (x : ℚ) (hx : 0 ≤ x) : 0 ≤ jsRound x := by
  unfold jsRound
  exact Rat.le_floor.mpr (by push_cast; linarith)

/-- One more rounding adds one factor 1 + 2^-53 to a relative error bound. -/
theorem toDouble_rel (a A : ℚ) (j : ℕ) (ha : 0 ≤ a) (hA : 0 ≤ A)
    (h : |a - A| ≤ ((1 + 1 / (2 : ℚ) ^ (53 : ℕ)) ^ j - 1) * A) :
    |toDouble a - A| ≤ ((1 + 1 / (2 : ℚ) ^ (53 : ℕ)) ^ (j + 1) - 1) * A := by
  have hn := toDouble_near a ha
  have hG1 : (1 : ℚ) ≤ (1 + 1 / (2 : ℚ) ^ (53 : ℕ)) ^ j := one_le_pow₀ (by norm_num)
  have hGA : A ≤ (1 + 1 / (2 : ℚ) ^ (53 : ℕ)) ^ j * A := le_mul_of_one_le_left hA hG1
  rw [pow_succ]
  generalize (1 + 1 / (2 : ℚ) ^ (53 : ℕ)) ^ j = G at h hG1 hGA ⊢
  rw [abs_le] at h hn ⊢
  obtain ⟨h1, h2⟩ := h
  obtain ⟨h3, h4⟩ := hn
  norm_num at h3 h4 ⊢
  constructor <;> linarith

theorem rel_refl (A : ℚ) : |A - A| ≤ ((1 + 1 / (2 : ℚ) ^ (53 : ℕ)) ^ 0 - 1) * A := by
  simp

theorem rel_mul_const (a A g K : ℚ) (hK : 0 ≤ K) (h : |a - A| ≤ g * A) :
    |a * K - A * K| ≤ g * (A * K) := by
  rw [← sub_mul, abs_mul, abs_of_nonneg hK, ← mul_assoc]
  exact mul_le_mul_of_nonneg_right h hK

theorem rel_add_left (a A g P : ℚ) (hP : 0 ≤ P) (hg : 0 ≤ g) (h : |a - A| ≤ g * A) :
    |P + a - (P + A)| ≤ g * (P + A) := by
  have e : P + a - (P + A) = a - A := by ring
  rw [e]
  have : 0 ≤ g * P := mul_nonneg hg hP
  linarith

/-- The integer that `Math.round` gives is a nearest integer of N/c when the
argument is closer to N/c than N/c can be to a half-integer. -/
theorem jsRound_nearest (N c : ℕ) (hc : 0 < c) (x : ℚ)
    (h : |x - (N : ℚ) / (c : ℚ)| < 1 / (2 * (c : ℚ))) :
    |(jsRound x : ℚ) - (N : ℚ) / (c : ℚ)| ≤ 1 / 2 := by
  have hcq : (0 : ℚ) < (c : ℚ) := by exact_mod_cast hc
  have hk1 : ((jsRound x : ℤ) : ℚ) ≤ x + 1 / 2 := floor_le_self (x + 1 / 2)
  have hk2 : x + 1 / 2 < ((jsRound x : ℤ) : ℚ) + 1 := lt_floor_add_one (x + 1 / 2)
  generalize jsRound x = k at hk1 hk2 ⊢
  rw [abs_lt] at h
  obtain ⟨hl, hu⟩ := h
  have hl' : (N : ℚ) - 1 / 2 < x * (c : ℚ) := by
    have := mul_lt_mul_of_pos_right hl hcq
    have e1 : (x - (N : ℚ) / (c : ℚ)) * (c : ℚ) = x * (c : ℚ) - (N : ℚ) := by field_simp
    have e2 : -(1 / (2 * (c : ℚ))) * (c : ℚ) = -(1 / 2) := by field_simp; ring
    rw [e1, e2] at this
    linarith
  have hu' : x * (c : ℚ) < (N : ℚ) + 1 / 2 := by
    have := mul_lt_mul_of_pos_right hu hcq
    have e1 : (x - (N : ℚ) / (c : ℚ)) * (c : ℚ) = x * (c : ℚ) - (N : ℚ) := by field_simp
    have e2 : 1 / (2 * (c : ℚ)) * (c : ℚ) = 1 / 2 := by field_simp; ring
    rw [e1, e2] at this
    linarith
  have hkc1 : (k : ℚ) * (c : ℚ) ≤ (x + 1 / 2) * (c : ℚ) :=
    mul_le_mul_of_nonneg_right hk1 (le_of_lt hcq)
  have hkc2 : (x + 1 / 2) * (c : ℚ) < ((k : ℚ) + 1) * (c : ℚ) :=
    mul_lt_mul_of_pos_right hk2 hcq
  have hup : (2 * (k * (c : ℤ)) : ℤ) ≤ 2 * (N : ℤ) + (c : ℤ) := by
    have hq : ((2 * (k * (c : ℤ)) : ℤ) : ℚ) < ((2 * (N : ℤ) + (c : ℤ) + 1 : ℤ) : ℚ) := by
      push_cast
      linarith
    have : (2 * (k * (c : ℤ)) : ℤ) < 2 * (N : ℤ) + (c : ℤ) + 1 := by exact_mod_cast hq
    linarith
  have hlow : 2 * (N : ℤ) - (c : ℤ) ≤ (2 * (k * (c : ℤ)) : ℤ) := by
    have hq : ((2 * (N : ℤ) - (c : ℤ) - 1 : ℤ) : ℚ) < ((2 * (k * (c : ℤ)) : ℤ) : ℚ) := by
      push_cast
      linarith
    have : 2 * (N : ℤ) - (c : ℤ) - 1 < (2 * (k * (c : ℤ)) : ℤ) := by exact_mod_cast hq
    linarith
  have hupq : 2 * ((k : ℚ) * (c : ℚ)) ≤ 2 * (N : ℚ) + (c : ℚ) := by exact_mod_cast hup
  have hlowq : 2 * (N : ℚ) - (c : ℚ) ≤ 2 * ((k : ℚ) * (c : ℚ)) := by exact_mod_cast hlow
  have hdiv : (N : ℚ) / (c : ℚ) * (c : ℚ) = (N : ℚ) := div_mul_cancel₀ _ (ne_of_gt hcq)
  generalize (N : ℚ) / (c : ℚ) = q at hdiv ⊢
  rw [abs_le]
  constructor
  · apply le_of_mul_le_mul_right _ hcq
    linarith
  · apply le_of_mul_le_mul_right _ hcq
    linarith

theorem roundHalfEven_tie (lower : ℤ) :
    roundHalfEven ((lower : ℚ) + 1 / 2) = if lower % 2 = 0 then lower else lower + 1 := by
  have hf1 := floor_le_self ((lower : ℚ) + 1 / 2)
  have hf2 := lt_floor_add_one ((lower : ℚ) + 1 / 2)
  have hfloor : Rat.floor ((lower : ℚ) + 1 / 2) = lower := by
    have ha : ((Rat.floor ((lower : ℚ) + 1 / 2) : Int) : ℚ) < (lower : ℚ) + 1 := by linarith
    have hb : (lower : ℚ) < ((Rat.floor ((lower : ℚ) + 1 / 2) : Int) : ℚ) + 1 := by linarith
    have ha' : Rat.floor ((lower : ℚ) + 1 / 2) < lower + 1 := by exact_mod_cast ha
    have hb' : lower < Rat.floor ((lower : ℚ) + 1 / 2) + 1 := by exact_mod_cast hb
    omega
  unfold roundHalfEven
  simp only []
  rw [hfloor]
  have hrest : (lower : ℚ) + 1 / 2 - (lower : ℚ) = 1 / 2 := by ring
  rw [hrest, if_neg (lt_irrefl _), if_neg (lt_irrefl _)]

/-- The value of `toDouble` when the number lies half way between two
significands: the even one is taken. -/
theorem toDouble_tie (x : ℚ) (a b : ℕ) (lower M : ℤ)
    (h1 : (2 : ℚ) ^ (52 : ℕ) * (2 : ℚ) ^ a ≤ x * (2 : ℚ) ^ b)
    (h2 : x * (2 : ℚ) ^ b < (2 : ℚ) ^ (53 : ℕ) * (2 : ℚ) ^ a)
    (h3 : 2 * x * (2 : ℚ) ^ b = (2 * (lower : ℚ) + 1) * (2 : ℚ) ^ a)
    (hM : (if lower % 2 = 0 then lower else lower + 1) = M) :
    toDouble x = (M : ℚ) * (2 : ℚ) ^ a / (2 : ℚ) ^ b := by
  have ha : (0 : ℚ) < (2 : ℚ) ^ a := by positivity
  have hb : (0 : ℚ) < (2 : ℚ) ^ b := by positivity
  have he : (2 : ℚ) ^ ((a : ℤ) - (b : ℤ)) = (2 : ℚ) ^ a / (2 : ℚ) ^ b := by
    rw [zpow_sub₀ (by norm_num : (2 : ℚ) ≠ 0), zpow_natCast, zpow_natCast]
  have he52 : (2 : ℚ) ^ ((a : ℤ) - (b : ℤ) + 52) =
      (2 : ℚ) ^ a / (2 : ℚ) ^ b * (2 : ℚ) ^ (52 : ℕ) := by
    rw [zpow_add₀ (by norm_num : (2 : ℚ) ≠ 0), he]
    norm_cast
  have he53 : (2 : ℚ) ^ ((a : ℤ) - (b : ℤ) + 52 + 1) =
      (2 : ℚ) ^ a / (2 : ℚ) ^ b * (2 : ℚ) ^ (53 : ℕ) := by
    rw [show (a : ℤ) - (b : ℤ) + 52 + 1 = (a : ℤ) - (b : ℤ) + 53 by ring,
      zpow_add₀ (by norm_num : (2 : ℚ) ≠ 0), he]
    norm_cast
  have hx : 0 < x := by
    have : (0 : ℚ) < x * (2 : ℚ) ^ b := lt_of_lt_of_le (by positivity) h1
    by_contra hneg
    push_neg at hneg
    have : x * (2 : ℚ) ^ b ≤ 0 := mul_nonpos_of_nonpos_of_nonneg hneg (le_of_lt hb)
    linarith
  have hlog : Int.log 2 x = (a : ℤ) - (b : ℤ) + 52 := by
    apply log_two_eq x hx
    · rw [he52, div_mul_eq_mul_div, div_le_iff₀ hb]
      linarith
    · rw [he53, div_mul_eq_mul_div, lt_div_iff₀ hb]
      linarith
  have hy : x / ((2 : ℚ) ^ a / (2 : ℚ) ^ b) = (lower : ℚ) + 1 / 2 := by
    rw [div_div_eq_mul_div, div_eq_iff (ne_of_gt ha)]
    linarith
  rw [toDouble_of_pos x hx, hlog, show (a : ℤ) - (b : ℤ) + 52 - 52 = (a : ℤ) - (b : ℤ) by ring,
    he, hy, roundHalfEven_tie, hM, mul_div_assoc]

/-! ### Drawing odds, pot odds, implied odds -/

/-- C21. For every number of outs, with the pool of 52 − 2 − 5 = 45 cards and
`c = min outs 45`: `calculateDrawingOdds outs 1 = c / 45`,
`calculateDrawingOdds outs 2 = 1 − ((45 − c) / 45) · ((45 − c − 1) / 44)`, and
the result is 0 for every other number of cards to come (0, or 3 and more). -/
theorem calculateDrawingOdds_formula (outs n : Nat) :
    calculateDrawingOdds outs 1 = ((min outs 45 : Nat) : ℚ) / 45 ∧
    calculateDrawingOdds outs 2 =
      1 - ((45 - ((min outs 45 : Nat) : ℚ)) / 45) *
        ((45 - ((min outs 45 : Nat) : ℚ) - 1) / 44) ∧
    calculateDrawingOdds outs 0 = 0 ∧
    calculateDrawingOdds outs (n + 3) = 0 := by
  unfold calculateDrawingOdds
  by_cases h : outs = 0
  · subst h
    norm_num
  · simp only [if_neg h]
    norm_num
    rw [if_neg (by omega), if_neg (by omega)]

/-- C22, the value the code gives: with 9 outs and two cards to come the result
is 1 − (36/45)·(35/44) = 4/11, which is 0.3636 rounded to four decimal places,
not 0.3801. -/
theorem calculateDrawingOdds_nine_two_ne :
    (jsRound (calculateDrawingOdds 9 2 * 10000) : ℚ) / 10000 ≠ 3801 / 10000 := by
  have h : calculateDrawingOdds 9 2 = 4 / 11 := by
    unfold calculateDrawingOdds
    norm_num
  rw [h]
  have hr : jsRound ((4 / 11 : ℚ) * 10000) = 3636 := by
    unfold jsRound
    rw [Rat.floor_def']
    norm_num
  rw [hr]
  norm_num

/-- C22, amended. `calculateDrawingOdds 9 2` is 4/11, and rounded to four
decimal places that is 0.3636. -/
theorem calculateDrawingOdds_nine_two :
    calculateDrawingOdds 9 2 = 4 / 11 ∧
    (jsRound (calculateDrawingOdds 9 2 * 10000) : ℚ) / 10000 = 3636 / 10000 := by
  have h : calculateDrawingOdds 9 2 = 4 / 11 := by
    unfold calculateDrawingOdds
    norm_num
  rw [h]
  have hr : jsRound ((4 / 11 : ℚ) * 10000) = 3636 := by
    unfold jsRound
    rw [Rat.floor_def']
    norm_num
  rw [hr]
  norm_num

theorem calculatePotOdds_eq (pot callAmount : ℚ) :
    calculatePotOdds pot callAmount =
      if toDouble callAmount = 0 then 0
      else if toDouble pot = 0 then 0
      else toDouble ((jsRound (toDouble (toDouble (toDouble pot / toDouble callAmount) * 10000))
        : ℚ) / 10000) := rfl

theorem calculateImpliedOdds_eq (pot callAmount : ℚ) (outs playerCount : Nat) :
    calculateImpliedOdds pot callAmount outs playerCount =
      if toDouble callAmount = 0 ∨ outs = 0 then 0
      else toDouble ((jsRound (toDouble (toDouble (toDouble (toDouble pot +
          toDouble (toDouble ((outs : ℚ) * (playerCount : ℚ)) * toDouble (1 / 10))) /
        toDouble callAmount) * 10000)) : ℚ) / 10000) := rfl

theorem toDouble_tenth : toDouble ((1 : ℚ) / 10) = 3602879701896397 / 36028797018963968 := by
  rw [toDouble_eq ((1 : ℚ) / 10) 0 56 7205759403792794 (by norm_num) (by norm_num) (by norm_num)
    (by norm_num)]
  norm_num

/-- The argument of `Math.round` in `calculatePotOdds`, after two roundings, is
within the relative error (1 + 2^-53)^2 - 1 of pot / call · 10000. -/
theorem potOdds_scaled_near (P C : ℚ) (hP : 0 ≤ P) (hC : 0 < C) :
    |toDouble (toDouble (P / C) * 10000) - P / C * 10000| ≤
      ((1 + 1 / (2 : ℚ) ^ (53 : ℕ)) ^ 2 - 1) * (P / C * 10000) := by
  have hq : 0 ≤ P / C := div_nonneg hP (le_of_lt hC)
  have h1 := toDouble_rel (P / C) (P / C) 0 hq hq (rel_refl _)
  have h2 := rel_mul_const _ _ _ 10000 (by norm_num) h1
  exact toDouble_rel _ _ 1 (mul_nonneg (toDouble_nonneg _ hq) (by norm_num))
    (mul_nonneg hq (by norm_num)) h2

/-- The argument of `Math.round` in `calculateImpliedOdds`, after six
roundings, is within the relative error (1 + 2^-53)^6 - 1 of
(pot + m · 0.1) / call · 10000. -/
theorem impliedOdds_scaled_near (P C m : ℚ) (hP : 0 ≤ P) (hC : 0 < C) (hm : 0 ≤ m) :
    |toDouble (toDouble (toDouble (P + toDouble (toDouble m * toDouble (1 / 10))) / C) * 10000) -
        (P + m * (1 / 10)) / C * 10000| ≤
      ((1 + 1 / (2 : ℚ) ^ (53 : ℕ)) ^ 6 - 1) * ((P + m * (1 / 10)) / C * 10000) := by
  have hm10 : 0 ≤ m * (1 / 10) := mul_nonneg hm (by norm_num)
  have h1 := toDouble_rel m m 0 hm hm (rel_refl _)
  have hdm := toDouble_nonneg m hm
  have h2 : |toDouble m * toDouble (1 / 10) - m * (1 / 10)| ≤
      ((1 + 1 / (2 : ℚ) ^ (53 : ℕ)) ^ 2 - 1) * (m * (1 / 10)) := by
    rw [toDouble_tenth]
    rw [abs_le] at h1 ⊢
    obtain ⟨h1a, h1b⟩ := h1
    norm_num at h1a h1b ⊢
    constructor <;> linarith
  have hraw : 0 ≤ toDouble m * toDouble (1 / 10) :=
    mul_nonneg hdm (toDouble_nonneg _ (by norm_num))
  have h3 := toDouble_rel _ _ 2 hraw hm10 h2
  have hest := toDouble_nonneg _ hraw
  have h4 := rel_add_left _ _ _ P hP (by norm_num) h3
  have hsum : 0 ≤ P + m * (1 / 10) := add_nonneg hP hm10
  have h5 := toDouble_rel _ _ 3 (add_nonneg hP hest) hsum h4
  have htot := toDouble_nonneg _ (add_nonneg hP hest)
  have h6 := rel_mul_const _ _ _ C⁻¹ (le_of_lt (inv_pos.mpr hC)) h5
  rw [← div_eq_mul_inv, ← div_eq_mul_inv] at h6
  have hq : 0 ≤ (P + m * (1 / 10)) / C := div_nonneg hsum (le_of_lt hC)
  have h7 := toDouble_rel _ _ 4 (div_nonneg htot (le_of_lt hC)) hq h6
  have hx1 := toDouble_nonneg _ (div_nonneg htot (le_of_lt hC))
  have h8 := rel_mul_const _ _ _ 10000 (by norm_num) h7
  exact toDouble_rel _ _ 5 (mul_nonneg hx1 (by norm_num)) (mul_nonneg hq (by norm_num)) h8

theorem calculatePotOdds_hundred : calculatePotOdds 100 25 = 4 := by
  have p : toDouble (100 : ℚ) = 100 := by simpa using toDouble_natCast 100 (by norm_num)
  have c : toDouble (25 : ℚ) = 25 := by simpa using toDouble_natCast 25 (by norm_num)
  have s1 : toDouble ((100 : ℚ) / 25) = 4 := by
    have h := toDouble_natCast 4 (by norm_num)
    norm_num at h ⊢
    exact h
  have s2 : toDouble ((4 : ℚ) * 10000) = 40000 := by
    have h := toDouble_natCast 40000 (by norm_num)
    norm_num at h ⊢
    exact h
  have j : jsRound (40000 : ℚ) = 40000 := jsRound_eq _ 40000 (by norm_num) (by norm_num)
  have s3 : toDouble (((40000 : ℤ) : ℚ) / 10000) = 4 := by
    have h := toDouble_natCast 4 (by norm_num)
    norm_num at h ⊢
    exact h
  rw [calculatePotOdds_eq, p, c, if_neg (by norm_num), if_neg (by norm_num), s1, s2, j, s3]

theorem calculatePotOdds_tie : calculatePotOdds 57 800 = toDouble (712 / 10000) := by
  have p : toDouble (57 : ℚ) = 57 := by simpa using toDouble_natCast 57 (by norm_num)
  have c : toDouble (800 : ℚ) = 800 := by simpa using toDouble_natCast 800 (by norm_num)
  have s1 : toDouble ((57 : ℚ) / 800) = 5134103575202365 / 72057594037927936 := by
    rw [toDouble_eq ((57 : ℚ) / 800) 0 56 5134103575202365 (by norm_num) (by norm_num)
      (by norm_num) (by norm_num)]
    norm_num
  have s2 : toDouble ((5134103575202365 / 72057594037927936 : ℚ) * 10000) =
      6267216278323199 / 8796093022208 := by
    rw [toDouble_eq ((5134103575202365 / 72057594037927936 : ℚ) * 10000) 0 43 6267216278323199
      (by norm_num) (by norm_num) (by norm_num) (by norm_num)]
    norm_num
  have j : jsRound (6267216278323199 / 8796093022208 : ℚ) = 712 :=
    jsRound_eq _ 712 (by norm_num) (by norm_num)
  rw [calculatePotOdds_eq, p, c, if_neg (by norm_num), if_neg (by norm_num), s1, s2, j]
  norm_num

theorem calculatePotOdds_large : calculatePotOdds 400000000000 21 = 4993219047619061 / 262144 := by
  have p : toDouble (400000000000 : ℚ) = 400000000000 := by
    simpa using toDouble_natCast 400000000000 (by norm_num)
  have c : toDouble (21 : ℚ) = 21 := by simpa using toDouble_natCast 21 (by norm_num)
  have s1 : toDouble ((400000000000 : ℚ) / 21) = 624152380952381 / 32768 := by
    rw [toDouble_eq ((400000000000 : ℚ) / 21) 0 18 4993219047619048 (by norm_num) (by norm_num)
      (by norm_num) (by norm_num)]
    norm_num
  have s2 : toDouble ((624152380952381 / 32768 : ℚ) * 10000) = 380952380952381 / 2 := by
    rw [toDouble_eq ((624152380952381 / 32768 : ℚ) * 10000) 0 5 6095238095238096 (by norm_num)
      (by norm_num) (by norm_num) (by norm_num)]
    norm_num
  have j : jsRound (380952380952381 / 2 : ℚ) = 190476190476191 :=
    jsRound_eq _ 190476190476191 (by norm_num) (by norm_num)
  have s3 : toDouble (((190476190476191 : ℤ) : ℚ) / 10000) = 4993219047619061 / 262144 := by
    rw [toDouble_eq (((190476190476191 : ℤ) : ℚ) / 10000) 0 18 4993219047619061 (by norm_num)
      (by norm_num) (by norm_num) (by norm_num)]
    norm_num
  rw [calculatePotOdds_eq, p, c, if_neg (by norm_num), if_neg (by norm_num), s1, s2, j, s3]

theorem calculateImpliedOdds_tie :
    calculateImpliedOdds 12 48 9 3 = toDouble (3062 / 10000) := by
  have p : toDouble (12 : ℚ) = 12 := by simpa using toDouble_natCast 12 (by norm_num)
  have c : toDouble (48 : ℚ) = 48 := by simpa using toDouble_natCast 48 (by norm_num)
  have n : toDouble (((9 : ℕ) : ℚ) * ((3 : ℕ) : ℚ)) = 27 := by
    have h := toDouble_natCast 27 (by norm_num)
    norm_num at h ⊢
    exact h
  have t1 : toDouble ((27 : ℚ) * (3602879701896397 / 36028797018963968)) =
      3039929748475085 / 1125899906842624 := by
    rw [toDouble_eq ((27 : ℚ) * (3602879701896397 / 36028797018963968)) 0 51 6079859496950170
      (by norm_num) (by norm_num) (by norm_num) (by norm_num)]
    norm_num
  have t2 : toDouble ((12 : ℚ) + 3039929748475085 / 1125899906842624) =
      4137682157646643 / 281474976710656 := by
    rw [toDouble_tie ((12 : ℚ) + 3039929748475085 / 1125899906842624) 0 49 8275364315293286
      8275364315293286 (by norm_num) (by norm_num) (by norm_num) (by decide)]
    norm_num
  have t3 : toDouble ((4137682157646643 / 281474976710656 : ℚ) / 48) =
      5516909543528857 / 18014398509481984 := by
    rw [toDouble_eq ((4137682157646643 / 281474976710656 : ℚ) / 48) 0 54 5516909543528857
      (by norm_num) (by norm_num) (by norm_num) (by norm_num)]
    norm_num
  have t4 : toDouble ((5516909543528857 / 18014398509481984 : ℚ) * 10000) =
      6734508720127999 / 2199023255552 := by
    rw [toDouble_eq ((5516909543528857 / 18014398509481984 : ℚ) * 10000) 0 41 6734508720127999
      (by norm_num) (by norm_num) (by norm_num) (by norm_num)]
    norm_num
  have j : jsRound (6734508720127999 / 2199023255552 : ℚ) = 3062 :=
    jsRound_eq _ 3062 (by norm_num) (by norm_num)
  rw [calculateImpliedOdds_eq, p, c, if_neg (by norm_num), n, toDouble_tenth, t1, t2, t3, t4, j]
  norm_num

theorem calculateImpliedOdds_large :
    calculateImpliedOdds 900000000000 3 9 2 = 614400000001229 / 2048 := by
  have p : toDouble (900000000000 : ℚ) = 900000000000 := by
    simpa using toDouble_natCast 900000000000 (by norm_num)
  have c : toDouble (3 : ℚ) = 3 := by simpa using toDouble_natCast 3 (by norm_num)
  have n : toDouble (((9 : ℕ) : ℚ) * ((2 : ℕ) : ℚ)) = 18 := by
    have h := toDouble_natCast 18 (by norm_num)
    norm_num at h ⊢
    exact h
  have t1 : toDouble ((18 : ℚ) * (3602879701896397 / 36028797018963968)) =
      8106479329266893 / 4503599627370496 := by
    rw [toDouble_eq ((18 : ℚ) * (3602879701896397 / 36028797018963968)) 0 52 8106479329266893
      (by norm_num) (by norm_num) (by norm_num) (by norm_num)]
    norm_num
  have t2 : toDouble ((900000000000 : ℚ) + 8106479329266893 / 4503599627370496) =
      3686400000007373 / 4096 := by
    rw [toDouble_eq ((900000000000 : ℚ) + 8106479329266893 / 4503599627370496) 0 13
      7372800000014746 (by norm_num) (by norm_num) (by norm_num) (by norm_num)]
    norm_num
  have t3 : toDouble ((3686400000007373 / 4096 : ℚ) / 3) = 4915200000009831 / 16384 := by
    rw [toDouble_eq ((3686400000007373 / 4096 : ℚ) / 3) 0 14 4915200000009831 (by norm_num)
      (by norm_num) (by norm_num) (by norm_num)]
    norm_num
  have t4 : toDouble ((4915200000009831 / 16384 : ℚ) * 10000) = 6000000000012001 / 2 := by
    rw [toDouble_eq ((4915200000009831 / 16384 : ℚ) * 10000) 0 1 6000000000012001 (by norm_num)
      (by norm_num) (by norm_num) (by norm_num)]
    norm_num
  have j : jsRound (6000000000012001 / 2 : ℚ) = 3000000000006001 :=
    jsRound_eq _ 3000000000006001 (by norm_num) (by norm_num)
  have t5 : toDouble (((3000000000006001 : ℤ) : ℚ) / 10000) = 614400000001229 / 2048 := by
    rw [toDouble_eq (((3000000000006001 : ℤ) : ℚ) / 10000) 0 14 4915200000009832 (by norm_num)
      (by norm_num) (by norm_num) (by norm_num)]
    norm_num
  rw [calculateImpliedOdds_eq, p, c, if_neg (by norm_num), n, toDouble_tenth, t1, t2, t3, t4, j,
    t5]

/-- C23, the claim fails for a large pot: with pot 400000000000 and call 21 the
quotient is 19047619047.619047…, whose nearest multiple of 0.0001 is
19047619047.6190, less than 0.00005 away; the double-precision product with
10000 is rounded to 190476190476190.5, `Math.round` takes it up, and the
method returns the double of 19047619047.6191, more than 0.00005 away from the
quotient. -/
theorem calculatePotOdds_not_nearest :
    calculatePotOdds 400000000000 21 = 4993219047619061 / 262144 ∧
    (1 : ℚ) / 20000 < |calculatePotOdds 400000000000 21 - 400000000000 / 21| ∧
    |(190476190476190 : ℚ) / 10000 - 400000000000 / 21| < 1 / 20000 := by
  rw [calculatePotOdds_large]
  refine ⟨rfl, ?_, ?_⟩
  · rw [lt_abs]
    left
    norm_num
  · rw [abs_lt]
    constructor <;> norm_num

/-- C23, amended. For every pot ≥ 0 and call amount ≥ 0, `calculatePotOdds` is
0 when the call amount or the pot is 0; otherwise, for amounts between 2^-500
and 2^500, it is the double nearest to k / 10000 for an integer k that
`Math.round` takes from the double-precision value of pot ÷ call × 10000, so
that k is within 1/2 + 3 · 2^-53 · (pot ÷ call × 10000) of pot ÷ call × 10000.
For whole amounts with a pot of at most 10^11 and a call amount below 2^53,
k is within 1/2 of pot ÷ call × 10000: k / 10000 is a multiple of 0.0001
nearest to pot ÷ call, where a quotient half way between two multiples may go
to either (pot 57, call 800 gives 0.0712). `calculatePotOdds 100 0 = 0` and
`calculatePotOdds 100 25 = 4`. -/
theorem calculatePotOdds_rounding (pot callAmount : ℚ) (hpot : 0 ≤ pot)
    (hcall : 0 ≤ callAmount) :
    (callAmount = 0 ∨ pot = 0 → calculatePotOdds pot callAmount = 0) ∧
    (callAmount ≠ 0 → pot ≠ 0 → inDoubleRange pot → inDoubleRange callAmount →
      ∃ k : ℤ, calculatePotOdds pot callAmount = toDouble ((k : ℚ) / 10000) ∧
        |(k : ℚ) - toDouble pot / toDouble callAmount * 10000| ≤
          1 / 2 + 3 / 2 ^ 53 * (toDouble pot / toDouble callAmount * 10000)) ∧
    (∀ p c : ℕ, pot = p → callAmount = c → p ≠ 0 → c ≠ 0 → p ≤ 10 ^ 11 → c < 2 ^ 53 →
      ∃ k : ℤ, calculatePotOdds pot callAmount = toDouble ((k : ℚ) / 10000) ∧
        |(k : ℚ) - pot / callAmount * 10000| ≤ 1 / 2) ∧
    calculatePotOdds 100 0 = 0 ∧ calculatePotOdds 100 25 = 4 ∧
    calculatePotOdds 57 800 = toDouble (712 / 10000) := by
  have hzero : ∀ x : ℚ, 0 ≤ x → x ≠ 0 → toDouble x ≠ 0 := fun x h0 hne h =>
    hne ((toDouble_eq_zero_iff x h0).mp h)
  refine ⟨?_, ?_, ?_, ?_, calculatePotOdds_hundred, calculatePotOdds_tie⟩
  · rintro (h | h)
    · rw [calculatePotOdds_eq, h, toDouble_zero, if_pos rfl]
    · rw [calculatePotOdds_eq, h, toDouble_zero, if_pos rfl]
      split_ifs <;> rfl
  · intro hc hp _ _
    have hC : 0 < toDouble callAmount := toDouble_pos _ (lt_of_le_of_ne hcall (Ne.symm hc))
    have hP : 0 ≤ toDouble pot := toDouble_nonneg _ hpot
    refine ⟨_, by rw [calculatePotOdds_eq, if_neg (ne_of_gt hC), if_neg (hzero pot hpot hp)], ?_⟩
    have hnear := potOdds_scaled_near (toDouble pot) (toDouble callAmount) hP hC
    have hround := jsRound_near
      (toDouble (toDouble (toDouble pot / toDouble callAmount) * 10000))
    have hX : 0 ≤ toDouble pot / toDouble callAmount * 10000 :=
      mul_nonneg (div_nonneg hP (le_of_lt hC)) (by norm_num)
    generalize toDouble pot / toDouble callAmount * 10000 = X at hnear hX ⊢
    generalize toDouble (toDouble (toDouble pot / toDouble callAmount) * 10000) = x at hnear hround ⊢
    rw [abs_le] at hnear hround ⊢
    norm_num at hnear ⊢
    constructor <;> linarith [hnear.1, hnear.2, hround.1, hround.2]
  · intro p c hp hc hp0 hc0 hp11 hc53
    subst hp hc
    have hcpos : 0 < c := Nat.pos_of_ne_zero hc0
    have hcq : (0 : ℚ) < (c : ℚ) := by exact_mod_cast hcpos
    have hpq : (0 : ℚ) ≤ (p : ℚ) := by positivity
    have hp53 : p < 2 ^ 53 := lt_of_le_of_lt hp11 (by norm_num)
    have ep := toDouble_natCast p hp53
    have ec := toDouble_natCast c hc53
    have hpne : (p : ℚ) ≠ 0 := by exact_mod_cast hp0
    refine ⟨_, by rw [calculatePotOdds_eq, ep, ec, if_neg (ne_of_gt hcq), if_neg hpne], ?_⟩
    have hnear := potOdds_scaled_near (p : ℚ) (c : ℚ) hpq hcq
    have eX : (p : ℚ) / (c : ℚ) * 10000 = ((10000 * p : ℕ) : ℚ) / (c : ℚ) := by
      push_cast
      ring
    rw [eX] at hnear ⊢
    apply jsRound_nearest (10000 * p) c hcpos
    refine lt_of_le_of_lt hnear ?_
    have hN : ((10000 * p : ℕ) : ℚ) ≤ 10 ^ 15 := by
      have : 10000 * p ≤ 10 ^ 15 := by omega
      exact_mod_cast this
    have e1 : ((1 + 1 / (2 : ℚ) ^ (53 : ℕ)) ^ 2 - 1) * (((10000 * p : ℕ) : ℚ) / (c : ℚ)) =
        ((1 + 1 / (2 : ℚ) ^ (53 : ℕ)) ^ 2 - 1) * ((10000 * p : ℕ) : ℚ) / (c : ℚ) := by ring
    have e2 : 1 / (2 * (c : ℚ)) = 1 / 2 / (c : ℚ) := by
      field_simp
    rw [e1, e2]
    apply div_lt_div_of_pos_right _ hcq
    norm_num at hN ⊢
    linarith
  · rw [calculatePotOdds_eq, toDouble_zero, if_pos rfl]

theorem calculatePotOdds_rounding_witness :
    (0 : ℚ) ≤ 57 ∧ (0 : ℚ) ≤ 800 ∧
    (∀ p c : ℕ, (57 : ℚ) = p → (800 : ℚ) = c → p ≠ 0 → c ≠ 0 → p ≤ 10 ^ 11 → c < 2 ^ 53 →
      ∃ k : ℤ, calculatePotOdds 57 800 = toDouble ((k : ℚ) / 10000) ∧
        |(k : ℚ) - 57 / 800 * 10000| ≤ 1 / 2) :=
  ⟨by norm_num, by norm_num,
    (calculatePotOdds_rounding 57 800 (by norm_num) (by norm_num)).2.2.1⟩

/-- C24, the claim fails for a large pot: with pot 900000000000, call 3, 9 outs
and 2 players the quotient (pot + 9 · 2 · 0.1) ÷ 3 is 300000000000.6, itself a
multiple of 0.0001, and the method returns the double of 300000000000.6001,
more than 0.00005 away. -/
theorem calculateImpliedOdds_not_nearest :
    calculateImpliedOdds 900000000000 3 9 2 = 614400000001229 / 2048 ∧
    ((900000000000 : ℚ) + ((9 : ℕ) : ℚ) * ((2 : ℕ) : ℚ) * (1 / 10)) / 3 =
      3000000000006 / 10000 * 1000 ∧
    (1 : ℚ) / 20000 < |calculateImpliedOdds 900000000000 3 9 2 -
      ((900000000000 : ℚ) + ((9 : ℕ) : ℚ) * ((2 : ℕ) : ℚ) * (1 / 10)) / 3| := by
  rw [calculateImpliedOdds_large]
  refine ⟨rfl, by norm_num, ?_⟩
  rw [lt_abs]
  left
  norm_num

/-- C24, amended. For every pot ≥ 0, call amount ≥ 0, number of outs and
player count, `calculateImpliedOdds` is 0 when the call amount or the number
of outs is 0; otherwise, for amounts between 2^-500 and 2^500 (the pot may be
0) and outs × playerCount at most 2^500, it is the double nearest to k / 10000
for an integer k that `Math.round` takes from the double-precision value of
(pot + outs × playerCount × 0.1) ÷ call × 10000, so that k is within
1/2 + 7 · 2^-53 · X of X = (pot + outs × playerCount × 0.1) ÷ call × 10000. For
whole amounts with a pot of at most 10^10, a call amount below 2^53 and
outs × playerCount at most 10^10, k is within 1/2 of X: k / 10000 is a multiple of 0.0001 nearest to the
quotient, where a quotient half way between two multiples may go to either
(pot 12, call 48, 9 outs, 3 players gives 0.3062). -/
theorem calculateImpliedOdds_rounding (pot callAmount : ℚ) (outs playerCount : Nat)
    (hpot : 0 ≤ pot) (hcall : 0 ≤ callAmount) :
    (callAmount = 0 ∨ outs = 0 → calculateImpliedOdds pot callAmount outs playerCount = 0) ∧
    (callAmount ≠ 0 → outs ≠ 0 → inDoubleRange pot → inDoubleRange callAmount →
      outs * playerCount ≤ 2 ^ 500 →
      ∃ k : ℤ, calculateImpliedOdds pot callAmount outs playerCount =
          toDouble ((k : ℚ) / 10000) ∧
        |(k : ℚ) - (toDouble pot + (outs : ℚ) * (playerCount : ℚ) * (1 / 10)) /
            toDouble callAmount * 10000| ≤
          1 / 2 + 7 / 2 ^ 53 * ((toDouble pot + (outs : ℚ) * (playerCount : ℚ) * (1 / 10)) /
            toDouble callAmount * 10000)) ∧
    (∀ p c : ℕ, pot = p → callAmount = c → c ≠ 0 → outs ≠ 0 → p ≤ 10 ^ 10 → c < 2 ^ 53 →
      outs * playerCount ≤ 10 ^ 10 →
      ∃ k : ℤ, calculateImpliedOdds pot callAmount outs playerCount =
          toDouble ((k : ℚ) / 10000) ∧
        |(k : ℚ) - (pot + (outs : ℚ) * (playerCount : ℚ) * (1 / 10)) / callAmount * 10000| ≤
          1 / 2) ∧
    calculateImpliedOdds 12 48 9 3 = toDouble (3062 / 10000) := by
  have hm : (0 : ℚ) ≤ (outs : ℚ) * (playerCount : ℚ) := by positivity
  refine ⟨?_, ?_, ?_, calculateImpliedOdds_tie⟩
  · rintro (h | h)
    · rw [calculateImpliedOdds_eq, h, toDouble_zero, if_pos (Or.inl rfl)]
    · rw [calculateImpliedOdds_eq, if_pos (Or.inr h)]
  · intro hc ho _ _ _
    have hC : 0 < toDouble callAmount := toDouble_pos _ (lt_of_le_of_ne hcall (Ne.symm hc))
    have hP : 0 ≤ toDouble pot := toDouble_nonneg _ hpot
    refine ⟨_, by
      rw [calculateImpliedOdds_eq, if_neg (by rintro (h | h); exact ne_of_gt hC h; exact ho h)],
      ?_⟩
    have hnear := impliedOdds_scaled_near (toDouble pot) (toDouble callAmount)
      ((outs : ℚ) * (playerCount : ℚ)) hP hC hm
    have hround := jsRound_near (toDouble (toDouble (toDouble (toDouble pot +
      toDouble (toDouble ((outs : ℚ) * (playerCount : ℚ)) * toDouble (1 / 10))) /
        toDouble callAmount) * 10000))
    have hX : 0 ≤ (toDouble pot + (outs : ℚ) * (playerCount : ℚ) * (1 / 10)) /
        toDouble callAmount * 10000 :=
      mul_nonneg (div_nonneg (add_nonneg hP (mul_nonneg hm (by norm_num))) (le_of_lt hC))
        (by norm_num)
    generalize (toDouble pot + (outs : ℚ) * (playerCount : ℚ) * (1 / 10)) /
        toDouble callAmount * 10000 = X at hnear hX ⊢
    generalize toDouble (toDouble (toDouble (toDouble pot +
      toDouble (toDouble ((outs : ℚ) * (playerCount : ℚ)) * toDouble (1 / 10))) /
        toDouble callAmount) * 10000) = x at hnear hround ⊢
    rw [abs_le] at hnear hround ⊢
    norm_num at hnear ⊢
    constructor <;> linarith [hnear.1, hnear.2, hround.1, hround.2]
  · intro p c hp hc hc0 ho hp10 hc53 hn10
    subst hp hc
    have hcpos : 0 < c := Nat.pos_of_ne_zero hc0
    have hcq : (0 : ℚ) < (c : ℚ) := by exact_mod_cast hcpos
    have hpq : (0 : ℚ) ≤ (p : ℚ) := by positivity
    have hp53 : p < 2 ^ 53 := lt_of_le_of_lt hp10 (by norm_num)
    have ep := toDouble_natCast p hp53
    have ec := toDouble_natCast c hc53
    refine ⟨_, by
      rw [calculateImpliedOdds_eq, ep, ec,
        if_neg (by rintro (h | h); exact ne_of_gt hcq h; exact ho h)], ?_⟩
    have hnear := impliedOdds_scaled_near (p : ℚ) (c : ℚ)
      ((outs : ℚ) * (playerCount : ℚ)) hpq hcq hm
    have eX : ((p : ℚ) + (outs : ℚ) * (playerCount : ℚ) * (1 / 10)) / (c : ℚ) * 10000 =
        ((1000 * (10 * p + outs * playerCount) : ℕ) : ℚ) / (c : ℚ) := by
      push_cast
      ring
    rw [eX] at hnear ⊢
    apply jsRound_nearest (1000 * (10 * p + outs * playerCount)) c hcpos
    refine lt_of_le_of_lt hnear ?_
    have hN : ((1000 * (10 * p + outs * playerCount) : ℕ) : ℚ) ≤ 11 * 10 ^ 13 := by
      have : 1000 * (10 * p + outs * playerCount) ≤ 11 * 10 ^ 13 := by omega
      exact_mod_cast this
    have e1 : ((1 + 1 / (2 : ℚ) ^ (53 : ℕ)) ^ 6 - 1) *
          (((1000 * (10 * p + outs * playerCount) : ℕ) : ℚ) / (c : ℚ)) =
        ((1 + 1 / (2 : ℚ) ^ (53 : ℕ)) ^ 6 - 1) *
          ((1000 * (10 * p + outs * playerCount) : ℕ) : ℚ) / (c : ℚ) := by ring
    have e2 : 1 / (2 * (c : ℚ)) = 1 / 2 / (c : ℚ) := by
      field_simp
    rw [e1, e2]
    apply div_lt_div_of_pos_right _ hcq
    generalize ((1000 * (10 * p + outs * playerCount) : ℕ) : ℚ) = N at hN ⊢
    norm_num at hN ⊢
    linarith

theorem calculateImpliedOdds_rounding_witness :
    (0 : ℚ) ≤ 12 ∧ (0 : ℚ) ≤ 48 ∧
    (∀ p c : ℕ, (12 : ℚ) = p → (48 : ℚ) = c → c ≠ 0 → 9 ≠ 0 → p ≤ 10 ^ 10 → c < 2 ^ 53 →
      9 * 3 ≤ 10 ^ 10 →
      ∃ k : ℤ, calculateImpliedOdds 12 48 9 3 = toDouble ((k : ℚ) / 10000) ∧
        |(k : ℚ) - (12 + ((9 : ℕ) : ℚ) * ((3 : ℕ) : ℚ) * (1 / 10)) / 48 * 10000| ≤ 1 / 2) :=
  ⟨by norm_num, by norm_num,
    (calculateImpliedOdds_rounding 12 48 9 3 (by norm_num) (by norm_num)).2.2.1⟩

/-- C25, the claim fails without outs: with pot 100, call 25, no outs and 6
players the implied odds are 0 and the pot odds are 4. -/
theorem calculateImpliedOdds_below_potOdds_without_outs :
    0 < (100 : ℚ) ∧ 0 < (25 : ℚ) ∧ 2 ≤ 6 ∧
    calculateImpliedOdds 100 25 0 6 < calculatePotOdds 100 25 := by
  rw [calculatePotOdds_hundred, calculateImpliedOdds_eq, if_pos (Or.inr rfl)]
  norm_num

/-- C25, amended. For every pot > 0, call amount > 0, at least one out and
every player count, the implied odds are at least the pot odds. -/
theorem calculateImpliedOdds_ge_potOdds (pot callAmount : ℚ) (outs playerCount : Nat)
    (hpot : 0 < pot) (hcall : 0 < callAmount) (houts : 1 ≤ outs) :
    calculatePotOdds pot callAmount ≤ calculateImpliedOdds pot callAmount outs playerCount := by
  have hC : 0 < toDouble callAmount := toDouble_pos _ hcall
  have hP : 0 < toDouble pot := toDouble_pos _ hpot
  rw [calculatePotOdds_eq, calculateImpliedOdds_eq, if_neg (ne_of_gt hC), if_neg (ne_of_gt hP),
    if_neg (by rintro (h | h); exact ne_of_gt hC h; omega)]
  have hextra : 0 ≤ toDouble (toDouble ((outs : ℚ) * (playerCount : ℚ)) * toDouble (1 / 10)) :=
    toDouble_nonneg _ (mul_nonneg (toDouble_nonneg _ (by positivity))
      (toDouble_nonneg _ (by norm_num)))
  have htotal : toDouble pot ≤ toDouble (toDouble pot +
      toDouble (toDouble ((outs : ℚ) * (playerCount : ℚ)) * toDouble (1 / 10))) := by
    have h := toDouble_mono (toDouble pot) _ (le_of_lt hP) (le_add_of_nonneg_right hextra)
    rw [toDouble_idem pot (le_of_lt hpot)] at h
    exact h
  have hquot := toDouble_mono _ _ (div_nonneg (le_of_lt hP) (le_of_lt hC))
    (div_le_div_of_nonneg_right htotal (le_of_lt hC))
  have hq0 : 0 ≤ toDouble (toDouble pot / toDouble callAmount) :=
    toDouble_nonneg _ (div_nonneg (le_of_lt hP) (le_of_lt hC))
  have hscaled := toDouble_mono _ _ (mul_nonneg hq0 (by norm_num))
    (mul_le_mul_of_nonneg_right hquot (by norm_num : (0 : ℚ) ≤ 10000))
  have hs0 := toDouble_nonneg _ (mul_nonneg hq0 (by norm_num : (0 : ℚ) ≤ 10000))
  have hint := jsRound_mono _ _ hscaled
  have hk0 : (0 : ℚ) ≤ (jsRound (toDouble (toDouble (toDouble pot / toDouble callAmount) *
      10000)) : ℚ) := by exact_mod_cast jsRound_nonneg _ hs0
  have hkq : (jsRound (toDouble (toDouble (toDouble pot / toDouble callAmount) * 10000)) : ℚ) ≤
      (jsRound (toDouble (toDouble (toDouble (toDouble pot +
        toDouble (toDouble ((outs : ℚ) * (playerCount : ℚ)) * toDouble (1 / 10))) /
          toDouble callAmount) * 10000)) : ℚ) := by exact_mod_cast hint
  exact toDouble_mono _ _ (div_nonneg hk0 (by norm_num))
    (div_le_div_of_nonneg_right hkq (by norm_num))

theorem calculateImpliedOdds_ge_potOdds_witness :
    (0 : ℚ) < 100 ∧ (0 : ℚ) < 25 ∧ 1 ≤ 9 ∧
    calculatePotOdds 100 25 ≤ calculateImpliedOdds 100 25 9 6 :=
  ⟨by norm_num, by norm_num, by decide,
    calculateImpliedOdds_ge_potOdds 100 25 9 6 (by norm_num) (by norm_num) (by decide)⟩

/-- C28. For every list of community cards, `getGamePhase` answers 'preflop'
exactly for 0 cards, 'flop' exactly for 3, 'turn' exactly for 4, 'river'
exactly for 5 and 'unknown' exactly for every other count; it gives the same
answer for any other list of the same length. -/
theorem getGamePhase_spec (communityCards : List Card) :
    (getGamePhase communityCards = .preflop ↔ communityCards.length = 0) ∧
    (getGamePhase communityCards = .flop ↔ communityCards.length = 3) ∧
    (getGamePhase communityCards = .turn ↔ communityCards.length = 4) ∧
    (getGamePhase communityCards = .river ↔ communityCards.length = 5) ∧
    (getGamePhase communityCards = .unknown ↔
      communityCards.length = 1 ∨ communityCards.length = 2 ∨ 6 ≤ communityCards.length) ∧
    getGamePhase communityCards =
      getGamePhase (List.replicate communityCards.length ⟨.r2, .spade⟩) := by
  unfold getGamePhase
  rw [List.length_replicate]
  generalize communityCards.length = n
  refine ⟨?_, ?_, ?_, ?_, ?_, rfl⟩ <;> split_ifs <;>
    simp only [reduceCtorEq, false_iff, true_iff] <;> omega

/-! ### The main method never reaches its `catch` branch -/

theorem straightCards_length (cards : List Card) :
    ∀ sequence : List (Option Nat),
      (∀ v ∈ sequence, ∃ c ∈ cards, cardValues c.rank = v) →
      (straightCards cards sequence).length = sequence.length
  | [], _ => rfl
  | v :: rest, h => by
    have ih := straightCards_length cards rest (fun w hw => h w (List.mem_cons_of_mem _ hw))
    obtain ⟨c, hc, hv⟩ := h v (List.mem_cons_self _ _)
    have hsome : (cards.find? (fun c => decide (cardValues c.rank = v))).isSome = true := by
      rw [List.find?_isSome]
      exact ⟨c, hc, by simpa using hv⟩
    obtain ⟨d, hd⟩ := Option.isSome_iff_exists.mp hsome
    unfold straightCards at ih ⊢
    rw [List.filterMap_cons, hd]
    simp only [List.length_cons, ih]

theorem mem_sortDescending (values : List (Option Nat)) (v : Option Nat)
    (h : v ∈ sortDescending values) : v ∈ values := by
  unfold sortDescending at h
  rw [List.mem_append] at h
  rcases h with h | h
  · rw [List.mem_map] at h
    obtain ⟨n, hn, rfl⟩ := h
    have hn2 : n ∈ values.filterMap id := (List.perm_insertionSort _ _).subset hn
    rw [List.mem_filterMap] at hn2
    obtain ⟨w, hw, hid⟩ := hn2
    simp only [id] at hid
    rw [← hid]
    exact hw
  · exact (List.mem_filter.mp h).1

theorem straightWindow_length (cards : List Card) :
    ∀ (u : List (Option Nat)) (h : Hand),
      (∀ v ∈ u, ∃ c ∈ cards, cardValues c.rank = v) →
      straightWindow cards u = some h → h.cards.length = 5
  | [], h, _, hh => by simp [straightWindow] at hh
  | v :: rest, h, hu, hh => by
    unfold straightWindow at hh
    split at hh
    · rename_i hlen
      split at hh
      · cases hh
        show (straightCards cards ((v :: rest).take 5)).length = 5
        rw [straightCards_length cards _
          (fun w hw => hu w (List.mem_of_mem_take hw)), List.length_take]
        omega
      · exact straightWindow_length cards rest h
          (fun w hw => hu w (List.mem_cons_of_mem _ hw)) hh
    · cases hh

theorem checkStraight_length (cards : List Card) (h : Hand)
    (hh : checkStraight cards = some h) : h.cards.length = 5 := by
  have hmem : ∀ v ∈ sortDescending (jsSet (cards.map (fun card => cardValues card.rank))),
      ∃ c ∈ cards, cardValues c.rank = v := by
    intro v hv
    have h1 := (mem_jsSet _ _).mp (mem_sortDescending _ _ hv)
    rw [List.mem_map] at h1
    exact h1
  unfold checkStraight at hh
  simp only at hh
  split at hh
  · rename_i straight hs
    cases hh
    exact straightWindow_length cards _ _ hmem hs
  · split at hh
    · rename_i hw
      simp only [Bool.and_eq_true, List.contains_iff_exists_mem_beq, beq_iff_eq] at hw
      cases hh
      show (straightCards cards [some 14, some 2, some 3, some 4, some 5]).length = 5
      rw [straightCards_length]
      · rfl
      · intro v hv
        apply hmem
        simp only [List.mem_cons, List.mem_singleton, List.not_mem_nil, or_false] at hv
        obtain ⟨⟨⟨⟨⟨a, ha, ha2⟩, ⟨b, hb, hb2⟩⟩, ⟨c, hc, hc2⟩⟩, ⟨d, hd, hd2⟩⟩, ⟨e, he, he2⟩⟩ := hw
        rcases hv with rfl | rfl | rfl | rfl | rfl
        · rw [ha2]; exact ha
        · rw [hb2]; exact hb
        · rw [hc2]; exact hc
        · rw [hd2]; exact hd
        · rw [he2]; exact he
    · cases hh

theorem checkStraightFlushThrows_eq (cards : List Card) :
    checkStraightFlushThrows cards = false := by
  unfold checkStraightFlushThrows
  split
  · rfl
  · split
    · rfl
    · rename_i straight hs
      have hlen := checkStraight_length _ _ hs
      match hc : straight.cards, hlen with
      | [a, b, c, d, e], _ => simp

theorem str_ne_error (s : Strength) : s.str ≠ "error" := by
  cases s <;> decide

theorem evaluatePreflop_strength_ne_error (holeCards : List Card) (playerCount : Nat)
    (position : String) : (evaluatePreflop holeCards playerCount position).strength ≠ "error" := by
  unfold evaluatePreflop
  split
  · simp only
    split_ifs <;> decide
  · show "incomplete" ≠ "error"
    decide

theorem findBestHand_strength_eq (cards : List Card) (hlen : 5 ≤ cards.length) :
    (findBestHand cards).strength =
      categoryOf
        (decide ((checkStraightFlush cards).map Hand.strength = some Strength.royalFlush))
        (checkStraightFlush cards).isSome (checkFourOfAKind cards).isSome
        (checkFullHouse cards).isSome (checkFlush cards).isSome (checkStraight cards).isSome
        (checkThreeOfAKind cards).isSome (checkTwoPair cards).isSome
        (checkPair cards).isSome := by
  rw [findBestHand_eq, if_neg (by omega)]
  cases hsf : checkStraightFlush cards with
  | some w =>
    rcases checkStraightFlush_strength _ _ hsf with h | h <;> simp [categoryOf, h]
  | none =>
  cases h4 : checkFourOfAKind cards with
  | some w => simp [categoryOf, checkFourOfAKind_strength _ _ h4]
  | none =>
  cases hfh : checkFullHouse cards with
  | some w => simp [categoryOf, checkFullHouse_strength _ _ hfh]
  | none =>
  cases hfl : checkFlush cards with
  | some w => simp [categoryOf, checkFlush_strength _ _ hfl]
  | none =>
  cases hst : checkStraight cards with
  | some w => simp [categoryOf, checkStraight_strength _ _ hst]
  | none =>
  cases h3 : checkThreeOfAKind cards with
  | some w => simp [categoryOf, checkThreeOfAKind_strength _ _ h3]
  | none =>
  cases h2p : checkTwoPair cards with
  | some w => simp [categoryOf, checkTwoPair_strength _ _ h2p]
  | none =>
  cases hp : checkPair cards with
  | some w => simp [categoryOf, checkPair_strength _ _ hp]
  | none => simp [categoryOf, checkHighCard]

theorem categoryOf_ne_incomplete (b10 b9 b8 b7 b6 b5 b4 b3 b2 : Bool) :
    categoryOf b10 b9 b8 b7 b6 b5 b4 b3 b2 ≠ .incomplete := by
  unfold categoryOf
  split_ifs <;> exact fun h => Strength.noConfusion h

theorem findBestHand_incomplete_iff (cards : List Card) :
    (findBestHand cards).strength.str = "incomplete" ↔ cards.length < 5 := by
  constructor
  · intro h
    by_contra hlen
    have hne := categoryOf_ne_incomplete
      (decide ((checkStraightFlush cards).map Hand.strength = some Strength.royalFlush))
      (checkStraightFlush cards).isSome (checkFourOfAKind cards).isSome
      (checkFullHouse cards).isSome (checkFlush cards).isSome (checkStraight cards).isSome
      (checkThreeOfAKind cards).isSome (checkTwoPair cards).isSome
      (checkPair cards).isSome
    rw [← findBestHand_strength_eq cards (by omega)] at hne
    revert h hne
    cases (findBestHand cards).strength <;> decide
  · intro h
    rw [findBestHand_eq, if_pos h]
    rfl

theorem evaluatePreflop_incomplete_iff (holeCards : List Card) (playerCount : Nat)
    (position : String) :
    (evaluatePreflop holeCards playerCount position).strength = "incomplete" ↔
      holeCards.length ≠ 2 := by
  unfold evaluatePreflop
  split
  · simp only [List.length_cons, List.length_nil]
    split_ifs <;> decide
  · rename_i hne
    constructor
    · intro _ hlen
      match holeCards, hlen with
      | [a, b], _ => exact hne a b rfl
    · intro _
      rfl

theorem evaluateHand_eq (holeCards communityCards : List Card) (playerCount : Nat)
    (position : String) :
    evaluateHand holeCards communityCards playerCount position =
      if 0 < communityCards.length then
        .complete (evaluateCompleteHand (holeCards ++ communityCards) playerCount) holeCards
          communityCards (getGamePhase communityCards)
      else .preflop (evaluatePreflop holeCards playerCount position) holeCards := by
  unfold evaluateHand evaluateCompleteHandThrows
  simp only [checkStraightFlushThrows_eq, Bool.and_false, Bool.false_eq_true, if_false]

/-- C26. With community cards present `evaluateHand` does not test the number
of hole cards: one hole card A♠ and the board K♥ 9♦ 7♣ 5♠ 2♥ make six cards,
which it classifies as high-card rather than as incomplete. The same hole card
without a board is answered 'incomplete' by the guard of `evaluatePreflop`, and
`calculatePostFlopProbability` answers the neutral 0.5 by its own guard. -/
theorem evaluateHand_one_hole_card_classified :
    ([⟨.rA, .spade⟩] : List Card).length ≠ 2 ∧
    (evaluateHand [⟨.rA, .spade⟩]
      [⟨.rK, .heart⟩, ⟨.r9, .diamond⟩, ⟨.r7, .club⟩, ⟨.r5, .spade⟩, ⟨.r2, .heart⟩]
      6 "middle").strength = "high-card" ∧
    (evaluateHand [⟨.rA, .spade⟩] [] 6 "middle").strength = "incomplete" ∧
    (∀ shuffled, calculatePostFlopProbability [⟨.rA, .spade⟩]
      [⟨.rK, .heart⟩, ⟨.r9, .diamond⟩, ⟨.r7, .club⟩, ⟨.r5, .spade⟩, ⟨.r2, .heart⟩]
      6 shuffled = 1 / 2) := by
  refine ⟨by decide, by decide, by decide, fun shuffled => ?_⟩
  unfold calculatePostFlopProbability
  rw [if_pos (by decide)]

/-- C27, the claim fails: with hole cards A♠ and a King that lacks its suit and
the board 9♦ 7♣ 5♠, `evaluateHand` returns the classification 'high-card', and
with hole cards K♥ and a card that lacks its rank and no board it returns the
preflop label 'high-card'; neither is the error result. -/
theorem evaluateHand_missing_property_classified :
    (evaluateHand [⟨.rA, .spade⟩, ⟨.rK, .undefined⟩]
      [⟨.r9, .diamond⟩, ⟨.r7, .club⟩, ⟨.r5, .spade⟩] 6 "middle").strength = "high-card" ∧
    (evaluateHand [⟨.rA, .spade⟩, ⟨.rK, .undefined⟩]
      [⟨.r9, .diamond⟩, ⟨.r7, .club⟩, ⟨.r5, .spade⟩] 6 "middle").description
        = "High Card, A" ∧
    (evaluateHand [⟨.rK, .heart⟩, ⟨.undefined, .spade⟩] [] 6 "middle").strength
        = "high-card" := by
  decide

theorem evaluateHand_no_error (holeCards communityCards : List Card) (playerCount : Nat)
    (position : String) :
    (∀ h c, evaluateHand holeCards communityCards playerCount position ≠ .error h c) ∧
    (evaluateHand holeCards communityCards playerCount position).strength ≠ "error" := by
  rw [evaluateHand_eq]
  split
  · exact ⟨fun h c e => HandEvaluation.noConfusion e, str_ne_error _⟩
  · exact ⟨fun h c e => HandEvaluation.noConfusion e, evaluatePreflop_strength_ne_error _ _ _⟩

/-- C27, amended. For every snapshot in which some hole or community card
lacks its suit or, before the flop, its rank, the ranks that are present being
among '2'..'9', 'T', 'J', 'Q', 'K', 'A' and the suits that are present among
♠ ♣ ♥ ♦, `evaluateHand` raises no exception and does not return the error
result: the missing property is read as `undefined` and the call returns a
classification, the preflop label, or 'incomplete'. -/
theorem evaluateHand_missing_property (holeCards communityCards : List Card)
    (playerCount : Nat) (position : String) :
    (∃ c ∈ holeCards ++ communityCards, c.suit = .undefined ∨
      (c.rank = .undefined ∧ communityCards = [])) →
    (∀ c ∈ holeCards ++ communityCards,
      (c.rank.canonical ∨ (c.rank = .undefined ∧ communityCards = [])) ∧
      (c.suit.canonical ∨ c.suit = .undefined)) →
    evaluateCompleteHandThrows (holeCards ++ communityCards) = false ∧
    (∀ h c, evaluateHand holeCards communityCards playerCount position ≠ .error h c) ∧
    (evaluateHand holeCards communityCards playerCount position).strength ≠ "error" ∧
    (evaluateHand holeCards communityCards playerCount position =
        .complete (evaluateCompleteHand (holeCards ++ communityCards) playerCount) holeCards
          communityCards (getGamePhase communityCards) ∨
      evaluateHand holeCards communityCards playerCount position =
        .preflop (evaluatePreflop holeCards playerCount position) holeCards) := by
  intro _ _
  have hno := evaluateHand_no_error holeCards communityCards playerCount position
  refine ⟨?_, hno.1, hno.2, ?_⟩
  · unfold evaluateCompleteHandThrows
    rw [checkStraightFlushThrows_eq, Bool.and_false]
  · rw [evaluateHand_eq]
    split
    · exact Or.inl rfl
    · exact Or.inr rfl

theorem evaluateHand_missing_property_witness :
    (∃ c ∈ ([⟨.rA, .spade⟩, ⟨.rK, .undefined⟩] : List Card) ++
        [⟨.r9, .diamond⟩, ⟨.r7, .club⟩, ⟨.r5, .spade⟩],
      c.suit = .undefined ∨ (c.rank = .undefined ∧
        ([⟨.r9, .diamond⟩, ⟨.r7, .club⟩, ⟨.r5, .spade⟩] : List Card) = [])) ∧
    (∀ c ∈ ([⟨.rA, .spade⟩, ⟨.rK, .undefined⟩] : List Card) ++
        [⟨.r9, .diamond⟩, ⟨.r7, .club⟩, ⟨.r5, .spade⟩],
      (c.rank.canonical ∨ (c.rank = .undefined ∧
        ([⟨.r9, .diamond⟩, ⟨.r7, .club⟩, ⟨.r5, .spade⟩] : List Card) = [])) ∧
      (c.suit.canonical ∨ c.suit = .undefined)) ∧
    (evaluateHand [⟨.rA, .spade⟩, ⟨.rK, .undefined⟩]
      [⟨.r9, .diamond⟩, ⟨.r7, .club⟩, ⟨.r5, .spade⟩] 6 "middle").strength ≠ "error" :=
  ⟨by decide, by decide,
    (evaluateHand_missing_property [⟨.rA, .spade⟩, ⟨.rK, .undefined⟩]
      [⟨.r9, .diamond⟩, ⟨.r7, .club⟩, ⟨.r5, .spade⟩] 6 "middle" (by decide) (by decide)).2.2.1⟩

/-- C29, the claim fails with six cards of the suit: K♠ 9♠ 8♠ 7♠ 6♠ 5♠ 2♦ are
seven unique cards whose spades hold the straight 9 8 7 6 5, and
`evaluateCompleteHand` answers 'flush'; the five spades 9♠ 8♠ 7♠ 6♠ 5♠ alone
are answered 'straight-flush'. -/
theorem evaluateCompleteHand_six_suited_flush :
    CardSet [⟨.rK, .spade⟩, ⟨.r9, .spade⟩, ⟨.r8, .spade⟩, ⟨.r7, .spade⟩, ⟨.r6, .spade⟩,
      ⟨.r5, .spade⟩, ⟨.r2, .diamond⟩] ∧
    5 ≤ suitCount [⟨.rK, .spade⟩, ⟨.r9, .spade⟩, ⟨.r8, .spade⟩, ⟨.r7, .spade⟩, ⟨.r6, .spade⟩,
      ⟨.r5, .spade⟩, ⟨.r2, .diamond⟩] .spade ∧
    hasRun (suitGroup [⟨.rK, .spade⟩, ⟨.r9, .spade⟩, ⟨.r8, .spade⟩, ⟨.r7, .spade⟩,
      ⟨.r6, .spade⟩, ⟨.r5, .spade⟩, ⟨.r2, .diamond⟩] .spade) 9 ∧
    (evaluateCompleteHand [⟨.rK, .spade⟩, ⟨.r9, .spade⟩, ⟨.r8, .spade⟩, ⟨.r7, .spade⟩,
      ⟨.r6, .spade⟩, ⟨.r5, .spade⟩, ⟨.r2, .diamond⟩] 6).strength = .flush ∧
    (evaluateCompleteHand [⟨.r9, .spade⟩, ⟨.r8, .spade⟩, ⟨.r7, .spade⟩, ⟨.r6, .spade⟩,
      ⟨.r5, .spade⟩] 6).strength = .straightFlush := by
  decide

/-! ### The strongest five-card subset -/

/-- The rank of the category a cascade of tests gives: it is at least the rank
of every test that holds, and it is the rank of a test that holds. -/
theorem categoryOf_rank (b10 b9 b8 b7 b6 b5 b4 b3 b2 : Bool) :
    (b10 = true → 10 ≤ (handRankings (categoryOf b10 b9 b8 b7 b6 b5 b4 b3 b2)).getD 0) ∧
    (b9 = true → 9 ≤ (handRankings (categoryOf b10 b9 b8 b7 b6 b5 b4 b3 b2)).getD 0) ∧
    (b8 = true → 8 ≤ (handRankings (categoryOf b10 b9 b8 b7 b6 b5 b4 b3 b2)).getD 0) ∧
    (b7 = true → 7 ≤ (handRankings (categoryOf b10 b9 b8 b7 b6 b5 b4 b3 b2)).getD 0) ∧
    (b6 = true → 6 ≤ (handRankings (categoryOf b10 b9 b8 b7 b6 b5 b4 b3 b2)).getD 0) ∧
    (b5 = true → 5 ≤ (handRankings (categoryOf b10 b9 b8 b7 b6 b5 b4 b3 b2)).getD 0) ∧
    (b4 = true → 4 ≤ (handRankings (categoryOf b10 b9 b8 b7 b6 b5 b4 b3 b2)).getD 0) ∧
    (b3 = true → 3 ≤ (handRankings (categoryOf b10 b9 b8 b7 b6 b5 b4 b3 b2)).getD 0) ∧
    (b2 = true → 2 ≤ (handRankings (categoryOf b10 b9 b8 b7 b6 b5 b4 b3 b2)).getD 0) ∧
    1 ≤ (handRankings (categoryOf b10 b9 b8 b7 b6 b5 b4 b3 b2)).getD 0 := by
  cases b10 <;> cases b9 <;> cases b8 <;> cases b7 <;> cases b6 <;> cases b5 <;>
    cases b4 <;> cases b3 <;> cases b2 <;> decide

theorem categoryOf_test (b10 b9 b8 b7 b6 b5 b4 b3 b2 : Bool) :
    ((handRankings (categoryOf b10 b9 b8 b7 b6 b5 b4 b3 b2)).getD 0 = 10 → b10 = true) ∧
    ((handRankings (categoryOf b10 b9 b8 b7 b6 b5 b4 b3 b2)).getD 0 = 9 → b9 = true) ∧
    ((handRankings (categoryOf b10 b9 b8 b7 b6 b5 b4 b3 b2)).getD 0 = 8 → b8 = true) ∧
    ((handRankings (categoryOf b10 b9 b8 b7 b6 b5 b4 b3 b2)).getD 0 = 7 → b7 = true) ∧
    ((handRankings (categoryOf b10 b9 b8 b7 b6 b5 b4 b3 b2)).getD 0 = 6 → b6 = true) ∧
    ((handRankings (categoryOf b10 b9 b8 b7 b6 b5 b4 b3 b2)).getD 0 = 5 → b5 = true) ∧
    ((handRankings (categoryOf b10 b9 b8 b7 b6 b5 b4 b3 b2)).getD 0 = 4 → b4 = true) ∧
    ((handRankings (categoryOf b10 b9 b8 b7 b6 b5 b4 b3 b2)).getD 0 = 3 → b3 = true) ∧
    ((handRankings (categoryOf b10 b9 b8 b7 b6 b5 b4 b3 b2)).getD 0 = 2 → b2 = true) ∧
    (handRankings (categoryOf b10 b9 b8 b7 b6 b5 b4 b3 b2)).getD 0 ≤ 10 := by
  cases b10 <;> cases b9 <;> cases b8 <;> cases b7 <;> cases b6 <;> cases b5 <;>
    cases b4 <;> cases b3 <;> cases b2 <;> decide

theorem eq_of_rank_eq (a b : Strength) (h : (handRankings a).getD 0 = (handRankings b).getD 0)
    (ha : 1 ≤ (handRankings a).getD 0) : a = b := by
  revert h ha
  cases a <;> cases b <;> decide

theorem foldl_stronger_mem :
    ∀ (xs : List Strength) (a : Strength), xs.foldl stronger a = a ∨ xs.foldl stronger a ∈ xs
  | [], a => Or.inl rfl
  | x :: xs, a => by
    rw [List.foldl_cons]
    rcases foldl_stronger_mem xs (stronger a x) with h | h
    · rw [h]
      unfold stronger
      split
      · exact Or.inr (List.mem_cons_self _ _)
      · exact Or.inl rfl
    · exact Or.inr (List.mem_cons_of_mem _ h)

theorem standardCategory_eq (hand : List Card) :
    standardCategory hand =
      categoryOf
        (allSuits.any (fun s => decide (suitCount hand s = 5)) && decide (hasRun hand 14))
        (allSuits.any (fun s => decide (suitCount hand s = 5)) &&
          runTops.any (fun top => decide (hasRun hand top)))
        (decide (1 ≤ allRanks.countP (fun r => decide (4 ≤ rankCount hand r))))
        (decide (1 ≤ allRanks.countP (fun r => decide (3 ≤ rankCount hand r))) &&
          decide (2 ≤ allRanks.countP (fun r => decide (2 ≤ rankCount hand r))))
        (allSuits.any (fun s => decide (suitCount hand s = 5)))
        (runTops.any (fun top => decide (hasRun hand top)))
        (decide (1 ≤ allRanks.countP (fun r => decide (3 ≤ rankCount hand r))))
        (decide (2 ≤ allRanks.countP (fun r => decide (2 ≤ rankCount hand r))))
        (decide (1 ≤ allRanks.countP (fun r => decide (2 ≤ rankCount hand r)))) := by
  unfold standardCategory categoryOf
  simp only [Bool.and_eq_true, decide_eq_true_eq]

/-! Every test is inherited from a part of the cards. -/

theorem hasRun_mono {t l : List Card} (h : ∀ c ∈ t, c ∈ l) (top : Nat) (ht : hasRun t top) :
    hasRun l top := by
  obtain ⟨h1, h2⟩ := ht
  refine ⟨h1, fun v hv => ?_⟩
  obtain ⟨c, hc, e⟩ := h2 v hv
  exact ⟨c, h c hc, e⟩

theorem holdsRoyal_mono {t l : List Card} (h : t.Subperm l) (ht : holdsRoyal t) :
    holdsRoyal l := by
  obtain ⟨x, hA, hK, hQ, hJ, hT⟩ := ht
  exact ⟨x, h.subset hA, h.subset hK, h.subset hQ, h.subset hJ, h.subset hT⟩

theorem holdsStraightFlush_mono {t l : List Card} (h : t.Subperm l)
    (ht : holdsStraightFlush t) : holdsStraightFlush l := by
  obtain ⟨x, top, hrun⟩ := ht
  refine ⟨x, top, hasRun_mono (fun c hc => ?_) top hrun⟩
  rw [mem_suitGroup] at hc ⊢
  exact ⟨h.subset hc.1, hc.2⟩

theorem holdsOfAKind_mono {t l : List Card} (h : t.Subperm l) (n : Nat)
    (ht : holdsOfAKind n t) : holdsOfAKind n l := by
  obtain ⟨k, hk⟩ := ht
  exact ⟨k, le_trans hk (h.countP_le _)⟩

theorem holdsTwoGroups_mono {t l : List Card} (h : t.Subperm l) (a b : Nat)
    (ht : holdsTwoGroups a b t) : holdsTwoGroups a b l := by
  obtain ⟨k1, k2, hne, h1, h2⟩ := ht
  exact ⟨k1, k2, hne, le_trans h1 (h.countP_le _), le_trans h2 (h.countP_le _)⟩

theorem holdsFlush_mono {t l : List Card} (h : t.Subperm l) (ht : holdsFlush t) :
    holdsFlush l := by
  obtain ⟨x, hx⟩ := ht
  exact ⟨x, le_trans hx (h.countP_le _)⟩

theorem holdsStraight_mono {t l : List Card} (h : t.Subperm l) (ht : holdsStraight t) :
    holdsStraight l := by
  obtain ⟨top, hrun⟩ := ht
  exact ⟨top, hasRun_mono (fun c hc => h.subset hc) top hrun⟩

/-! Every test that holds is shown by at most five of the cards. -/

theorem rankCount_take_rankGroup (l : List Card) (k : Rank) (n : Nat)
    (h : n ≤ rankCount l k) : rankCount ((rankGroup l k).take n) k = n := by
  unfold rankCount
  have hall : ∀ c ∈ (rankGroup l k).take n, decide (c.rank = k) = true := by
    intro c hc
    have := List.mem_of_mem_take hc
    unfold rankGroup at this
    exact (List.mem_filter.mp this).2
  rw [List.countP_eq_length.mpr hall, List.length_take, length_rankGroup]
  omega

theorem suitCount_take_suitGroup (l : List Card) (x : Suit) (n : Nat)
    (h : n ≤ suitCount l x) : suitCount ((suitGroup l x).take n) x = n := by
  unfold suitCount
  have hall : ∀ c ∈ (suitGroup l x).take n, decide (c.suit = x) = true := by
    intro c hc
    have := List.mem_of_mem_take hc
    unfold suitGroup at this
    exact (List.mem_filter.mp this).2
  rw [List.countP_eq_length.mpr hall, List.length_take, length_suitGroup]
  omega

theorem take_rankGroup_sublist (l : List Card) (k : Rank) (n : Nat) :
    ((rankGroup l k).take n).Sublist l :=
  (List.take_sublist _ _).trans (List.filter_sublist _)

theorem take_suitGroup_sublist (l : List Card) (x : Suit) (n : Nat) :
    ((suitGroup l x).take n).Sublist l :=
  (List.take_sublist _ _).trans (List.filter_sublist _)

theorem holdsOfAKind_shown (l : List Card) (hnd : l.Nodup) (n : Nat) (hn : n ≤ 5)
    (h : holdsOfAKind n l) :
    ∃ t : List Card, t.Nodup ∧ (∀ c ∈ t, c ∈ l) ∧ t.length ≤ 5 ∧ holdsOfAKind n t := by
  obtain ⟨k, hk⟩ := h
  refine ⟨(rankGroup l k).take n, (take_rankGroup_sublist l k n).nodup hnd,
    fun c hc => (take_rankGroup_sublist l k n).subset hc, ?_, k, ?_⟩
  · rw [List.length_take]
    omega
  · rw [rankCount_take_rankGroup l k n hk]

theorem holdsFlush_shown (l : List Card) (hnd : l.Nodup) (h : holdsFlush l) :
    ∃ t : List Card, t.Nodup ∧ (∀ c ∈ t, c ∈ l) ∧ t.length ≤ 5 ∧ holdsFlush t := by
  obtain ⟨x, hx⟩ := h
  refine ⟨(suitGroup l x).take 5, (take_suitGroup_sublist l x 5).nodup hnd,
    fun c hc => (take_suitGroup_sublist l x 5).subset hc, ?_, x, ?_⟩
  · rw [List.length_take]
    omega
  · rw [suitCount_take_suitGroup l x 5 hx]

theorem holdsTwoGroups_shown (l : List Card) (hnd : l.Nodup) (a b : Nat) (hab : a + b ≤ 5)
    (h : holdsTwoGroups a b l) :
    ∃ t : List Card, t.Nodup ∧ (∀ c ∈ t, c ∈ l) ∧ t.length ≤ 5 ∧ holdsTwoGroups a b t := by
  obtain ⟨k1, k2, hne, h1, h2⟩ := h
  have hr1 : ∀ c ∈ (rankGroup l k1).take a, c.rank = k1 := by
    intro c hc
    have := List.mem_of_mem_take hc
    unfold rankGroup at this
    simpa using (List.mem_filter.mp this).2
  have hr2 : ∀ c ∈ (rankGroup l k2).take b, c.rank = k2 := by
    intro c hc
    have := List.mem_of_mem_take hc
    unfold rankGroup at this
    simpa using (List.mem_filter.mp this).2
  refine ⟨(rankGroup l k1).take a ++ (rankGroup l k2).take b, ?_, ?_, ?_, k1, k2, hne, ?_, ?_⟩
  · rw [List.nodup_append]
    refine ⟨(take_rankGroup_sublist l k1 a).nodup hnd,
      (take_rankGroup_sublist l k2 b).nodup hnd, ?_⟩
    intro c hc1 hc2
    exact hne ((hr1 c hc1).symm.trans (hr2 c hc2))
  · intro c hc
    rcases List.mem_append.mp hc with hc | hc
    · exact (take_rankGroup_sublist l k1 a).subset hc
    · exact (take_rankGroup_sublist l k2 b).subset hc
  · rw [List.length_append, List.length_take, List.length_take]
    omega
  · unfold rankCount
    rw [List.countP_append]
    have := rankCount_take_rankGroup l k1 a h1
    unfold rankCount at this
    omega
  · unfold rankCount
    rw [List.countP_append]
    have := rankCount_take_rankGroup l k2 b h2
    unfold rankCount at this
    omega

theorem holdsRoyal_shown (l : List Card) (h : holdsRoyal l) :
    ∃ t : List Card, t.Nodup ∧ (∀ c ∈ t, c ∈ l) ∧ t.length ≤ 5 ∧ holdsRoyal t := by
  obtain ⟨x, hA, hK, hQ, hJ, hT⟩ := h
  refine ⟨[⟨.rA, x⟩, ⟨.rK, x⟩, ⟨.rQ, x⟩, ⟨.rJ, x⟩, ⟨.rT, x⟩], ?_, ?_, le_refl _, x, ?_⟩
  · simp
  · intro c hc
    simp only [List.mem_cons, List.mem_singleton, List.not_mem_nil, or_false] at hc
    rcases hc with rfl | rfl | rfl | rfl | rfl <;> assumption
  · simp

theorem hasRun_shown (g : List Card) (hc : ∀ c ∈ g, c.rank.canonical) (top : Nat)
    (h : hasRun g top) :
    ∃ t : List Card, t.Nodup ∧ (∀ c ∈ t, c ∈ g) ∧ t.length = 5 ∧ hasRun t top := by
  obtain ⟨htop, hvals⟩ := h
  obtain ⟨hv, hmem⟩ := straightCards_of_present g hc (runValues top) hvals
  obtain ⟨hnd, hlen⟩ := runValues_nodup top htop
  refine ⟨straightCards g ((runValues top).map some), ?_, hmem, ?_, htop, ?_⟩
  · apply List.Nodup.of_map (fun c => c.rank.value)
    rw [hv]
    exact hnd
  · rw [← List.length_map _ (fun c : Card => c.rank.value), hv, hlen]
  · intro v hvm
    rw [← hv, List.mem_map] at hvm
    exact hvm

theorem holdsStraight_shown (l : List Card) (hc : ∀ c ∈ l, c.rank.canonical)
    (h : holdsStraight l) :
    ∃ t : List Card, t.Nodup ∧ (∀ c ∈ t, c ∈ l) ∧ t.length ≤ 5 ∧ holdsStraight t := by
  obtain ⟨top, hrun⟩ := h
  obtain ⟨t, h1, h2, h3, h4⟩ := hasRun_shown l hc top hrun
  exact ⟨t, h1, h2, le_of_eq h3, top, h4⟩

theorem holdsStraightFlush_shown (l : List Card) (hc : ∀ c ∈ l, c.rank.canonical)
    (h : holdsStraightFlush l) :
    ∃ t : List Card, t.Nodup ∧ (∀ c ∈ t, c ∈ l) ∧ t.length ≤ 5 ∧ holdsStraightFlush t := by
  obtain ⟨x, top, hrun⟩ := h
  obtain ⟨t, h1, h2, h3, h4⟩ := hasRun_shown (suitGroup l x)
    (fun c hcm => hc c ((mem_suitGroup l x c).mp hcm).1) top hrun
  refine ⟨t, h1, fun c hcm => ((mem_suitGroup l x c).mp (h2 c hcm)).1, le_of_eq h3, x, top, ?_⟩
  have hself : suitGroup t x = t := by
    unfold suitGroup
    rw [List.filter_eq_self]
    intro c hcm
    simpa using ((mem_suitGroup l x c).mp (h2 c hcm)).2
  rw [hself]
  exact h4

/-- Cards that show a test extend to five of the cards, in the order of the
cards. -/
theorem exists_five_of_shown (l : List Card) (hlen : 5 ≤ l.length) (t : List Card)
    (hnd : t.Nodup) (hsub : ∀ c ∈ t, c ∈ l) (ht : t.length ≤ 5) :
    ∃ u : List Card, u.Sublist l ∧ u.length = 5 ∧ t.Subperm u := by
  obtain ⟨s, hs, hsl⟩ := List.subperm_of_subset hnd hsub
  obtain ⟨u, h1, h2, h3⟩ := exists_sublist_between l s hsl 5 (by rw [hs.length_eq]; exact ht) hlen
  exact ⟨u, h2, h3, ⟨s, hs, h1⟩⟩

/-! The tests of the standard rules on five cards. -/

theorem suitCount_le_length (t : List Card) (x : Suit) : suitCount t x ≤ t.length :=
  List.countP_le_length _

theorem suitGroup_eq_self (t : List Card) (x : Suit) (h : suitCount t x = t.length) :
    suitGroup t x = t := by
  unfold suitGroup
  rw [List.filter_eq_self]
  exact List.countP_eq_length.mp h

theorem five_le_suitCount_of_run (t : List Card) (x : Suit) (top : Nat)
    (h : hasRun (suitGroup t x) top) : 5 ≤ suitCount t x := by
  obtain ⟨hnd, hlen⟩ := runValues_nodup top h.1
  have := length_le_countP_of_values t (fun c => decide (c.suit = x)) (runValues top) hnd
    (fun v hv => by
      obtain ⟨c, hc, e⟩ := h.2 v hv
      rw [mem_suitGroup] at hc
      exact ⟨c, hc.1, by simpa using hc.2, e⟩)
  unfold suitCount
  omega

theorem anyFlush_iff (t : List Card) (hc : ∀ c ∈ t, c.canonical) (hlen : t.length = 5) :
    allSuits.any (fun s => decide (suitCount t s = 5)) = true ↔ holdsFlush t := by
  rw [List.any_eq_true]
  constructor
  · rintro ⟨x, -, hx⟩
    exact ⟨x, by simpa using le_of_eq (of_decide_eq_true hx).symm⟩
  · rintro ⟨x, hx⟩
    have := suitCount_le_length t x
    exact ⟨x, mem_allSuits x (suitCount_pos_canonical t hc x (by omega)),
      decide_eq_true (by omega)⟩

theorem anyRun_iff (t : List Card) :
    runTops.any (fun top => decide (hasRun t top)) = true ↔ holdsStraight t := by
  rw [List.any_eq_true]
  constructor
  · rintro ⟨top, -, h⟩
    exact ⟨top, of_decide_eq_true h⟩
  · rintro ⟨top, h⟩
    exact ⟨top, h.1, decide_eq_true h⟩

theorem standard_straightFlush_iff (t : List Card) (hc : ∀ c ∈ t, c.canonical)
    (hlen : t.length = 5) :
    (allSuits.any (fun s => decide (suitCount t s = 5)) &&
      runTops.any (fun top => decide (hasRun t top))) = true ↔ holdsStraightFlush t := by
  rw [Bool.and_eq_true, anyFlush_iff t hc hlen, anyRun_iff]
  constructor
  · rintro ⟨⟨x, hx⟩, top, hrun⟩
    have := suitCount_le_length t x
    refine ⟨x, top, ?_⟩
    rw [suitGroup_eq_self t x (by omega)]
    exact hrun
  · rintro ⟨x, top, hrun⟩
    exact ⟨⟨x, five_le_suitCount_of_run t x top hrun⟩, top,
      hasRun_mono (fun c hcm => ((mem_suitGroup t x c).mp hcm).1) top hrun⟩

theorem standard_royal_iff (t : List Card) (hc : ∀ c ∈ t, c.canonical) (hlen : t.length = 5) :
    (allSuits.any (fun s => decide (suitCount t s = 5)) && decide (hasRun t 14)) = true ↔
      holdsRoyal t := by
  rw [Bool.and_eq_true, anyFlush_iff t hc hlen, decide_eq_true_eq]
  constructor
  · rintro ⟨⟨x, hx⟩, -, hrun⟩
    have hle := suitCount_le_length t x
    have hall : ∀ c ∈ t, c.suit = x := by
      have := List.countP_eq_length.mp (show t.countP (fun c => decide (c.suit = x)) = t.length
        from by unfold suitCount at hx hle; omega)
      exact fun c hcm => by simpa using this c hcm
    have card : ∀ r : Rank, r.canonical → r.value ∈ runValues 14 → (⟨r, x⟩ : Card) ∈ t := by
      intro r hr hv
      obtain ⟨c, hcm, e⟩ := hrun r.value hv
      rw [← card_of_value c (hc c hcm).1 r hr x e (hall c hcm)]
      exact hcm
    exact ⟨x, card .rA (by decide) (by decide), card .rK (by decide) (by decide),
      card .rQ (by decide) (by decide), card .rJ (by decide) (by decide),
      card .rT (by decide) (by decide)⟩
  · rintro ⟨x, hA, hK, hQ, hJ, hT⟩
    refine ⟨⟨x, suitCount_royal t x hA hK hQ hJ hT⟩, by decide, ?_⟩
    intro v hv
    have hv5 : v = 14 ∨ v = 13 ∨ v = 12 ∨ v = 11 ∨ v = 10 := by
      simpa [runValues] using hv
    rcases hv5 with rfl | rfl | rfl | rfl | rfl
    · exact ⟨_, hA, rfl⟩
    · exact ⟨_, hK, rfl⟩
    · exact ⟨_, hQ, rfl⟩
    · exact ⟨_, hJ, rfl⟩
    · exact ⟨_, hT, rfl⟩

theorem held_one_iff (t : List Card) (hc : ∀ c ∈ t, c.canonical) (n : Nat) (hn : 1 ≤ n) :
    1 ≤ allRanks.countP (fun r => decide (n ≤ rankCount t r)) ↔ holdsOfAKind n t := by
  rw [Nat.succ_le_iff, List.countP_pos_iff]
  constructor
  · rintro ⟨k, -, hk⟩
    exact ⟨k, of_decide_eq_true hk⟩
  · rintro ⟨k, hk⟩
    exact ⟨k, mem_allRanks k (rankCount_pos_canonical t hc k (by omega)), decide_eq_true hk⟩

theorem two_le_countP_iff {α : Type} [DecidableEq α] (L : List α) (hL : L.Nodup)
    (p : α → Bool) :
    2 ≤ L.countP p ↔ ∃ a b, a ∈ L ∧ b ∈ L ∧ a ≠ b ∧ p a = true ∧ p b = true := by
  rw [List.countP_eq_length_filter]
  have hf : (L.filter p).Nodup := hL.filter _
  constructor
  · intro h
    match hm : L.filter p, hf, h with
    | a :: b :: rest, hnd, _ =>
      have ha : a ∈ L.filter p := by rw [hm]; exact List.mem_cons_self _ _
      have hb : b ∈ L.filter p := by
        rw [hm]; exact List.mem_cons_of_mem _ (List.mem_cons_self _ _)
      rw [List.mem_filter] at ha hb
      refine ⟨a, b, ha.1, hb.1, ?_, ha.2, hb.2⟩
      rw [List.nodup_cons] at hnd
      intro e
      exact hnd.1 (e ▸ List.mem_cons_self _ _)
  · rintro ⟨a, b, ha, hb, hne, hpa, hpb⟩
    have hsub : [a, b].Subperm (L.filter p) := by
      apply List.subperm_of_subset
      · simp [hne]
      · intro c hcm
        simp only [List.mem_cons, List.mem_singleton, List.not_mem_nil, or_false] at hcm
        rcases hcm with rfl | rfl
        · exact List.mem_filter.mpr ⟨ha, hpa⟩
        · exact List.mem_filter.mpr ⟨hb, hpb⟩
    simpa using hsub.length_le

theorem allRanks_nodup : allRanks.Nodup := by decide

theorem held_two_iff (t : List Card) (hc : ∀ c ∈ t, c.canonical) :
    2 ≤ allRanks.countP (fun r => decide (2 ≤ rankCount t r)) ↔ holdsTwoGroups 2 2 t := by
  rw [two_le_countP_iff _ allRanks_nodup]
  constructor
  · rintro ⟨a, b, -, -, hne, ha, hb⟩
    exact ⟨a, b, hne, of_decide_eq_true ha, of_decide_eq_true hb⟩
  · rintro ⟨a, b, hne, ha, hb⟩
    exact ⟨a, b, mem_allRanks a (rankCount_pos_canonical t hc a (by omega)),
      mem_allRanks b (rankCount_pos_canonical t hc b (by omega)), hne,
      decide_eq_true ha, decide_eq_true hb⟩

theorem standard_fullHouse_iff (t : List Card) (hc : ∀ c ∈ t, c.canonical) :
    (decide (1 ≤ allRanks.countP (fun r => decide (3 ≤ rankCount t r))) &&
      decide (2 ≤ allRanks.countP (fun r => decide (2 ≤ rankCount t r)))) = true ↔
      holdsTwoGroups 3 2 t := by
  rw [Bool.and_eq_true, decide_eq_true_eq, decide_eq_true_eq, held_one_iff t hc 3 (by omega),
    held_two_iff t hc]
  constructor
  · rintro ⟨⟨k, hk⟩, a, b, hne, ha, hb⟩
    by_cases hka : k = a
    · exact ⟨k, b, by rw [hka]; exact hne, hk, hb⟩
    · exact ⟨k, a, hka, hk, ha⟩
  · rintro ⟨a, b, hne, ha, hb⟩
    exact ⟨⟨a, ha⟩, a, b, hne, by omega, hb⟩

/-! The tests of `findBestHand`. -/

theorem find_rankKeys_isSome (s : List Card) (n : Nat) (hn : 1 ≤ n) :
    ((rankKeys s).find? (fun k => decide (n ≤ rankCount s k))).isSome = true ↔
      holdsOfAKind n s := by
  rw [List.find?_isSome]
  constructor
  · rintro ⟨k, -, hk⟩
    exact ⟨k, of_decide_eq_true hk⟩
  · rintro ⟨k, hk⟩
    refine ⟨k, ?_, decide_eq_true hk⟩
    rw [mem_rankKeys]
    have hpos : 0 < rankCount s k := by omega
    unfold rankCount at hpos
    obtain ⟨c, hc, e⟩ := List.countP_pos_iff.mp hpos
    exact ⟨c, hc, of_decide_eq_true e⟩

theorem checkFourOfAKind_isSome_iff (s : List Card) :
    (checkFourOfAKind s).isSome = true ↔ holdsOfAKind 4 s := by
  rw [checkFourOfAKind_eq, Option.isSome_map', find_rankKeys_isSome s 4 (by omega)]

theorem checkThreeOfAKind_isSome_iff (s : List Card) :
    (checkThreeOfAKind s).isSome = true ↔ holdsOfAKind 3 s := by
  rw [checkThreeOfAKind_eq, Option.isSome_map', find_rankKeys_isSome s 3 (by omega)]

theorem checkPair_isSome_iff (s : List Card) :
    (checkPair s).isSome = true ↔ holdsOfAKind 2 s := by
  rw [checkPair_eq, Option.isSome_map', find_rankKeys_isSome s 2 (by omega)]

theorem nodup_pairKeys (s : List Card) : (pairKeys s).Nodup := by
  unfold pairKeys rankKeys
  exact (nodup_entryOrder _ (nodup_jsSet _)).filter _

theorem two_le_length_pairKeys (s : List Card) (k1 k2 : Rank) (hne : k1 ≠ k2)
    (h1 : 2 ≤ rankCount s k1) (h2 : 2 ≤ rankCount s k2) : 2 ≤ (pairKeys s).length := by
  have hsub : [k1, k2].Subperm (pairKeys s) := by
    apply List.subperm_of_subset
    · simp [hne]
    · intro k hk
      simp only [List.mem_cons, List.mem_singleton, List.not_mem_nil, or_false] at hk
      rcases hk with rfl | rfl
      · exact (mem_pairKeys s _).mpr h1
      · exact (mem_pairKeys s _).mpr h2
  simpa using hsub.length_le

theorem checkTwoPair_isSome_iff (s : List Card) :
    (checkTwoPair s).isSome = true ↔ holdsTwoGroups 2 2 s := by
  rw [checkTwoPair_eq]
  constructor
  · intro h
    match hm : pairKeys s, nodup_pairKeys s with
    | first :: second :: rest, hnd =>
      have hf : first ∈ pairKeys s := by rw [hm]; exact List.mem_cons_self _ _
      have hs : second ∈ pairKeys s := by
        rw [hm]; exact List.mem_cons_of_mem _ (List.mem_cons_self _ _)
      rw [List.nodup_cons] at hnd
      exact ⟨first, second, fun e => hnd.1 (e ▸ List.mem_cons_self _ _),
        (mem_pairKeys s _).mp hf, (mem_pairKeys s _).mp hs⟩
    | [], _ => rw [hm] at h; cases h
    | [_], _ => rw [hm] at h; cases h
  · rintro ⟨k1, k2, hne, h1, h2⟩
    have hlen := two_le_length_pairKeys s k1 k2 hne h1 h2
    match hm : pairKeys s, hlen with
    | first :: second :: rest, _ => rfl

theorem checkFullHouse_isSome_iff (s : List Card) :
    (checkFullHouse s).isSome = true ↔ holdsTwoGroups 3 2 s := by
  constructor
  · intro h
    obtain ⟨w, hw⟩ := Option.isSome_iff_exists.mp h
    exact checkFullHouse_some s w hw
  · rintro ⟨k1, k2, hne, h1, h2⟩
    rw [checkFullHouse_eq, if_pos (two_le_length_pairKeys s k1 k2 hne (by omega) h2)]
    have hk1 : k1 ∈ pairKeys s := (mem_pairKeys s _).mpr (by omega)
    have hk2 : k2 ∈ pairKeys s := (mem_pairKeys s _).mpr h2
    have hsome : ((pairKeys s).find? (fun k => decide (3 ≤ rankCount s k))).isSome = true := by
      rw [List.find?_isSome]
      exact ⟨k1, hk1, decide_eq_true h1⟩
    obtain ⟨three, hthree⟩ := Option.isSome_iff_exists.mp hsome
    rw [hthree]
    simp only
    have hother : ∃ k, k ∈ (pairKeys s).filter (fun k => decide (k ≠ three)) := by
      by_cases e : k1 = three
      · exact ⟨k2, List.mem_filter.mpr ⟨hk2, decide_eq_true (by rw [← e]; exact hne.symm)⟩⟩
      · exact ⟨k1, List.mem_filter.mpr ⟨hk1, decide_eq_true e⟩⟩
    obtain ⟨k, hk⟩ := hother
    match hm : (pairKeys s).filter (fun k => decide (k ≠ three)), hk with
    | pair :: rest, _ => rfl

theorem checkFlush_isSome_iff (s : List Card) :
    (checkFlush s).isSome = true ↔ holdsFlush s := by
  constructor
  · intro h
    obtain ⟨w, hw⟩ := Option.isSome_iff_exists.mp h
    obtain ⟨x, hx, -⟩ := checkFlush_some s w hw
    exact ⟨x, hx⟩
  · rintro ⟨x, hx⟩
    obtain ⟨w, hw, -⟩ := checkFlush_isSome s x hx
    rw [hw]
    rfl

theorem checkStraight_isSome_iff (s : List Card) (hc : ∀ c ∈ s, c.rank.canonical) :
    (checkStraight s).isSome = true ↔ holdsStraight s := by
  have hspec := checkStraight_spec s hc
  constructor
  · intro h
    obtain ⟨w, hw⟩ := Option.isSome_iff_exists.mp h
    obtain ⟨-, -, -, top, htop, -⟩ := hspec.1 w hw
    exact ⟨top, htop⟩
  · rintro ⟨top, htop⟩
    cases hs : checkStraight s with
    | some w => rfl
    | none => exact absurd htop (hspec.2 hs top)

theorem checkStraightFlush_isSome_iff (s : List Card) (hc : ∀ c ∈ s, c.rank.canonical)
    (hlen : s.length ≤ 9) (hsuit : ∀ x, suitCount s x ≤ 5) :
    (checkStraightFlush s).isSome = true ↔ holdsStraightFlush s := by
  constructor
  · intro h
    unfold checkStraightFlush at h
    cases hf : checkFlush s with
    | none => rw [hf] at h; cases h
    | some flush =>
      rw [hf] at h
      simp only at h
      obtain ⟨x, hx, hcards⟩ := checkFlush_some s flush hf
      cases hst : checkStraight flush.cards with
      | none => rw [hst] at h; cases h
      | some straight =>
        have hcf : ∀ c ∈ flush.cards, c.rank.canonical := by
          intro c hcm
          rw [hcards] at hcm
          exact hc c ((mem_suitGroup s x c).mp (List.mem_of_mem_take hcm)).1
        obtain ⟨-, -, -, top, htop, -⟩ := (checkStraight_spec flush.cards hcf).1 straight hst
        refine ⟨x, top, hasRun_mono (fun c hcm => ?_) top htop⟩
        rw [hcards] at hcm
        exact List.mem_of_mem_take hcm
  · rintro ⟨x, top, hrun⟩
    have h5 := five_le_suitCount_of_run s x top hrun
    have hx := hsuit x
    have htake : (suitGroup s x).take 5 = suitGroup s x := by
      apply List.take_of_length_le
      rw [length_suitGroup]
      exact hx
    unfold checkStraightFlush
    rw [checkFlush_of_suit s hlen x h5]
    simp only [htake]
    have hcg : ∀ c ∈ suitGroup s x, c.rank.canonical :=
      fun c hcm => hc c ((mem_suitGroup s x c).mp hcm).1
    cases hst : checkStraight (suitGroup s x) with
    | none => exact absurd hrun ((checkStraight_spec _ hcg).2 hst top)
    | some straight => rfl

theorem royal_iff (l : List Card) (hset : CardSet l) (hmin : 5 ≤ l.length)
    (hmax : l.length ≤ 7) :
    decide ((checkStraightFlush (sortCards l)).map Hand.strength = some Strength.royalFlush)
      = true ↔ holdsRoyal l := by
  have hlen : 5 ≤ (sortCards l).length := by rw [(sortCards_perm l).length_eq]; exact hmin
  rw [decide_eq_true_eq]
  constructor
  · intro h
    cases hsf : checkStraightFlush (sortCards l) with
    | none => rw [hsf] at h; cases h
    | some w =>
      rw [hsf] at h
      have hw : w.strength = .royalFlush := by simpa using h
      apply evaluate_royal_backward l hset hmin
      rw [findBestHand_of_straightFlush _ hlen w hsf]
      exact hw
  · rintro ⟨x, hA, hK, hQ, hJ, hT⟩
    have hbest := evaluate_royal_forward l hset hmin hmax x hA hK hQ hJ hT
    have hstr : (findBestHand (sortCards l)).strength = .royalFlush := by rw [hbest]
    cases hsf : checkStraightFlush (sortCards l) with
    | none => exact absurd hstr (findBestHand_strength_of_none _ hlen hsf).1
    | some w =>
      rw [findBestHand_of_straightFlush _ hlen w hsf] at hstr
      simp [hstr]

/-! The standard rules and `findBestHand` give the rank of the strongest test. -/

theorem strongest_of_tests (cards : List Card) (b10 b9 b8 b7 b6 b5 b4 b3 b2 : Bool)
    (h10 : b10 = true ↔ holdsRoyal cards) (h9 : b9 = true ↔ holdsStraightFlush cards)
    (h8 : b8 = true ↔ holdsOfAKind 4 cards) (h7 : b7 = true ↔ holdsTwoGroups 3 2 cards)
    (h6 : b6 = true ↔ holdsFlush cards) (h5 : b5 = true ↔ holdsStraight cards)
    (h4 : b4 = true ↔ holdsOfAKind 3 cards) (h3 : b3 = true ↔ holdsTwoGroups 2 2 cards)
    (h2 : b2 = true ↔ holdsOfAKind 2 cards) :
    Strongest ((handRankings (categoryOf b10 b9 b8 b7 b6 b5 b4 b3 b2)).getD 0) cards := by
  obtain ⟨a10, a9, a8, a7, a6, a5, a4, a3, a2, a1⟩ :=
    categoryOf_rank b10 b9 b8 b7 b6 b5 b4 b3 b2
  obtain ⟨c10, c9, c8, c7, c6, c5, c4, c3, c2, c1⟩ :=
    categoryOf_test b10 b9 b8 b7 b6 b5 b4 b3 b2
  exact ⟨a1, c1, fun h => a10 (h10.mpr h), fun h => a9 (h9.mpr h), fun h => a8 (h8.mpr h),
    fun h => a7 (h7.mpr h), fun h => a6 (h6.mpr h), fun h => a5 (h5.mpr h),
    fun h => a4 (h4.mpr h), fun h => a3 (h3.mpr h), fun h => a2 (h2.mpr h),
    fun e => h10.mp (c10 e), fun e => h9.mp (c9 e), fun e => h8.mp (c8 e),
    fun e => h7.mp (c7 e), fun e => h6.mp (c6 e), fun e => h5.mp (c5 e),
    fun e => h4.mp (c4 e), fun e => h3.mp (c3 e), fun e => h2.mp (c2 e)⟩

theorem standard_strongest (t : List Card) (hc : ∀ c ∈ t, c.canonical) (hlen : t.length = 5) :
    Strongest ((handRankings (standardCategory t)).getD 0) t := by
  rw [standardCategory_eq]
  exact strongest_of_tests t _ _ _ _ _ _ _ _ _ (standard_royal_iff t hc hlen)
    (standard_straightFlush_iff t hc hlen)
    (decide_eq_true_iff.trans (held_one_iff t hc 4 (by omega)))
    (standard_fullHouse_iff t hc) (anyFlush_iff t hc hlen) (anyRun_iff t)
    (decide_eq_true_iff.trans (held_one_iff t hc 3 (by omega)))
    (decide_eq_true_iff.trans (held_two_iff t hc))
    (decide_eq_true_iff.trans (held_one_iff t hc 2 (by omega)))

theorem code_strongest (cards : List Card) (hset : CardSet cards) (hmin : 5 ≤ cards.length)
    (hmax : cards.length ≤ 7) (hsuit : ∀ x, suitCount cards x ≤ 5) :
    Strongest ((handRankings (findBestHand (sortCards cards)).strength).getD 0) cards := by
  have hp := sortCards_perm cards
  have hlen : (sortCards cards).length = cards.length := hp.length_eq
  have hcs : ∀ c ∈ sortCards cards, c.rank.canonical :=
    canonical_sortCards cards (fun c hc => (hset.2 c hc).1)
  have up := hp.symm.subperm
  have dn := hp.subperm
  rw [findBestHand_strength_eq _ (by omega)]
  exact strongest_of_tests cards _ _ _ _ _ _ _ _ _ (royal_iff cards hset hmin hmax)
    ((checkStraightFlush_isSome_iff _ hcs (by omega)
      (fun x => by rw [suitCount_perm hp x]; exact hsuit x)).trans
      ⟨holdsStraightFlush_mono dn, holdsStraightFlush_mono up⟩)
    ((checkFourOfAKind_isSome_iff _).trans ⟨holdsOfAKind_mono dn 4, holdsOfAKind_mono up 4⟩)
    ((checkFullHouse_isSome_iff _).trans
      ⟨holdsTwoGroups_mono dn 3 2, holdsTwoGroups_mono up 3 2⟩)
    ((checkFlush_isSome_iff _).trans ⟨holdsFlush_mono dn, holdsFlush_mono up⟩)
    ((checkStraight_isSome_iff _ hcs).trans ⟨holdsStraight_mono dn, holdsStraight_mono up⟩)
    ((checkThreeOfAKind_isSome_iff _).trans ⟨holdsOfAKind_mono dn 3, holdsOfAKind_mono up 3⟩)
    ((checkTwoPair_isSome_iff _).trans
      ⟨holdsTwoGroups_mono dn 2 2, holdsTwoGroups_mono up 2 2⟩)
    ((checkPair_isSome_iff _).trans ⟨holdsOfAKind_mono dn 2, holdsOfAKind_mono up 2⟩)

/-- No part of the cards passes a stronger test than the cards. -/
theorem strongest_mono (t l : List Card) (h : t.Subperm l) (m n : Nat) (ht : Strongest m t)
    (hl : Strongest n l) : m ≤ n := by
  have h1 := ht.one_le
  have h10 := ht.le_ten
  have hn := hl.one_le
  have cases : m = 1 ∨ m = 2 ∨ m = 3 ∨ m = 4 ∨ m = 5 ∨ m = 6 ∨ m = 7 ∨ m = 8 ∨ m = 9 ∨
      m = 10 := by omega
  rcases cases with e | e | e | e | e | e | e | e | e | e
  · omega
  · have := hl.of_pair (holdsOfAKind_mono h 2 (ht.pair e)); omega
  · have := hl.of_two (holdsTwoGroups_mono h 2 2 (ht.two e)); omega
  · have := hl.of_three (holdsOfAKind_mono h 3 (ht.three e)); omega
  · have := hl.of_straight (holdsStraight_mono h (ht.straight e)); omega
  · have := hl.of_flush (holdsFlush_mono h (ht.flush e)); omega
  · have := hl.of_full (holdsTwoGroups_mono h 3 2 (ht.full e)); omega
  · have := hl.of_four (holdsOfAKind_mono h 4 (ht.four e)); omega
  · have := hl.of_straightFlush (holdsStraightFlush_mono h (ht.straightFlush e)); omega
  · have := hl.of_royal (holdsRoyal_mono h (ht.royal e)); omega

/-- Five of the cards pass the strongest test that the cards pass. -/
theorem strongest_shown (l : List Card) (hset : CardSet l) (hlen : 5 ≤ l.length) (n : Nat)
    (hl : Strongest n l) :
    ∃ u : List Card, u.Sublist l ∧ u.length = 5 ∧ ∀ m, Strongest m u → n ≤ m := by
  have hcr : ∀ c ∈ l, c.rank.canonical := fun c hc => (hset.2 c hc).1
  have h1 := hl.one_le
  have h10 := hl.le_ten
  have cases : n = 1 ∨ n = 2 ∨ n = 3 ∨ n = 4 ∨ n = 5 ∨ n = 6 ∨ n = 7 ∨ n = 8 ∨ n = 9 ∨
      n = 10 := by omega
  rcases cases with e | e | e | e | e | e | e | e | e | e
  · obtain ⟨u, hu, hu5, -⟩ := exists_five_of_shown l hlen [] List.nodup_nil
      (fun c hc => absurd hc (List.not_mem_nil c)) (by simp)
    exact ⟨u, hu, hu5, fun m hm => by have := hm.one_le; omega⟩
  · obtain ⟨t, a, b, c, d⟩ := holdsOfAKind_shown l hset.1 2 (by omega) (hl.pair e)
    obtain ⟨u, hu, hu5, hsub⟩ := exists_five_of_shown l hlen t a b c
    exact ⟨u, hu, hu5, fun m hm => by
      have := hm.of_pair (holdsOfAKind_mono hsub 2 d); omega⟩
  · obtain ⟨t, a, b, c, d⟩ := holdsTwoGroups_shown l hset.1 2 2 (by omega) (hl.two e)
    obtain ⟨u, hu, hu5, hsub⟩ := exists_five_of_shown l hlen t a b c
    exact ⟨u, hu, hu5, fun m hm => by
      have := hm.of_two (holdsTwoGroups_mono hsub 2 2 d); omega⟩
  · obtain ⟨t, a, b, c, d⟩ := holdsOfAKind_shown l hset.1 3 (by omega) (hl.three e)
    obtain ⟨u, hu, hu5, hsub⟩ := exists_five_of_shown l hlen t a b c
    exact ⟨u, hu, hu5, fun m hm => by
      have := hm.of_three (holdsOfAKind_mono hsub 3 d); omega⟩
  · obtain ⟨t, a, b, c, d⟩ := holdsStraight_shown l hcr (hl.straight e)
    obtain ⟨u, hu, hu5, hsub⟩ := exists_five_of_shown l hlen t a b c
    exact ⟨u, hu, hu5, fun m hm => by
      have := hm.of_straight (holdsStraight_mono hsub d); omega⟩
  · obtain ⟨t, a, b, c, d⟩ := holdsFlush_shown l hset.1 (hl.flush e)
    obtain ⟨u, hu, hu5, hsub⟩ := exists_five_of_shown l hlen t a b c
    exact ⟨u, hu, hu5, fun m hm => by
      have := hm.of_flush (holdsFlush_mono hsub d); omega⟩
  · obtain ⟨t, a, b, c, d⟩ := holdsTwoGroups_shown l hset.1 3 2 (by omega) (hl.full e)
    obtain ⟨u, hu, hu5, hsub⟩ := exists_five_of_shown l hlen t a b c
    exact ⟨u, hu, hu5, fun m hm => by
      have := hm.of_full (holdsTwoGroups_mono hsub 3 2 d); omega⟩
  · obtain ⟨t, a, b, c, d⟩ := holdsOfAKind_shown l hset.1 4 (by omega) (hl.four e)
    obtain ⟨u, hu, hu5, hsub⟩ := exists_five_of_shown l hlen t a b c
    exact ⟨u, hu, hu5, fun m hm => by
      have := hm.of_four (holdsOfAKind_mono hsub 4 d); omega⟩
  · obtain ⟨t, a, b, c, d⟩ := holdsStraightFlush_shown l hcr (hl.straightFlush e)
    obtain ⟨u, hu, hu5, hsub⟩ := exists_five_of_shown l hlen t a b c
    exact ⟨u, hu, hu5, fun m hm => by
      have := hm.of_straightFlush (holdsStraightFlush_mono hsub d); omega⟩
  · obtain ⟨t, a, b, c, d⟩ := holdsRoyal_shown l (hl.royal e)
    obtain ⟨u, hu, hu5, hsub⟩ := exists_five_of_shown l hlen t a b c
    exact ⟨u, hu, hu5, fun m hm => by
      have := hm.of_royal (holdsRoyal_mono hsub d); omega⟩

/-- The strongest category of a five-card subset has the rank of the strongest
test that the cards pass. -/
theorem bestCategory_strongest (l : List Card) (hset : CardSet l) (hlen : 5 ≤ l.length)
    (n : Nat) (hl : Strongest n l) : (handRankings (bestCategory l)).getD 0 = n := by
  have hfold := rank_foldl_stronger ((l.sublistsLen 5).map standardCategory) .highCard
  apply le_antisymm
  · rcases foldl_stronger_mem ((l.sublistsLen 5).map standardCategory) .highCard with h | h
    · unfold bestCategory
      rw [h]
      exact hl.one_le
    · unfold bestCategory
      rw [List.mem_map] at h
      obtain ⟨t, ht, e⟩ := h
      rw [← e]
      rw [List.mem_sublistsLen] at ht
      exact strongest_mono t l ht.1.subperm _ n
        (standard_strongest t (fun c hc => hset.2 c (ht.1.subset hc)) ht.2) hl
  · obtain ⟨u, hu, hu5, hmin⟩ := strongest_shown l hset hlen n hl
    have hstd := standard_strongest u (fun c hc => hset.2 c (hu.subset hc)) hu5
    have hmem : standardCategory u ∈ (l.sublistsLen 5).map standardCategory :=
      List.mem_map.mpr ⟨u, List.mem_sublistsLen.mpr ⟨hu, hu5⟩, rfl⟩
    exact le_trans (hmin _ hstd) (hfold.2 _ hmem)

/-- C30. For every list of 5 to 7 unique cards of the card model in which no
suit occurs more than five times, the category that `evaluateCompleteHand`
returns is the strongest standard poker category that a five-card subset of
the input attains. -/
theorem evaluateCompleteHand_bestCategory (cards : List Card) (playerCount : Nat)
    (hset : CardSet cards) (hmin : 5 ≤ cards.length) (hmax : cards.length ≤ 7)
    (hsuit : ∀ s, suitCount cards s ≤ 5) :
    (evaluateCompleteHand cards playerCount).strength = bestCategory cards := by
  have hcode := code_strongest cards hset hmin hmax hsuit
  have hbest := bestCategory_strongest cards hset hmin _ hcode
  exact eq_of_rank_eq _ _ hbest.symm hcode.one_le

theorem evaluateCompleteHand_bestCategory_witness :
    CardSet [⟨.rK, .spade⟩, ⟨.rK, .heart⟩, ⟨.r9, .spade⟩, ⟨.r9, .club⟩, ⟨.r9, .diamond⟩,
      ⟨.r4, .club⟩, ⟨.r2, .diamond⟩] ∧
    5 ≤ ([⟨.rK, .spade⟩, ⟨.rK, .heart⟩, ⟨.r9, .spade⟩, ⟨.r9, .club⟩, ⟨.r9, .diamond⟩,
      ⟨.r4, .club⟩, ⟨.r2, .diamond⟩] : List Card).length ∧
    ([⟨.rK, .spade⟩, ⟨.rK, .heart⟩, ⟨.r9, .spade⟩, ⟨.r9, .club⟩, ⟨.r9, .diamond⟩,
      ⟨.r4, .club⟩, ⟨.r2, .diamond⟩] : List Card).length ≤ 7 ∧
    (∀ s, suitCount [⟨.rK, .spade⟩, ⟨.rK, .heart⟩, ⟨.r9, .spade⟩, ⟨.r9, .club⟩,
      ⟨.r9, .diamond⟩, ⟨.r4, .club⟩, ⟨.r2, .diamond⟩] s ≤ 5) ∧
    (evaluateCompleteHand [⟨.rK, .spade⟩, ⟨.rK, .heart⟩, ⟨.r9, .spade⟩, ⟨.r9, .club⟩,
      ⟨.r9, .diamond⟩, ⟨.r4, .club⟩, ⟨.r2, .diamond⟩] 6).strength =
      bestCategory [⟨.rK, .spade⟩, ⟨.rK, .heart⟩, ⟨.r9, .spade⟩, ⟨.r9, .club⟩,
        ⟨.r9, .diamond⟩, ⟨.r4, .club⟩, ⟨.r2, .diamond⟩] ∧
    bestCategory [⟨.rK, .spade⟩, ⟨.rK, .heart⟩, ⟨.r9, .spade⟩, ⟨.r9, .club⟩,
        ⟨.r9, .diamond⟩, ⟨.r4, .club⟩, ⟨.r2, .diamond⟩] = .fullHouse :=
  ⟨by decide, by decide, by decide, by intro s; cases s <;> decide,
    evaluateCompleteHand_bestCategory [⟨.rK, .spade⟩, ⟨.rK, .heart⟩, ⟨.r9, .spade⟩,
      ⟨.r9, .club⟩, ⟨.r9, .diamond⟩, ⟨.r4, .club⟩, ⟨.r2, .diamond⟩] 6 (by decide) (by decide)
      (by decide) (by intro s; cases s <;> decide),
    by decide⟩

/-! ### Further facts on the odds -/

theorem calculateDrawingOdds_one (outs : Nat) :
    calculateDrawingOdds outs 1 = ((min outs 45 : Nat) : ℚ) / 45 := by
  unfold calculateDrawingOdds
  by_cases h : outs = 0
  · subst h
    norm_num
  · simp only [if_neg h]
    norm_num

theorem calculateDrawingOdds_two (outs : Nat) :
    calculateDrawingOdds outs 2 =
      1 - ((45 - ((min outs 45 : Nat) : ℚ)) / 45) *
        ((45 - ((min outs 45 : Nat) : ℚ) - 1) / 44) := by
  unfold calculateDrawingOdds
  by_cases h : outs = 0
  · subst h
    norm_num
  · simp only [if_neg h]
    norm_num

/-- C37. For every number of outs,
0 ≤ calculateDrawingOdds(outs, 1) ≤ calculateDrawingOdds(outs, 2) ≤ 1: both
results are probabilities and two cards to come never give a lower chance than
one. -/
theorem calculateDrawingOdds_bounds (outs : Nat) :
    0 ≤ calculateDrawingOdds outs 1 ∧
    calculateDrawingOdds outs 1 ≤ calculateDrawingOdds outs 2 ∧
    calculateDrawingOdds outs 2 ≤ 1 := by
  rw [calculateDrawingOdds_one, calculateDrawingOdds_two]
  have hc : min outs 45 ≤ 45 := min_le_right _ _
  generalize min outs 45 = c at hc
  have h0 : (0 : ℚ) ≤ (c : ℚ) := Nat.cast_nonneg c
  have h45 : (c : ℚ) ≤ 45 := by exact_mod_cast hc
  refine ⟨by positivity, ?_, ?_⟩
  · have : 0 ≤ (45 - (c : ℚ)) * (c : ℚ) := mul_nonneg (by linarith) h0
    linarith
  · rcases Nat.lt_or_ge c 45 with hlt | hge
    · have h44 : (c : ℚ) ≤ 44 := by exact_mod_cast Nat.lt_succ_iff.mp hlt
      have : 0 ≤ (45 - (c : ℚ)) * (45 - (c : ℚ) - 1) :=
        mul_nonneg (by linarith) (by linarith)
      linarith
    · have e : c = 45 := le_antisymm hc hge
      subst e
      norm_num

/-! ### The order of the hole cards -/

theorem differByOne_comm (a b : Option Nat) : differByOne a b = differByOne b a := by
  cases a <;> cases b <;> simp only [differByOne]
  congr 1
  apply propext
  constructor <;> intro h <;> omega

/-- C39. For every two hole cards, every player count and position, swapping
the two hole cards changes nothing: `evaluatePreflop` returns the same object
(strength, rank, preflopRank, description, chart suggestion and every other
field) and `calculatePreflopProbability` the same value. -/
theorem evaluatePreflop_swap (card1 card2 : Card) (playerCount : Nat) (position : String) :
    evaluatePreflop [card1, card2] playerCount position =
      evaluatePreflop [card2, card1] playerCount position ∧
    calculatePreflopProbability [card1, card2] playerCount =
      calculatePreflopProbability [card2, card1] playerCount ∧
    getPreflopChartSuggestion [card1, card2] = getPreflopChartSuggestion [card2, card1] := by
  refine ⟨?_, ?_, getPreflopChartSuggestion_swap card1 card2⟩
  · unfold evaluatePreflop
    simp only [jsMax_comm (cardValues card1.rank), jsMin_comm (cardValues card1.rank),
      eq_comm (a := cardValues card1.rank), eq_comm (a := card1.suit),
      differByOne_comm (cardValues card1.rank),
      Bool.and_comm (atLeastTen (cardValues card1.rank)),
      getPreflopChartSuggestion_swap card1 card2]
  · unfold calculatePreflopProbability
    simp only [jsMax_comm (cardValues card1.rank), jsMin_comm (cardValues card1.rank),
      eq_comm (a := card1.suit)]

/-! ### The analysis record -/

/-- C40. For every game state, whatever its phase, `analyzeHandAndSuggestMove`
on an initialised evaluator builds an analysis record whose field `outs` is
`countOuts(holeCards, communityCards)` and whose field `drawingOdds` is
`calculateDrawingOdds(outs, 2)`, the probability with two cards to come; with
fewer than 3 community cards, so on a preflop state, it is 0. -/
theorem analyzeHandAndSuggestMove_drawingOdds (gameState : GameState)
    (shuffled : Nat → List Card → List Card) :
    ∃ analysis, analyzeHandAndSuggestMove true (some gameState) shuffled = some analysis ∧
      analysis.outs = countOuts gameState.holeCards gameState.communityCards ∧
      analysis.drawingOdds =
        calculateDrawingOdds (countOuts gameState.holeCards gameState.communityCards) 2 ∧
      (3 ≤ gameState.communityCards.length ∨ analysis.drawingOdds = 0) := by
  refine ⟨_, rfl, rfl, rfl, ?_⟩
  by_cases h : 3 ≤ gameState.communityCards.length
  · exact Or.inl h
  · right
    show calculateDrawingOdds (countOuts gameState.holeCards gameState.communityCards) 2 = 0
    have : countOuts gameState.holeCards gameState.communityCards = 0 := by
      unfold countOuts
      rw [if_pos (by omega)]
    rw [this]
    rfl

/-! ### Facts at single inputs -/

/-- C31 fails on the code. K♠ K♥ 9♠ 9♥ 5♦ 5♣ 2♠ hold three pairs;
`evaluateCompleteHand` answers two-pair with the cards 5♦ 5♣ 9♠ 9♥, the two
lowest pairs, and the kicker K♠, where the two highest pairs are the Kings and
the Nines and the highest card outside them is a Five. -/
theorem checkTwoPair_takes_lowest_digit_pairs :
    CardSet [⟨.rK, .spade⟩, ⟨.rK, .heart⟩, ⟨.r9, .spade⟩, ⟨.r9, .heart⟩, ⟨.r5, .diamond⟩,
      ⟨.r5, .club⟩, ⟨.r2, .spade⟩] ∧
    (evaluateCompleteHand [⟨.rK, .spade⟩, ⟨.rK, .heart⟩, ⟨.r9, .spade⟩, ⟨.r9, .heart⟩,
      ⟨.r5, .diamond⟩, ⟨.r5, .club⟩, ⟨.r2, .spade⟩] 6).strength = .twoPair ∧
    (evaluateCompleteHand [⟨.rK, .spade⟩, ⟨.rK, .heart⟩, ⟨.r9, .spade⟩, ⟨.r9, .heart⟩,
      ⟨.r5, .diamond⟩, ⟨.r5, .club⟩, ⟨.r2, .spade⟩] 6).cards =
        [⟨.r5, .diamond⟩, ⟨.r5, .club⟩, ⟨.r9, .spade⟩, ⟨.r9, .heart⟩] ∧
    (evaluateCompleteHand [⟨.rK, .spade⟩, ⟨.rK, .heart⟩, ⟨.r9, .spade⟩, ⟨.r9, .heart⟩,
      ⟨.r5, .diamond⟩, ⟨.r5, .club⟩, ⟨.r2, .spade⟩] 6).kickers = [⟨.rK, .spade⟩] ∧
    (evaluateCompleteHand [⟨.rK, .spade⟩, ⟨.rK, .heart⟩, ⟨.r9, .spade⟩, ⟨.r9, .heart⟩,
      ⟨.r5, .diamond⟩, ⟨.r5, .club⟩, ⟨.r2, .spade⟩] 6).description
        = "Two Pair, 5s and 9s" ∧
    (evaluateCompleteHand [⟨.rA, .spade⟩, ⟨.rA, .heart⟩, ⟨.rK, .spade⟩, ⟨.rK, .heart⟩,
      ⟨.rQ, .diamond⟩, ⟨.rQ, .club⟩, ⟨.r2, .spade⟩] 6).cards =
        [⟨.rA, .spade⟩, ⟨.rA, .heart⟩, ⟨.rK, .spade⟩, ⟨.rK, .heart⟩] := by
  decide

/-- C35 fails on the code. On the seven unique cards 5♠ 6♠ 7♠ 8♠ 9♠ K♠ 2♦ in
this order `findBestHand`, applied to the unsorted list as the simulation
applies it, answers straight-flush, and `evaluateCompleteHand`, which sorts
first, answers flush. -/
theorem findBestHand_unsorted_differs :
    CardSet [⟨.r5, .spade⟩, ⟨.r6, .spade⟩, ⟨.r7, .spade⟩, ⟨.r8, .spade⟩, ⟨.r9, .spade⟩,
      ⟨.rK, .spade⟩, ⟨.r2, .diamond⟩] ∧
    (findBestHand [⟨.r5, .spade⟩, ⟨.r6, .spade⟩, ⟨.r7, .spade⟩, ⟨.r8, .spade⟩, ⟨.r9, .spade⟩,
      ⟨.rK, .spade⟩, ⟨.r2, .diamond⟩]).strength = .straightFlush ∧
    (evaluateCompleteHand [⟨.r5, .spade⟩, ⟨.r6, .spade⟩, ⟨.r7, .spade⟩, ⟨.r8, .spade⟩,
      ⟨.r9, .spade⟩, ⟨.rK, .spade⟩, ⟨.r2, .diamond⟩] 6).strength = .flush := by
  decide

/-! ### The credits of the simulation -/

theorem rank_eq_iff (a b : Strength) :
    (handRankings a).getD 0 = (handRankings b).getD 0 ↔ a = b := by
  cases a <;> cases b <;> decide

theorem simulateOnce_eq (holeCards communityCards opponentCards : List Card) (wins : ℚ) :
    simulateOnce holeCards communityCards opponentCards wins =
      wins +
        (if (handRankings (findBestHand (opponentCards ++ communityCards)).strength).getD 0 <
            (handRankings (findBestHand (holeCards ++ communityCards)).strength).getD 0
          then 1 else 0) +
        (if (findBestHand (opponentCards ++ communityCards)).strength =
            (findBestHand (holeCards ++ communityCards)).strength then 1 else 0) / 2 := by
  unfold simulateOnce
  simp only
  by_cases hw : (handRankings (findBestHand (opponentCards ++ communityCards)).strength).getD 0 <
      (handRankings (findBestHand (holeCards ++ communityCards)).strength).getD 0
  · have hne : ¬ (findBestHand (opponentCards ++ communityCards)).strength =
        (findBestHand (holeCards ++ communityCards)).strength := by
      intro e
      rw [e] at hw
      exact lt_irrefl _ hw
    rw [if_pos hw, if_pos hw, if_neg hne]
    norm_num
  · rw [if_neg hw, if_neg hw]
    by_cases he : (findBestHand (opponentCards ++ communityCards)).strength =
        (findBestHand (holeCards ++ communityCards)).strength
    · rw [if_pos he, if_pos (by rw [he])]
      norm_num
    · rw [if_neg he, if_neg (fun e => he ((rank_eq_iff _ _).mp e.symm))]
      norm_num

theorem foldl_credits (win tie : Nat → Bool) (step : ℚ → Nat → ℚ)
    (hstep : ∀ w i, step w i = w + (if win i = true then 1 else 0) +
      (if tie i = true then 1 else 0) / 2) :
    ∀ (trials : List Nat) (w0 : ℚ),
      trials.foldl step w0 = w0 + (trials.countP win : ℚ) + (trials.countP tie : ℚ) / 2
  | [], w0 => by simp
  | i :: trials, w0 => by
    rw [List.foldl_cons, foldl_credits win tie step hstep trials, hstep,
      List.countP_cons, List.countP_cons]
    push_cast
    ring

/-- C34. For every two hole cards, every community list on which the river cap
does not apply, two players and every sequence of 1000 sampled opponent pairs
(the first two cards of the shuffled deck of each trial),
`calculatePostFlopProbability` returns (W + T/2)/1000, where W is the number of
trials in which hero's category rank is strictly higher than the opponent's and
T the number of trials in which the two categories are equal; nothing but the
two categories enters the result. -/
theorem calculatePostFlopProbability_credits (card1 card2 : Card) (communityCards : List Card)
    (shuffled : Nat → List Card → List Card)
    (hcap : ¬ (getGamePhase communityCards = .river ∧
      (findBestHand ([card1, card2] ++ communityCards)).strength = .highCard)) :
    calculatePostFlopProbability [card1, card2] communityCards 2 shuffled =
      (((List.range 1000).countP (fun i => decide
          ((handRankings (findBestHand
              ((shuffled i (calculateRemainingDeck [card1, card2] communityCards)).take 2 ++
                communityCards)).strength).getD 0 <
            (handRankings (findBestHand ([card1, card2] ++ communityCards)).strength).getD 0))
          : ℚ) +
        ((List.range 1000).countP (fun i => decide
          ((findBestHand
              ((shuffled i (calculateRemainingDeck [card1, card2] communityCards)).take 2 ++
                communityCards)).strength =
            (findBestHand ([card1, card2] ++ communityCards)).strength)) : ℚ) / 2)
        / 1000 := by
  rw [calculatePostFlopProbability_eq, if_neg hcap, adjustForPlayers_two]
  unfold simulatedWinPercentage
  rw [foldl_credits
    (fun i => decide
      ((handRankings (findBestHand
          ((shuffled i (calculateRemainingDeck [card1, card2] communityCards)).take 2 ++
            communityCards)).strength).getD 0 <
        (handRankings (findBestHand ([card1, card2] ++ communityCards)).strength).getD 0))
    (fun i => decide
      ((findBestHand
          ((shuffled i (calculateRemainingDeck [card1, card2] communityCards)).take 2 ++
            communityCards)).strength =
        (findBestHand ([card1, card2] ++ communityCards)).strength))
    _ (fun w i => by
      rw [simulateOnce_eq]
      simp only [decide_eq_true_eq]) (List.range 1000) 0]
  push_cast
  ring

theorem calculatePostFlopProbability_credits_witness :
    ¬ (getGamePhase [⟨.r9, .diamond⟩, ⟨.r7, .club⟩, ⟨.r5, .spade⟩] = .river ∧
      (findBestHand ([⟨.rA, .spade⟩, ⟨.rK, .heart⟩] ++
        [⟨.r9, .diamond⟩, ⟨.r7, .club⟩, ⟨.r5, .spade⟩])).strength = .highCard) ∧
    calculatePostFlopProbability [⟨.rA, .spade⟩, ⟨.rK, .heart⟩]
        [⟨.r9, .diamond⟩, ⟨.r7, .club⟩, ⟨.r5, .spade⟩] 2 (fun _ deck => deck) =
      (((List.range 1000).countP (fun i => decide
          ((handRankings (findBestHand
              (((fun _ deck => deck : Nat → List Card → List Card) i
                  (calculateRemainingDeck [⟨.rA, .spade⟩, ⟨.rK, .heart⟩]
                    [⟨.r9, .diamond⟩, ⟨.r7, .club⟩, ⟨.r5, .spade⟩])).take 2 ++
                [⟨.r9, .diamond⟩, ⟨.r7, .club⟩, ⟨.r5, .spade⟩])).strength).getD 0 <
            (handRankings (findBestHand ([⟨.rA, .spade⟩, ⟨.rK, .heart⟩] ++
              [⟨.r9, .diamond⟩, ⟨.r7, .club⟩, ⟨.r5, .spade⟩])).strength).getD 0))
          : ℚ) +
        ((List.range 1000).countP (fun i => decide
          ((findBestHand
              (((fun _ deck => deck : Nat → List Card → List Card) i
                  (calculateRemainingDeck [⟨.rA, .spade⟩, ⟨.rK, .heart⟩]
                    [⟨.r9, .diamond⟩, ⟨.r7, .club⟩, ⟨.r5, .spade⟩])).take 2 ++
                [⟨.r9, .diamond⟩, ⟨.r7, .club⟩, ⟨.r5, .spade⟩])).strength =
            (findBestHand ([⟨.rA, .spade⟩, ⟨.rK, .heart⟩] ++
              [⟨.r9, .diamond⟩, ⟨.r7, .club⟩, ⟨.r5, .spade⟩])).strength)) : ℚ) / 2)
        / 1000 :=
  ⟨by decide,
    calculatePostFlopProbability_credits ⟨.rA, .spade⟩ ⟨.rK, .heart⟩
      [⟨.r9, .diamond⟩, ⟨.r7, .club⟩, ⟨.r5, .spade⟩] (fun _ deck => deck) (by decide)⟩

/-! ### The chart covers every starting hand -/

theorem getPreflopChartSuggestion_suits (ra rb : Rank) (s1 s2 : Suit) :
    getPreflopChartSuggestion [⟨ra, s1⟩, ⟨rb, s2⟩] =
      getPreflopChartSuggestion [⟨ra, .spade⟩, ⟨rb, if s1 = s2 then .spade else .heart⟩] := by
  unfold getPreflopChartSuggestion
  by_cases h : s1 = s2
  · simp [h]
  · simp [h]

set_option maxHeartbeats 2000000 in
theorem chart_covers_suited (ra rb : Rank) (h1 : ra.canonical) (h2 : rb.canonical) :
    (objectGet chart (getPreflopChartSuggestion [⟨ra, .spade⟩, ⟨rb, .spade⟩]).label).isSome
      = true ∧
    (getPreflopChartSuggestion [⟨ra, .spade⟩, ⟨rb, .spade⟩]).color ∈
      ["red", "yellow", "blue", "green"] ∧
    ((getPreflopChartSuggestion [⟨ra, .spade⟩, ⟨rb, .spade⟩]).action).isSome = true := by
  cases ra <;> first | exact absurd rfl h1.1 | exact absurd rfl h1.2 |
    (cases rb <;> first | exact absurd rfl h2.1 | exact absurd rfl h2.2 | decide)

set_option maxHeartbeats 2000000 in
theorem chart_covers_offsuit (ra rb : Rank) (h1 : ra.canonical) (h2 : rb.canonical) :
    (objectGet chart (getPreflopChartSuggestion [⟨ra, .spade⟩, ⟨rb, .heart⟩]).label).isSome
      = true ∧
    (getPreflopChartSuggestion [⟨ra, .spade⟩, ⟨rb, .heart⟩]).color ∈
      ["red", "yellow", "blue", "green"] ∧
    ((getPreflopChartSuggestion [⟨ra, .spade⟩, ⟨rb, .heart⟩]).action).isSome = true := by
  cases ra <;> first | exact absurd rfl h1.1 | exact absurd rfl h1.2 |
    (cases rb <;> first | exact absurd rfl h2.1 | exact absurd rfl h2.2 | decide)

/-- C38. For every two cards with ranks of the card model, the key that
`getPreflopChartSuggestion` computes (its label) is a key of the chart, so the
default 'green' is never taken for lack of an entry; the colour is one of red,
yellow, blue, green; and the action is the string that `colorToAction` holds
for that colour. -/
theorem getPreflopChartSuggestion_covered (card1 card2 : Card) (h1 : card1.rank.canonical)
    (h2 : card2.rank.canonical) :
    (objectGet chart (getPreflopChartSuggestion [card1, card2]).label).isSome = true ∧
    (getPreflopChartSuggestion [card1, card2]).color ∈ ["red", "yellow", "blue", "green"] ∧
    ((getPreflopChartSuggestion [card1, card2]).action).isSome = true ∧
    (getPreflopChartSuggestion [card1, card2]).action =
      objectGet colorToAction (getPreflopChartSuggestion [card1, card2]).color ∧
    some (getPreflopChartSuggestion [card1, card2]).color =
      objectGet chart (getPreflopChartSuggestion [card1, card2]).label := by
  have hact : (getPreflopChartSuggestion [card1, card2]).action =
      objectGet colorToAction (getPreflopChartSuggestion [card1, card2]).color := rfl
  have hcol : (getPreflopChartSuggestion [card1, card2]).color =
      (objectGet chart (getPreflopChartSuggestion [card1, card2]).label).getD "green" := rfl
  have key : (objectGet chart (getPreflopChartSuggestion [card1, card2]).label).isSome = true ∧
      (getPreflopChartSuggestion [card1, card2]).color ∈ ["red", "yellow", "blue", "green"] ∧
      ((getPreflopChartSuggestion [card1, card2]).action).isSome = true := by
    rcases card1 with ⟨ra, s1⟩
    rcases card2 with ⟨rb, s2⟩
    rw [getPreflopChartSuggestion_suits]
    by_cases h : s1 = s2
    · rw [if_pos h]
      exact chart_covers_suited ra rb h1 h2
    · rw [if_neg h]
      exact chart_covers_offsuit ra rb h1 h2
  refine ⟨key.1, key.2.1, key.2.2, hact, ?_⟩
  rw [hcol]
  obtain ⟨c, hc⟩ := Option.isSome_iff_exists.mp key.1
  rw [hc]
  rfl

theorem getPreflopChartSuggestion_covered_witness :
    (⟨.rA, .spade⟩ : Card).rank.canonical ∧ (⟨.rK, .heart⟩ : Card).rank.canonical ∧
    (objectGet chart (getPreflopChartSuggestion [⟨.rA, .spade⟩, ⟨.rK, .heart⟩]).label).isSome
      = true ∧
    (getPreflopChartSuggestion [⟨.rA, .spade⟩, ⟨.rK, .heart⟩]).color = "red" :=
  ⟨by decide, by decide,
    (getPreflopChartSuggestion_covered ⟨.rA, .spade⟩ ⟨.rK, .heart⟩ (by decide) (by decide)).1,
    by decide⟩

/-! ### The number of outs is at most 44 -/

theorem cardValueKeys_nodup : cardValueKeys.Nodup := by decide

theorem mem_cardValueKeys (r : Rank) (h : r.canonical) : r ∈ cardValueKeys :=
  mem_allRanks r h

/-- Every rank that the known cards hold is no overcard: the overcard outs and
three times the number of ranks held are at most 3 · 13. -/
theorem overcardOuts_add_le (cards : List Card) (D : List Rank) (hD : D.Nodup)
    (hDc : ∀ r ∈ D, r.canonical) (hDp : ∀ r ∈ D, ∃ c ∈ cards, c.rank = r) :
    overcardOuts cards + 3 * D.length ≤ 39 := by
  have hlen : ∀ (O : List Rank), O.Nodup → (∀ r ∈ O, r ∈ cardValueKeys) →
      (∀ r ∈ O, r ∉ D) → O.length + D.length ≤ 13 := by
    intro O hO hOk hOD
    have hnd : (O ++ D).Nodup := List.nodup_append.mpr ⟨hO, hD, fun r h1 h2 => hOD r h1 h2⟩
    have hsub : (O ++ D).Subperm cardValueKeys := by
      apply List.subperm_of_subset hnd
      intro r hr
      rcases List.mem_append.mp hr with h | h
      · exact hOk r h
      · exact mem_cardValueKeys r (hDc r h)
    have := hsub.length_le
    rw [List.length_append] at this
    exact this
  unfold overcardOuts
  simp only
  split
  · have := hlen (cardValueKeys.filter (fun rank =>
        jsGreater (cardValues rank)
          (jsMaxList (((objectEntries (groupByValue cards)).filter
            (fun e => decide (2 ≤ e.2.length))).map (fun e => parseInt e.1))) &&
        !cards.any (fun card => decide (card.rank = rank))))
      (cardValueKeys_nodup.filter _) (fun r hr => (List.mem_filter.mp hr).1)
      (fun r hr hrD => by
        obtain ⟨c, hc, e⟩ := hDp r hrD
        have h2 := (List.mem_filter.mp hr).2
        rw [Bool.and_eq_true] at h2
        have h3 := h2.2
        rw [Bool.not_eq_true', List.any_eq_false] at h3
        exact h3 c hc (decide_eq_true e))
    omega
  · have := hlen [] List.nodup_nil (fun r hr => absurd hr (List.not_mem_nil r))
      (fun r hr => absurd hr (List.not_mem_nil r))
    simp only [List.length_nil] at this
    omega

theorem ranks_of_flushDraw (cards : List Card) (hnd : cards.Nodup) (s : Suit)
    (h4 : suitCount cards s = 4) :
    ∃ D : List Rank, D.Nodup ∧ D.length = 4 ∧ ∀ r ∈ D, ∃ c ∈ cards, c.rank = r := by
  refine ⟨(suitGroup cards s).map Card.rank, ?_, ?_, ?_⟩
  · apply List.Nodup.map_on _ (hnd.sublist (List.filter_sublist _))
    intro a ha b hb e
    have e1 : a.suit = s := ((mem_suitGroup cards s a).mp ha).2
    have e2 : b.suit = s := ((mem_suitGroup cards s b).mp hb).2
    rcases a with ⟨ra, sa⟩
    rcases b with ⟨rb, sb⟩
    simp only at e e1 e2
    rw [e, e1, e2]
  · rw [List.length_map, length_suitGroup, h4]
  · intro r hr
    rw [List.mem_map] at hr
    obtain ⟨c, hc, e⟩ := hr
    exact ⟨c, ((mem_suitGroup cards s c).mp hc).1, e⟩

theorem ranks_of_openEnded (cards : List Card) (hc : ∀ c ∈ cards, c.rank.canonical)
    (h : openEndedDraw (jsSet (sortAscending (cards.map (fun card => cardValues card.rank))))
      = true) :
    ∃ D : List Rank, D.Nodup ∧ D.length = 4 ∧ ∀ r ∈ D, ∃ c ∈ cards, c.rank = r := by
  rw [uniqueValuesAscending_eq cards hc,
    openEndedDraw_spec _ (sorted_uniqueValuesAscending cards)] at h
  simp only [mem_uniqueValuesAscending] at h
  obtain ⟨v, ⟨c0, m0, e0⟩, ⟨c1, m1, e1⟩, ⟨c2, m2, e2⟩, ⟨c3, m3, e3⟩⟩ := h
  have ne : ∀ (a b : Card) (x y : Nat), a.rank.value = x → b.rank.value = y → x ≠ y →
      a.rank ≠ b.rank := by
    intro a b x y ha hb hxy e
    rw [e] at ha
    exact hxy (ha.symm.trans hb)
  refine ⟨[c0.rank, c1.rank, c2.rank, c3.rank], ?_, rfl, ?_⟩
  · simp only [List.nodup_cons, List.mem_cons, List.mem_singleton, List.not_mem_nil,
      not_or, not_false_eq_true, List.nodup_nil, and_true, or_false]
    exact ⟨⟨ne c0 c1 _ _ e0 e1 (by omega), ne c0 c2 _ _ e0 e2 (by omega),
      ne c0 c3 _ _ e0 e3 (by omega)⟩, ⟨ne c1 c2 _ _ e1 e2 (by omega),
      ne c1 c3 _ _ e1 e3 (by omega)⟩, ne c2 c3 _ _ e2 e3 (by omega)⟩
  · intro r hr
    simp only [List.mem_cons, List.mem_singleton, List.not_mem_nil, or_false] at hr
    rcases hr with rfl | rfl | rfl | rfl
    · exact ⟨c0, m0, rfl⟩
    · exact ⟨c1, m1, rfl⟩
    · exact ⟨c2, m2, rfl⟩
    · exact ⟨c3, m3, rfl⟩

theorem countOuts_le (holeCards communityCards : List Card)
    (hnd : (holeCards ++ communityCards).Nodup)
    (hc : ∀ c ∈ holeCards ++ communityCards, c.rank.canonical) :
    countOuts holeCards communityCards ≤ 44 := by
  unfold countOuts
  split
  · omega
  · rename_i hlen
    simp only
    have hF9 : flushDrawOuts (holeCards ++ communityCards) ≤ 9 := by
      unfold flushDrawOuts
      split <;> omega
    have four : ∀ D : List Rank, D.Nodup → D.length = 4 →
        (∀ r ∈ D, ∃ c ∈ holeCards ++ communityCards, c.rank = r) →
        overcardOuts (holeCards ++ communityCards) ≤ 27 := by
      intro D h1 h2 h3
      have := overcardOuts_add_le _ D h1
        (fun r hr => by obtain ⟨c, hcm, e⟩ := h3 r hr; rw [← e]; exact hc c hcm) h3
      omega
    have hFV : flushDrawOuts (holeCards ++ communityCards) ≠ 0 →
        overcardOuts (holeCards ++ communityCards) ≤ 27 := by
      intro hne
      haveI : Decidable (∃ s, suitCount (holeCards ++ communityCards) s = 4) :=
        Classical.propDecidable _
      rw [flushDrawOuts_eq] at hne
      by_cases hs : ∃ s, suitCount (holeCards ++ communityCards) s = 4
      · obtain ⟨s, h4⟩ := hs
        obtain ⟨D, h1, h2, h3⟩ := ranks_of_flushDraw _ hnd s h4
        exact four D h1 h2 h3
      · rw [if_neg hs] at hne
        exact absurd rfl hne
    have hOV : openEndedDraw (jsSet (sortAscending
        ((holeCards ++ communityCards).map (fun card => cardValues card.rank)))) = true →
        overcardOuts (holeCards ++ communityCards) ≤ 27 := by
      intro ho
      obtain ⟨D, h1, h2, h3⟩ := ranks_of_openEnded _ hc ho
      exact four D h1 h2 h3
    have hV : overcardOuts (holeCards ++ communityCards) ≤ 36 := by
      match hm : holeCards ++ communityCards with
      | [] =>
        have : (holeCards ++ communityCards).length = 0 := by rw [hm]; rfl
        rw [List.length_append] at this
        omega
      | c :: rest =>
        have hmem : c ∈ holeCards ++ communityCards := by rw [hm]; exact List.mem_cons_self _ _
        have := overcardOuts_add_le (holeCards ++ communityCards) [c.rank]
          (List.nodup_singleton _)
          (fun r hr => by rw [List.mem_singleton.mp hr]; exact hc c hmem)
          (fun r hr => ⟨c, hmem, (List.mem_singleton.mp hr).symm⟩)
        rw [hm] at this
        simp only [List.length_singleton] at this
        omega
    generalize flushDrawOuts (holeCards ++ communityCards) = F at hF9 hFV
    generalize overcardOuts (holeCards ++ communityCards) = V at four hFV hOV hV
    generalize openEndedDraw (jsSet (sortAscending
        ((holeCards ++ communityCards).map (fun card => cardValues card.rank)))) = O at hOV
    generalize gutshotDraw (jsSet (sortAscending
        ((holeCards ++ communityCards).map (fun card => cardValues card.rank)))) = G
    by_cases hF0 : F = 0
    · subst hF0
      cases O
      · cases G <;> simp <;> omega
      · have := hOV rfl
        simp
        omega
    · have := hFV hF0
      cases O <;> simp [hF0] <;> omega

/-- C36. For every input of unique hole and community cards with ranks of the
card model, `countOuts` returns a number between 0 and 44, so the cap
`min(outs, 45)` of `calculateDrawingOdds` leaves it as it is; 44 is attained by
hole 2♠ 2♥ with board 3♠ 4♠ 5♠. -/
theorem countOuts_bounds (holeCards communityCards : List Card)
    (hnd : (holeCards ++ communityCards).Nodup)
    (hc : ∀ c ∈ holeCards ++ communityCards, c.rank.canonical) :
    0 ≤ countOuts holeCards communityCards ∧ countOuts holeCards communityCards ≤ 44 ∧
    min (countOuts holeCards communityCards) (52 - 2 - 5) = countOuts holeCards communityCards ∧
    countOuts [⟨.r2, .spade⟩, ⟨.r2, .heart⟩] [⟨.r3, .spade⟩, ⟨.r4, .spade⟩, ⟨.r5, .spade⟩]
      = 44 := by
  have h := countOuts_le holeCards communityCards hnd hc
  refine ⟨Nat.zero_le _, h, ?_, by decide⟩
  rw [min_eq_left]
  omega

theorem countOuts_bounds_witness :
    ([⟨.r2, .spade⟩, ⟨.r2, .heart⟩] ++
      [⟨.r3, .spade⟩, ⟨.r4, .spade⟩, ⟨.r5, .spade⟩] : List Card).Nodup ∧
    (∀ c ∈ ([⟨.r2, .spade⟩, ⟨.r2, .heart⟩] ++
      [⟨.r3, .spade⟩, ⟨.r4, .spade⟩, ⟨.r5, .spade⟩] : List Card), c.rank.canonical) ∧
    countOuts [⟨.r2, .spade⟩, ⟨.r2, .heart⟩] [⟨.r3, .spade⟩, ⟨.r4, .spade⟩, ⟨.r5, .spade⟩]
      ≤ 44 :=
  ⟨by decide, by decide,
    (countOuts_bounds [⟨.r2, .spade⟩, ⟨.r2, .heart⟩]
      [⟨.r3, .spade⟩, ⟨.r4, .spade⟩, ⟨.r5, .spade⟩] (by decide) (by decide)).2.1⟩

/-! ### What the checks select -/

/-- The hand that `findBestHand` returns on five cards or more is the answer of
one of the checks, the earlier checks having answered nothing. -/
theorem findBestHand_cases (s : List Card) (hlen : 5 ≤ s.length) (P : Hand → Prop)
    (h1 : ∀ h, checkStraightFlush s = some h → P h)
    (h2 : ∀ h, checkFourOfAKind s = some h → P h)
    (h3 : ∀ h, checkFullHouse s = some h → P h)
    (h4 : ∀ h, checkFlush s = some h → P h)
    (h5 : ∀ h, checkStraight s = some h → P h)
    (h6 : checkFourOfAKind s = none → ∀ h, checkThreeOfAKind s = some h → P h)
    (h7 : checkThreeOfAKind s = none → ∀ h, checkTwoPair s = some h → P h)
    (h8 : checkThreeOfAKind s = none → ∀ h, checkPair s = some h → P h)
    (h9 : P (checkHighCard s)) : P (findBestHand s) := by
  rw [findBestHand_eq, if_neg (by omega)]
  cases e1 : checkStraightFlush s with
  | some w => exact h1 w e1
  | none =>
  cases e2 : checkFourOfAKind s with
  | some w => exact h2 w e2
  | none =>
  cases e3 : checkFullHouse s with
  | some w => exact h3 w e3
  | none =>
  cases e4 : checkFlush s with
  | some w => exact h4 w e4
  | none =>
  cases e5 : checkStraight s with
  | some w => exact h5 w e5
  | none =>
  cases e6 : checkThreeOfAKind s with
  | some w => exact h6 e2 w e6
  | none =>
  cases e7 : checkTwoPair s with
  | some w => exact h7 e6 w e7
  | none =>
  cases e8 : checkPair s with
  | some w => exact h8 e6 w e8
  | none => exact h9

theorem checkFourOfAKind_selects (s : List Card) (h : Hand)
    (hh : checkFourOfAKind s = some h) :
    ∃ k, 4 ≤ rankCount s k ∧ h.cards = (rankGroup s k).take 4 ∧
      h.kickers = (s.filter (fun card => decide (card.rank ≠ k))).take 1 := by
  rw [checkFourOfAKind_eq] at hh
  cases hf : (rankKeys s).find? (fun k => decide (4 ≤ rankCount s k)) with
  | none => rw [hf] at hh; cases hh
  | some k =>
    rw [hf] at hh
    cases hh
    exact ⟨k, by simpa using List.find?_some hf, rfl, rfl⟩

theorem checkThreeOfAKind_selects (s : List Card) (h : Hand)
    (hh : checkThreeOfAKind s = some h) :
    ∃ k, 3 ≤ rankCount s k ∧ h.cards = (rankGroup s k).take 3 ∧
      h.kickers = (s.filter (fun card => decide (card.rank ≠ k))).take 2 := by
  rw [checkThreeOfAKind_eq] at hh
  cases hf : (rankKeys s).find? (fun k => decide (3 ≤ rankCount s k)) with
  | none => rw [hf] at hh; cases hh
  | some k =>
    rw [hf] at hh
    cases hh
    exact ⟨k, by simpa using List.find?_some hf, rfl, rfl⟩

theorem checkPair_selects (s : List Card) (h : Hand) (hh : checkPair s = some h) :
    ∃ k, 2 ≤ rankCount s k ∧ h.cards = (rankGroup s k).take 2 ∧
      h.kickers = (s.filter (fun card => decide (card.rank ≠ k))).take 3 := by
  rw [checkPair_eq] at hh
  cases hf : (rankKeys s).find? (fun k => decide (2 ≤ rankCount s k)) with
  | none => rw [hf] at hh; cases hh
  | some k =>
    rw [hf] at hh
    cases hh
    exact ⟨k, by simpa using List.find?_some hf, rfl, rfl⟩

theorem checkTwoPair_selects (s : List Card) (h : Hand) (hh : checkTwoPair s = some h) :
    ∃ first second, first ≠ second ∧ 2 ≤ rankCount s first ∧ 2 ≤ rankCount s second ∧
      h.cards = (rankGroup s first).take 2 ++ (rankGroup s second).take 2 ∧
      h.kickers = (s.filter (fun card =>
        decide (card.rank ≠ first) && decide (card.rank ≠ second))).take 1 := by
  rw [checkTwoPair_eq] at hh
  match hm : pairKeys s, nodup_pairKeys s with
  | first :: second :: rest, hnd =>
    rw [hm] at hh
    cases hh
    have hf : first ∈ pairKeys s := by rw [hm]; exact List.mem_cons_self _ _
    have hs : second ∈ pairKeys s := by
      rw [hm]; exact List.mem_cons_of_mem _ (List.mem_cons_self _ _)
    rw [List.nodup_cons] at hnd
    exact ⟨first, second, fun e => hnd.1 (e ▸ List.mem_cons_self _ _),
      (mem_pairKeys s _).mp hf, (mem_pairKeys s _).mp hs, rfl, rfl⟩
  | [], _ => rw [hm] at hh; cases hh
  | [_], _ => rw [hm] at hh; cases hh

theorem checkFullHouse_selects (s : List Card) (h : Hand) (hh : checkFullHouse s = some h) :
    ∃ three pair, three ≠ pair ∧ 3 ≤ rankCount s three ∧ 2 ≤ rankCount s pair ∧
      h.cards = (rankGroup s three).take 3 ++ (rankGroup s pair).take 2 ∧ h.kickers = [] := by
  rw [checkFullHouse_eq] at hh
  split at hh
  · cases hf : (pairKeys s).find? (fun k => decide (3 ≤ rankCount s k)) with
    | none => rw [hf] at hh; cases hh
    | some three =>
      rw [hf] at hh
      simp only at hh
      match hm : (pairKeys s).filter (fun k => decide (k ≠ three)) with
      | [] => rw [hm] at hh; cases hh
      | pair :: rest =>
        rw [hm] at hh
        cases hh
        have hp : pair ∈ (pairKeys s).filter (fun k => decide (k ≠ three)) := by
          rw [hm]; exact List.mem_cons_self _ _
        rw [List.mem_filter] at hp
        exact ⟨three, pair, fun e => (of_decide_eq_true hp.2) e.symm,
          by simpa using List.find?_some hf, (mem_pairKeys s _).mp hp.1, rfl, rfl⟩
  · cases hh

theorem checkFlush_selects (s : List Card) (h : Hand) (hh : checkFlush s = some h) :
    ∃ x, 5 ≤ suitCount s x ∧ h.cards = (suitGroup s x).take 5 ∧ h.kickers = [] := by
  rw [checkFlush_eq] at hh
  cases hf : (suitKeys s).find? (fun x => decide (5 ≤ suitCount s x)) with
  | none => rw [hf] at hh; cases hh
  | some y =>
    rw [hf] at hh
    cases hh
    exact ⟨y, by simpa using List.find?_some hf, rfl, rfl⟩

theorem selectedValues_nodup (top : Nat) (h : top ∈ runTops) :
    (selectedValues top).Nodup ∧ (selectedValues top).length = 5 := by
  have hp := selectedValues_perm top
  obtain ⟨h1, h2⟩ := runValues_nodup top h
  exact ⟨hp.nodup_iff.mpr h1, by rw [hp.length_eq, h2]⟩

theorem checkStraight_selects (g : List Card) (hc : ∀ c ∈ g, c.rank.canonical) (h : Hand)
    (hh : checkStraight g = some h) :
    h.cards.length = 5 ∧ h.cards.Nodup ∧ (∀ c ∈ h.cards, c ∈ g) ∧ h.kickers = [] := by
  obtain ⟨-, hk, hsub, top, hrun, -, hv, -⟩ := (checkStraight_spec g hc).1 h hh
  obtain ⟨hnd, h5⟩ := selectedValues_nodup top hrun.1
  refine ⟨?_, ?_, hsub, hk⟩
  · rw [← List.length_map h.cards (fun c => c.rank.value), hv, h5]
  · apply List.Nodup.of_map (fun c => c.rank.value)
    rw [hv]
    exact hnd

theorem checkStraightFlush_selects (s : List Card) (hc : ∀ c ∈ s, c.rank.canonical) (h : Hand)
    (hh : checkStraightFlush s = some h) :
    h.cards.length = 5 ∧ h.cards.Nodup ∧ (∀ c ∈ h.cards, c ∈ s) ∧ h.kickers = [] := by
  unfold checkStraightFlush at hh
  cases hf : checkFlush s with
  | none => rw [hf] at hh; cases hh
  | some flush =>
    rw [hf] at hh
    simp only at hh
    obtain ⟨x, -, hcards, -⟩ := checkFlush_selects s flush hf
    have hsubs : ∀ c ∈ flush.cards, c ∈ s := by
      intro c hcm
      rw [hcards] at hcm
      exact ((mem_suitGroup s x c).mp (List.mem_of_mem_take hcm)).1
    cases hst : checkStraight flush.cards with
    | none => rw [hst] at hh; cases hh
    | some straight =>
      rw [hst] at hh
      cases hh
      obtain ⟨a, b, c, -⟩ := checkStraight_selects flush.cards
        (fun c hcm => hc c (hsubs c hcm)) straight hst
      exact ⟨a, b, fun d hd => hsubs d (c d hd), rfl⟩

/-! ### The selected cards and the kickers are five of the cards -/

theorem rankCount_le_four (l : List Card) (hset : CardSet l) (k : Rank) :
    rankCount l k ≤ 4 := by
  rw [← length_rankGroup, ← List.length_map (rankGroup l k) Card.suit]
  have hnd : ((rankGroup l k).map Card.suit).Nodup := by
    apply List.Nodup.map_on _ (hset.1.sublist (List.filter_sublist _))
    intro a ha b hb e
    have e1 : a.rank = k := by simpa using (List.mem_filter.mp ha).2
    have e2 : b.rank = k := by simpa using (List.mem_filter.mp hb).2
    rcases a with ⟨ra, sa⟩
    rcases b with ⟨rb, sb⟩
    simp only at e e1 e2
    rw [e, e1, e2]
  have hsub : ((rankGroup l k).map Card.suit).Subperm allSuits := by
    apply List.subperm_of_subset hnd
    intro x hx
    rw [List.mem_map] at hx
    obtain ⟨c, hc, e⟩ := hx
    rw [← e]
    exact mem_allSuits _ (hset.2 c (List.mem_filter.mp hc).1).2
  exact hsub.length_le

theorem rankCount_lt_of_none (s : List Card) (n : Nat)
    (h : ¬ holdsOfAKind n s) (k : Rank) : rankCount s k < n := by
  by_contra hk
  exact h ⟨k, by omega⟩

theorem rankCount_lt_four_of_none (s : List Card) (h : checkFourOfAKind s = none) (k : Rank) :
    rankCount s k < 4 := by
  apply rankCount_lt_of_none
  rw [← checkFourOfAKind_isSome_iff, h]
  simp

theorem rankCount_lt_three_of_none (s : List Card) (h : checkThreeOfAKind s = none)
    (k : Rank) : rankCount s k < 3 := by
  apply rankCount_lt_of_none
  rw [← checkThreeOfAKind_isSome_iff, h]
  simp

theorem countP_two_ranks (a b : Rank) (hab : a ≠ b) :
    ∀ s : List Card,
      s.countP (fun c => decide (c.rank ≠ a) && decide (c.rank ≠ b)) + rankCount s a +
        rankCount s b = s.length
  | [] => rfl
  | c :: s => by
    have ih := countP_two_ranks a b hab s
    unfold rankCount at ih ⊢
    simp only [ne_eq] at ih
    simp only [List.countP_cons, List.length_cons]
    by_cases h1 : c.rank = a
    · have h2 : c.rank ≠ b := fun e => hab (h1.symm.trans e)
      simp only [h1, h2, hab, ne_eq, not_true_eq_false, decide_False, decide_True,
        Bool.false_and, Bool.false_eq_true, if_false, if_true, not_false_eq_true]
      omega
    · by_cases h2 : c.rank = b
      · simp only [h2, h1, Ne.symm hab, ne_eq, not_true_eq_false, decide_False, decide_True,
          Bool.and_false, Bool.false_eq_true, if_false, if_true, not_false_eq_true]
        omega
      · simp only [h1, h2, ne_eq, decide_False, decide_True, Bool.and_self,
          Bool.false_eq_true, if_false, if_true, not_false_eq_true]
        omega

/-- The first `n` cards of one rank and the first `m` cards of the other ranks
are `n + m = 5` different cards of `s`. -/
theorem five_of_group (s : List Card) (hnd : s.Nodup) (k : Rank) (n m : Nat)
    (hn : n ≤ rankCount s k) (hm : rankCount s k + m ≤ s.length) (hnm : n + m = 5) :
    ((rankGroup s k).take n ++
        (s.filter (fun card => decide (card.rank ≠ k))).take m).length = 5 ∧
    ((rankGroup s k).take n ++ (s.filter (fun card => decide (card.rank ≠ k))).take m).Nodup ∧
    ∀ c ∈ (rankGroup s k).take n ++ (s.filter (fun card => decide (card.rank ≠ k))).take m,
      c ∈ s := by
  have hcount := rankCount_add s k
  refine ⟨?_, ?_, ?_⟩
  · rw [List.length_append, List.length_take, List.length_take, length_rankGroup,
      ← List.countP_eq_length_filter]
    omega
  · rw [List.nodup_append]
    refine ⟨(take_rankGroup_sublist s k n).nodup hnd,
      ((List.take_sublist _ _).trans (List.filter_sublist _)).nodup hnd, ?_⟩
    intro c h1 h2
    have e1 : c.rank = k := by
      simpa [rankGroup] using (List.mem_filter.mp (List.mem_of_mem_take h1)).2
    have e2 : c.rank ≠ k := by
      simpa using (List.mem_filter.mp (List.mem_of_mem_take h2)).2
    exact e2 e1
  · intro c hc
    rcases List.mem_append.mp hc with h | h
    · exact (take_rankGroup_sublist s k n).subset h
    · exact (List.mem_filter.mp (List.mem_of_mem_take h)).1

theorem five_of_two_groups (s : List Card) (hnd : s.Nodup) (a b : Rank) (hab : a ≠ b)
    (ha : 3 ≤ rankCount s a) (hb : 2 ≤ rankCount s b) :
    ((rankGroup s a).take 3 ++ (rankGroup s b).take 2).length = 5 ∧
    ((rankGroup s a).take 3 ++ (rankGroup s b).take 2).Nodup ∧
    ∀ c ∈ (rankGroup s a).take 3 ++ (rankGroup s b).take 2, c ∈ s := by
  refine ⟨?_, ?_, ?_⟩
  · rw [List.length_append, List.length_take, List.length_take, length_rankGroup,
      length_rankGroup]
    omega
  · rw [List.nodup_append]
    refine ⟨(take_rankGroup_sublist s a 3).nodup hnd,
      (take_rankGroup_sublist s b 2).nodup hnd, ?_⟩
    intro c h1 h2
    have e1 : c.rank = a := by
      simpa [rankGroup] using (List.mem_filter.mp (List.mem_of_mem_take h1)).2
    have e2 : c.rank = b := by
      simpa [rankGroup] using (List.mem_filter.mp (List.mem_of_mem_take h2)).2
    exact hab (e1.symm.trans e2)
  · intro c hc
    rcases List.mem_append.mp hc with h | h
    · exact (take_rankGroup_sublist s a 3).subset h
    · exact (take_rankGroup_sublist s b 2).subset h

theorem five_of_two_pairs (s : List Card) (hnd : s.Nodup) (hlen : 5 ≤ s.length) (a b : Rank)
    (hab : a ≠ b) (ha : rankCount s a = 2) (hb : rankCount s b = 2) :
    (((rankGroup s a).take 2 ++ (rankGroup s b).take 2) ++
      (s.filter (fun card => decide (card.rank ≠ a) && decide (card.rank ≠ b))).take 1).length
        = 5 ∧
    (((rankGroup s a).take 2 ++ (rankGroup s b).take 2) ++
      (s.filter (fun card => decide (card.rank ≠ a) && decide (card.rank ≠ b))).take 1).Nodup ∧
    ∀ c ∈ ((rankGroup s a).take 2 ++ (rankGroup s b).take 2) ++
      (s.filter (fun card => decide (card.rank ≠ a) && decide (card.rank ≠ b))).take 1,
      c ∈ s := by
  have hcount := countP_two_ranks a b hab s
  have ra : ∀ c ∈ (rankGroup s a).take 2, c.rank = a := fun c h => by
    simpa [rankGroup] using (List.mem_filter.mp (List.mem_of_mem_take h)).2
  have rb : ∀ c ∈ (rankGroup s b).take 2, c.rank = b := fun c h => by
    simpa [rankGroup] using (List.mem_filter.mp (List.mem_of_mem_take h)).2
  have rk : ∀ c ∈ (s.filter (fun card =>
      decide (card.rank ≠ a) && decide (card.rank ≠ b))).take 1, c.rank ≠ a ∧ c.rank ≠ b :=
    fun c h => by simpa using (List.mem_filter.mp (List.mem_of_mem_take h)).2
  refine ⟨?_, ?_, ?_⟩
  · rw [List.length_append, List.length_append, List.length_take, List.length_take,
      List.length_take, length_rankGroup, length_rankGroup, ← List.countP_eq_length_filter]
    omega
  · rw [List.nodup_append]
    refine ⟨?_, ((List.take_sublist _ _).trans (List.filter_sublist _)).nodup hnd, ?_⟩
    · rw [List.nodup_append]
      exact ⟨(take_rankGroup_sublist s a 2).nodup hnd,
        (take_rankGroup_sublist s b 2).nodup hnd,
        fun c h1 h2 => hab ((ra c h1).symm.trans (rb c h2))⟩
    · intro c h1 h2
      rcases List.mem_append.mp h1 with h | h
      · exact (rk c h2).1 (ra c h)
      · exact (rk c h2).2 (rb c h)
  · intro c hc
    rcases List.mem_append.mp hc with h | h
    · rcases List.mem_append.mp h with h | h
      · exact (take_rankGroup_sublist s a 2).subset h
      · exact (take_rankGroup_sublist s b 2).subset h
    · exact (List.mem_filter.mp (List.mem_of_mem_take h)).1

theorem findBestHand_five (s : List Card) (hset : CardSet s) (hlen : 5 ≤ s.length) :
    ((findBestHand s).cards ++ (findBestHand s).kickers).length = 5 ∧
    ((findBestHand s).cards ++ (findBestHand s).kickers).Nodup ∧
    ∀ c ∈ (findBestHand s).cards ++ (findBestHand s).kickers, c ∈ s := by
  have hcr : ∀ c ∈ s, c.rank.canonical := fun c hc => (hset.2 c hc).1
  apply findBestHand_cases s hlen
    (fun h => (h.cards ++ h.kickers).length = 5 ∧ (h.cards ++ h.kickers).Nodup ∧
      ∀ c ∈ h.cards ++ h.kickers, c ∈ s)
  · intro h hh
    obtain ⟨a, b, c, d⟩ := checkStraightFlush_selects s hcr h hh
    rw [d, List.append_nil]
    exact ⟨a, b, c⟩
  · intro h hh
    obtain ⟨k, hk, hc, hkick⟩ := checkFourOfAKind_selects s h hh
    rw [hc, hkick]
    have := rankCount_le_four s hset k
    exact five_of_group s hset.1 k 4 1 hk (by omega) rfl
  · intro h hh
    obtain ⟨three, pair, hne, h3, h2, hc, hkick⟩ := checkFullHouse_selects s h hh
    rw [hc, hkick, List.append_nil]
    exact five_of_two_groups s hset.1 three pair hne h3 h2
  · intro h hh
    obtain ⟨x, hx, hc, hkick⟩ := checkFlush_selects s h hh
    rw [hc, hkick, List.append_nil]
    refine ⟨?_, (take_suitGroup_sublist s x 5).nodup hset.1,
      fun c hcm => (take_suitGroup_sublist s x 5).subset hcm⟩
    rw [List.length_take, length_suitGroup]
    omega
  · intro h hh
    obtain ⟨a, b, c, d⟩ := checkStraight_selects s hcr h hh
    rw [d, List.append_nil]
    exact ⟨a, b, c⟩
  · intro h4 h hh
    obtain ⟨k, hk, hc, hkick⟩ := checkThreeOfAKind_selects s h hh
    rw [hc, hkick]
    have := rankCount_lt_four_of_none s h4 k
    exact five_of_group s hset.1 k 3 2 hk (by omega) rfl
  · intro h3 h hh
    obtain ⟨a, b, hab, ha, hb, hc, hkick⟩ := checkTwoPair_selects s h hh
    rw [hc, hkick]
    have h1 := rankCount_lt_three_of_none s h3 a
    have h2 := rankCount_lt_three_of_none s h3 b
    exact five_of_two_pairs s hset.1 hlen a b hab (by omega) (by omega)
  · intro h3 h hh
    obtain ⟨k, hk, hc, hkick⟩ := checkPair_selects s h hh
    rw [hc, hkick]
    have := rankCount_lt_three_of_none s h3 k
    exact five_of_group s hset.1 k 2 3 hk (by omega) rfl
  · show (s.take 1 ++ (s.drop 1).take 4).length = 5 ∧ (s.take 1 ++ (s.drop 1).take 4).Nodup ∧
      ∀ c ∈ s.take 1 ++ (s.drop 1).take 4, c ∈ s
    rw [← List.take_add]
    exact ⟨by rw [List.length_take]; omega, (List.take_sublist _ _).nodup hset.1,
      fun c hc => List.mem_of_mem_take hc⟩

theorem cardSet_sortCards (cards : List Card) (hset : CardSet cards) :
    CardSet (sortCards cards) :=
  ⟨(sortCards_perm cards).nodup_iff.mpr hset.1,
    fun c hc => hset.2 c ((sortCards_perm cards).subset hc)⟩

/-- C32. For every list of 5 or more unique cards of the card model, so for
every list of 5 to 7 of them, the selected
cards and the kickers that `evaluateCompleteHand` returns are together exactly
5 cards, pairwise distinct, every one of them a member of the input. -/
theorem evaluateCompleteHand_five_cards (cards : List Card) (playerCount : Nat)
    (hset : CardSet cards) (hmin : 5 ≤ cards.length) :
    ((evaluateCompleteHand cards playerCount).cards ++
      (evaluateCompleteHand cards playerCount).kickers).length = 5 ∧
    ((evaluateCompleteHand cards playerCount).cards ++
      (evaluateCompleteHand cards playerCount).kickers).Nodup ∧
    ∀ c ∈ (evaluateCompleteHand cards playerCount).cards ++
      (evaluateCompleteHand cards playerCount).kickers, c ∈ cards := by
  have hp := sortCards_perm cards
  obtain ⟨a, b, c⟩ := findBestHand_five (sortCards cards) (cardSet_sortCards cards hset)
    (by rw [hp.length_eq]; exact hmin)
  exact ⟨a, b, fun d hd => hp.subset (c d hd)⟩

theorem evaluateCompleteHand_five_cards_witness :
    CardSet [⟨.rK, .spade⟩, ⟨.rK, .heart⟩, ⟨.r9, .spade⟩, ⟨.r9, .club⟩, ⟨.r5, .diamond⟩,
      ⟨.r4, .club⟩, ⟨.r2, .diamond⟩] ∧
    5 ≤ ([⟨.rK, .spade⟩, ⟨.rK, .heart⟩, ⟨.r9, .spade⟩, ⟨.r9, .club⟩, ⟨.r5, .diamond⟩,
      ⟨.r4, .club⟩, ⟨.r2, .diamond⟩] : List Card).length ∧
    ((evaluateCompleteHand [⟨.rK, .spade⟩, ⟨.rK, .heart⟩, ⟨.r9, .spade⟩, ⟨.r9, .club⟩,
      ⟨.r5, .diamond⟩, ⟨.r4, .club⟩, ⟨.r2, .diamond⟩] 6).cards ++
      (evaluateCompleteHand [⟨.rK, .spade⟩, ⟨.rK, .heart⟩, ⟨.r9, .spade⟩, ⟨.r9, .club⟩,
      ⟨.r5, .diamond⟩, ⟨.r4, .club⟩, ⟨.r2, .diamond⟩] 6).kickers).length = 5 :=
  ⟨by decide, by decide,
    (evaluateCompleteHand_five_cards [⟨.rK, .spade⟩, ⟨.rK, .heart⟩, ⟨.r9, .spade⟩,
      ⟨.r9, .club⟩, ⟨.r5, .diamond⟩, ⟨.r4, .club⟩, ⟨.r2, .diamond⟩] 6 (by decide)
      (by decide)).1⟩

/-! ### The kickers beside a group of one rank -/

theorem group_and_kickers (s : List Card)
    (hs : (s.map (fun c => c.rank.value)).Sorted (fun a b => b ≤ a)) (k : Rank) (n m : Nat)
    (hn : n ≤ rankCount s k) (hm : rankCount s k + m ≤ s.length) :
    ((rankGroup s k).take n).length = n ∧
    (∀ c ∈ (rankGroup s k).take n, c ∈ s ∧ c.rank = k) ∧
    ((s.filter (fun card => decide (card.rank ≠ k))).take m).length = m ∧
    (∀ c ∈ (s.filter (fun card => decide (card.rank ≠ k))).take m, c ∈ s ∧ c.rank ≠ k) ∧
    (((s.filter (fun card => decide (card.rank ≠ k))).take m).map
      (fun c => c.rank.value)).Sorted (fun a b => b ≤ a) ∧
    (∀ c ∈ s, c.rank ≠ k → c ∉ (s.filter (fun card => decide (card.rank ≠ k))).take m →
      ∀ d ∈ (s.filter (fun card => decide (card.rank ≠ k))).take m,
        c.rank.value ≤ d.rank.value) := by
  have hcount := rankCount_add s k
  have hpw : (s.filter (fun card => decide (card.rank ≠ k))).Pairwise
      (fun a b => b.rank.value ≤ a.rank.value) :=
    List.Pairwise.sublist (List.filter_sublist _) (List.pairwise_map.mp hs)
  refine ⟨?_, ?_, ?_, ?_, ?_, ?_⟩
  · rw [List.length_take, length_rankGroup]
    omega
  · intro c hc
    have := List.mem_filter.mp (List.mem_of_mem_take hc)
    exact ⟨this.1, by simpa using this.2⟩
  · rw [List.length_take, ← List.countP_eq_length_filter]
    omega
  · intro c hc
    have := List.mem_filter.mp (List.mem_of_mem_take hc)
    exact ⟨this.1, by simpa using this.2⟩
  · exact List.pairwise_map.mpr (List.Pairwise.sublist (List.take_sublist _ _) hpw)
  · intro c hc hck hnot d hd
    have hcf : c ∈ s.filter (fun card => decide (card.rank ≠ k)) :=
      List.mem_filter.mpr ⟨hc, by simpa using hck⟩
    rw [← List.take_append_drop m (s.filter (fun card => decide (card.rank ≠ k)))] at hcf hpw
    rcases List.mem_append.mp hcf with h | h
    · exact absurd h hnot
    · exact (List.pairwise_append.mp hpw).2.2 d hd c h

/-- C33. For every list of 5 or more unique cards of the card model, so for
every list of 5 to 7 of them, that `evaluateCompleteHand` classifies as pair,
three-of-a-kind or four-of-a-kind (n = 2, 3, 4): the selected cards are n cards
of one rank k, and the kickers are 5 − n cards of other ranks, listed in
descending order of value, such that no card of another rank than k that is
left out has a higher value than a kicker. -/
theorem evaluateCompleteHand_kickers (cards : List Card) (playerCount n : Nat)
    (hset : CardSet cards) (hmin : 5 ≤ cards.length)
    (hcat : ((evaluateCompleteHand cards playerCount).strength = .pair ∧ n = 2) ∨
      ((evaluateCompleteHand cards playerCount).strength = .threeOfAKind ∧ n = 3) ∨
      ((evaluateCompleteHand cards playerCount).strength = .fourOfAKind ∧ n = 4)) :
    ∃ k : Rank,
      (evaluateCompleteHand cards playerCount).cards.length = n ∧
      (∀ c ∈ (evaluateCompleteHand cards playerCount).cards, c ∈ cards ∧ c.rank = k) ∧
      (evaluateCompleteHand cards playerCount).kickers.length = 5 - n ∧
      (∀ c ∈ (evaluateCompleteHand cards playerCount).kickers, c ∈ cards ∧ c.rank ≠ k) ∧
      ((evaluateCompleteHand cards playerCount).kickers.map
        (fun c => c.rank.value)).Sorted (fun a b => b ≤ a) ∧
      (∀ c ∈ cards, c.rank ≠ k → c ∉ (evaluateCompleteHand cards playerCount).kickers →
        ∀ d ∈ (evaluateCompleteHand cards playerCount).kickers,
          c.rank.value ≤ d.rank.value) := by
  have hp := sortCards_perm cards
  have hsorted := sorted_value_sortCards cards (fun c hc => (hset.2 c hc).1)
  have hsset := cardSet_sortCards cards hset
  have hslen : 5 ≤ (sortCards cards).length := by rw [hp.length_eq]; exact hmin
  have key := findBestHand_cases (sortCards cards) hslen
    (fun h => ((h.strength = .pair ∧ n = 2) ∨ (h.strength = .threeOfAKind ∧ n = 3) ∨
        (h.strength = .fourOfAKind ∧ n = 4)) →
      ∃ k : Rank, h.cards.length = n ∧ (∀ c ∈ h.cards, c ∈ sortCards cards ∧ c.rank = k) ∧
        h.kickers.length = 5 - n ∧ (∀ c ∈ h.kickers, c ∈ sortCards cards ∧ c.rank ≠ k) ∧
        (h.kickers.map (fun c => c.rank.value)).Sorted (fun a b => b ≤ a) ∧
        (∀ c ∈ sortCards cards, c.rank ≠ k → c ∉ h.kickers →
          ∀ d ∈ h.kickers, c.rank.value ≤ d.rank.value))
    (fun h hh hc => by
      rcases checkStraightFlush_strength _ h hh with e | e <;> rw [e] at hc <;> simp at hc)
    (fun h hh hc => by
      obtain ⟨k, hk, e1, e2⟩ := checkFourOfAKind_selects _ h hh
      have hn : n = 4 := by
        rw [checkFourOfAKind_strength _ h hh] at hc
        simpa using hc
      have h4 := rankCount_le_four _ hsset k
      rw [e1, e2, hn]
      exact ⟨k, group_and_kickers _ hsorted k 4 1 hk (by omega)⟩)
    (fun h hh hc => by rw [checkFullHouse_strength _ h hh] at hc; simp at hc)
    (fun h hh hc => by rw [checkFlush_strength _ h hh] at hc; simp at hc)
    (fun h hh hc => by rw [checkStraight_strength _ h hh] at hc; simp at hc)
    (fun h4 h hh hc => by
      obtain ⟨k, hk, e1, e2⟩ := checkThreeOfAKind_selects _ h hh
      have hn : n = 3 := by
        rw [checkThreeOfAKind_strength _ h hh] at hc
        simpa using hc
      have h3 := rankCount_lt_four_of_none _ h4 k
      rw [e1, e2, hn]
      exact ⟨k, group_and_kickers _ hsorted k 3 2 hk (by omega)⟩)
    (fun _ h hh hc => by rw [checkTwoPair_strength _ h hh] at hc; simp at hc)
    (fun h3 h hh hc => by
      obtain ⟨k, hk, e1, e2⟩ := checkPair_selects _ h hh
      have hn : n = 2 := by
        rw [checkPair_strength _ h hh] at hc
        simpa using hc
      have h2 := rankCount_lt_three_of_none _ h3 k
      rw [e1, e2, hn]
      exact ⟨k, group_and_kickers _ hsorted k 2 3 hk (by omega)⟩)
    (fun hc => by simp [checkHighCard] at hc)
  obtain ⟨k, a, b, c, d, e, f⟩ := key hcat
  exact ⟨k, a, fun x hx => ⟨hp.subset (b x hx).1, (b x hx).2⟩, c,
    fun x hx => ⟨hp.subset (d x hx).1, (d x hx).2⟩, e,
    fun x hx => f x (hp.symm.subset hx)⟩

theorem evaluateCompleteHand_kickers_witness :
    CardSet [⟨.rK, .spade⟩, ⟨.r9, .heart⟩, ⟨.r9, .spade⟩, ⟨.rA, .club⟩, ⟨.r5, .diamond⟩,
      ⟨.r4, .club⟩, ⟨.r2, .diamond⟩] ∧
    5 ≤ ([⟨.rK, .spade⟩, ⟨.r9, .heart⟩, ⟨.r9, .spade⟩, ⟨.rA, .club⟩, ⟨.r5, .diamond⟩,
      ⟨.r4, .club⟩, ⟨.r2, .diamond⟩] : List Card).length ∧
    (evaluateCompleteHand [⟨.rK, .spade⟩, ⟨.r9, .heart⟩, ⟨.r9, .spade⟩, ⟨.rA, .club⟩,
      ⟨.r5, .diamond⟩, ⟨.r4, .club⟩, ⟨.r2, .diamond⟩] 6).strength = .pair ∧
    (evaluateCompleteHand [⟨.rK, .spade⟩, ⟨.r9, .heart⟩, ⟨.r9, .spade⟩, ⟨.rA, .club⟩,
      ⟨.r5, .diamond⟩, ⟨.r4, .club⟩, ⟨.r2, .diamond⟩] 6).kickers =
        [⟨.rA, .club⟩, ⟨.rK, .spade⟩, ⟨.r5, .diamond⟩] ∧
    ∃ k : Rank,
      (evaluateCompleteHand [⟨.rK, .spade⟩, ⟨.r9, .heart⟩, ⟨.r9, .spade⟩, ⟨.rA, .club⟩,
        ⟨.r5, .diamond⟩, ⟨.r4, .club⟩, ⟨.r2, .diamond⟩] 6).cards.length = 2 ∧
      (evaluateCompleteHand [⟨.rK, .spade⟩, ⟨.r9, .heart⟩, ⟨.r9, .spade⟩, ⟨.rA, .club⟩,
        ⟨.r5, .diamond⟩, ⟨.r4, .club⟩, ⟨.r2, .diamond⟩] 6).kickers.length = 5 - 2 ∧
      ∀ c ∈ (evaluateCompleteHand [⟨.rK, .spade⟩, ⟨.r9, .heart⟩, ⟨.r9, .spade⟩, ⟨.rA, .club⟩,
        ⟨.r5, .diamond⟩, ⟨.r4, .club⟩, ⟨.r2, .diamond⟩] 6).cards, c.rank = k := by
  refine ⟨by decide, by decide, by decide, by decide, ?_⟩
  obtain ⟨k, a, b, c, -⟩ := evaluateCompleteHand_kickers
    [⟨.rK, .spade⟩, ⟨.r9, .heart⟩, ⟨.r9, .spade⟩, ⟨.rA, .club⟩, ⟨.r5, .diamond⟩,
      ⟨.r4, .club⟩, ⟨.r2, .diamond⟩] 6 2 (by decide) (by decide) (Or.inl ⟨by decide, rfl⟩)
  exact ⟨k, a, c, fun x hx => (b x hx).2⟩

/-- C1 fails on the code. On the seven unique cards A♠ 9♠ 8♠ 7♠ 6♠ 5♠ 2♥ the
strongest standard category of a five-card subset is straight-flush (the subset
9♠ 8♠ 7♠ 6♠ 5♠, which `evaluateCompleteHand` itself classifies as
straight-flush), yet `evaluateCompleteHand` answers flush for the seven. -/
theorem evaluateCompleteHand_below_bestCategory :
    CardSet [⟨.rA, .spade⟩, ⟨.r9, .spade⟩, ⟨.r8, .spade⟩, ⟨.r7, .spade⟩, ⟨.r6, .spade⟩,
      ⟨.r5, .spade⟩, ⟨.r2, .heart⟩] ∧
    (evaluateCompleteHand [⟨.rA, .spade⟩, ⟨.r9, .spade⟩, ⟨.r8, .spade⟩, ⟨.r7, .spade⟩,
      ⟨.r6, .spade⟩, ⟨.r5, .spade⟩, ⟨.r2, .heart⟩] 6).strength = .flush ∧
    bestCategory [⟨.rA, .spade⟩, ⟨.r9, .spade⟩, ⟨.r8, .spade⟩, ⟨.r7, .spade⟩, ⟨.r6, .spade⟩,
      ⟨.r5, .spade⟩, ⟨.r2, .heart⟩] = .straightFlush ∧
    List.Sublist [⟨.r9, .spade⟩, ⟨.r8, .spade⟩, ⟨.r7, .spade⟩, ⟨.r6, .spade⟩, ⟨.r5, .spade⟩]
      [⟨.rA, .spade⟩, ⟨.r9, .spade⟩, ⟨.r8, .spade⟩, ⟨.r7, .spade⟩, ⟨.r6, .spade⟩,
        ⟨.r5, .spade⟩, (⟨.r2, .heart⟩ : Card)] ∧
    (evaluateCompleteHand [⟨.r9, .spade⟩, ⟨.r8, .spade⟩, ⟨.r7, .spade⟩, ⟨.r6, .spade⟩,
      ⟨.r5, .spade⟩] 6).strength = .straightFlush := by
  decide

/-- C6 fails on the code. On 5♦ 5♣ 5♥ 2♠ 2♣ 9♦ 9♥ the hand is a full house
whose pair is the Twos, although the Nines are the highest-ranked other rank
held twice: `Object.entries` lists the digit ranks in ascending order. -/
theorem checkFullHouse_takes_lowest_digit_pair :
    CardSet [⟨.r5, .diamond⟩, ⟨.r5, .club⟩, ⟨.r5, .heart⟩, ⟨.r2, .spade⟩, ⟨.r2, .club⟩,
      ⟨.r9, .diamond⟩, ⟨.r9, .heart⟩] ∧
    (evaluateCompleteHand [⟨.r5, .diamond⟩, ⟨.r5, .club⟩, ⟨.r5, .heart⟩, ⟨.r2, .spade⟩,
      ⟨.r2, .club⟩, ⟨.r9, .diamond⟩, ⟨.r9, .heart⟩] 6).strength = .fullHouse ∧
    (evaluateCompleteHand [⟨.r5, .diamond⟩, ⟨.r5, .club⟩, ⟨.r5, .heart⟩, ⟨.r2, .spade⟩,
      ⟨.r2, .club⟩, ⟨.r9, .diamond⟩, ⟨.r9, .heart⟩] 6).cards =
      [⟨.r5, .diamond⟩, ⟨.r5, .club⟩, ⟨.r5, .heart⟩, ⟨.r2, .spade⟩, ⟨.r2, .club⟩] ∧
    (evaluateCompleteHand [⟨.r5, .diamond⟩, ⟨.r5, .club⟩, ⟨.r5, .heart⟩, ⟨.r2, .spade⟩,
      ⟨.r2, .club⟩, ⟨.r9, .diamond⟩, ⟨.r9, .heart⟩] 6).description =
      "Full House, 5s over 2s" ∧
    rankCount [⟨.r5, .diamond⟩, ⟨.r5, .club⟩, ⟨.r5, .heart⟩, ⟨.r2, .spade⟩, ⟨.r2, .club⟩,
      ⟨.r9, .diamond⟩, ⟨.r9, .heart⟩] .r9 = 2 := by
  decide

/-- C7 fails on the code. K♠ K♥ Q♠ Q♥ J♠ J♥ 5♦ and the same cards with the two
Jacks exchanged are two pair with different kickers: J♠ for the first order, J♥
for the second. -/
theorem evaluateCompleteHand_kicker_depends_on_order :
    CardSet [⟨.rK, .spade⟩, ⟨.rK, .heart⟩, ⟨.rQ, .spade⟩, ⟨.rQ, .heart⟩, ⟨.rJ, .spade⟩,
      ⟨.rJ, .heart⟩, ⟨.r5, .diamond⟩] ∧
    List.Perm [⟨.rK, .spade⟩, ⟨.rK, .heart⟩, ⟨.rQ, .spade⟩, ⟨.rQ, .heart⟩, ⟨.rJ, .spade⟩,
      ⟨.rJ, .heart⟩, ⟨.r5, .diamond⟩]
      [⟨.rK, .spade⟩, ⟨.rK, .heart⟩, ⟨.rQ, .spade⟩, ⟨.rQ, .heart⟩, ⟨.rJ, .heart⟩,
      ⟨.rJ, .spade⟩, (⟨.r5, .diamond⟩ : Card)] ∧
    (evaluateCompleteHand [⟨.rK, .spade⟩, ⟨.rK, .heart⟩, ⟨.rQ, .spade⟩, ⟨.rQ, .heart⟩,
      ⟨.rJ, .spade⟩, ⟨.rJ, .heart⟩, ⟨.r5, .diamond⟩] 6).kickers = [⟨.rJ, .spade⟩] ∧
    (evaluateCompleteHand [⟨.rK, .spade⟩, ⟨.rK, .heart⟩, ⟨.rQ, .spade⟩, ⟨.rQ, .heart⟩,
      ⟨.rJ, .heart⟩, ⟨.rJ, .spade⟩, ⟨.r5, .diamond⟩] 6).kickers = [⟨.rJ, .heart⟩] := by
  decide

/-- C10 fails on the code. With A♠ K♠ in hand and no board, the
`calculateRemainingDeck` that the simulator reaches returns 52 cards, none of
them in the representation of the known cards, where the 50 cards other than
A♠ and K♠ are due; the first method of that name returns these 50. -/
theorem calculateRemainingDeck_removes_nothing :
    CardSet [⟨.rA, .spade⟩, ⟨.rK, .spade⟩] ∧
    (calculateRemainingDeck [⟨.rA, .spade⟩, ⟨.rK, .spade⟩] []).length = 52 ∧
    (∀ c ∈ calculateRemainingDeck [⟨.rA, .spade⟩, ⟨.rK, .spade⟩] [], ¬ c.suit.canonical) ∧
    (calculateRemainingDeckShadowed [⟨.rA, .spade⟩, ⟨.rK, .spade⟩] [] []).length = 50 ∧
    (∀ c ∈ calculateRemainingDeckShadowed [⟨.rA, .spade⟩, ⟨.rK, .spade⟩] [] [],
      c.canonical ∧ c ≠ ⟨.rA, .spade⟩ ∧ c ≠ ⟨.rK, .spade⟩) := by
  decide

/-- C11 fails on the code. For the pair A♠ A♥ and two players
`calculatePreflopProbability` returns 0.50, the default, although the table
holds 85.3 under the notation 'AA': the method looks the pair up under 'AAo'. -/
theorem calculatePreflopProbability_pair_default :
    CardSet [⟨.rA, .spade⟩, ⟨.rA, .heart⟩] ∧
    calculatePreflopProbability [⟨.rA, .spade⟩, ⟨.rA, .heart⟩] 2 = 1 / 2 ∧
    preflopPercentages.lookup "AA" = some (853 / 10) ∧
    preflopPercentages.lookup "AAo" = none := by
  have hnone : preflopPercentages.lookup "AAo" = none := by decide
  refine ⟨by decide, ?_, rfl, hnone⟩
  show adjustForPlayers ((preflopPercentages.lookup "AAo").getD 50) 2 / 100 = 1 / 2
  rw [hnone]
  norm_num [adjustForPlayers]

/-- C14 fails on the code. For the pairs A♠ A♥ and 7♠ 7♥ the `preflopRank` of
`evaluatePreflop` is the default 100, although the ranking table holds 1 under
'AA' and 8 under '77': the method looks a pair up under 'AAo' and '77o'. -/
theorem evaluatePreflop_pair_default_rank :
    CardSet [⟨.rA, .spade⟩, ⟨.rA, .heart⟩] ∧ CardSet [⟨.r7, .spade⟩, ⟨.r7, .heart⟩] ∧
    (evaluatePreflop [⟨.rA, .spade⟩, ⟨.rA, .heart⟩] 6 "middle").preflopRank = 100 ∧
    (evaluatePreflop [⟨.r7, .spade⟩, ⟨.r7, .heart⟩] 6 "middle").preflopRank = 100 ∧
    preflopRankings.lookup "AA" = some 1 ∧ preflopRankings.lookup "77" = some 8 := by
  decide

/-- C16 fails on the code. With nine players the penalty
`adjustForPlayerCount('pair', 9)` is 0, neither negative nor at least as large
in magnitude as the penalty -0.8 for eight players; from 2 to 8 players the
penalty is negative and its magnitude grows. -/
theorem adjustForPlayerCount_nine_players :
    adjustForPlayerCount .pair 9 = 0 ∧ adjustForPlayerCount .pair 8 = -8 / 10 ∧
    (∀ n ∈ [2, 3, 4, 5, 6, 7, 8], adjustForPlayerCount .pair n < 0) ∧
    (∀ n ∈ [2, 3, 4, 5, 6, 7],
      adjustForPlayerCount .pair (n + 1) < adjustForPlayerCount .pair n) := by
  simp only [List.forall_mem_cons, List.not_mem_nil, false_implies, implies_true, and_true]
  norm_num [adjustForPlayerCount, adjustments]

/-- C19 fails on the code. With T♠ T♥ in hand and the board 2♣ 5♦ 8♠ no Jack,
Queen, King or Ace is known, no flush draw and no straight draw is counted, and
`countOuts` returns 0 where the claim counts 12 overcard outs: `parseInt` of
the rank 'T' is `NaN`. For the pair 9♠ 9♥ on 2♣ 5♦ 7♠ the same method counts
the five absent ranks above the Nine, 15 outs. -/
theorem countOuts_letter_pair_no_overcards :
    countOuts [⟨.rT, .spade⟩, ⟨.rT, .heart⟩] [⟨.r2, .club⟩, ⟨.r5, .diamond⟩, ⟨.r8, .spade⟩] = 0 ∧
    overcardOuts [⟨.rT, .spade⟩, ⟨.rT, .heart⟩, ⟨.r2, .club⟩, ⟨.r5, .diamond⟩, ⟨.r8, .spade⟩]
      = 0 ∧
    rankCount [⟨.rT, .spade⟩, ⟨.rT, .heart⟩, ⟨.r2, .club⟩, ⟨.r5, .diamond⟩, ⟨.r8, .spade⟩] .rT
      = 2 ∧
    (∀ r ∈ [Rank.rJ, .rQ, .rK, .rA],
      rankCount [⟨.rT, .spade⟩, ⟨.rT, .heart⟩, ⟨.r2, .club⟩, ⟨.r5, .diamond⟩, ⟨.r8, .spade⟩] r
        = 0) ∧
    overcardOuts [⟨.r9, .spade⟩, ⟨.r9, .heart⟩, ⟨.r2, .club⟩, ⟨.r5, .diamond⟩, ⟨.r7, .spade⟩]
      = 15 := by
  decide

/-- C20 fails on the code. With 9♠ 8♠ in hand and the board 7♠ 2♠ K♦ the
values hold 7, 8, 9 and no four consecutive values, and four spades make a
flush draw: `countOuts` returns 9, the flush draw alone, since the gutshot loop
runs only when `outs` is still 0. With 8♥ for 8♠ (no flush draw) it returns
the 4 gutshot outs. -/
theorem countOuts_gutshot_lost_with_flush_draw :
    countOuts [⟨.r9, .spade⟩, ⟨.r8, .spade⟩] [⟨.r7, .spade⟩, ⟨.r2, .spade⟩, ⟨.rK, .diamond⟩]
      = 9 ∧
    flushDrawOuts [⟨.r9, .spade⟩, ⟨.r8, .spade⟩, ⟨.r7, .spade⟩, ⟨.r2, .spade⟩, ⟨.rK, .diamond⟩]
      = 9 ∧
    overcardOuts [⟨.r9, .spade⟩, ⟨.r8, .spade⟩, ⟨.r7, .spade⟩, ⟨.r2, .spade⟩, ⟨.rK, .diamond⟩]
      = 0 ∧
    countOuts [⟨.r9, .spade⟩, ⟨.r8, .heart⟩] [⟨.r7, .spade⟩, ⟨.r2, .spade⟩, ⟨.rK, .diamond⟩]
      = 4 := by
  decide

end PokerNow
